import Mathlib

/-!
# diskm8: shallow embedding of the disk-image codecs and the similarity engine

Go `int` values are modelled by `Int`, bytes by `Nat` values below 256 (every
conversion `byte(x)` reduces modulo 256), byte slices by `List Nat`.  The disk
image itself is its length together with the byte at each offset, so that a
slice of the image (`d.Read()`, the `Data` of a catalog entry) is a window
that sees later stores, as it does in Go.  A Go `error` result is an
`Option String` (`none` is `nil`), and a run-time panic (index or slice out
of range, nil dereference) is the `none` of an outer `Option`.
-/

namespace Diskm8

/-! ## disk/diskimage.go -/

def STD_BYTES_PER_SECTOR : Int := 256

def PRODOS_BLOCKS_PER_TRACK : Int := 8

def PRODOS_ENTRY_SIZE : Nat := 39

/-- Sector orderings (`SectorOrder` constants of diskimage.go). -/
inductive SectorOrder where
  | SectorOrderDOS33
  | SectorOrderDOS32
  | SectorOrderDOS33Alt
  | SectorOrderProDOS
  | SectorOrderProDOSLinear
  deriving DecidableEq, Repr

/-- Format identifiers (`DiskFormatID` constants of diskimage.go). -/
inductive DiskFormatID where
  | DF_NONE
  | DF_DOS_SECTORS_13
  | DF_DOS_SECTORS_16
  | DF_PRODOS
  | DF_PRODOS_800KB
  | DF_PASCAL
  | DF_RDOS_3
  | DF_RDOS_32
  | DF_RDOS_33
  | DF_PRODOS_400KB
  | DF_PRODOS_CUSTOM
  deriving DecidableEq, Repr

/-- The Go struct `DiskFormat`. -/
structure DiskFormat where
  ID : DiskFormatID
  bpd : Int
  spt : Int
  uspt : Int
  tpd : Int
  deriving DecidableEq, Repr

def GetDiskFormat (id : DiskFormatID) : DiskFormat :=
  { ID := id, bpd := 0, spt := 0, uspt := 0, tpd := 0 }

def GetPDDiskFormat (id : DiskFormatID) (blocks : Int) : DiskFormat :=
  { ID := id, bpd := blocks, tpd := 80, spt := Int.tdiv blocks 80, uspt := Int.tdiv blocks 80 }

def DiskFormat.USPT (df : DiskFormat) : Int :=
  match df.ID with
  | .DF_RDOS_3 => 13
  | .DF_RDOS_32 => 13
  | .DF_RDOS_33 => 16
  | .DF_DOS_SECTORS_13 => 13
  | .DF_DOS_SECTORS_16 => 16
  | .DF_PRODOS => 16
  | .DF_PASCAL => 16
  | .DF_PRODOS_800KB => 40
  | .DF_PRODOS_400KB => 20
  | .DF_PRODOS_CUSTOM => df.uspt
  | .DF_NONE => 16

def DiskFormat.SPT (df : DiskFormat) : Int :=
  match df.ID with
  | .DF_RDOS_3 => 16
  | .DF_RDOS_32 => 13
  | .DF_RDOS_33 => 16
  | .DF_DOS_SECTORS_13 => 13
  | .DF_DOS_SECTORS_16 => 16
  | .DF_PRODOS => 16
  | .DF_PASCAL => 16
  | .DF_PRODOS_800KB => 40
  | .DF_PRODOS_400KB => 20
  | .DF_PRODOS_CUSTOM => df.spt
  | .DF_NONE => 16

def DiskFormat.TPD (df : DiskFormat) : Int :=
  match df.ID with
  | .DF_RDOS_3 => 35
  | .DF_RDOS_32 => 35
  | .DF_RDOS_33 => 35
  | .DF_DOS_SECTORS_13 => 35
  | .DF_DOS_SECTORS_16 => 35
  | .DF_PRODOS => 35
  | .DF_PASCAL => 35
  | .DF_PRODOS_800KB => 80
  | .DF_PRODOS_400KB => 80
  | .DF_PRODOS_CUSTOM => df.tpd
  | .DF_NONE => 35

/-- The image bytes (`DSKContainer`, a `[]byte`): `size` is `len(Data)` and `byte i` is
`Data[i]`; the capacity of the slice is taken to be its length. -/
structure DSKContainer where
  size : Nat
  byte : Nat → Nat

/-- The bytes `Data[p : p+n]`, read now. -/
def DSKContainer.slice (c : DSKContainer) (p n : Nat) : List Nat :=
  (List.range n).map fun i => c.byte (p + i)

/-- The stores `Data[p+i] = chunk[i]` for every `i < len(chunk)`. -/
def DSKContainer.store (c : DSKContainer) (p : Nat) (chunk : List Nat) : DSKContainer :=
  { size := c.size
    byte := fun j => if p ≤ j ∧ j < p + chunk.length then chunk.getD (j - p) 0 else c.byte j }

/-- An image of `n` zero bytes. -/
def DSKContainer.zeros (n : Nat) : DSKContainer :=
  { size := n, byte := fun _ => 0 }

/-- The fields of the Go struct `DSKWrapper` that the codecs read or write. -/
structure DSKWrapper where
  Data : DSKContainer
  Layout : SectorOrder
  CurrentTrack : Int
  CurrentSector : Int
  SectorPointer : Int
  Format : DiskFormat

/-- The Go function returns `wanted` in its first statement; the switch after it is dead. -/
def SectorMapperDOS33 (wanted : Int) : Int := wanted

def SectorMapperDOS33Alt (wanted : Int) : Int :=
  if wanted = 0 then 0
  else if wanted = 13 then 1
  else if wanted = 11 then 2
  else if wanted = 9 then 3
  else if wanted = 7 then 4
  else if wanted = 5 then 5
  else if wanted = 3 then 6
  else if wanted = 1 then 7
  else if wanted = 14 then 8
  else if wanted = 12 then 9
  else if wanted = 10 then 10
  else if wanted = 8 then 11
  else if wanted = 6 then 12
  else if wanted = 4 then 13
  else if wanted = 2 then 14
  else if wanted = 15 then 15
  else -1

def SectorMapperProDOS (wanted : Int) : Int :=
  if wanted = 0 then 0
  else if wanted = 1 then 2
  else if wanted = 2 then 4
  else if wanted = 3 then 6
  else if wanted = 4 then 8
  else if wanted = 5 then 10
  else if wanted = 6 then 12
  else if wanted = 7 then 14
  else if wanted = 8 then 1
  else if wanted = 9 then 3
  else if wanted = 10 then 5
  else if wanted = 11 then 7
  else if wanted = 12 then 9
  else if wanted = 13 then 11
  else if wanted = 14 then 13
  else if wanted = 15 then 15
  else -1

/-- `SetSectorPointer`: physical byte offset of the current track and sector. -/
def DSKWrapper.SetSectorPointer (d : DSKWrapper) : DSKWrapper :=
  let track := d.CurrentTrack
  let sector := d.CurrentSector
  let isector :=
    match d.Layout with
    | .SectorOrderDOS33Alt => SectorMapperDOS33Alt sector
    | .SectorOrderDOS33 => SectorMapperDOS33 sector
    | .SectorOrderProDOS => SectorMapperProDOS sector
    | _ => sector
  { d with SectorPointer :=
      (track * d.Format.SPT * STD_BYTES_PER_SECTOR) + (STD_BYTES_PER_SECTOR * isector) }

/-- `SetTrack`: the wrapper afterwards and the returned error. -/
def DSKWrapper.SetTrack (d : DSKWrapper) (t : Int) : DSKWrapper × Option String :=
  if t ≥ 0 ∧ t < d.Format.TPD then
    (({ d with CurrentTrack := t } : DSKWrapper).SetSectorPointer, none)
  else
    (d, some "Invalid track")

/-- `SetSector`: the wrapper afterwards and the returned error. -/
def DSKWrapper.SetSector (d : DSKWrapper) (s : Int) : DSKWrapper × Option String :=
  if s ≥ 0 ∧ s < d.Format.USPT then
    (({ d with CurrentSector := s } : DSKWrapper).SetSectorPointer, none)
  else
    (d, some "Invalid sector")

/-- `Seek`: `SetTrack`, and when that succeeds `SetSector`. -/
def DSKWrapper.Seek (d : DSKWrapper) (t s : Int) : DSKWrapper × Option String :=
  match d.SetTrack t with
  | (d1, some e) => (d1, some e)
  | (d1, none) => d1.SetSector s

/-- `Read`: the 256 bytes `Data[SectorPointer : SectorPointer+256]`; `none` is the slice
panic when that window does not lie inside the image. -/
def DSKWrapper.Read (d : DSKWrapper) : Option (List Nat) :=
  if 0 ≤ d.SectorPointer ∧ d.SectorPointer + 256 ≤ (d.Data.size : Int) then
    some (d.Data.slice d.SectorPointer.toNat 256)
  else none

/-- `Write`: stores at most 256 bytes of `data` at the sector pointer; `none` is the index
panic when one of the stores falls outside the image. -/
def DSKWrapper.Write (d : DSKWrapper) (data : List Nat) : Option DSKWrapper :=
  let chunk := data.take 256
  if chunk = [] then some d
  else if 0 ≤ d.SectorPointer ∧ d.SectorPointer + (chunk.length : Int) ≤ (d.Data.size : Int) then
    some { d with Data := d.Data.store d.SectorPointer.toNat chunk }
  else none

/-! ## disk/diskimageappledos.go -/

/-- File kinds (`FileType` constants). -/
def FileTypeTXT : Nat := 0x00

def FileTypeINT : Nat := 0x01

def FileTypeAPP : Nat := 0x02

def FileTypeBIN : Nat := 0x04

/-- `FileType.String() != "Unknown"`: the type is a key of `AppleDOSTypeMap`. -/
def FileTypeKnown (ft : Nat) : Bool :=
  ft == 0x00 || ft == 0x01 || ft == 0x02 || ft == 0x04 || ft == 0x08 || ft == 0x10 ||
    ft == 0x20 || ft == 0x40

/-- A catalog entry (`FileDescriptor`).  Its `Data` is always a 35-byte window of the
image (`SetData` keeps the slice it is given), so the model records where the window starts:
`Data[i]` is the image byte at `ptr + i`. -/
structure FileDescriptor where
  ptr : Nat
  trackid : Int
  sectorid : Int
  sectoroffset : Int
  deriving DecidableEq, Repr

/-- `fd.Data[i]` on the image as it is now. -/
def FileDescriptor.DataAt (fd : FileDescriptor) (d : DSKWrapper) (i : Nat) : Nat :=
  d.Data.byte (fd.ptr + i)

def FileDescriptor.GetTrackSectorListStart (fd : FileDescriptor) (d : DSKWrapper) : Int × Int :=
  ((fd.DataAt d 0 : Nat), (fd.DataAt d 1 : Nat))

def FileDescriptor.Type (fd : FileDescriptor) (d : DSKWrapper) : Nat :=
  fd.DataAt d 2 &&& 0x7f

def FileDescriptor.TotalSectors (fd : FileDescriptor) (d : DSKWrapper) : Nat :=
  fd.DataAt d 0x21 + 256 * fd.DataAt d 0x22

def FileDescriptor.IsUnused (fd : FileDescriptor) (d : DSKWrapper) : Bool :=
  fd.DataAt d 0 == 0xff || !FileTypeKnown (fd.Type d) || fd.TotalSectors d == 0

/-- The inner loop of `AppleDOSReadFileSectors` and `AppleDOSGetFileSectors` over the
pairs of one T/S list sector, from offset `ptr` while `ptr < 0x100`; `data` is the sector.
Returns the pairs in order; `none` is the index panic at `data[ptr+1]`. -/
def tsPairs (fuel : Nat) (f : DiskFormat) (data : List Nat) (ptr : Nat) (acc : List (Int × Int)) :
    Option (List (Int × Int)) :=
  match fuel with
  | 0 => some acc
  | fuel + 1 =>
    if ptr < 0x100 then
      match data[ptr]?, data[ptr + 1]? with
      | some t, some s =>
        if (t = 0 ∧ s = 0) ∨ (t : Int) ≥ f.TPD ∨ (s : Int) ≥ f.SPT then some acc
        else tsPairs fuel f data (ptr + 2) (acc ++ [((t : Int), (s : Int))])
      | _, _ => none
    else some acc

/-- The number of keys `100*t + s` that two bytes can form: a bound on the iterations of
the T/S list walk, each of which adds a new key to `tsmap` or leaves the loop. -/
def tsWalkFuel : Nat := 100 * 255 + 255 + 2

/-- The outer loop of `AppleDOSReadFileSectors` and `AppleDOSGetFileSectors`,
`for e == nil && (tl != 0 || sl != 0)`.  Returns the wrapper, the pairs collected and the
error of a failed seek; `none` is a panic (or the fuel used up, which does not happen). -/
def tsWalk (fuel : Nat) (d : DSKWrapper) (tl sl : Int) (tsmap : List Int)
    (pairs : List (Int × Int)) : Option (DSKWrapper × List (Int × Int) × Option String) :=
  match fuel with
  | 0 => none
  | fuel + 1 =>
    if tl ≠ 0 ∨ sl ≠ 0 then
      match d.Seek tl sl with
      | (d1, some e) => some (d1, pairs, some e)
      | (d1, none) =>
        match d1.Read with
        | none => none
        | some data =>
          match tsPairs 0x100 d1.Format data 0x0c pairs with
          | none => none
          | some pairs1 =>
            let ntl : Int := (data.getD 1 0 : Nat)
            let nsl : Int := (data.getD 2 0 : Nat)
            if (100 * ntl + nsl) ∈ tsmap then some (d1, pairs1, none)
            else tsWalk fuel d1 ntl nsl (tsmap ++ [100 * ntl + nsl]) pairs1
    else some (d, pairs, none)

/-- The second loop of `AppleDOSReadFileSectors`: read the data sectors in order, stopping
after `maxblocks` of them unless `maxblocks = -1`. -/
def readDataSectors (d : DSKWrapper) (pairs : List (Int × Int)) (maxblocks : Int)
    (blocksread : Int) (file : List Nat) : Option (DSKWrapper × List Nat × Option String) :=
  match pairs with
  | [] => some (d, file, none)
  | (t, s) :: rest =>
    match d.Seek t s with
    | (d1, some e) => some (d1, file, some e)
    | (d1, none) =>
      match d1.Read with
      | none => none
      | some c =>
        if maxblocks ≠ -1 ∧ blocksread + 1 ≥ maxblocks then some (d1, file ++ c, none)
        else readDataSectors d1 rest maxblocks (blocksread + 1) (file ++ c)

/-- `AppleDOSReadFileSectors`: the wrapper afterwards, the bytes and the error. -/
def DSKWrapper.AppleDOSReadFileSectors (d : DSKWrapper) (fd : FileDescriptor) (maxblocks : Int) :
    Option (DSKWrapper × List Nat × Option String) :=
  let start := fd.GetTrackSectorListStart d
  match tsWalk tsWalkFuel d start.1 start.2 [] [] with
  | none => none
  | some (d1, _, some e) => some (d1, [], some e)
  | some (d1, pairs, none) => readDataSectors d1 pairs maxblocks 0 []

/-- `AppleDOSGetFileSectors`: the wrapper afterwards, the pairs and the error. -/
def DSKWrapper.AppleDOSGetFileSectors (d : DSKWrapper) (fd : FileDescriptor) :
    Option (DSKWrapper × List (Int × Int) × Option String) :=
  let start := fd.GetTrackSectorListStart d
  tsWalk tsWalkFuel d start.1 start.2 [] []

/-- A wrapper around image `c` as `NewDSKWrapperBin` leaves it once the format is known. -/
def mkWrapper (c : DSKContainer) (f : DiskFormatID) (l : SectorOrder) : DSKWrapper :=
  { Data := c, Layout := l, CurrentTrack := 0, CurrentSector := 0, SectorPointer := 0,
    Format := GetDiskFormat f }

/-- A 143360-byte DOS 3.3 image whose only T/S list sector, at track 18 sector 15, names
itself as the next T/S list sector and lists one data sector, track 18 sector 14; the first
catalog entry (track 17 sector 15, offset 0x0b) points at that T/S list. -/
def cyclicImage : DSKWrapper :=
  mkWrapper
    ((((DSKContainer.zeros 143360).store ((18 * 16 + 15) * 256 + 1) [18, 15]).store
        ((18 * 16 + 15) * 256 + 0x0c) [18, 14]).store
      ((17 * 16 + 15) * 256 + 0x0b) [18, 15, 0x00])
    .DF_DOS_SECTORS_16 .SectorOrderDOS33

/-- The first catalog entry of `cyclicImage`. -/
def cyclicEntry : FileDescriptor :=
  { ptr := (17 * 16 + 15) * 256 + 0x0b, trackid := 17, sectorid := 15, sectoroffset := 0x0b }

/-! ## disk/diskimagepd.go: block addressing -/

/-- `PRODOSGetBlockSectors`: track and the two sectors of a block.  Go's `/` and `%`
truncate toward zero. -/
def DSKWrapper.PRODOSGetBlockSectors (d : DSKWrapper) (block : Int) : Int × Int × Int :=
  let track := Int.tdiv block PRODOS_BLOCKS_PER_TRACK
  let bo := Int.tmod block PRODOS_BLOCKS_PER_TRACK
  if d.Layout = .SectorOrderProDOSLinear then
    (track, bo * 2, bo * 2 + 1)
  else if bo = 0 then (track, 0x0, 0xe)
  else if bo = 1 then (track, 0xd, 0xc)
  else if bo = 2 then (track, 0xb, 0xa)
  else if bo = 3 then (track, 0x9, 0x8)
  else if bo = 4 then (track, 0x7, 0x6)
  else if bo = 5 then (track, 0x5, 0x4)
  else if bo = 6 then (track, 0x3, 0x2)
  else if bo = 7 then (track, 0x1, 0xf)
  else (track, 0x0, 0xe)

/-- The fixed table of the interleaved layouts, in the spec's order. -/
def blockSectorTable : List (Int × Int) :=
  [(0x0, 0xe), (0xd, 0xc), (0xb, 0xa), (0x9, 0x8), (0x7, 0x6), (0x5, 0x4), (0x3, 0x2), (0x1, 0xf)]

/-- The sixteen sectors that `PRODOSGetBlockSectors` names for the eight blocks of track `tr`. -/
def DSKWrapper.trackBlockSectors (d : DSKWrapper) (tr : Int) : List Int :=
  (List.range 8).flatMap fun k =>
    [(d.PRODOSGetBlockSectors (tr * 8 + (k : Int))).2.1,
     (d.PRODOSGetBlockSectors (tr * 8 + (k : Int))).2.2]

/-! ## fuzzyfiles.go

A Go map is an association list with pairwise distinct keys.  Go leaves the order of
`range` over a map unspecified; the model visits the keys in the order of their first
insertion.  The `float64` counters of `CompareCatalogs` only ever hold small whole numbers
and are modelled by `Nat`; the returned quotient is the exact rational. -/

/-- The fields of the Go struct `DiskFile` that the comparison reads. -/
structure DiskFile where
  Filename : String
  SHA256 : String
  Size : Int
  deriving DecidableEq, Repr

abbrev DiskCatalog := List DiskFile

/-- Map lookup `m[k]` with its `ok` flag. -/
def mapGet {κ ν : Type} [DecidableEq κ] (m : List (κ × ν)) (k : κ) : Option ν :=
  match m with
  | [] => none
  | (k1, v) :: rest => if k1 = k then some v else mapGet rest k

/-- Map store `m[k] = v`. -/
def mapSet {κ ν : Type} [DecidableEq κ] (m : List (κ × ν)) (k : κ) (v : ν) : List (κ × ν) :=
  match m with
  | [] => [(k, v)]
  | (k1, v1) :: rest => if k1 = k then (k, v) :: rest else (k1, v1) :: mapSet rest k v

/-- The Go struct `FileOverlapRecord`; the `percent` map is not touched by the comparison.
A `*DiskFile` key is modelled by the file it points to. -/
structure FileOverlapRecord where
  files : List (String × List (DiskFile × DiskFile))
  percent : List (String × ℚ)
  missing : List (String × List DiskFile)
  extras : List (String × List DiskFile)

/-- The record the callers allocate before comparing: four empty maps. -/
def FileOverlapRecord.fresh : FileOverlapRecord :=
  { files := [], percent := [], missing := [], extras := [] }

/-- Go's `len(m[k])` for a map of slices: a missing key yields the nil slice. -/
def lenAt {ν : Type} (m : List (String × List ν)) (k : String) : Nat :=
  match mapGet m k with
  | some l => l.length
  | none => 0

def FileOverlapRecord.IsSubsetOf (f : FileOverlapRecord) (filename : String) : Bool :=
  match mapGet f.files filename with
  | none => false
  | some _ => decide (lenAt f.extras filename > 0) && decide (lenAt f.missing filename = 0)

def FileOverlapRecord.IsSupersetOf (f : FileOverlapRecord) (filename : String) : Bool :=
  match mapGet f.files filename with
  | none => false
  | some _ => decide (lenAt f.extras filename = 0) && decide (lenAt f.missing filename > 0)

def GetCatalogMap (d : DiskCatalog) : List (String × DiskFile) :=
  d.foldl (fun out v => mapSet out v.SHA256 v) []

/-- The local variables of `CompareCatalogs` together with the record it fills. -/
structure CompareState where
  sameFiles : Nat
  missingFiles : Nat
  extraFiles : Nat
  r : FileOverlapRecord

/-- Body of the first loop of `CompareCatalogs` (over `dmap`). -/
def compareStepD (bmap : List (String × DiskFile)) (key : String) (st : CompareState)
    (e : String × DiskFile) : CompareState :=
  let fileCk := e.1
  let info := e.2
  if info.Size = 0 then st
  else if info.Filename = "hello" then st
  else
    match mapGet bmap fileCk with
    | some binfo =>
      let inner := match mapGet st.r.files key with
        | some m => m
        | none => []
      { st with
        sameFiles := st.sameFiles + 1
        r := { st.r with files := mapSet st.r.files key (mapSet inner binfo info) } }
    | none =>
      let cur := match mapGet st.r.missing key with
        | some l => l
        | none => []
      { st with
        missingFiles := st.missingFiles + 1
        r := { st.r with missing := mapSet st.r.missing key (cur ++ [info]) } }

/-- Body of the second loop of `CompareCatalogs` (over `bmap`). -/
def compareStepB (dmap : List (String × DiskFile)) (key : String) (st : CompareState)
    (e : String × DiskFile) : CompareState :=
  let fileCk := e.1
  let info := e.2
  if info.Size = 0 then st
  else
    match mapGet dmap fileCk with
    | some _ => st
    | none =>
      let cur := match mapGet st.r.extras key with
        | some l => l
        | none => []
      { st with
        extraFiles := st.extraFiles + 1
        r := { st.r with extras := mapSet st.r.extras key (cur ++ [info]) } }

/-- The state of `CompareCatalogs` after its two loops. -/
def compareLoops (d b : DiskCatalog) (r : FileOverlapRecord) (key : String) : CompareState :=
  let dmap := GetCatalogMap d
  let bmap := GetCatalogMap b
  let st1 := dmap.foldl (compareStepD bmap key)
    { sameFiles := 0, missingFiles := 0, extraFiles := 0, r := r }
  bmap.foldl (compareStepB dmap key) st1

/-- `CompareCatalogs`: the returned closeness and the record as the call leaves it. -/
def CompareCatalogs (d b : DiskCatalog) (r : FileOverlapRecord) (key : String) :
    ℚ × FileOverlapRecord :=
  let st := compareLoops d b r key
  if st.sameFiles + st.extraFiles + st.missingFiles = 0 then (0, st.r)
  else
    ((st.sameFiles : ℚ) / ((st.sameFiles + st.extraFiles + st.missingFiles : Nat) : ℚ), st.r)

/-- The set `H(c)` of the SHA-256 values of a catalog. -/
def shaSet (c : DiskCatalog) : Finset String := (c.map (·.SHA256)).toFinset

/-- Scenario S4, left disk: files `a:h1`, `b:h2`. -/
def catalogX : DiskCatalog :=
  [{ Filename := "a", SHA256 := "h1", Size := 1 }, { Filename := "b", SHA256 := "h2", Size := 1 }]

/-- Scenario S4, right disk: files `a:h1`, `b:h2`, `c:h3`. -/
def catalogY : DiskCatalog :=
  [{ Filename := "a", SHA256 := "h1", Size := 1 }, { Filename := "b", SHA256 := "h2", Size := 1 },
   { Filename := "c", SHA256 := "h3", Size := 1 }]

/-! ## disk/atokens.go

A Go string is the list of its runes (`List Char`); `[]byte(s)` is its UTF-8 encoding and
`byte(ch)` keeps the low eight bits of the rune.  `strings.ToUpper` is modelled on the ASCII
letters, which is all the token table contains. -/

/-- The table `ApplesoftTokens`, as the list of its `code: keyword` entries. -/
def ApplesoftTokens : List (Nat × List Char) :=
  [(0x80, "END".toList), (0x81, "FOR".toList), (0x82, "NEXT".toList), (0x83, "DATA".toList),
   (0x84, "INPUT".toList), (0x85, "DEL".toList), (0x86, "DIM".toList), (0x87, "READ".toList),
   (0x88, "GR".toList), (0x89, "TEXT".toList), (0x8A, "PR#".toList), (0x8B, "IN#".toList),
   (0x8C, "CALL".toList), (0x8D, "PLOT".toList), (0x8E, "HLIN".toList), (0x8F, "VLIN".toList),
   (0x90, "HGR2".toList), (0x91, "HGR".toList), (0x92, "HCOLOR=".toList),
   (0x93, "HPLOT".toList), (0x94, "DRAW".toList), (0x95, "XDRAW".toList),
   (0x96, "HTAB".toList), (0x97, "HOME".toList), (0x98, "ROT=".toList),
   (0x99, "SCALE=".toList), (0x9A, "SHLOAD".toList), (0x9B, "TRACE".toList),
   (0x9C, "NOTRACE".toList), (0x9D, "NORMAL".toList), (0x9E, "INVERSE".toList),
   (0x9F, "FLASH".toList), (0xA0, "COLOR=".toList), (0xA1, "POP".toList),
   (0xA2, "VTAB".toList), (0xA3, "HIMEM:".toList), (0xA4, "LOMEM:".toList),
   (0xA5, "ONERR".toList), (0xA6, "RESUME".toList), (0xA7, "RECALL".toList),
   (0xA8, "STORE".toList), (0xA9, "SPEED=".toList), (0xAA, "LET".toList),
   (0xAB, "GOTO".toList), (0xAC, "RUN".toList), (0xAD, "IF".toList),
   (0xAE, "RESTORE".toList), (0xAF, "&".toList), (0xB0, "GOSUB".toList),
   (0xB1, "RETURN".toList), (0xB2, "REM".toList), (0xB3, "STOP".toList), (0xB4, "ON".toList),
   (0xB5, "WAIT".toList), (0xB6, "LOAD".toList), (0xB7, "SAVE".toList), (0xB8, "DEF".toList),
   (0xB9, "POKE".toList), (0xBA, "PRINT".toList), (0xBB, "CONT".toList),
   (0xBC, "LIST".toList), (0xBD, "CLEAR".toList), (0xBE, "GET".toList), (0xBF, "NEW".toList),
   (0xC0, "TAB(".toList), (0xC1, "TO".toList), (0xC2, "FN".toList), (0xC3, "SPC(".toList),
   (0xC4, "THEN".toList), (0xC5, "AT".toList), (0xC6, "NOT".toList), (0xC7, "STEP".toList),
   (0xC8, "+".toList), (0xC9, "-".toList), (0xCA, "*".toList), (0xCB, "/".toList),
   (0xCC, "^".toList), (0xCD, "AND".toList), (0xCE, "OR".toList), (0xCF, ">".toList),
   (0xD0, "=".toList), (0xD1, "<".toList), (0xD2, "SGN".toList), (0xD3, "INT".toList),
   (0xD4, "ABS".toList), (0xD5, "USR".toList), (0xD6, "FRE".toList), (0xD7, "SCRN(".toList),
   (0xD8, "PDL".toList), (0xD9, "POS".toList), (0xDA, "SQR".toList), (0xDB, "RND".toList),
   (0xDC, "LOG".toList), (0xDD, "EXP".toList), (0xDE, "COS".toList), (0xDF, "SIN".toList),
   (0xE0, "TAN".toList), (0xE1, "ATN".toList), (0xE2, "PEEK".toList), (0xE3, "LEN".toList),
   (0xE4, "STR$".toList), (0xE5, "VAL".toList), (0xE6, "ASC".toList), (0xE7, "CHR$".toList),
   (0xE8, "LEFT$".toList), (0xE9, "RIGHT$".toList), (0xEA, "MID$".toList)]

/-- Lookup `ApplesoftTokens[code]`. -/
def applesoftToken (code : Nat) : Option (List Char) :=
  (ApplesoftTokens.find? (fun e => e.1 == code)).map (·.2)

/-- Lookup `ApplesoftReverse[s]`; `init` fills the reverse map from `ApplesoftTokens`, whose
keywords are pairwise distinct. -/
def ApplesoftReverse (s : List Char) : Option Nat :=
  (ApplesoftTokens.find? (fun e => e.2 == s)).map (·.1)

/-- UTF-8 encoding of one code point. -/
def utf8Bytes (c : Nat) : List Nat :=
  if c < 0x80 then [c]
  else if c < 0x800 then [0xC0 + c / 0x40, 0x80 + c % 0x40]
  else if c < 0x10000 then [0xE0 + c / 0x1000, 0x80 + c / 0x40 % 0x40, 0x80 + c % 0x40]
  else [0xF0 + c / 0x40000, 0x80 + c / 0x1000 % 0x40, 0x80 + c / 0x40 % 0x40, 0x80 + c % 0x40]

/-- `[]byte(s)`: the UTF-8 bytes of a string. -/
def stringBytes (s : List Char) : List Nat :=
  s.flatMap fun c => utf8Bytes c.toNat

/-- `byte(ch)` for a rune. -/
def runeByte (ch : Char) : Nat := ch.toNat % 256

/-- `strings.ToUpper` as far as ASCII is concerned: the letters `a` to `z` and the two
other runes whose upper case is an ASCII letter, U+0131 (upper case `I`) and U+017F (upper
case `S`).  Every other rune outside ASCII has its upper case outside ASCII and is left as
it is, which makes no difference to a comparison with an ASCII word. -/
def toUpperASCII (s : List Char) : List Char :=
  s.map fun c =>
    if 'a' ≤ c ∧ c ≤ 'z' then Char.ofNat (c.toNat - 32)
    else if c.toNat = 0x131 then 'I'
    else if c.toNat = 0x17F then 'S'
    else c

/-- `strings.ToLower` on the ASCII letters. -/
def toLowerASCII (s : List Char) : List Char :=
  s.map fun c => if 'A' ≤ c ∧ c ≤ 'Z' then Char.ofNat (c.toNat + 32) else c

/-- `strings.Trim(s, cutset)` for a one-character cutset. -/
def trimChar (c : Char) (s : List Char) : List Char :=
  ((s.dropWhile (· == c)).reverse.dropWhile (· == c)).reverse

/-- `strings.SplitN(l, " ", 2)`: the text before the first space and, when there is a
space, the text after it. -/
def splitFirstSpace (l : List Char) : List Char × Option (List Char) :=
  match l with
  | [] => ([], none)
  | c :: rest =>
    if c = ' ' then ([], some rest)
    else
      let r := splitFirstSpace rest
      (c :: r.1, r.2)

/-- Value of a run of decimal digits, `none` when a character is not a digit. -/
def digitsValue (s : List Char) (acc : Nat) : Option Nat :=
  match s with
  | [] => some acc
  | c :: rest =>
    if '0' ≤ c ∧ c ≤ '9' then digitsValue rest (acc * 10 + (c.toNat - 48)) else none

/-- `strconv.Atoi` with its error dropped (`ln, _ := strconv.Atoi(..)`): 0 on a syntax
error, the nearest 64-bit value on a range error. -/
def Atoi (s : List Char) : Int :=
  let body := match s with
    | '+' :: r => r
    | '-' :: r => r
    | r => r
  let neg := match s with
    | '-' :: _ => true
    | _ => false
  if body = [] then 0
  else
    match digitsValue body 0 with
    | none => 0
    | some v =>
      if neg then (if v > 2 ^ 63 then -(2 ^ 63 : Int) else -(v : Int))
      else (if v ≥ 2 ^ 63 then (2 ^ 63 - 1 : Int) else (v : Int))

/-- `byte(x)` for a Go `int`. -/
def intByte (x : Int) : Nat := (x % 256).toNat

def breakingChar (ch : Char) : Bool :=
  ch == '(' || ch == ')' || ch == '.' || ch == ',' || ch == ';' || ch == ':' || ch == ' '

/-- Loop variables of the per-line scan of `ApplesoftTokenize`. -/
structure TokState where
  linebuffer : List Nat
  chunk : List Char
  inqq : Bool

/-- One iteration of `for _, ch := range rest` in `ApplesoftTokenize`. -/
def tokStep (st : TokState) (ch : Char) : TokState :=
  if st.inqq ∧ ch ≠ '"' then
    { st with linebuffer := st.linebuffer ++ [runeByte ch] }
  else if ch = '"' then
    { st with linebuffer := st.linebuffer ++ [runeByte ch], inqq := !st.inqq }
  else if !st.inqq ∧ breakingChar ch then
    { st with linebuffer := st.linebuffer ++ stringBytes st.chunk ++ [runeByte ch], chunk := [] }
  else
    let chunk := st.chunk ++ [ch]
    match ApplesoftReverse (toUpperASCII chunk) with
    | some code => { st with linebuffer := st.linebuffer ++ [code % 256], chunk := [] }
    | none => { st with chunk := chunk }

/-- The record `ApplesoftTokenize` builds for one non-empty line, given the address
`currAddr` it starts at; `none` is the index panic on a line without a space. -/
def tokenizeLine (currAddr : Int) (l : List Char) : Option (List Nat) :=
  match splitFirstSpace l with
  | (_, none) => none
  | (first, some second) =>
    let ln := Atoi first
    let rest := trimChar ' ' second
    let st0 : TokState :=
      { linebuffer := [0, 0, intByte (ln % 256), intByte (Int.tdiv ln 0x100)],
        chunk := [], inqq := false }
    let st := rest.foldl tokStep st0
    let lb := (if st.chunk ≠ [] then st.linebuffer ++ stringBytes st.chunk else st.linebuffer)
      ++ [0x00]
    let nextAddr := currAddr + (lb.length : Int)
    some ([intByte (nextAddr % 256), intByte (Int.tdiv nextAddr 0x100)] ++ lb.drop 2)

/-- The loop of `ApplesoftTokenize` over the lines. -/
def tokenizeLines (currAddr : Int) (buffer : List Nat) (lines : List (List Char)) :
    Option (List Nat) :=
  match lines with
  | [] => some (buffer ++ [0x00, 0x00])
  | l0 :: more =>
    let l := trimChar '\r' l0
    if l = [] then tokenizeLines currAddr buffer more
    else
      match tokenizeLine currAddr l with
      | none => none
      | some rec => tokenizeLines (currAddr + (rec.length : Int)) (buffer ++ rec) more

def ApplesoftTokenize (lines : List (List Char)) : Option (List Nat) :=
  tokenizeLines 0x801 [] lines

/-- The inner loop of `ApplesoftDetoks`, `for t != 0 && length > 0`, on the bytes not yet
read (`srcptr` is the number of bytes consumed, `length` the number left).  Returns the
output and the bytes left. -/
def detokBody (t : Nat) (rest : List Nat) (inQuote inRem : Bool) (out : List Nat) :
    List Nat × List Nat :=
  match rest with
  | [] => (out, [])
  | t1 :: rest1 =>
    if t = 0 then (out, rest)
    else if t &&& 0x80 ≠ 0 then
      let out1 := match applesoftToken t with
        | some tokstr => out ++ stringBytes (" ".toList ++ tokstr ++ " ".toList)
        | none => out ++ stringBytes " ERROR ".toList
      detokBody t1 rest1 inQuote (inRem || t == 0xb2) out1
    else if t = 34 ∧ !inRem then
      detokBody t1 rest1 (!inQuote) inRem (out ++ [t])
    else if t = 58 ∧ !inRem ∧ !inQuote then
      detokBody t1 rest1 inQuote inRem (out ++ [t])
    else if inRem ∧ (t = 13 ∨ t = 10) then
      detokBody t1 rest1 inQuote inRem (out ++ stringBytes "*".toList)
    else
      detokBody t1 rest1 inQuote inRem (out ++ [t])

/-- The outer loop of `ApplesoftDetoks`, `for length > 0`, on the bytes not yet read.
Every iteration consumes at least five bytes, so `fuel = len(data)` is never used up. -/
def detokLines (fuel : Nat) (rest : List Nat) (out : List Nat) : List Nat :=
  match fuel with
  | 0 => out
  | fuel + 1 =>
    match rest with
    | a0 :: a1 :: rest2 =>
      let nextAddr := a0 + 256 * a1
      if nextAddr = 0 then out
      else
        match rest2 with
        | n0 :: n1 :: rest4 =>
          let lineNum := n0 + 256 * n1
          let out1 := out ++ stringBytes (" ".toList ++ Nat.toDigits 10 lineNum ++ " ".toList)
          match rest4 with
          | [] => out1
          | t :: rest5 =>
            let r := detokBody t rest5 false false out1
            let out2 := r.1 ++ [13, 10]
            if r.2 = [] then out2 else detokLines fuel r.2 out2
        | _ => out
    | _ => out

def ApplesoftDetoks (data : List Nat) : List Nat :=
  if data.length < 2 then [13, 10]
  else detokLines data.length data []

/-- `strings.Contains` on byte strings. -/
def containsBytes (s sub : List Nat) : Bool :=
  sub.isPrefixOf s ||
    match s with
    | [] => false
    | _ :: rest => containsBytes rest sub

/-- The test program of atokens_test.go with keyword `kw` in line 10. -/
def testProgram (kw : List Char) : List (List Char) :=
  ["10 ".toList ++ kw ++ " : REM SOMETHING".toList, "20 REM SOMETHING ELSE".toList]

/-- Detokenized text of the tokenized program; a panic of the tokenizer gives no text. -/
def roundTripText (lines : List (List Char)) : List Nat :=
  match ApplesoftTokenize lines with
  | some a => ApplesoftDetoks a
  | none => []

/-- The comparison text of the round-trip property: all spaces and the CR and LF of the
line terminators removed. -/
def stripLayout (s : List Nat) : List Nat :=
  s.filter fun b => b != 32 && b != 13 && b != 10

/-! ## disk/diskimage2mg.go -/

def STD_DISK_BYTES : Int := 35 * 16 * 256

def STD_DISK_BYTES_OLD : Int := 35 * 13 * 256

def PRODOS_800KB_DISK_BYTES : Int := 256 * 2 * 1600

def PRODOS_400KB_DISK_BYTES : Int := 256 * 2 * 800

/-- `Header2MG`: the 64 header bytes (`SetData` copies at most 64 bytes into the array). -/
structure Header2MG where
  Data : List Nat

/-- `int(h.Data[i])`. -/
def Header2MG.b (h : Header2MG) (i : Nat) : Int := (h.Data.getD i 0 : Nat)

/-- `GetID`: the four magic bytes. -/
def Header2MG.GetID (h : Header2MG) : List Nat := h.Data.take 4

def Header2MG.GetImageFormat (h : Header2MG) : Int :=
  h.b 0x0C + 256 * h.b 0x0D + 65336 * h.b 0x0E + 16777216 * h.b 0x0F

def Header2MG.GetDOSFlags (h : Header2MG) : Int :=
  h.b 0x10 + 256 * h.b 0x11 + 65336 * h.b 0x12 + 16777216 * h.b 0x13

def Header2MG.GetProDOSBlocks (h : Header2MG) : Int :=
  h.b 0x14 + 256 * h.b 0x15 + 65336 * h.b 0x16 + 16777216 * h.b 0x17

def Header2MG.GetDiskDataStart (h : Header2MG) : Int :=
  h.b 0x18 + 256 * h.b 0x19 + 65336 * h.b 0x1A + 16777216 * h.b 0x1B

def Header2MG.GetDiskDataLength (h : Header2MG) : Int :=
  h.b 0x1C + 256 * h.b 0x1D + 65336 * h.b 0x1E + 16777216 * h.b 0x1F

/-- The bytes `2IMG` of `MAGIC_2MG`. -/
def MAGIC_2MG : List Nat := [0x32, 0x49, 0x4D, 0x47]

/-- The slice `Data[p : p+n]` as an image of its own (it shares the bytes of `c`). -/
def DSKContainer.window (c : DSKContainer) (p n : Nat) : DSKContainer :=
  { size := n, byte := fun i => c.byte (p + i) }

/-- The header `Is2MG` builds from the first 64 bytes of the image. -/
def DSKWrapper.header2MG (dsk : DSKWrapper) : Header2MG :=
  { Data := dsk.Data.slice 0 0x40 }

/-- The payload length `Is2MG` validates: the declared length, or the file tail when the
declared length is smaller than the tail. -/
def DSKWrapper.payloadSize2MG (dsk : DSKWrapper) : Int :=
  let start := dsk.header2MG.GetDiskDataStart
  let size := dsk.header2MG.GetDiskDataLength
  if size < (dsk.Data.size : Int) - start then (dsk.Data.size : Int) - start else size

/-- `Is2MG`, with the call `NewDSKWrapperBin(dsk.Nibbles, data, dsk.Filename)` of the source
as the parameter `newWrapper`: it is given the payload slice and answers `none` when the
call does not return (it runs `Identify`, which calls `Is2MG` again on the payload),
`some none` for a nil wrapper and `some (some z)` for a wrapper whose data is `z`.  The
fourth result is the data of the wrapper the call built; `none` at the top is a slice panic
or a call that does not return. -/
def DSKWrapper.Is2MGWith (dsk : DSKWrapper)
    (newWrapper : DSKContainer → Option (Option DSKContainer)) :
    Option (Bool × DiskFormat × SectorOrder × Option DSKContainer) :=
  if dsk.Data.size < 0x40 then none
  else
    let h := dsk.header2MG
    if h.GetID ≠ MAGIC_2MG then
      some (false, GetDiskFormat .DF_NONE, .SectorOrderDOS33, none)
    else
      let start := h.GetDiskDataStart
      let size := dsk.payloadSize2MG
      if size ≠ STD_DISK_BYTES ∧ size ≠ PRODOS_800KB_DISK_BYTES ∧ size ≠ PRODOS_400KB_DISK_BYTES then
        some (false, GetDiskFormat .DF_NONE, .SectorOrderDOS33, none)
      else if ¬ (0 ≤ start ∧ start + size ≤ (dsk.Data.size : Int)) then none
      else
        let data := dsk.Data.window start.toNat size.toNat
        let format := h.GetImageFormat
        if format = 0x00 then
          (newWrapper data).map fun zdsk =>
            (true, GetDiskFormat .DF_DOS_SECTORS_16, .SectorOrderDOS33, zdsk)
        else if format = 0x01 then
          (newWrapper data).map fun zdsk =>
            if h.GetProDOSBlocks = 1600 then
              (true, GetDiskFormat .DF_PRODOS_800KB, .SectorOrderProDOSLinear, zdsk)
            else if h.GetProDOSBlocks = 800 then
              (true, GetDiskFormat .DF_PRODOS_400KB, .SectorOrderProDOSLinear, zdsk)
            else
              (true, GetPDDiskFormat .DF_PRODOS_CUSTOM h.GetProDOSBlocks,
                .SectorOrderProDOSLinear, zdsk)
        else some (false, GetDiskFormat .DF_NONE, .SectorOrderDOS33, none)

/-- `Is2MG` when the call of `NewDSKWrapperBin` returns a wrapper that holds the payload it
was given. -/
def DSKWrapper.Is2MG (dsk : DSKWrapper) :
    Option (Bool × DiskFormat × SectorOrder × Option DSKContainer) :=
  dsk.Is2MGWith fun data => some (some data)

/-- A 2MG header: magic, image format, block count, data start 64 and declared length
143360 (bytes `00 30 02 00`), everything else zero. -/
def header2MGBytes (format blocksLo blocksHi : Nat) : List Nat :=
  [0x32, 0x49, 0x4D, 0x47] ++ List.replicate 8 0 ++ [format, 0, 0, 0] ++ [0, 0, 0, 0] ++
    [blocksLo, blocksHi, 0, 0] ++ [0x40, 0, 0, 0] ++ [0x00, 0x30, 0x02, 0x00] ++
    List.replicate 32 0

/-- A 2MG container of 64 + 143360 bytes with the given header fields and a zero payload. -/
def image2MG (format blocksLo blocksHi : Nat) : DSKWrapper :=
  mkWrapper ((DSKContainer.zeros (64 + 143360)).store 0 (header2MGBytes format blocksLo blocksHi))
    .DF_NONE .SectorOrderDOS33

/-! ## disk/diskimagerdos.go -/

def RDOS_CATALOG_LENGTH : Nat := 0xB

def RDOS_ENTRY_LENGTH : Nat := 0x20

def RDOS_NAME_LENGTH : Nat := 0x18

/-- The bytes of `RDOS_SIGNATURE_32`, `byte('R' + 0x80)` and so on: `RDOS 2` with the high
bit set. -/
def RDOS_SIGNATURE_32 : List Nat :=
  [0x52 + 0x80, 0x44 + 0x80, 0x4F + 0x80, 0x53 + 0x80, 0x20 + 0x80, 0x32 + 0x80]

/-- The bytes of `RDOS_SIGNATURE_33`: `RDOS 3` with the high bit set. -/
def RDOS_SIGNATURE_33 : List Nat :=
  [0x52 + 0x80, 0x44 + 0x80, 0x4F + 0x80, 0x53 + 0x80, 0x20 + 0x80, 0x33 + 0x80]

inductive RDOSFormat where
  | RDOS_Unknown
  | RDOS_3
  | RDOS_32
  | RDOS_33
  deriving DecidableEq, Repr

/-- `IsRDOS`. -/
def DSKWrapper.IsRDOS (dsk : DSKWrapper) : Bool × RDOSFormat :=
  if (dsk.Data.size : Int) ≠ STD_DISK_BYTES ∧ (dsk.Data.size : Int) ≠ STD_DISK_BYTES_OLD then
    (false, .RDOS_Unknown)
  else
    let sectorStride := (dsk.Data.size / 35) / 256
    let idbytes := dsk.Data.slice (sectorStride * 256) 6
    if idbytes = RDOS_SIGNATURE_32 ∧ sectorStride = 13 then (true, .RDOS_32)
    else if idbytes = RDOS_SIGNATURE_32 ∧ sectorStride = 16 then (true, .RDOS_3)
    else if idbytes = RDOS_SIGNATURE_33 ∧ sectorStride = 16 then (true, .RDOS_33)
    else (false, .RDOS_Unknown)

/-- The first loop of `RDOSGetCatalog`: for `s = from, .., 10` set track 1 and sector `s`
(errors dropped, as in the source), read the sector and append it.  `n` is the number of
sectors still to read. -/
def rdosReadCatalog (n : Nat) (dsk : DSKWrapper) (s : Int) (d : List Nat) :
    Option (DSKWrapper × List Nat) :=
  match n with
  | 0 => some (dsk, d)
  | n + 1 =>
    let d1 := ((dsk.SetTrack 1).1.SetSector s).1
    match d1.Read with
    | none => none
    | some chunk => rdosReadCatalog n d1 (s + 1) (d ++ chunk)

/-- `RDOSFileDescriptor.IsUnused` on the 32 entry bytes. -/
def rdosIsUnused (e : List Nat) : Bool := e.getD 24 0 == 0x00

/-- `RDOSFileDescriptor.IsDeleted` on the 32 entry bytes. -/
def rdosIsDeleted (e : List Nat) : Bool := e.getD 24 0 == 0xa0 || e.getD 0 0 == 0x80

/-- The loop of `NameUnadorned`: characters `data[i] & 127` up to the first zero. -/
def rdosNameChars (bytes : List Nat) : List Char :=
  match bytes with
  | [] => []
  | b :: rest => if b &&& 127 = 0 then [] else Char.ofNat (b &&& 127) :: rdosNameChars rest

def rdosNameUnadorned (e : List Nat) : List Char := rdosNameChars (e.take RDOS_NAME_LENGTH)

/-- The capacity of the slice `d` of `RDOSGetCatalog` after its eleven appends of 256
bytes to an empty slice.  The Go runtime grows the capacity in the steps 256, 512, 1024,
1280, 1792, 2304, 3072 (doubling below 1024 bytes, then a quarter more, rounded up to an
allocation size) or 256, 512, 896, 1408, 2048, 3072 (the later growth formula), and it
clears the bytes between the length and the capacity. -/
def rdosCatalogCap : Nat := 3072

/-- The second loop of `RDOSGetCatalog`, `for i := 0; i < 11*32; i++`; `n` is the number
of iterations left and `rx` the compiled pattern.  `cap` is the capacity of `d`: the slice
expression `d[dirPtr : dirPtr+32]` is legal up to the capacity, and the bytes between the
length and the capacity are zero.  `none` is the slice panic past the capacity. -/
def rdosEntries (cap n : Nat) (rx : List Char → Bool) (d : List Nat) (dirPtr : Nat)
    (files : List (List Nat)) : Option (List (List Nat)) :=
  match n with
  | 0 => some files
  | n + 1 =>
    if dirPtr + RDOS_ENTRY_LENGTH > cap then none
    else
      let entry :=
        ((d ++ List.replicate (cap - d.length) 0).drop dirPtr).take RDOS_ENTRY_LENGTH
      if rdosIsUnused entry then some files
      else if !rdosIsDeleted entry && rx (rdosNameUnadorned entry) then
        rdosEntries cap n rx d (dirPtr + RDOS_ENTRY_LENGTH) (files ++ [entry])
      else rdosEntries cap n rx d (dirPtr + RDOS_ENTRY_LENGTH) files

/-- `RDOSGetCatalog` with the compiled pattern `rx` (for `"*"` the expression `(?i).*`,
which matches every name). -/
def DSKWrapper.RDOSGetCatalog (dsk : DSKWrapper) (rx : List Char → Bool) :
    Option (DSKWrapper × List (List Nat)) :=
  match rdosReadCatalog RDOS_CATALOG_LENGTH dsk 0 [] with
  | none => none
  | some (d1, d) =>
    match rdosEntries rdosCatalogCap (RDOS_CATALOG_LENGTH * RDOS_ENTRY_LENGTH) rx d 0 [] with
    | none => none
    | some files => some (d1, files)

/-- A 116480-byte RDOS 3.2 image in which every byte is `0xC1`, except the signature
`RDOS 2` at the start of track 1: each of the 88 catalog slots is in use. -/
def fullRDOSImage : DSKWrapper :=
  mkWrapper
    ({ size := 116480
       byte := fun j => if 3328 ≤ j ∧ j < 3334 then RDOS_SIGNATURE_32.getD (j - 3328) 0 else 0xC1 })
    .DF_RDOS_32 .SectorOrderDOS33Alt

/-- A 116480-byte image of zeros with the six bytes `52 C4 CF D3 A0 B2` at offset 13*256. -/
def lowBitSignatureImage : DSKWrapper :=
  mkWrapper ((DSKContainer.zeros 116480).store (13 * 256) [0x52, 0xC4, 0xCF, 0xD3, 0xA0, 0xB2])
    .DF_NONE .SectorOrderDOS33

/-! ## disk/diskimagepd.go: blocks, headers and entries -/

/-- `PRODOS800GetBlockSectors`. -/
def PRODOS800GetBlockSectors (block : Int) : Int × Int × Int :=
  let dblBlock := block * 2
  (Int.tdiv dblBlock 40, Int.tmod dblBlock 40, Int.tmod (dblBlock + 1) 40)

/-- Common body of `PRODOSGetBlock` and `PRODOS800GetBlock`: seek and read the two sectors
`(t, s1)` and `(t, s2)`.  On a seek error the data is the nil slice. -/
def DSKWrapper.readBlockAt (d : DSKWrapper) (r : Int × Int × Int) :
    Option (DSKWrapper × List Nat × Option String) :=
  match d.Seek r.1 r.2.1 with
  | (d1, some e) => some (d1, [], some e)
  | (d1, none) =>
    match d1.Read with
    | none => none
    | some c1 =>
      match d1.Seek r.1 r.2.2 with
      | (d2, some e) => some (d2, [], some e)
      | (d2, none) =>
        match d2.Read with
        | none => none
        | some c2 => some (d2, c1 ++ c2, none)

def DSKWrapper.PRODOSGetBlock (d : DSKWrapper) (block : Int) :
    Option (DSKWrapper × List Nat × Option String) :=
  d.readBlockAt (d.PRODOSGetBlockSectors block)

def DSKWrapper.PRODOS800GetBlock (d : DSKWrapper) (block : Int) :
    Option (DSKWrapper × List Nat × Option String) :=
  d.readBlockAt (PRODOS800GetBlockSectors block)

/-- The block reader the catalog and file readers pick: the 800 KB one for that format. -/
def DSKWrapper.getBlockByFormat (d : DSKWrapper) (block : Int) :
    Option (DSKWrapper × List Nat × Option String) :=
  if d.Format.ID = .DF_PRODOS_800KB then d.PRODOS800GetBlock block else d.PRODOSGetBlock block

/-- `PRODOSWrite`: pad `data` with zeros to 512 bytes and write the two sectors of block `b`. -/
def DSKWrapper.PRODOSWrite (d : DSKWrapper) (b : Int) (data : List Nat) :
    Option (DSKWrapper × Option String) :=
  let data := data ++ List.replicate (512 - data.length) 0
  let r := d.PRODOSGetBlockSectors b
  match d.Seek r.1 r.2.1 with
  | (d1, some e) => some (d1, some e)
  | (d1, none) =>
    match d1.Write (data.take 256) with
    | none => none
    | some d2 =>
      match d2.Seek r.1 r.2.2 with
      | (d3, some e) => some (d3, some e)
      | (d3, none) =>
        match d3.Write (data.drop 256) with
        | none => none
        | some d4 => some (d4, none)

/-- The loop of `PRODOSWriteSaplingBlocks` from index `i` on: store the two index bytes of
each data block next to each other in `ib` and write the block's 512 bytes of `data`.
`none` is the slice panic of `data[ptr:end]` when `ptr` lies past the data. -/
def saplingLoop (d : DSKWrapper) (dataBlocks : List Int) (i : Nat) (ib : List Nat)
    (data : List Nat) : Option (DSKWrapper × List Nat × Option String) :=
  match dataBlocks with
  | [] => some (d, ib, none)
  | blocknum :: rest =>
    let ib1 := (ib.set (i * 2 + 0) (intByte (blocknum % 256))).set (i * 2 + 1)
      (intByte (Int.tdiv blocknum 0x100))
    let ptr := 512 * i
    let endp := if ptr + 512 > data.length then data.length else ptr + 512
    if ptr > endp then none
    else
      let chunk := (data.drop ptr).take (endp - ptr)
      let chunk := chunk ++ List.replicate (512 - chunk.length) 0
      match d.PRODOSWrite blocknum chunk with
      | none => none
      | some (d1, some e) => some (d1, ib1, some e)
      | some (d1, none) => saplingLoop d1 rest (i + 1) ib1 data

def DSKWrapper.PRODOSWriteSaplingBlocks (d : DSKWrapper) (indexBlock : Int)
    (dataBlocks : List Int) (data : List Nat) : Option (DSKWrapper × Option String) :=
  if dataBlocks.length > 256 ∨ data.length > 0x20000 then
    some (d, some "Too many data blocks")
  else
    match saplingLoop d dataBlocks 0 (List.replicate 512 0) data with
    | none => none
    | some (d1, _, some e) => some (d1, some e)
    | some (d1, ib, none) => d1.PRODOSWrite indexBlock ib

/-- A ProDOS directory entry (`ProDOSFileDescriptor`): its 39 bytes, a window of the copy
of the directory block that `PRODOSGetBlock` returned, and where they came from. -/
structure ProDOSFileDescriptor where
  Data : List Nat
  blockid : Int
  blockoffset : Nat
  entryNum : Int
  deriving DecidableEq, Repr

/-- `int(fd.Data[i])`. -/
def ProDOSFileDescriptor.b (fd : ProDOSFileDescriptor) (i : Nat) : Nat := fd.Data.getD i 0

/-- The store `fd.Data[i] = v`. -/
def ProDOSFileDescriptor.put (fd : ProDOSFileDescriptor) (i v : Nat) : ProDOSFileDescriptor :=
  { fd with Data := fd.Data.set i v }

def ProDOSFileDescriptor.GetNameLength (fd : ProDOSFileDescriptor) : Nat := fd.b 0 &&& 0xf

def ProDOSFileDescriptor.GetStorageType (fd : ProDOSFileDescriptor) : Nat := fd.b 0 >>> 4

def ProDOSFileDescriptor.Type (fd : ProDOSFileDescriptor) : Nat := fd.b 16

def ProDOSFileDescriptor.IndexBlock (fd : ProDOSFileDescriptor) : Int :=
  ((fd.b 17 + 256 * fd.b 18 : Nat) : Int)

def ProDOSFileDescriptor.Size (fd : ProDOSFileDescriptor) : Nat :=
  fd.b 21 + 256 * fd.b 22 + 65536 * fd.b 23

def ProDOSFileDescriptor.AccessMode (fd : ProDOSFileDescriptor) : Nat := fd.b 0x1e

def StorageType_Inactive : Nat := 0x0

def StorageType_Seedling : Nat := 0x1

def StorageType_Sapling : Nat := 0x2

def StorageType_Tree : Nat := 0x3

def StorageType_SubDir_File : Nat := 0xd

def StorageType_SubDir_Header : Nat := 0xe

def FileType_PD_Directory : Nat := 0x0f

def AccessType_Destroy : Nat := 0x80

def AccessType_Rename : Nat := 0x40

def AccessType_Changed : Nat := 0x20

def AccessType_Writable : Nat := 0x02

def AccessType_Readable : Nat := 0x01

def AccessType_Default : Nat :=
  AccessType_Readable ||| AccessType_Writable ||| AccessType_Rename ||| AccessType_Destroy

def ProDOSFileDescriptor.SetStorageType (fd : ProDOSFileDescriptor) (t : Nat) :
    ProDOSFileDescriptor :=
  fd.put 0 ((fd.b 0 &&& 0x0f) ||| ((t <<< 4) % 256))

def ProDOSFileDescriptor.SetAccessMode (fd : ProDOSFileDescriptor) (t : Nat) :
    ProDOSFileDescriptor :=
  fd.put 0x1e (t % 256)

def ProDOSFileDescriptor.SetType (fd : ProDOSFileDescriptor) (t : Nat) : ProDOSFileDescriptor :=
  fd.put 16 (t % 256)

def ProDOSFileDescriptor.SetIndexBlock (fd : ProDOSFileDescriptor) (b : Int) :
    ProDOSFileDescriptor :=
  (fd.put 17 (intByte (b % 256))).put 18 (intByte (Int.tdiv b 256))

def ProDOSFileDescriptor.SetTotalBlocks (fd : ProDOSFileDescriptor) (b : Int) :
    ProDOSFileDescriptor :=
  (fd.put 19 (intByte (b % 256))).put 20 (intByte (Int.tdiv b 256))

def ProDOSFileDescriptor.SetAuxType (fd : ProDOSFileDescriptor) (b : Int) :
    ProDOSFileDescriptor :=
  (fd.put 31 (intByte (b % 256))).put 32 (intByte (Int.tdiv b 256))

def ProDOSFileDescriptor.SetSize (fd : ProDOSFileDescriptor) (v : Nat) : ProDOSFileDescriptor :=
  ((fd.put 21 (v % 256)).put 22 ((v >>> 8) % 256)).put 23 ((v >>> 16) % 256)

def ProDOSFileDescriptor.SetHeaderPointer (fd : ProDOSFileDescriptor) (v : Int) :
    ProDOSFileDescriptor :=
  (fd.put 0x25 (intByte (v % 256))).put 0x26 (intByte ((v / 256) % 256))

/-- `PRODOSReadFileSectors`, the sapling loop
`for len(data) < fd.Size() && bptr+256 < len(index)`. -/
def saplingRead (fuel : Nat) (d : DSKWrapper) (index : List Nat) (size : Nat) (bptr : Nat)
    (data : List Nat) : Option (DSKWrapper × List Nat × Option String) :=
  match fuel with
  | 0 => some (d, data, none)
  | fuel + 1 =>
    if data.length < size ∧ bptr + 256 < index.length then
      let blocknum : Int := ((index.getD bptr 0 + 256 * index.getD (bptr + 256) 0 : Nat) : Int)
      match d.getBlockByFormat blocknum with
      | none => none
      | some (d1, _, some e) => some (d1, data, some e)
      | some (d1, chunk, none) =>
        let remaining := size - data.length
        let count := if remaining < 512 then remaining else 512
        saplingRead fuel d1 index size (bptr + 1) (data ++ chunk.take count)
    else some (d, data, none)

/-- `PRODOSReadFileSectors`. -/
def DSKWrapper.PRODOSReadFileSectors (d : DSKWrapper) (fd : ProDOSFileDescriptor) :
    Option (DSKWrapper × List Nat × Option String) :=
  if fd.GetStorageType = StorageType_Seedling then
    match d.getBlockByFormat fd.IndexBlock with
    | none => none
    | some (d1, data, _) => some (d1, data.take (min fd.Size data.length), none)
  else if fd.GetStorageType = StorageType_Sapling then
    match d.getBlockByFormat fd.IndexBlock with
    | none => none
    | some (d1, index, _) => saplingRead 256 d1 index fd.Size 0 []
  else if fd.GetStorageType = StorageType_Tree then
    some (d, [], some "Unimplemented yet... soz :(")
  else some (d, [], none)

/-- A blank entry: 39 zero bytes. -/
def blankEntry : ProDOSFileDescriptor :=
  { Data := List.replicate 39 0, blockid := 0, blockoffset := 0, entryNum := 0 }

/-- A sapling entry with index block 10 and a size of 1024 bytes. -/
def saplingEntry : ProDOSFileDescriptor :=
  ((blankEntry.SetStorageType StorageType_Sapling).SetIndexBlock 10).SetSize 1024

/-- Two blocks of file data: 512 bytes `0x11`, then 512 bytes `0x22`. -/
def twoBlockData : List Nat := List.replicate 512 0x11 ++ List.replicate 512 0x22

/-- A blank 143360-byte ProDOS image. -/
def blankProDOS : DSKWrapper :=
  mkWrapper (DSKContainer.zeros 143360) .DF_PRODOS .SectorOrderDOS33

/-! ## disk/diskimagepd.go: directories -/

/-- `PokeToAscii` of diskimage.go. -/
def PokeToAscii (v0 : Nat) (usealt : Bool) : Nat :=
  let highbit := v0 &&& 1024
  let v := v0 &&& 1023
  if v ≤ 31 then (64 + v % 32) ||| highbit
  else if 32 ≤ v ∧ v ≤ 63 then (32 + v % 32) ||| highbit
  else if 64 ≤ v ∧ v ≤ 95 then
    (if usealt then (128 + v % 32) ||| highbit else (64 + v % 32) ||| highbit)
  else if 96 ≤ v ∧ v ≤ 127 then
    (if usealt then (96 + v % 32) ||| highbit else (32 + v % 32) ||| highbit)
  else if 128 ≤ v ∧ v ≤ 159 then (64 + v % 32) ||| highbit
  else if 160 ≤ v ∧ v ≤ 191 then (32 + v % 32) ||| highbit
  else if 192 ≤ v ∧ v ≤ 223 then (64 + v % 32) ||| highbit
  else if 224 ≤ v ∧ v ≤ 255 then (96 + v % 32) ||| highbit
  else v ||| highbit

/-- The keys of `ProDOSTypeMap`. -/
def ProDOSTypeKeys : List Nat :=
  [0x00, 0x01, 0x02, 0x03, 0x04, 0x05, 0x06, 0x07, 0x08, 0x09, 0x0A, 0x0B, 0x0C, 0x0F, 0x10,
   0x11, 0x12, 0x13, 0x14, 0x15, 0x16, 0x19, 0x1A, 0x1B, 0x80, 0x81, 0x82, 0x83, 0x84, 0x85,
   0x86, 0x87, 0x89, 0x8B, 0x8C, 0x8D, 0xA0, 0xAB, 0xAC, 0xAD, 0x60, 0x6B, 0x66, 0x6D, 0x6E,
   0x6F, 0x50, 0x51, 0x52, 0x53, 0x54, 0x55, 0x56, 0x57, 0x58, 0x59, 0x5A, 0x5B, 0x5C, 0x5D,
   0x5E, 0x41, 0x42, 0x20, 0x21, 0x22, 0x29, 0x2A, 0x2B, 0x2C, 0x2D, 0x2E, 0xB0, 0xB1, 0xB2,
   0xB3, 0xB4, 0xB5, 0xB6, 0xB7, 0xB8, 0xB9, 0xBA, 0xBB, 0xBC, 0xBD, 0xBF, 0xC0, 0xC1, 0xC2,
   0xC3, 0xC5, 0xC6, 0xC7, 0xC8, 0xC9, 0xCA, 0xD5, 0xD6, 0xD7, 0xD8, 0xDB, 0xE0, 0xE2, 0xEE,
   0xEF, 0xF0, 0xF1, 0xF2, 0xF3, 0xF4, 0xF5, 0xF6, 0xF7, 0xF8, 0xF9, 0xFA, 0xFB, 0xFC, 0xFD,
   0xFE, 0xFF]

/-- `ProDOSFileType.Valid`. -/
def ProDOSTypeValid (t : Nat) : Bool := t != 0x00 && ProDOSTypeKeys.contains t

/-- `NameUnadorned`: the name characters through `PokeToAscii`, trimmed, in lower case. -/
def ProDOSFileDescriptor.NameUnadorned (fd : ProDOSFileDescriptor) : List Char :=
  toLowerASCII (trimChar ' '
    (((fd.Data.drop 1).take fd.GetNameLength).map fun v => Char.ofNat (PokeToAscii v false)))

/-- `Name`: `NameUnadorned` with the suffix of the file type. -/
def ProDOSFileDescriptor.Name (fd : ProDOSFileDescriptor) : List Char :=
  fd.NameUnadorned ++
    (if fd.Type = 0xfc then ".a".toList
     else if fd.Type = 0xfa then ".i".toList
     else if fd.Type = 0x06 then ".s".toList
     else if fd.Type = 0x04 then ".t".toList
     else if fd.Type = 0xff then ".s".toList
     else [])

/-- `SetName`: upper case, at most 15 bytes, stored as they are; the length goes into the
low nibble of byte 0. -/
def ProDOSFileDescriptor.SetName (fd : ProDOSFileDescriptor) (name : List Char) :
    ProDOSFileDescriptor :=
  let bytes := (stringBytes (toUpperASCII name)).take 15
  let fd1 : ProDOSFileDescriptor :=
    { fd with Data := fd.Data.take 1 ++ bytes ++ fd.Data.drop (1 + bytes.length) }
  fd1.put 0 ((fd1.b 0 &&& 0xf0) ||| bytes.length)

/-- A directory header (`VDH`): its 39 bytes and where they came from. -/
structure VDH where
  Data : List Nat
  blockid : Int
  blockoffset : Nat
  deriving DecidableEq, Repr

def VDH.b (v : VDH) (i : Nat) : Nat := v.Data.getD i 0

def VDH.GetStorageType (v : VDH) : Nat := v.b 0 >>> 4

def VDH.GetEntryLength (v : VDH) : Nat := v.b 31

def VDH.GetEntriesPerBlock (v : VDH) : Nat := v.b 32

def VDH.GetFileCount (v : VDH) : Nat := v.b 33 + 256 * v.b 34

def VDH.SetFileCount (v : VDH) (c : Int) : VDH :=
  { v with Data := (v.Data.set 33 (intByte (c % 256))).set 34 (intByte (Int.tdiv c 0x100)) }

def VDH.GetBitmapPointer (v : VDH) : Nat := v.b 35 + 256 * v.b 36

def VDH.GetTotalBlocks (v : VDH) : Nat := v.b 37 + 256 * v.b 38

/-- The stores `bd[off+i] = data[i]`; `none` is the index panic past the end of `bd`. -/
def overlay (bd : List Nat) (off : Nat) (data : List Nat) : Option (List Nat) :=
  if data = [] then some bd
  else if off + data.length ≤ bd.length then
    some (bd.take off ++ data ++ bd.drop (off + data.length))
  else none

/-- Common body of `VDH.Publish` and `ProDOSFileDescriptor.Publish`: read the block,
overlay the 39 bytes, write the block back. -/
def DSKWrapper.publishAt (d : DSKWrapper) (blockid : Int) (blockoffset : Nat)
    (data : List Nat) : Option (DSKWrapper × Option String) :=
  match d.PRODOSGetBlock blockid with
  | none => none
  | some (d1, _, some e) => some (d1, some e)
  | some (d1, bd, none) =>
    match overlay bd blockoffset data with
    | none => none
    | some bd1 => d1.PRODOSWrite blockid bd1

def VDH.Publish (v : VDH) (d : DSKWrapper) : Option (DSKWrapper × Option String) :=
  d.publishAt v.blockid v.blockoffset v.Data

def ProDOSFileDescriptor.Publish (fd : ProDOSFileDescriptor) (d : DSKWrapper) :
    Option (DSKWrapper × Option String) :=
  d.publishAt fd.blockid fd.blockoffset fd.Data

/-- The header `data[4:43]` of a directory block; `none` is the slice panic on a block that
is not 512 bytes. -/
def vdhOfBlock (data : List Nat) (b : Int) : Option VDH :=
  if 43 ≤ data.length then some { Data := (data.drop 4).take 39, blockid := b, blockoffset := 4 }
  else none

/-- `PRODOSGetVDH`: the header, or the error of the block read. -/
def DSKWrapper.PRODOSGetVDH (d : DSKWrapper) (b : Int) :
    Option (DSKWrapper × Except String VDH) :=
  match d.PRODOSGetBlock b with
  | none => none
  | some (d1, _, some e) => some (d1, .error e)
  | some (d1, data, none) =>
    match vdhOfBlock data b with
    | none => none
    | some v => some (d1, .ok v)

/-- `PRODOS800GetVDH`. -/
def DSKWrapper.PRODOS800GetVDH (d : DSKWrapper) (b : Int) :
    Option (DSKWrapper × Except String VDH) :=
  match d.PRODOS800GetBlock b with
  | none => none
  | some (d1, _, some e) => some (d1, .error e)
  | some (d1, data, none) =>
    match vdhOfBlock data b with
    | none => none
    | some v => some (d1, .ok v)

/-- `int(data[2]) + 256*int(data[3])`; `none` is the index panic on the nil slice that a
failed block read leaves behind. -/
def nextBlockOf (data : List Nat) : Option Int :=
  match data[2]?, data[3]? with
  | some lo, some hi => some ((lo + 256 * hi : Nat) : Int)
  | _, _ => none

/-- A compiled regular expression: the pattern text and the name to match.  The `regexp`
package is outside the repository and enters as this parameter. -/
abbrev RegexMatch := List Char → List Char → Bool

/-- `strings.Replace(s, string(c), with, -1)`. -/
def replaceChar (c : Char) (w : List Char) (s : List Char) : List Char :=
  s.flatMap fun x => if x = c then w else [x]

/-- The expression `PRODOSGetCatalog` and `AppleDOSGetCatalog` compile from a pattern. -/
def catalogPattern (pattern : List Char) : List Char :=
  "(?i)^".toList ++ replaceChar '*' ".*".toList (replaceChar '.' "[.]".toList pattern) ++
    "$".toList

/-- Bound on the iterations of the directory walks; `none` stands for a walk that is still
running when it is used up. -/
def dirWalkFuel : Nat := 2 ^ 40

/-- The loop `for activeentries < filecount` of `PRODOSGetCatalog`. -/
def catalogLoop (fuel : Nat) (re : RegexMatch) (pattern : List Char) (d : DSKWrapper)
    (filecount entriesperblock : Nat) (activeentries blockentries : Nat) (refnum nextblock : Int)
    (data : List Nat) (entrypointer : Nat) (files : List ProDOSFileDescriptor) :
    Option (DSKWrapper × List ProDOSFileDescriptor) :=
  match fuel with
  | 0 => none
  | fuel + 1 =>
    if activeentries < filecount then
      match data[entrypointer]? with
      | none => none
      | some b0 =>
        if b0 ≠ 0x00 ∧ entrypointer + PRODOS_ENTRY_SIZE > data.length then none
        else
          let fd : ProDOSFileDescriptor :=
            { Data := (data.drop entrypointer).take PRODOS_ENTRY_SIZE, blockid := refnum,
              blockoffset := entrypointer, entryNum := 0 }
          let skipname : Bool := pattern ≠ [] && !re (catalogPattern pattern) fd.Name
          let files1 :=
            if b0 ≠ 0x00 ∧ ProDOSTypeValid fd.Type ∧ fd.GetStorageType ≠ StorageType_Inactive ∧
                !skipname then files ++ [fd]
            else files
          let active1 := if b0 ≠ 0x00 then activeentries + 1 else activeentries
          if active1 < filecount then
            if blockentries = entriesperblock then
              match d.getBlockByFormat nextblock with
              | none => none
              | some (d1, _, some _) => some (d1, files1)
              | some (d1, data1, none) =>
                match nextBlockOf data1 with
                | none => none
                | some nb =>
                  catalogLoop fuel re pattern d1 filecount entriesperblock active1 0x01 nextblock
                    nb data1 0x04 files1
            else
              catalogLoop fuel re pattern d filecount entriesperblock active1 (blockentries + 1)
                refnum nextblock data (entrypointer + PRODOS_ENTRY_SIZE) files1
          else some (d, files1)
    else some (d, files)

/-- `PRODOSGetCatalog`: the header (nil on an error), the entries and the error. -/
def DSKWrapper.PRODOSGetCatalog (d : DSKWrapper) (re : RegexMatch) (startblock : Int)
    (pattern : List Char) :
    Option (DSKWrapper × Option VDH × List ProDOSFileDescriptor × Option String) :=
  match (if d.Format.ID = .DF_PRODOS_800KB then d.PRODOS800GetVDH startblock
      else d.PRODOSGetVDH startblock) with
  | none => none
  | some (d1, .error e) => some (d1, none, [], some e)
  | some (d1, .ok vtoc) =>
    match d1.getBlockByFormat startblock with
    | none => none
    | some (d2, data, _) =>
      match nextBlockOf data with
      | none => none
      | some nextblock =>
        match catalogLoop dirWalkFuel re pattern d2 vtoc.GetFileCount vtoc.GetEntriesPerBlock 0 2
            startblock nextblock data (4 + PRODOS_ENTRY_SIZE) [] with
        | none => none
        | some (d3, files) => some (d3, some vtoc, files, none)

/-- `strings.Split(path, "/")`: the segments between the slashes. -/
def splitSlash (path : List Char) : List (List Char) :=
  match path with
  | [] => [[]]
  | c :: rest =>
    match splitSlash rest with
    | [] => [[]]
    | seg :: more => if c = '/' then [] :: seg :: more else (c :: seg) :: more

/-- `strings.Join(parts, "/")`. -/
def joinSlash (parts : List (List Char)) : List Char :=
  match parts with
  | [] => []
  | [p] => p
  | p :: more => p ++ '/' :: joinSlash more

/-- `PRODOSGetCatalogPathed`; `fuel` bounds the number of path segments. -/
def DSKWrapper.PRODOSGetCatalogPathed (fuel : Nat) (d : DSKWrapper) (re : RegexMatch)
    (start : Int) (path0 : List Char) (pattern : List Char) :
    Option (DSKWrapper × Option VDH × List ProDOSFileDescriptor × Option String) :=
  match fuel with
  | 0 => none
  | fuel + 1 =>
    let path := trimChar '/' path0
    if path ≠ [] then
      match splitSlash (trimChar '/' path) with
      | [] => none
      | subdir :: parts =>
        match d.PRODOSGetCatalog re start subdir with
        | none => none
        | some (d1, vdh, files, some e) => some (d1, vdh, files, some e)
        | some (d1, vdh, files, none) =>
          match files with
          | [f] =>
            if f.Type ≠ FileType_PD_Directory then some (d1, vdh, files, some "Not a directory")
            else if parts.length > 0 then
              DSKWrapper.PRODOSGetCatalogPathed fuel d1 re f.IndexBlock (joinSlash parts) pattern
            else d1.PRODOSGetCatalog re f.IndexBlock pattern
          | _ => some (d1, vdh, files, none)
    else d.PRODOSGetCatalog re start pattern

/-- The loop `for nextBlock != 0` of `PRODOSGetDirBlocks`. -/
def dirBlocksLoop (fuel : Nat) (d : DSKWrapper) (nextBlock : Int) (blocks : List Int)
    (chunks : List (List Nat)) : Option (DSKWrapper × List Int × List (List Nat)) :=
  match fuel with
  | 0 => none
  | fuel + 1 =>
    if nextBlock ≠ 0 then
      match d.PRODOSGetBlock nextBlock with
      | none => none
      | some (d1, data, _) =>
        match nextBlockOf data with
        | none => none
        | some nb => dirBlocksLoop fuel d1 nb (blocks ++ [nextBlock]) (chunks ++ [data])
    else some (d, blocks, chunks)

/-- `PRODOSGetDirBlocks`: header, block numbers and block contents of a directory. -/
def DSKWrapper.PRODOSGetDirBlocks (d : DSKWrapper) (start : Int) :
    Option (DSKWrapper × Except String (VDH × List Int × List (List Nat))) :=
  match d.PRODOSGetVDH start with
  | none => none
  | some (d1, .error e) => some (d1, .error e)
  | some (d1, .ok vdh) =>
    match d1.PRODOSGetBlock start with
    | none => none
    | some (d2, data, _) =>
      match nextBlockOf data with
      | none => none
      | some nb =>
        match dirBlocksLoop dirWalkFuel d2 nb [start] [data] with
        | none => none
        | some (d3, blocks, chunks) => some (d3, .ok (vdh, blocks, chunks))

/-- The first directory entry of `files` named `target`, compared in lower case. -/
def findDirEntry (files : List ProDOSFileDescriptor) (target : List Char) :
    Option ProDOSFileDescriptor :=
  files.find? fun f =>
    f.Type == FileType_PD_Directory && toLowerASCII target == toLowerASCII f.NameUnadorned

/-- `PRODOSFindDirBlocks`; `fuel` bounds the number of path segments. -/
def DSKWrapper.PRODOSFindDirBlocks (fuel : Nat) (d : DSKWrapper) (re : RegexMatch)
    (start : Int) (path0 : List Char) :
    Option (DSKWrapper × Except String (VDH × List Int × List (List Nat))) :=
  match fuel with
  | 0 => none
  | fuel + 1 =>
    let path := trimChar '/' path0
    if path = [] then d.PRODOSGetDirBlocks start
    else
      match splitSlash path with
      | [] => none
      | target :: segments =>
        match d.PRODOSGetCatalog re start [] with
        | none => none
        | some (d1, _, _, some e) => some (d1, .error e)
        | some (d1, _, files, none) =>
          match findDirEntry files target with
          | some f => DSKWrapper.PRODOSFindDirBlocks fuel d1 re f.IndexBlock (joinSlash segments)
          | none => some (d1, .error "Path not found")

/-- Number of path segments a call can descend: one more than the length of the path. -/
def pathFuel (path : List Char) : Nat := path.length + 2

/-! ## disk/diskimagepd.go: volume bitmap, stamps, entries by name -/

/-- The volume bitmap (`ProDOSVolumeBitmap`): a copy of the bitmap block. -/
structure ProDOSVolumeBitmap where
  Data : List Nat
  blockid : Int

/-- `IsBlockFree`; `none` is the index panic past the bitmap block. -/
def ProDOSVolumeBitmap.IsBlockFree (vb : ProDOSVolumeBitmap) (b : Nat) : Option Bool :=
  let bidx := b / 8
  let bit := 7 - (b % 8)
  let mask := (1 <<< bit) % 256
  match vb.Data[bidx]? with
  | none => none
  | some v => some (v &&& mask == mask)

/-- `SetBlockFree`; `none` is the index panic past the bitmap block. -/
def ProDOSVolumeBitmap.SetBlockFree (vb : ProDOSVolumeBitmap) (b : Nat) (free : Bool) :
    Option ProDOSVolumeBitmap :=
  let bidx := b / 8
  let bit := 7 - (b % 8)
  let setmask := (1 <<< bit) % 256
  let clrmask := 0xff ^^^ setmask
  match vb.Data[bidx]? with
  | none => none
  | some v =>
    some { vb with Data := vb.Data.set bidx (if free then v ||| setmask else v &&& clrmask) }

/-- `PRODOSGetVolumeBitmap`. -/
def DSKWrapper.PRODOSGetVolumeBitmap (d : DSKWrapper) :
    Option (DSKWrapper × Except String ProDOSVolumeBitmap) :=
  match d.PRODOSGetVDH 2 with
  | none => none
  | some (d1, .error e) => some (d1, .error e)
  | some (d1, .ok vdh) =>
    match d1.PRODOSGetBlock vdh.GetBitmapPointer with
    | none => none
    | some (d2, _, some e) => some (d2, .error e)
    | some (d2, data, none) => some (d2, .ok { Data := data, blockid := vdh.GetBitmapPointer })

/-- The loop of `PRODOSMarkBlocks` over the block list. -/
def markLoop (vb : ProDOSVolumeBitmap) (list : List Nat) (free : Bool) :
    Option ProDOSVolumeBitmap :=
  match list with
  | [] => some vb
  | b :: rest =>
    match vb.SetBlockFree b free with
    | none => none
    | some vb1 => markLoop vb1 rest free

/-- `PRODOSMarkBlocks`. -/
def DSKWrapper.PRODOSMarkBlocks (d : DSKWrapper) (list : List Nat) (free : Bool) :
    Option (DSKWrapper × Option String) :=
  match d.PRODOSGetVolumeBitmap with
  | none => none
  | some (d1, .error e) => some (d1, some e)
  | some (d1, .ok vbm) =>
    match markLoop vbm list free with
    | none => none
    | some vbm1 => d1.PRODOSWrite vbm1.blockid vbm1.Data

/-- The loop `for b < totalBlocks && len(blocks) < count` of `PRODOSGetFreeBlocks`; `n` is
the number of blocks still to look at. -/
def freeBlocksLoop (n : Nat) (vbm : ProDOSVolumeBitmap) (b : Nat) (count : Nat)
    (blocks : List Nat) : Option (List Nat) :=
  match n with
  | 0 => some blocks
  | n + 1 =>
    if blocks.length < count then
      match vbm.IsBlockFree b with
      | none => none
      | some true => freeBlocksLoop n vbm (b + 1) count (blocks ++ [b])
      | some false => freeBlocksLoop n vbm (b + 1) count blocks
    else some blocks

/-- `PRODOSGetFreeBlocks`: the blocks found and the error. -/
def DSKWrapper.PRODOSGetFreeBlocks (d : DSKWrapper) (count : Nat) (totalBlocks : Nat) :
    Option (DSKWrapper × List Nat × Option String) :=
  match d.PRODOSGetVolumeBitmap with
  | none => none
  | some (d1, .error e) => some (d1, [], some e)
  | some (d1, .ok vbm) =>
    match freeBlocksLoop totalBlocks vbm 0 count [] with
    | none => none
    | some blocks =>
      if blocks.length = count then some (d1, blocks, none)
      else some (d1, blocks, some "Not enough blocks")

/-- A `time.Time` as the codec uses it: the calendar fields in the local zone, normalized.
The zone (`time.Local`) is taken to have no clock changes, and the clock is not set before
the year 1900. -/
structure GoTime where
  year : Nat
  month : Nat
  day : Nat
  hour : Nat
  minute : Nat
  deriving DecidableEq, Repr

/-- Days from 1970-01-01 to the given day of the proleptic Gregorian calendar; `d` may be
any integer. -/
def daysFromCivil (y0 : Int) (m : Int) (d : Int) : Int :=
  let y := if m ≤ 2 then y0 - 1 else y0
  let era := y / 400
  let yoe := y - era * 400
  let doy := (153 * (m + (if m > 2 then -3 else 9)) + 2) / 5 + d - 1
  let doe := yoe * 365 + yoe / 4 - yoe / 100 + doy
  era * 146097 + doe - 719468

/-- The calendar day that lies `z` days after 1970-01-01. -/
def civilFromDays (z0 : Int) : Int × Int × Int :=
  let z := z0 + 719468
  let era := z / 146097
  let doe := z - era * 146097
  let yoe := (doe - doe / 1460 + doe / 36524 - doe / 146096) / 365
  let y := yoe + era * 400
  let doy := doe - (365 * yoe + yoe / 4 - yoe / 100)
  let mp := (5 * doy + 2) / 153
  let d := doy - (153 * mp + 2) / 5 + 1
  let m := if mp < 10 then mp + 3 else mp - 9
  (if m ≤ 2 then y + 1 else y, m, d)

/-- `time.Date(year, month, day, hour, min, 0, 0, time.Local)` of the Go library, read
back through the field methods, in a zone whose offset does not change near that time:
values outside their usual ranges are normalized (month 0 is December of the year before,
day 0 the last day of the month before, hour 24 the next day).  The zone itself is modelled
by `goDateIn` and `goClock`, which agree with this function away from a clock change
(`goClock_goDateIn`). -/
def goDate (year month day hour min : Int) : GoTime :=
  let h1 := hour + min / 60
  let mi := min % 60
  let d1 := day + h1 / 24
  let h := h1 % 24
  let y1 := year + (month - 1) / 12
  let mo := (month - 1) % 12 + 1
  let c := civilFromDays (daysFromCivil y1 mo 1 + (d1 - 1))
  { year := c.1.toNat, month := c.2.1.toNat, day := c.2.2.toNat, hour := h.toNat,
    minute := mi.toNat }

/-- `prodosStampBytesToTime` in a zone without clock changes (see `goDate`);
`prodosStampBytesToTimeIn` takes the zone as a parameter. -/
def prodosStampBytesToTime (b : List Nat) : GoTime :=
  let dbits := (b.getD 1 0 <<< 8) ||| b.getD 0 0
  let day := dbits &&& 31
  let month := (dbits >>> 5) &&& 15
  let year := (dbits >>> 9) &&& 127
  let tbits := (b.getD 3 0 <<< 8) ||| b.getD 2 0
  let mins := tbits &&& 63
  let hours := tbits >>> 8
  let year1 := if year < 70 then year + 100 else year
  goDate ((year1 + 1900 : Nat) : Int) (month : Nat) (day : Nat) (hours : Nat) (mins : Nat)

/-- `timeToProdosStampBytes`. -/
def timeToProdosStampBytes (t : GoTime) : List Nat :=
  let year0 := t.year - 1900
  let year := if year0 > 99 then year0 - 100 else year0
  let dbits := (year <<< 9) ||| (t.month <<< 5) ||| t.day
  let tbits := (t.hour <<< 8) ||| t.minute
  [(dbits &&& 0xff) % 256, (dbits >>> 8) % 256, (tbits &&& 0xff) % 256, (tbits >>> 8) % 256]

def ProDOSFileDescriptor.CreateTime (fd : ProDOSFileDescriptor) : GoTime :=
  prodosStampBytesToTime ((fd.Data.drop 0x18).take 4)

/-- The stores `fd.Data[off+i] = b[i]` of the four stamp bytes. -/
def ProDOSFileDescriptor.putStamp (fd : ProDOSFileDescriptor) (off : Nat) (b : List Nat) :
    ProDOSFileDescriptor :=
  (((fd.put off (b.getD 0 0)).put (off + 1) (b.getD 1 0)).put (off + 2) (b.getD 2 0)).put
    (off + 3) (b.getD 3 0)

def ProDOSFileDescriptor.SetCreateTime (fd : ProDOSFileDescriptor) (t : GoTime) :
    ProDOSFileDescriptor :=
  fd.putStamp 0x18 (timeToProdosStampBytes t)

def ProDOSFileDescriptor.SetModTime (fd : ProDOSFileDescriptor) (t : GoTime) :
    ProDOSFileDescriptor :=
  fd.putStamp 0x21 (timeToProdosStampBytes t)

/-- The inner loop `for count < vdh.GetEntriesPerBlock()` shared by `PRODOSGetNamedEntry`
(`orFree = false`) and `PRODOSGetFirstFreeEntry` (`orFree = true`) on one directory block:
the entry found, or the value of `entries` after the block.  `none` is the slice panic past
the block. -/
def entryScan (n : Nat) (data : List Nat) (block : Int) (name : List Char) (orFree : Bool)
    (count : Nat) (entries : Int) : Option (Except Int ProDOSFileDescriptor) :=
  match n with
  | 0 => some (.error entries)
  | n + 1 =>
    let offset := 4 + count * PRODOS_ENTRY_SIZE
    if offset + PRODOS_ENTRY_SIZE > data.length then none
    else
      let fd : ProDOSFileDescriptor :=
        { Data := (data.drop offset).take PRODOS_ENTRY_SIZE, blockid := block,
          blockoffset := offset, entryNum := entries }
      if fd.GetStorageType ≠ 0x00 ∧ toLowerASCII fd.NameUnadorned = toLowerASCII name then
        some (.ok fd)
      else if orFree ∧ fd.GetStorageType = 0x00 then some (.ok fd)
      else entryScan n data block name orFree (count + 1) (entries + 1)

/-- The outer loop `for idx, data := range blockData` of the two lookups. -/
def entryScanBlocks (epb : Nat) (blockList : List Int) (blockData : List (List Nat))
    (name : List Char) (orFree : Bool) (idx : Nat) (entries : Int) :
    Option (Except Int ProDOSFileDescriptor) :=
  match blockList, blockData with
  | block :: bl, data :: bd =>
    let count := if idx = 0 then 1 else 0
    let entries1 := if idx = 0 then 1 else entries
    match entryScan (epb - count) data block name orFree count entries1 with
    | none => none
    | some (.ok fd) => some (.ok fd)
    | some (.error e) => entryScanBlocks epb bl bd name orFree (idx + 1) e
  | _, _ => some (.error entries)

/-- `PRODOSGetNamedEntry`. -/
def DSKWrapper.PRODOSGetNamedEntry (d : DSKWrapper) (re : RegexMatch) (path name : List Char) :
    Option (DSKWrapper × Except String ProDOSFileDescriptor) :=
  match DSKWrapper.PRODOSFindDirBlocks (pathFuel path) d re 2 path with
  | none => none
  | some (d1, .error e) => some (d1, .error e)
  | some (d1, .ok (vdh, blockList, blockData)) =>
    match entryScanBlocks vdh.GetEntriesPerBlock blockList blockData name false 0 0 with
    | none => none
    | some (.ok fd) => some (d1, .ok fd)
    | some (.error _) => some (d1, .error "Not found")

/-- `PRODOSGetFirstFreeEntry`.  When the directory is full and `grow` is set, the entry is
cut from a free block that is marked used but not linked into the directory. -/
def DSKWrapper.PRODOSGetFirstFreeEntry (d : DSKWrapper) (re : RegexMatch) (path name : List Char)
    (grow : Bool) : Option (DSKWrapper × Except String ProDOSFileDescriptor) :=
  match DSKWrapper.PRODOSFindDirBlocks (pathFuel path) d re 2 path with
  | none => none
  | some (d1, .error e) => some (d1, .error e)
  | some (d1, .ok (vdh, blockList, blockData)) =>
    match entryScanBlocks vdh.GetEntriesPerBlock blockList blockData name true 0 0 with
    | none => none
    | some (.ok fd) => some (d1, .ok fd)
    | some (.error entries) =>
      if !grow then some (d1, .error "No free slot: told not to grow directory")
      else
        match d1.PRODOSGetFreeBlocks 1 vdh.GetTotalBlocks with
        | none => none
        | some (d2, _, some _) => some (d2, .error "Could not extend directory")
        | some (d2, freeBlocks, none) =>
          match freeBlocks.head?, blockList.getLast? with
          | some fb, some prevBlock =>
            match d2.PRODOSGetBlock fb with
            | none => none
            | some (d3, data, _) =>
              if data.length < 43 then none
              else
                let data1 := (data.set 0 (intByte (prevBlock % 256))).set 1
                  (intByte (Int.tdiv prevBlock 0x100))
                let fd : ProDOSFileDescriptor :=
                  { Data := (data1.drop 4).take PRODOS_ENTRY_SIZE, blockid := fb,
                    blockoffset := 4, entryNum := entries }
                match d3.PRODOSMarkBlocks freeBlocks false with
                | none => none
                | some (d4, _) => some (d4, .ok fd)
          | _, _ => none

/-! ## disk/diskimagepd.go: delete and write -/

/-- `PRODOSDeleteFile` (`asDirectory = false`) and `PRODOSDeleteDirectory`
(`asDirectory = true`), which call each other; `fuel` bounds the depth of the calls. -/
def prodosDelete (fuel : Nat) (asDirectory : Bool) (d : DSKWrapper) (re : RegexMatch)
    (path name : List Char) : Option (DSKWrapper × Option String) :=
  match fuel with
  | 0 => none
  | fuel + 1 =>
    match d.PRODOSGetNamedEntry re path name with
    | none => none
    | some (d1, .error e) => some (d1, some e)
    | some (d1, .ok fd) =>
      if !asDirectory then
        if fd.GetStorageType = 0x00 then some (d1, some "Not found")
        else if fd.AccessMode &&& AccessType_Destroy = 0 then some (d1, some "Permission denied")
        else if fd.AccessMode &&& AccessType_Writable = 0 then some (d1, some "Read-only file")
        else if fd.GetStorageType ≠ StorageType_Sapling ∧
            fd.GetStorageType ≠ StorageType_Seedling ∧
            fd.GetStorageType ≠ StorageType_SubDir_File then
          some (d1, some "Special file deletion not implemented: yet.")
        else if fd.GetStorageType = StorageType_SubDir_File then
          prodosDelete fuel true d1 re path name
        else
          -- seedling or sapling: only the index block enters `removeBlocks`
          match (if fd.GetStorageType = StorageType_Sapling then d1.PRODOSGetBlock fd.IndexBlock
              else some (d1, [], none)) with
          | none => none
          | some (d2, _, some e) => some (d2, some e)
          | some (d2, _, none) =>
            match d2.PRODOSMarkBlocks [fd.IndexBlock.toNat] true with
            | none => none
            | some (d3, some e) => some (d3, some e)
            | some (d3, none) =>
              match DSKWrapper.PRODOSFindDirBlocks (pathFuel path) d3 re 2 path with
              | none => none
              | some (d4, .error e) => some (d4, some e)
              | some (d4, .ok (vdh, _, _)) =>
                match (fd.SetStorageType StorageType_Inactive).Publish d4 with
                | none => none
                | some (d5, some e) => some (d5, some e)
                | some (d5, none) =>
                  (vdh.SetFileCount ((vdh.GetFileCount : Int) - 1)).Publish d5
      else
        if fd.GetStorageType = 0x00 then some (d1, some "Path not found")
        else if fd.Type ≠ FileType_PD_Directory then some (d1, some "Not a directory")
        else
          match d1.PRODOSGetCatalog re fd.IndexBlock "*".toList with
          | none => none
          | some (d2, _, _, some e) => some (d2, some e)
          | some (d2, _, files, none) =>
            let sub := path ++ "/".toList ++ name
            let step (acc : Option (DSKWrapper × Option String)) (subfile : ProDOSFileDescriptor) :
                Option (DSKWrapper × Option String) :=
              match acc with
              | none => none
              | some (dd, some e) => some (dd, some e)
              | some (dd, none) =>
                if subfile.GetStorageType = StorageType_SubDir_File then
                  prodosDelete fuel true dd re sub subfile.NameUnadorned
                else if subfile.GetStorageType = StorageType_Tree then
                  some (dd, some "Tree file handling not supported currently")
                else prodosDelete fuel false dd re sub subfile.NameUnadorned
            match files.foldl step (some (d2, none)) with
            | none => none
            | some (d3, some e) => some (d3, some e)
            | some (d3, none) =>
              match d3.PRODOSGetCatalog re fd.IndexBlock "*".toList with
              | none => none
              | some (d4, _, _, some e) => some (d4, some e)
              | some (d4, _, files2, none) =>
                if files2.length > 0 then some (d4, some "Could not delete all subfiles")
                else
                  match DSKWrapper.PRODOSFindDirBlocks (pathFuel sub) d4 re 2 sub with
                  | none => none
                  | some (d5, .error e) => some (d5, some e)
                  | some (d5, .ok (_, dirBlocks, _)) =>
                    match d5.PRODOSMarkBlocks (dirBlocks.map Int.toNat) true with
                    | none => none
                    | some (d6, some e) => some (d6, some e)
                    | some (d6, none) =>
                      match (fd.SetStorageType StorageType_Inactive).Publish d6 with
                      | none => none
                      | some (d7, some e) => some (d7, some e)
                      | some (d7, none) =>
                        match DSKWrapper.PRODOSFindDirBlocks (pathFuel path) d7 re 2 path with
                        | none => none
                        | some (d8, .error e) => some (d8, some e)
                        | some (d8, .ok (tvdh, _, _)) =>
                          (tvdh.SetFileCount ((tvdh.GetFileCount : Int) - 1)).Publish d8

/-- `PRODOSDeleteFile`.  Directories nest at most as deep as there are blocks. -/
def DSKWrapper.PRODOSDeleteFile (d : DSKWrapper) (re : RegexMatch) (path name : List Char) :
    Option (DSKWrapper × Option String) :=
  prodosDelete 65536 false d re path name

/-- `PRODOSWriteFile`; `now1` and `now2` are the two readings of `time.Now()`.  `origTime`
is `none` for the zero `time.Time`: a stamp read from an entry is never year 1.  The Go test
`else if blocksNeeded > 256` hangs on the else of `if blocksNeeded > 1`, where it never
holds, so it has no counterpart here. -/
def DSKWrapper.PRODOSWriteFile (d : DSKWrapper) (re : RegexMatch) (now1 now2 : GoTime)
    (path name0 : List Char) (kind : Nat) (data : List Nat) (auxtype : Int) :
    Option (DSKWrapper × Option String) :=
  let name := toUpperASCII name0
  let blocksNeeded := data.length / 512 + 1
  let nst := if blocksNeeded > 1 then StorageType_Sapling else StorageType_Seedling
  let totalBlocks := if blocksNeeded > 1 then blocksNeeded + 1 else blocksNeeded
  -- the existing entry is deleted, or a free entry is looked up
  let found : Option (DSKWrapper × Except String
      (ProDOSFileDescriptor × Option GoTime × Nat)) :=
    match d.PRODOSGetNamedEntry re path name with
    | none => none
    | some (d1, .ok fd) =>
      match d1.PRODOSDeleteFile re path name with
      | none => none
      | some (d2, some e) => some (d2, .error e)
      | some (d2, none) => some (d2, .ok (fd, some fd.CreateTime, fd.AccessMode))
    | some (d1, .error _) =>
      match d1.PRODOSGetFirstFreeEntry re path name true with
      | none => none
      | some (d2, .error e) => some (d2, .error e)
      | some (d2, .ok fd) => some (d2, .ok (fd, none, 0x00))
  match found with
  | none => none
  | some (d2, .error e) => some (d2, some e)
  | some (d2, .ok (fd, origTime, origAccess)) =>
    match d2.PRODOSGetVDH 2 with
    | none => none
    | some (d3, .error e) => some (d3, some e)
    | some (d3, .ok vdh) =>
      match d3.PRODOSGetFreeBlocks totalBlocks vdh.GetTotalBlocks with
      | none => none
      | some (d4, _, some e) => some (d4, some e)
      | some (d4, freeBlocks, none) =>
        match freeBlocks with
        | [] => none
        | fb0 :: fbRest =>
          match (if nst = StorageType_Sapling then
              d4.PRODOSWriteSaplingBlocks (fb0 : Int) (fbRest.map Int.ofNat) data
            else d4.PRODOSWrite (fb0 : Int) data) with
          | none => none
          | some (d5, some e) => some (d5, some e)
          | some (d5, none) =>
            match DSKWrapper.PRODOSFindDirBlocks (pathFuel path) d5 re 2 path with
            | none => none
            | some (d6, .error e) => some (d6, some e)
            | some (d6, .ok (dvdh, blocks, _)) =>
              match blocks.head? with
              | none => none
              | some block0 =>
                let fd1 := ((((((fd.SetAuxType auxtype).SetName name).SetType kind).SetTotalBlocks
                  totalBlocks).SetIndexBlock fb0).SetSize data.length).SetStorageType nst
                let fd2 := if origAccess = 0x00 then fd1.SetAccessMode AccessType_Default
                  else fd1.SetAccessMode origAccess
                let fd3 := match origTime with
                  | none => fd2.SetCreateTime now1
                  | some t => fd2.SetCreateTime t
                let fd4 := (fd3.SetModTime now2).SetHeaderPointer block0
                match fd4.Publish d6 with
                | none => none
                | some (d7, _) =>
                  match (dvdh.SetFileCount ((vdh.GetFileCount : Int) + 1)).Publish d7 with
                  | none => none
                  | some (d8, _) =>
                    match d8.PRODOSMarkBlocks freeBlocks false with
                    | none => none
                    | some (d9, some e) => some (d9, some e)
                    | some (d9, none) => some (d9, none)

/-! ## ProDOS test images -/

/-- The blank ProDOS image with the given 512-byte blocks written by `PRODOSWrite`. -/
def buildProDOS (blocks : List (Int × List Nat)) : DSKWrapper :=
  blocks.foldl (fun d b =>
    match d.PRODOSWrite b.1 b.2 with
    | some (d1, _) => d1
    | none => d) blankProDOS

/-- The 39 bytes of a volume header named `TEST`: entry length 39, 13 entries per block,
the given file count, bitmap in block 6, 280 blocks. -/
def testVolumeHeader (fileCount : Nat) : List Nat :=
  [0xF4, 0x54, 0x45, 0x53, 0x54] ++ List.replicate 25 0 ++
    [0xC3, 39, 13, fileCount, 0, 6, 0, 0x18, 0x01]

/-- The 39 bytes of a seedling entry named `A`: type BIN, data in block 7, 3 bytes long,
create stamp `00 00 00 00` (no date), access `0xC3` (unlocked). -/
def testEntryA : List Nat :=
  [0x11, 0x41] ++ List.replicate 14 0 ++ [0x06, 7, 0, 1, 0, 3, 0, 0] ++ [0, 0, 0, 0] ++
    [0, 0, 0xC3, 0, 0] ++ [0, 0, 0, 0] ++ [2, 0]

/-- A volume directory block (block 2, no further directory block) holding the file `A`. -/
def testDirBlock : List Nat :=
  [0, 0, 0, 0] ++ testVolumeHeader 1 ++ testEntryA

/-- A ProDOS volume with the one file `A`; blocks 0 to 7 are in use, blocks 8 to 279 are
free in the volume bitmap of block 6. -/
def volumeWithA : DSKWrapper :=
  buildProDOS [(2, testDirBlock), (6, [0x00] ++ List.replicate 34 0xFF), (7, [1, 2, 3])]

/-- The same volume with no free block in the volume bitmap. -/
def fullVolumeWithA : DSKWrapper :=
  buildProDOS [(2, testDirBlock), (6, []), (7, [1, 2, 3])]

/-- A matcher for the expressions the catalog functions compile from a plain name or from
`*`: `(?i)^.*$` matches every name without a line feed, `(?i)^name$` the name itself in
any case. -/
def plainRegex : RegexMatch := fun pat name =>
  if pat = "(?i)^.*$".toList then !name.contains '\n'
  else ("(?i)^".toList ++ toLowerASCII name ++ "$".toList) == toLowerASCII pat ||
    ("(?i)^".toList ++ toUpperASCII name ++ "$".toList) == toUpperASCII pat

/-- The clock readings used in the evaluations: 2024-01-01 12:00. -/
def testNow : GoTime := { year := 2024, month := 1, day := 1, hour := 12, minute := 0 }

/-! ## disk/diskimageappledos.go: VTOC, catalog, write and delete -/

/-- The Go struct `VTOC`: a copy of the 256 bytes of the sector and its position. -/
structure VTOC where
  Data : List Nat
  t : Int
  s : Int
  deriving DecidableEq, Repr

def VTOC.b (v : VTOC) (i : Nat) : Nat := v.Data.getD i 0

def VTOC.GetCatalogStart (v : VTOC) : Int × Int := ((v.b 1 : Nat), (v.b 2 : Nat))

def VTOC.GetMaxTSPairsPerSector (v : VTOC) : Nat := v.b 0x27

def VTOC.GetTracks (v : VTOC) : Nat := v.b 0x34

def VTOC.GetSectors (v : VTOC) : Nat := v.b 0x35

/-- The index `0x38 + t*4`, plus one when `s < 8`, of the bitmap byte of a sector. -/
def tsOffset (t s : Int) : Int := 0x38 + t * 4 + (if s < 8 then 1 else 0)

/-- `byte(1 << uint(s & 0x7))`. -/
def tsMask (s : Int) : Nat := 1 <<< (s % 8).toNat

/-- `IsTSFree`; `none` is the index panic outside the 256 bytes. -/
def VTOC.IsTSFree (v : VTOC) (t s : Int) : Option Bool :=
  if 0 ≤ tsOffset t s ∧ tsOffset t s < 256 then
    some (v.b (tsOffset t s).toNat &&& tsMask s != 0)
  else none

/-- `SetTSFree`; `none` is the index panic outside the 256 bytes. -/
def VTOC.SetTSFree (v : VTOC) (t s : Int) (b : Bool) : Option VTOC :=
  if 0 ≤ tsOffset t s ∧ tsOffset t s < 256 then
    let old := v.b (tsOffset t s).toNat
    let new := if b then old ||| tsMask s else old &&& (0xff ^^^ tsMask s)
    some { v with Data := v.Data.set (tsOffset t s).toNat new }
  else none

/-- `AppleDOSGetVTOC`: a copy of the sector at track 17, sector 0. -/
def DSKWrapper.AppleDOSGetVTOC (d : DSKWrapper) : Option (DSKWrapper × Except String VTOC) :=
  match d.Seek 17 0 with
  | (d1, some e) => some (d1, .error e)
  | (d1, none) =>
    match d1.Read with
    | none => none
    | some data => some (d1, .ok { Data := data, t := 17, s := 0 })

/-- `VTOC.Publish`. -/
def VTOC.Publish (v : VTOC) (d : DSKWrapper) : Option (DSKWrapper × Option String) :=
  match d.Seek v.t v.s with
  | (d1, some e) => some (d1, some e)
  | (d1, none) =>
    match d1.Write v.Data with
    | none => none
    | some d2 => some (d2, none)

/-- The 30 name bytes `Data[0x03:0x21]` through `PokeToAscii`. -/
def FileDescriptor.rawName (fd : FileDescriptor) (d : DSKWrapper) : List Char :=
  (List.range 30).map fun i => Char.ofNat (PokeToAscii (fd.DataAt d (0x03 + i)) false)

def FileDescriptor.NameUnadorned (fd : FileDescriptor) (d : DSKWrapper) : List Char :=
  toLowerASCII (trimChar ' ' (fd.rawName d))

def FileDescriptor.Name (fd : FileDescriptor) (d : DSKWrapper) : List Char :=
  fd.NameUnadorned d ++
    (if fd.Type d = FileTypeAPP then ".a".toList
     else if fd.Type d = FileTypeINT then ".i".toList
     else if fd.Type d = FileTypeBIN then ".s".toList
     else if fd.Type d = FileTypeTXT then ".t".toList
     else [])

/-- The store `fd.Data[i] = v`, which lands in the image. -/
def FileDescriptor.put (fd : FileDescriptor) (d : DSKWrapper) (i v : Nat) : DSKWrapper :=
  { d with Data := d.Data.store (fd.ptr + i) [v] }

def AsciiToPoke (b : Nat) : Nat := (if b < 32 ∨ b > 127 then 32 else b) ||| 128

/-- The 30 name bytes `SetName` stores: `AsciiToPoke` of the first 30 bytes, then `0xA0`. -/
def nameBytes (s : List Char) : List Nat :=
  let b := ((stringBytes s).take 30).map AsciiToPoke
  b ++ List.replicate (30 - b.length) 0xa0

def FileDescriptor.SetName (fd : FileDescriptor) (d : DSKWrapper) (s : List Char) : DSKWrapper :=
  { d with Data := d.Data.store (fd.ptr + 0x03) (nameBytes s) }

def FileDescriptor.SetTrackSectorListStart (fd : FileDescriptor) (d : DSKWrapper) (t s : Int) :
    DSKWrapper :=
  fd.put (fd.put d 0 (intByte t)) 1 (intByte s)

def FileDescriptor.SetType (fd : FileDescriptor) (d : DSKWrapper) (t : Nat) : DSKWrapper :=
  fd.put d 0x02 (t % 256)

def FileDescriptor.SetTotalSectors (fd : FileDescriptor) (d : DSKWrapper) (v : Nat) : DSKWrapper :=
  fd.put (fd.put d 0x21 (v % 256)) 0x22 ((v / 0x100) % 256)

/-- `FileDescriptor.Publish`: copy the entry into the sector it came from and write the
sector; both copies move bytes of the image onto the image. -/
def FileDescriptor.Publish (fd : FileDescriptor) (d : DSKWrapper) :
    Option (DSKWrapper × Option String) :=
  match d.Seek fd.trackid fd.sectorid with
  | (d1, some e) => some (d1, some e)
  | (d1, none) =>
    if ¬ (0 ≤ d1.SectorPointer ∧ d1.SectorPointer + 256 ≤ (d1.Data.size : Int)) then none
    else if fd.sectoroffset < 0 ∨ fd.sectoroffset + 35 > 256 then none
    else
      let entry := d1.Data.slice fd.ptr 35
      let d2 : DSKWrapper :=
        { d1 with Data := d1.Data.store (d1.SectorPointer.toNat + fd.sectoroffset.toNat) entry }
      match d2.Read with
      | none => none
      | some block =>
        match d2.Write block with
        | none => none
        | some d3 => some (d3, none)

/-- The entry in slot `count % 7` of the catalog sector whose window starts at `base`. -/
def catalogEntry (base : Nat) (ct cs : Int) (count : Nat) : FileDescriptor :=
  { ptr := base + (0x0b + 35 * (count % 7)), trackid := ct, sectorid := cs,
    sectoroffset := ((0x0b + 35 * (count % 7) : Nat) : Int) }

/-- `fd.Data[0] != 0xff && fd.Data[0] != 0x00 && fd.Type().String() != "Unknown"`. -/
def FileDescriptor.listed (fd : FileDescriptor) (d : DSKWrapper) : Bool :=
  fd.DataAt d 0 != 0xff && fd.DataAt d 0 != 0x00 && FileTypeKnown (fd.Type d)

/-- The loop `for e == nil && count < 105` of `AppleDOSGetCatalog`; `n` is `105 - count`
and `base` the start of the window `data` in the image. -/
def catalogWalk (n : Nat) (re : RegexMatch) (pattern : List Char) (d : DSKWrapper) (base : Nat)
    (ct cs : Int) (count : Nat) (files : List FileDescriptor) :
    Option (DSKWrapper × List FileDescriptor × Option String) :=
  match n with
  | 0 => some (d, files, none)
  | n + 1 =>
    let fd := catalogEntry base ct cs count
    let skipname : Bool := pattern ≠ [] && !re (catalogPattern pattern) (fd.Name d)
    let files1 := if fd.listed d && !skipname then files ++ [fd] else files
    if (count + 1) % 7 = 0 then
      let ct1 : Int := (d.Data.byte (base + 1) : Nat)
      let cs1 : Int := (d.Data.byte (base + 2) : Nat)
      if ct1 = 0 then some (d, files1, none)
      else
        match d.Seek ct1 cs1 with
        | (d1, some e) => some (d1, files1, some e)
        | (d1, none) =>
          match d1.Read with
          | none => none
          | some _ => catalogWalk n re pattern d1 d1.SectorPointer.toNat ct1 cs1 (count + 1) files1
    else catalogWalk n re pattern d base ct cs (count + 1) files1

/-- `AppleDOSGetCatalog`: the entries and the error. -/
def DSKWrapper.AppleDOSGetCatalog (d : DSKWrapper) (re : RegexMatch) (pattern : List Char) :
    Option (DSKWrapper × List FileDescriptor × Option String) :=
  match d.AppleDOSGetVTOC with
  | none => none
  | some (d1, .error e) => some (d1, [], some e)
  | some (d1, .ok vtoc) =>
    match d1.Seek vtoc.GetCatalogStart.1 vtoc.GetCatalogStart.2 with
    | (d2, some e) => some (d2, [], some e)
    | (d2, none) =>
      match d2.Read with
      | none => none
      | some _ =>
        catalogWalk 105 re pattern d2 d2.SectorPointer.toNat vtoc.GetCatalogStart.1
          vtoc.GetCatalogStart.2 0 []

/-- The loop of `AppleDOSGetTSListSectors`: the T/S list sectors of a file, in order. -/
def tsListWalk (fuel : Nat) (d : DSKWrapper) (tl sl : Int) (tsmap : List Int)
    (tslist : List (Int × Int)) : Option (DSKWrapper × List (Int × Int) × Option String) :=
  match fuel with
  | 0 => none
  | fuel + 1 =>
    if tl ≠ 0 ∨ sl ≠ 0 then
      match d.Seek tl sl with
      | (d1, some e) => some (d1, tslist, some e)
      | (d1, none) =>
        match d1.Read with
        | none => none
        | some data =>
          let ntl : Int := (data.getD 1 0 : Nat)
          let nsl : Int := (data.getD 2 0 : Nat)
          if (100 * ntl + nsl) ∈ tsmap then some (d1, tslist ++ [(tl, sl)], none)
          else tsListWalk fuel d1 ntl nsl (tsmap ++ [100 * ntl + nsl]) (tslist ++ [(tl, sl)])
    else some (d, tslist, none)

def DSKWrapper.AppleDOSGetTSListSectors (d : DSKWrapper) (fd : FileDescriptor) :
    Option (DSKWrapper × List (Int × Int) × Option String) :=
  tsListWalk tsWalkFuel d (fd.GetTrackSectorListStart d).1 (fd.GetTrackSectorListStart d).2 [] []

/-- The inner loop `for s := SPT-1; s >= 0; s--` of `AppleDOSGetFreeSectors` on track `t`;
`k` is the number of sectors still to visit, the next one being `k - 1`. -/
def freeScanSectors (v : VTOC) (t : Int) (k : Nat) (total : Nat) (needed : List (Int × Int)) :
    Option (List (Int × Int)) :=
  match k with
  | 0 => some needed
  | k + 1 =>
    if needed.length ≥ total then some needed
    else
      match v.IsTSFree t (k : Int) with
      | none => none
      | some true => freeScanSectors v t k total (needed ++ [(t, (k : Int))])
      | some false => freeScanSectors v t k total needed

/-- The outer loop `for t := TPD-1; t >= 0; t--` of `AppleDOSGetFreeSectors`; `k` is the
number of tracks still to visit, the next one being `k - 1`. -/
def freeScanTracks (v : VTOC) (catTrack : Int) (spt : Nat) (k : Nat) (total : Nat)
    (needed : List (Int × Int)) : Option (List (Int × Int)) :=
  match k with
  | 0 => some needed
  | k + 1 =>
    if (k : Int) = catTrack then freeScanTracks v catTrack spt k total needed
    else
      match freeScanSectors v (k : Int) spt total needed with
      | none => none
      | some needed1 => freeScanTracks v catTrack spt k total needed1

/-- `AppleDOSGetFreeSectors`: the T/S list sectors and the data sectors, or the error.
`none` is a panic: the division by a zero `MaxTSPairsPerSector`, or a bitmap index outside
the VTOC. -/
def DSKWrapper.AppleDOSGetFreeSectors (d : DSKWrapper) (size : Nat) :
    Option (DSKWrapper × Except String (List (Int × Int) × List (Int × Int))) :=
  match d.AppleDOSGetVTOC with
  | none => none
  | some (d1, .error e) => some (d1, .error e)
  | some (d1, .ok vtoc) =>
    let catTrack := vtoc.GetCatalogStart.1
    let dataBlocks := (size / 256) + 1
    if vtoc.GetMaxTSPairsPerSector = 0 then none
    else
      let tsListBlocks := (dataBlocks / vtoc.GetMaxTSPairsPerSector) + 1
      let totalBlocks := tsListBlocks + dataBlocks
      match freeScanTracks vtoc catTrack d1.Format.SPT.toNat d1.Format.TPD.toNat totalBlocks [] with
      | none => none
      | some needed =>
        if needed.length ≥ totalBlocks then
          some (d1, .ok (needed.take tsListBlocks, needed.drop tsListBlocks))
        else some (d1, .error "Insufficent space")

/-- The catalog loops of `AppleDOSNamedCatalogEntry` (`orUnused = false`) and
`AppleDOSNextFreeCatalogEntry` (`orUnused = true`); `n` is `105 - count`.  The result is the
entry found, a nil entry (`none`) with the error, or for the second function a nil entry
with a nil error at the end of the catalog chain. -/
def entryWalk (n : Nat) (orUnused : Bool) (name : List Char) (d : DSKWrapper) (base : Nat)
    (ct cs : Int) (count : Nat) : Option (DSKWrapper × Option FileDescriptor × Option String) :=
  match n with
  | 0 => some (d, none, some (if orUnused then "No free entry" else "Not found"))
  | n + 1 =>
    let fd := catalogEntry base ct cs count
    if orUnused ∧ fd.IsUnused d then some (d, some fd, none)
    else if name ≠ [] ∧ toLowerASCII (fd.NameUnadorned d) = toLowerASCII name then
      some (d, some fd, none)
    else if (count + 1) % 7 = 0 then
      let ct1 : Int := (d.Data.byte (base + 1) : Nat)
      let cs1 : Int := (d.Data.byte (base + 2) : Nat)
      if ct1 = 0 then some (d, none, if orUnused then none else some "Not found")
      else
        match d.Seek ct1 cs1 with
        | (d1, some e) => some (d1, none, some e)
        | (d1, none) =>
          match d1.Read with
          | none => none
          | some _ => entryWalk n orUnused name d1 d1.SectorPointer.toNat ct1 cs1 (count + 1)
    else entryWalk n orUnused name d base ct cs (count + 1)

/-- Common start of the two lookups: read the VTOC, seek and read the first catalog
sector, walk. -/
def DSKWrapper.catalogLookup (d : DSKWrapper) (orUnused : Bool) (name : List Char) :
    Option (DSKWrapper × Option FileDescriptor × Option String) :=
  match d.AppleDOSGetVTOC with
  | none => none
  | some (d1, .error e) => some (d1, none, some e)
  | some (d1, .ok vtoc) =>
    match d1.Seek vtoc.GetCatalogStart.1 vtoc.GetCatalogStart.2 with
    | (d2, some e) => some (d2, none, some e)
    | (d2, none) =>
      match d2.Read with
      | none => none
      | some _ =>
        entryWalk 105 orUnused name d2 d2.SectorPointer.toNat vtoc.GetCatalogStart.1
          vtoc.GetCatalogStart.2 0

def DSKWrapper.AppleDOSNamedCatalogEntry (d : DSKWrapper) (name : List Char) :
    Option (DSKWrapper × Option FileDescriptor × Option String) :=
  d.catalogLookup false name

def DSKWrapper.AppleDOSNextFreeCatalogEntry (d : DSKWrapper) (name : List Char) :
    Option (DSKWrapper × Option FileDescriptor × Option String) :=
  d.catalogLookup true name

/-- The loops `for _, pair := range ...` of `AppleDOSDeleteFile` marking sectors free. -/
def freeAll (v : VTOC) (pairs : List (Int × Int)) : Option VTOC :=
  match pairs with
  | [] => some v
  | p :: rest =>
    match v.SetTSFree p.1 p.2 true with
    | none => none
    | some v1 => freeAll v1 rest

/-- `AppleDOSDeleteFile`. -/
def DSKWrapper.AppleDOSDeleteFile (d : DSKWrapper) (name : List Char) :
    Option (DSKWrapper × Option String) :=
  match d.AppleDOSGetVTOC with
  | none => none
  | some (d1, .error e) => some (d1, some e)
  | some (d1, .ok vtoc) =>
    match d1.AppleDOSNamedCatalogEntry name with
    | none => none
    | some (d2, _, some e) => some (d2, some e)
    | some (_, none, none) => none
    | some (d2, some fd, none) =>
      if fd.IsUnused d2 then some (d2, some "Not found")
      else
        match d2.AppleDOSGetTSListSectors fd with
        | none => none
        | some (d3, _, some e) => some (d3, some e)
        | some (d3, tsBlocks, none) =>
          match d3.AppleDOSGetFileSectors fd with
          | none => none
          | some (d4, _, some e) => some (d4, some e)
          | some (d4, dataBlocks, none) =>
            match freeAll vtoc (dataBlocks ++ tsBlocks) with
            | none => none
            | some vtoc1 =>
              match vtoc1.Publish d4 with
              | none => none
              | some (d5, some e) => some (d5, some e)
              | some (d5, none) => fd.Publish (fd.SetName (fd.put d5 0x00 0xff) [])

/-! ## disk/diskimagepd.go: lock bits and parent fields of a subdirectory header -/

/-- `SetLocked`: lock keeps only the changed and readable bits; unlock sets the destroy,
writable and rename bits. -/
def ProDOSFileDescriptor.SetLocked (fd : ProDOSFileDescriptor) (b : Bool) :
    ProDOSFileDescriptor :=
  let accessMode := fd.AccessMode
  let accessMode1 :=
    if b then accessMode &&& (AccessType_Changed ||| AccessType_Readable)
    else accessMode ||| AccessType_Destroy ||| AccessType_Writable ||| AccessType_Rename
  fd.SetAccessMode accessMode1

def ProDOSFileDescriptor.IsLocked (fd : ProDOSFileDescriptor) : Bool :=
  fd.AccessMode &&& (AccessType_Destroy ||| AccessType_Rename ||| AccessType_Writable) == 0

/-- `GetDirParentPointer`: the code reads byte 35 for both halves. -/
def VDH.GetDirParentPointer (v : VDH) : Nat := v.b 35 + 256 * v.b 35

def VDH.SetDirParentPointer (v : VDH) (b : Int) : VDH :=
  { v with Data := (v.Data.set 35 (intByte b)).set 36 (intByte (Int.tdiv b 0x100)) }

def VDH.GetDirParentEntry (v : VDH) : Nat := v.b 37

def VDH.SetDirParentEntry (v : VDH) (b : Int) : VDH :=
  { v with Data := v.Data.set 37 (intByte b) }

def VDH.GetDirParentEntryLength (v : VDH) : Nat := v.b 38

def VDH.SetDirParentEntryLength (v : VDH) (b : Int) : VDH :=
  { v with Data := v.Data.set 38 (intByte b) }

/-- Spec side, "day valid for that month": the number of days of month `m` of year `y` in the
Gregorian calendar. -/
def daysInMonth (y m : Nat) : Nat :=
  if m = 2 then (if y % 4 = 0 ∧ (y % 100 ≠ 0 ∨ y % 400 = 0) then 29 else 28)
  else if m = 4 ∨ m = 6 ∨ m = 9 ∨ m = 11 then 30
  else 31

/-! ## ProDOS test image with a subdirectory -/

/-- The 39 bytes of a subdirectory entry named `D`: storage type 0xD, type DIR, key block 8,
one block, 512 bytes, access `0xC3`, header pointer 2. -/
def testEntryD : List Nat :=
  [0xD1, 0x44] ++ List.replicate 14 0 ++ [0x0F, 8, 0, 1, 0, 0, 2, 0] ++ [0, 0, 0, 0] ++
    [0, 0, 0xC3, 0, 0] ++ [0, 0, 0, 0] ++ [2, 0]

/-- The 39 bytes of the header of the subdirectory `D`: storage type 0xE, entry length 39,
13 entries per block, file count 0, parent block 2, parent entry 2 of length 39. -/
def testSubdirHeader : List Nat :=
  [0xE1, 0x44] ++ List.replicate 14 0 ++ [0x75] ++ List.replicate 13 0 ++
    [0xC3, 39, 13, 0, 0, 2, 0, 2, 39]

/-- A ProDOS volume with the file `A` and the empty subdirectory `D` (block 8); the volume
header counts 2 files, blocks 0 to 8 are in use, blocks 9 to 279 are free. -/
def volumeWithSubdir : DSKWrapper :=
  buildProDOS [(2, [0, 0, 0, 0] ++ testVolumeHeader 2 ++ testEntryA ++ testEntryD),
    (6, [0x00, 0x7F] ++ List.replicate 33 0xFF), (7, [1, 2, 3]),
    (8, [0, 0, 0, 0] ++ testSubdirHeader)]

/-! ## Applesoft program structure (spec side) -/

/-- The line numbers `ApplesoftTokenize` reads: `Atoi` of the text before the first space of
every line that is not empty once its carriage returns are trimmed. -/
def lineNumbers (lines : List (List Char)) : List Int :=
  ((lines.map (trimChar '\r')).filter (· ≠ [])).map fun l => Atoi (splitFirstSpace l).1

/-- Spec side: `r` is a line record that starts at address `addr` and holds line number
`ln`: at least the two address bytes, the two number bytes and the final zero byte; the first
two bytes are the little-endian address of the byte after the record (two bytes hold it
modulo 65536); the next two are `byte(ln & 0xff)` and `byte(ln / 0x100)`; the last byte is
zero. -/
def lineRecord (addr : Nat) (ln : Int) (r : List Nat) : Bool :=
  decide (5 ≤ r.length) &&
  decide (r.getD 0 0 < 256 ∧ r.getD 1 0 < 256) &&
  r.getD 0 0 + 256 * r.getD 1 0 == (addr + r.length) % 65536 &&
  r.getD 2 0 == intByte ln && r.getD 3 0 == intByte (Int.tdiv ln 0x100) &&
  r.getLast? == some 0

/-- Spec side: the records `rs` lie one after the other from address `addr` on, one for each
line number, so that the address stored in each record is `addr` plus the length of all
records up to and including it, which is where the next record starts. -/
def linkedRecords (addr : Nat) : List Int → List (List Nat) → Bool
  | [], [] => true
  | ln :: lns, r :: rs => lineRecord addr ln r && linkedRecords (addr + r.length) lns rs
  | _, _ => false

/-! ## report.go: the file duplicates report -/

/-- The fields of the Go struct `DiskSector` that do not depend on the ingest mode. -/
structure DiskSector where
  Track : Nat
  Sector : Nat
  SHA256 : String
  deriving DecidableEq, Repr

/-- The fields of the Go struct `Disk` that the file duplicates report reads and that the
sector loop of the AppleDOS analysers sets. -/
structure Disk where
  FullPath : String
  Files : DiskCatalog
  source : String
  Tracks : Nat
  Sectors : Nat
  Bitmap : List Bool
  ActiveSectors : List DiskSector
  InactiveSectors : List DiskSector
  deriving DecidableEq, Repr

structure DuplicateSource where
  Fullpath : String
  Filename : String
  GSHA : String
  fingerprint : String
  deriving DecidableEq, Repr

/-- The Go struct `DuplicateFileCollection`: its map `data`, nil being the empty map. -/
structure DuplicateFileCollection where
  data : List (String × List DuplicateSource)
  deriving DecidableEq, Repr

/-- `DuplicateFileCollection.Add`. -/
def DuplicateFileCollection.Add (dfc : DuplicateFileCollection)
    (checksum fullpath filename fgp : String) : DuplicateFileCollection :=
  let list := (mapGet dfc.data checksum).getD []
  let list1 := list ++ [DuplicateSource.mk fullpath filename "" fgp]
  { data := mapSet dfc.data checksum list1 }

/-- `AggregateDuplicateFiles`: every file of the descriptor is added. -/
def AggregateDuplicateFiles (d : Disk) (collection : DuplicateFileCollection) :
    DuplicateFileCollection :=
  d.Files.foldl (fun c f => c.Add f.SHA256 d.FullPath f.Filename d.source) collection

/-- `Aggregate(f, collector, filter)` over the descriptors that the cache loads. -/
def Aggregate (f : Disk → DuplicateFileCollection → DuplicateFileCollection)
    (collector : DuplicateFileCollection) (disks : List Disk) : DuplicateFileCollection :=
  disks.foldl (fun c d => f d c) collector

/-- The entries of the map for which `Report` writes a cluster: `len(list) > 1`. -/
def DuplicateFileCollection.reported (dfc : DuplicateFileCollection) :
    List (String × List DuplicateSource) :=
  dfc.data.filter fun p => decide (p.2.length > 1)

/-- `DuplicateFileCollection.Report`: the strings written, the output file being open. -/
def DuplicateFileCollection.Report (dfc : DuplicateFileCollection) : List String :=
  dfc.reported.flatMap fun p =>
    ("\nChecksum " ++ p.1 ++ " duplicated " ++ toString p.2.length ++ " times:\n") ::
      p.2.enum.map fun iv =>
        " " ++ toString iv.1 ++ ") " ++ iv.2.Fullpath ++ " >> " ++ iv.2.Filename ++ "\n"

/-- `fileDupeReport` on the descriptors that load. -/
def fileDupeReport (disks : List Disk) : List String :=
  (Aggregate AggregateDuplicateFiles { data := [] } disks).Report

/-- Spec side: every file of every descriptor with its checksum, in order. -/
def allSources (disks : List Disk) : List (String × DuplicateSource) :=
  disks.flatMap fun d => d.Files.map fun f =>
    (f.SHA256, DuplicateSource.mk d.FullPath f.Filename "" d.source)

/-- Spec side: the files with checksum `sha` across the descriptors, in order. -/
def groupOf (disks : List Disk) (sha : String) : List DuplicateSource :=
  ((allSources disks).filter fun e => e.1 == sha).map (·.2)

/-- One `Add` on the map, for an entry of `allSources`. -/
def addSource (m : List (String × List DuplicateSource)) (e : String × DuplicateSource) :
    List (String × List DuplicateSource) :=
  mapSet m e.1 ((mapGet m e.1).getD [] ++ [e.2])

/-- Two descriptors that each hold a zero-byte file named `hello`. -/
def helloDisks : List Disk :=
  [Disk.mk "a.dsk" [DiskFile.mk "hello" "e3b0c442" 0] "a.fgp" 0 0 [] [] [],
    Disk.mk "b.dsk" [DiskFile.mk "hello" "e3b0c442" 0] "b.fgp" 0 0 [] [] []]

/-! ## AppleDOS test image and order of allocation -/

/-- The 256 bytes of the VTOC of a blank DOS 3.3 disk: catalog at track 17 sector 15, DOS
version 3, volume 254, 122 pairs in a T/S list sector, 35 tracks of 16 sectors of 256 bytes;
every sector of the tracks 3..16 and 18..34 is free. -/
def blankVTOC : List Nat :=
  [0x04, 17, 15, 3, 0, 0, 254] ++ List.replicate 32 0 ++ [122] ++ List.replicate 8 0 ++
    [18, 1, 0, 0, 35, 16, 0, 1] ++ List.replicate 12 0 ++
    (List.replicate 14 [0xFF, 0xFF, 0, 0]).flatten ++ [0, 0, 0, 0] ++
    (List.replicate 17 [0xFF, 0xFF, 0, 0]).flatten ++ List.replicate 60 0

/-- A blank 143360-byte DOS 3.3 image: the VTOC at track 17 sector 0 and one empty catalog
sector at track 17 sector 15 that ends the catalog chain. -/
def blankDOS : DSKWrapper :=
  mkWrapper ((DSKContainer.zeros 143360).store ((17 * 16 + 0) * 256) blankVTOC)
    .DF_DOS_SECTORS_16 .SectorOrderDOS33

/-- Spec side, "listed from the highest track downwards": `p` comes before `q` when its track
is higher, or the track is the same and its sector is higher. -/
def tsDesc (p q : Int × Int) : Prop := p.1 > q.1 ∨ (p.1 = q.1 ∧ p.2 > q.2)

/-! ## disk/diskimageappledos.go: writing a file and reading it back -/

/-- The third step of `AppleDOSWriteFile`, the loop `for len(data) > 0`: every chunk of 256
bytes, the last one padded with zero bytes, goes to the next data sector.  `fuel` bounds the
iterations, each of which takes at least one byte. -/
def writeDataSectors (fuel : Nat) (d : DSKWrapper) (data : List Nat)
    (dataBlocks : List (Int × Int)) (block : Nat) : Option (DSKWrapper × Option String) :=
  match fuel with
  | 0 => none
  | fuel + 1 =>
    if data = [] then some (d, none)
    else
      let chunk := data.take 256 ++ List.replicate (256 - (data.take 256).length) 0
      match dataBlocks[block]? with
      | none => none
      | some (track, sector) =>
        match d.Seek track sector with
        | (d1, some e) => some (d1, some e)
        | (d1, none) =>
          match d1.Write chunk with
          | none => none
          | some d2 => writeDataSectors fuel d2 (data.drop 256) dataBlocks (block + 1)

/-- The loop `for i := 0; i < count; i++` that fills one T/S list sector and marks the data
sectors used; `n` is `count - i`.  `none` is an index panic. -/
def fillPairs (n i offset : Nat) (dataBlocks : List (Int × Int)) (buffer : List Nat)
    (vtoc : VTOC) : Option (List Nat × VTOC) :=
  match n with
  | 0 => some (buffer, vtoc)
  | n + 1 =>
    let pos := 0x0c + i * 2
    match dataBlocks[offset + i]? with
    | none => none
    | some (t, s) =>
      if pos + 1 < buffer.length then
        match vtoc.SetTSFree t s false with
        | none => none
        | some vtoc1 =>
          fillPairs n (i + 1) offset dataBlocks
            ((buffer.set pos (intByte t)).set (pos + 1) (intByte s)) vtoc1
      else none

/-- The fourth step of `AppleDOSWriteFile`, the loop over the T/S list sectors still to
write; `offset` stays 0, the code never advances it. -/
def writeTSLists (rest : List (Int × Int)) (d : DSKWrapper) (vtoc : VTOC)
    (dataBlocks : List (Int × Int)) : Option (DSKWrapper × VTOC × Option String) :=
  match rest with
  | [] => some (d, vtoc, none)
  | (listTrack, listSector) :: more =>
    let offset := 0
    let next : Int × Int := match more with
      | [] => (0, 0)
      | nx :: _ => nx
    let buffer := (((List.replicate 256 0).set 0x01 (intByte next.1)).set 0x02
      (intByte next.2)).set 0x05 (offset % 256) |>.set 0x06 ((offset / 0x100) % 256)
    let m := vtoc.GetMaxTSPairsPerSector
    let count := if offset + m ≥ dataBlocks.length then dataBlocks.length - offset else m
    match fillPairs count 0 offset dataBlocks buffer vtoc with
    | none => none
    | some (buffer1, vtoc1) =>
      match d.Seek listTrack listSector with
      | (d1, some e) => some (d1, vtoc1, some e)
      | (d1, none) =>
        match d1.Write buffer1 with
        | none => none
        | some d2 =>
          match vtoc1.SetTSFree listTrack listSector false with
          | none => none
          | some vtoc2 => writeTSLists more d2 vtoc2 dataBlocks

/-- `AppleDOSWriteFile`.  The VTOC copy read at the start is the one published at the end;
the entry is a window of the image, so the last four setters change the image. -/
def DSKWrapper.AppleDOSWriteFile (d : DSKWrapper) (name0 : List Char) (kind : Nat)
    (data0 : List Nat) (loadAddr : Int) : Option (DSKWrapper × Option String) :=
  let name := toUpperASCII name0
  match d.AppleDOSGetVTOC with
  | none => none
  | some (d1, .error e) => some (d1, some e)
  | some (d1, .ok vtoc) =>
    let data := if kind ≠ FileTypeTXT then
        [intByte (Int.tmod loadAddr 256), intByte (Int.tdiv loadAddr 256)] ++ data0
      else data0
    match d1.AppleDOSGetFreeSectors data.length with
    | none => none
    | some (d2, .error e) => some (d2, some e)
    | some (d2, .ok (tsBlocks, dataBlocks)) =>
      let entry : Option (DSKWrapper × Except String FileDescriptor) :=
        match d2.AppleDOSNamedCatalogEntry name with
        | none => none
        | some (_, none, none) => none
        | some (d3, some fd, none) =>
          if kind ≠ fd.Type d3 then some (d3, .error "File type mismatch")
          else
            match d3.AppleDOSDeleteFile name with
            | none => none
            | some (d4, some e) => some (d4, .error e)
            | some (d4, none) => some (d4, .ok fd)
        | some (d3, _, some _) =>
          match d3.AppleDOSNextFreeCatalogEntry name with
          | none => none
          | some (d4, _, some e) => some (d4, .error e)
          | some (_, none, none) => none
          | some (d4, some fd, none) => some (d4, .ok fd)
      match entry with
      | none => none
      | some (d4, .error e) => some (d4, some e)
      | some (d4, .ok fd) =>
        match writeDataSectors (data.length + 1) d4 data dataBlocks 0 with
        | none => none
        | some (d5, some e) => some (d5, some e)
        | some (d5, none) =>
          match writeTSLists tsBlocks d5 vtoc dataBlocks with
          | none => none
          | some (d6, _, some e) => some (d6, some e)
          | some (d6, vtoc1, none) =>
            match vtoc1.Publish d6 with
            | none => none
            | some (d7, some e) => some (d7, some e)
            | some (d7, none) =>
              match tsBlocks with
              | [] => none
              | ts0 :: _ =>
                let d8 := fd.SetName d7 name
                let d9 := fd.SetTrackSectorListStart d8 ts0.1 ts0.2
                let d10 := fd.SetType d9 kind
                some (fd.SetTotalSectors d10 dataBlocks.length, none)

/-- `AppleDOSReadFileRaw`: the length, the address, the bytes and the error.  `none` is the
slice panic on fewer than four bytes, which whole sectors never give. -/
def DSKWrapper.AppleDOSReadFileRaw (d : DSKWrapper) (fd : FileDescriptor) :
    Option (DSKWrapper × (Nat × Nat × List Nat) × Option String) :=
  match d.AppleDOSReadFileSectors fd (-1) with
  | none => none
  | some (d1, data, some e) => some (d1, (0, 0, data), some e)
  | some (d1, data, none) =>
    if data.length = 0 then some (d1, (0, 0, data), none)
    else if data.length < 4 then none
    else
      let ft := fd.Type d1
      let l2 :=
        if data.getD 0 0 + 256 * data.getD 1 0 + 2 > data.length then data.length - 2
        else data.getD 0 0 + 256 * data.getD 1 0
      if ft = FileTypeINT then some (d1, (l2, 0x801, (data.drop 2).take l2), none)
      else if ft = FileTypeAPP then some (d1, (l2, 0x801, (data.drop 2).take l2), none)
      else if ft = FileTypeTXT then some (d1, (data.length, 0x0000, data), none)
      else if ft = FileTypeBIN then
        let addr := data.getD 0 0 + 256 * data.getD 1 0
        let l := if data.getD 2 0 + 256 * data.getD 3 0 + 4 > data.length then data.length - 4
          else data.getD 2 0 + 256 * data.getD 3 0
        some (d1, (l, addr, (data.drop 4).take l), none)
      else some (d1, (l2, 0, (data.drop 2).take l2), none)

/-! ## drvappledos16.go, drvappledos13.go: the sector bitmap

SHA-256 is a library function; it enters as the parameter `sha`. -/

def VTOC.BytesPerSector (v : VTOC) : Nat := v.b 0x36 + 256 * v.b 0x37

/-- `ChecksumSector`: the errors of `SetTrack` and `SetSector` are dropped; `none` is the
slice panic of a window outside the image. -/
def DSKWrapper.ChecksumSector (d : DSKWrapper) (sha : List Nat → String) (t s : Int) :
    Option (DSKWrapper × String) :=
  let d1 := (d.SetTrack t).1
  let d2 := (d1.SetSector s).1
  match d2.Read with
  | none => none
  | some data => some (d2, sha data)

/-- The loop `for _, pair := range tslist` of `AppleDOSUsedBitmap`; `none` is the index
panic. -/
def markPairs (out : List Bool) (spt : Int) (pairs : List (Int × Int)) : Option (List Bool) :=
  match pairs with
  | [] => some out
  | (track, sector) :: rest =>
    if 0 ≤ track * spt + sector ∧ track * spt + sector < (out.length : Int) then
      markPairs (out.set (track * spt + sector).toNat true) spt rest
    else none

/-- The loop `for _, f := range files` of `AppleDOSUsedBitmap`. -/
def usedLoop (files : List FileDescriptor) (d : DSKWrapper) (out : List Bool) :
    Option (DSKWrapper × List Bool) :=
  match files with
  | [] => some (d, out)
  | f :: rest =>
    match d.AppleDOSGetFileSectors f with
    | none => none
    | some (d1, _, some _) => usedLoop rest d1 out
    | some (d1, tslist, none) =>
      match markPairs out d1.Format.SPT tslist with
      | none => none
      | some out1 => usedLoop rest d1 out1

/-- `AppleDOSUsedBitmap`: the sectors named by the T/S lists of the catalogued files. -/
def DSKWrapper.AppleDOSUsedBitmap (d : DSKWrapper) (re : RegexMatch) :
    Option (DSKWrapper × List Bool × Option String) :=
  let out := List.replicate (d.Format.TPD * d.Format.SPT).toNat false
  match d.AppleDOSGetCatalog re "*".toList with
  | none => none
  | some (d1, _, some e) => some (d1, out, some e)
  | some (d1, files, none) =>
    match usedLoop files d1 out with
    | none => none
    | some (d2, out1) => some (d2, out1, none)

/-- The variables of the sector loop of `analyzeDOS16` and `analyzeDOS13`. -/
structure SectorScan where
  d : DSKWrapper
  Bitmap : List Bool
  ActiveSectors : List DiskSector
  InactiveSectors : List DiskSector

/-- The body of the sector loop for track `t` and sector `s`; `none` is an index or slice
panic. -/
def scanSector (sha : List Nat → String) (useAlt : Bool) (vtoc : VTOC) (sectors : Nat)
    (st : SectorScan) (t s : Nat) : Option SectorScan :=
  let bm : Option (List Bool) :=
    if useAlt then some st.Bitmap
    else
      match vtoc.IsTSFree (t : Int) (s : Int) with
      | none => none
      | some free =>
        if t * sectors + s < st.Bitmap.length then some (st.Bitmap.set (t * sectors + s) (!free))
        else none
  match bm with
  | none => none
  | some bitmap =>
    match bitmap[t * sectors + s]? with
    | none => none
    | some used =>
      match st.d.ChecksumSector sha (t : Int) (s : Int) with
      | none => none
      | some (d1, sum) =>
        match d1.Read with
        | none => none
        | some _ =>
          if used then
            some (SectorScan.mk d1 bitmap (st.ActiveSectors ++ [DiskSector.mk t s sum])
              st.InactiveSectors)
          else
            some (SectorScan.mk d1 bitmap st.ActiveSectors
              (st.InactiveSectors ++ [DiskSector.mk t s sum]))

/-- The loop `for s := 0; s < info.Sectors; s++`; `n` is the number of sectors still to
visit, `s` the next one. -/
def scanSectors (sha : List Nat → String) (useAlt : Bool) (vtoc : VTOC) (sectors : Nat)
    (t : Nat) (n s : Nat) (st : SectorScan) : Option SectorScan :=
  match n with
  | 0 => some st
  | n + 1 =>
    match scanSector sha useAlt vtoc sectors st t s with
    | none => none
    | some st1 => scanSectors sha useAlt vtoc sectors t n (s + 1) st1

/-- The loop `for t := 0; t < info.Tracks; t++`; `n` is the number of tracks still to
visit, `t` the next one. -/
def scanTracks (sha : List Nat → String) (useAlt : Bool) (vtoc : VTOC) (sectors : Nat)
    (n t : Nat) (st : SectorScan) : Option SectorScan :=
  match n with
  | 0 => some st
  | n + 1 =>
    match scanSectors sha useAlt vtoc sectors t sectors 0 st with
    | none => none
    | some st1 => scanTracks sha useAlt vtoc sectors n (t + 1) st1

/-- The descriptor after the sector loop. -/
def SectorScan.toDisk (st : SectorScan) (info : Disk) (tracks sectors : Nat) : Disk :=
  Disk.mk info.FullPath info.Files info.source tracks sectors st.Bitmap st.ActiveSectors
    st.InactiveSectors

/-- `analyzeDOS16` up to the end of its sector loop: the descriptor as it is then.  The
inner `none` stands for the two ways out before the loop: the VTOC cannot be read, or its
bytes per sector are not 256 and the disk is handed to `analyzeNONE`.  The outer `none` is a
panic. -/
def analyzeDOS16 (sha : List Nat → String) (re : RegexMatch) (dsk : DSKWrapper) (info : Disk) :
    Option (Option Disk) :=
  match dsk.AppleDOSGetVTOC with
  | none => none
  | some (_, .error _) => some none
  | some (d1, .ok vtoc) =>
    if vtoc.BytesPerSector ≠ 256 then some none
    else
      match vtoc.IsTSFree 17 0 with
      | none => none
      | some useAlt =>
        let start : Option (DSKWrapper × List Bool) :=
          if useAlt then
            match d1.AppleDOSUsedBitmap re with
            | none => none
            | some (d2, bitmap, _) => some (d2, bitmap)
          else some (d1, List.replicate (vtoc.GetTracks * vtoc.GetSectors) false)
        match start with
        | none => none
        | some (d2, bitmap) =>
          match scanTracks sha useAlt vtoc vtoc.GetSectors vtoc.GetTracks 0
              (SectorScan.mk d2 bitmap [] []) with
          | none => none
          | some st => some (some (st.toDisk info vtoc.GetTracks vtoc.GetSectors))

/-- `analyzeDOS13` up to the end of its sector loop; the inner `none` is the return when the
VTOC cannot be read. -/
def analyzeDOS13 (sha : List Nat → String) (dsk : DSKWrapper) (info : Disk) :
    Option (Option Disk) :=
  match dsk.AppleDOSGetVTOC with
  | none => none
  | some (_, .error _) => some none
  | some (d1, .ok vtoc) =>
    match scanTracks sha false vtoc vtoc.GetSectors vtoc.GetTracks 0
        (SectorScan.mk d1 (List.replicate (vtoc.GetTracks * vtoc.GetSectors) false) [] []) with
    | none => none
    | some st => some (some (st.toDisk info vtoc.GetTracks vtoc.GetSectors))

/-- Spec side: the slots `(T, S)` with `T < tracks` and `S < sectors` in track-major order. -/
def trackMajor (tracks sectors : Nat) : List (Nat × Nat) :=
  (List.range tracks).flatMap fun t => (List.range sectors).map fun s => (t, s)

/-- Spec side: the VTOC marks the slot used, `!vtoc.IsTSFree(T, S)`. -/
def VTOC.usedAt (v : VTOC) (p : Nat × Nat) : Bool :=
  v.IsTSFree (p.1 : Int) (p.2 : Int) == some false

/-- The blank DOS 3.3 image with a VTOC that declares 2 tracks of 3 sectors and marks track 1
sector 2 free. -/
def smallVTOCDOS : DSKWrapper :=
  mkWrapper (((DSKContainer.zeros 143360).store ((17 * 16 + 0) * 256) blankVTOC).store
      ((17 * 16 + 0) * 256 + 0x34) [2, 3] |>.store ((17 * 16 + 0) * 256 + 0x38)
      [0, 0, 0, 0, 0, 4, 0, 0])
    .DF_DOS_SECTORS_16 .SectorOrderDOS33

/-- The same image with the VTOC marking also its own sector, track 17 sector 0, free. -/
def vtocFreeDOS : DSKWrapper :=
  mkWrapper (smallVTOCDOS.Data.store ((17 * 16 + 0) * 256 + 0x38 + 17 * 4 + 1) [1])
    .DF_DOS_SECTORS_16 .SectorOrderDOS33

/-- A descriptor with nothing filled in yet. -/
def emptyDisk : Disk := Disk.mk "" [] "" 0 0 [] [] []

/-- A stand-in for SHA-256 in the evaluations: the decimal sum of the bytes. -/
def sumSha : List Nat → String := fun data => toString data.sum

/-- The VTOC of `smallVTOCDOS`. -/
def smallVTOC : VTOC := VTOC.mk (((blankVTOC.set 0x34 2).set 0x35 3).set 0x3d 4) 17 0

/-- The descriptor that the analysers build for `smallVTOCDOS` with `sumSha`. -/
def smallVTOCDisk : Disk :=
  Disk.mk "" [] "" 2 3 [true, true, true, true, true, false]
    [DiskSector.mk 0 0 "0", DiskSector.mk 0 1 "0", DiskSector.mk 0 2 "0", DiskSector.mk 1 0 "0",
      DiskSector.mk 1 1 "0"] [DiskSector.mk 1 2 "0"]

/-! ## The catalog walk (spec side) -/

/-- Spec side: the byte offset in the image at which sector `s` of track `t` starts. -/
def sectorBase (d : DSKWrapper) (t s : Int) : Nat :=
  (({ d with CurrentTrack := t, CurrentSector := s } : DSKWrapper).SetSectorPointer).SectorPointer.toNat

/-- Spec side: the catalog sectors, at most `n` of them: the chain starts at `(ct, cs)`, each
sector names the next one in its bytes 1 and 2, and a next track of 0 ends the chain. -/
def catalogSectors (d : DSKWrapper) : Nat → Int → Int → List (Int × Int)
  | 0, _, _ => []
  | n + 1, ct, cs =>
    (ct, cs) ::
      (if d.Data.byte (sectorBase d ct cs + 1) = 0 then []
       else catalogSectors d n (d.Data.byte (sectorBase d ct cs + 1) : Nat)
         (d.Data.byte (sectorBase d ct cs + 2) : Nat))

/-- Spec side: the seven 35-byte entries of a catalog sector, at offsets `0x0B + 35*i`. -/
def sectorEntries (d : DSKWrapper) (p : Int × Int) : List FileDescriptor :=
  (List.range 7).map fun i =>
    FileDescriptor.mk (sectorBase d p.1 p.2 + (0x0b + 35 * i)) p.1 p.2 ((0x0b + 35 * i : Nat) : Int)

/-- Spec side: the entries the walk inspects: those of at most 15 catalog sectors, from the
catalog start of the VTOC on. -/
def inspectedEntries (d : DSKWrapper) (vtoc : VTOC) : List FileDescriptor :=
  (catalogSectors d 15 vtoc.GetCatalogStart.1 vtoc.GetCatalogStart.2).flatMap (sectorEntries d)

/-- Spec side: the first byte is neither `0xFF` nor `0x00` and byte 2 masked with `0x7F` is
one of the known types. -/
def activeEntry (d : DSKWrapper) (fd : FileDescriptor) : Bool :=
  d.Data.byte fd.ptr != 0xff && d.Data.byte fd.ptr != 0x00 &&
    (d.Data.byte (fd.ptr + 2) &&& 0x7f) ∈ [0x00, 0x01, 0x02, 0x04, 0x08, 0x10, 0x20, 0x40]

/-- The end of a catalog sector in `catalogWalk`: follow bytes 1 and 2 to the next catalog
sector and go on with `n` more entries. -/
def catalogNext (n : Nat) (re : RegexMatch) (pattern : List Char) (d : DSKWrapper) (base : Nat)
    (count : Nat) (files : List FileDescriptor) :
    Option (DSKWrapper × List FileDescriptor × Option String) :=
  if ((d.Data.byte (base + 1) : Nat) : Int) = 0 then some (d, files, none)
  else
    match d.Seek (d.Data.byte (base + 1) : Nat) (d.Data.byte (base + 2) : Nat) with
    | (d1, some e) => some (d1, files, some e)
    | (d1, none) =>
      match d1.Read with
      | none => none
      | some _ =>
        catalogWalk n re pattern d1 d1.SectorPointer.toNat (d.Data.byte (base + 1) : Nat)
          (d.Data.byte (base + 2) : Nat) count files

/-- The test of `catalogWalk` that puts an entry on the list. -/
def catalogKeep (re : RegexMatch) (pattern : List Char) (d : DSKWrapper) (fd : FileDescriptor) :
    Bool :=
  fd.listed d && !(pattern ≠ [] && !re (catalogPattern pattern) (fd.Name d))

/-- The blank DOS 3.3 image with one binary file `HELLO`: its entry is the first of the
catalog sector (track 17 sector 15), its T/S list is track 18 sector 15 and names the one
data sector track 18 sector 14; the VTOC marks these two sectors used. -/
def helloDOS : DSKWrapper :=
  mkWrapper
    ((((blankDOS.Data.store ((17 * 16 + 15) * 256 + 0x0b)
          ([18, 15, 0x04] ++ nameBytes "HELLO".toList ++ [2, 0])).store
        ((18 * 16 + 15) * 256 + 0x0c) [18, 14]).store
      ((17 * 16 + 0) * 256 + 0x38 + 18 * 4) [0x3F]).store
      ((18 * 16 + 14) * 256) [0x00, 0x20, 0x03, 0x00, 1, 2, 3])
    .DF_DOS_SECTORS_16 .SectorOrderDOS33

/-- The VTOC of `helloDOS`. -/
def helloVTOC : VTOC := VTOC.mk (blankVTOC.set (0x38 + 18 * 4) 0x3F) 17 0

/-- The catalog entry of `HELLO` in `helloDOS`. -/
def helloEntry : FileDescriptor :=
  FileDescriptor.mk ((17 * 16 + 15) * 256 + 0x0b) 17 15 0x0b

/-! ## Wrappers on the same image -/

/-- Two wrappers hold the same image: the same bytes, format and layout; they may differ in
the current track, sector and sector pointer. -/
def agree (a b : DSKWrapper) : Prop :=
  a.Data = b.Data ∧ a.Format = b.Format ∧ a.Layout = b.Layout

/-- The wrapper after a successful `Seek` to track `t`, sector `s`. -/
def seekAt (d : DSKWrapper) (t s : Int) : DSKWrapper :=
  ({ d with CurrentTrack := t, CurrentSector := s } : DSKWrapper).SetSectorPointer

/-- The condition under which `Seek` succeeds. -/
def seekOK (d : DSKWrapper) (t s : Int) : Prop :=
  (t ≥ 0 ∧ t < d.Format.TPD) ∧ (s ≥ 0 ∧ s < d.Format.USPT)

/-- A DOS 3.3 image whose VTOC names its own sector, track 17 sector 0, as the first catalog
sector.  The second catalog entry, at offset 0x2e of that sector, is the file `ABCDEFGH` with
the T/S list sector track 18 sector 15 and the data sector track 18 sector 14; its name bytes
lie on the bitmap bytes of the first tracks. -/
def vtocCatalogDOS : DSKWrapper :=
  mkWrapper
    (((blankDOS.Data.store ((17 * 16 + 0) * 256 + 1) [17, 0]).store
        ((17 * 16 + 0) * 256 + 0x2e)
        ([18, 15, 0x04] ++ nameBytes "ABCDEFGH".toList ++ [2, 0])).store
      ((18 * 16 + 15) * 256 + 0x0c) [18, 14])
    .DF_DOS_SECTORS_16 .SectorOrderDOS33

/-- The catalog entry of `ABCDEFGH` in `vtocCatalogDOS`. -/
def vtocCatalogEntry : FileDescriptor :=
  FileDescriptor.mk ((17 * 16 + 0) * 256 + 0x2e) 17 0 0x2e

/-! ## disk/diskimage.go: the sector pointer after a seek -/

/-- An 819200-byte image of zeros as an 800 KB ProDOS volume in ProDOS sector order, one of
the layouts `IsProDOS` tries for that size. -/
def blank800 : DSKWrapper :=
  mkWrapper (DSKContainer.zeros 819200) .DF_PRODOS_800KB .SectorOrderProDOS

/-! ## disk/diskimage2mg.go: the payload slice -/

/-- A 2MG container of 64 + 143360 bytes whose header gives the data start 128 (bytes
`80 00 00 00`) and length bytes `90 31 02 00`, which `GetDiskDataLength` reads as 143360. -/
def overrun2MG : DSKWrapper :=
  mkWrapper (((image2MG 0 0 0).Data.store 0x18 [0x80, 0, 0, 0]).store 0x1C [0x90, 0x31, 0x02, 0])
    .DF_NONE .SectorOrderDOS33

/-! ## disk/atokens.go: the detokenizers with their index checks -/

/-- `Read16`: the little-endian word at `buffer[srcptr]`, the new `srcptr` and the new
`length`; `none` is the index panic of `buffer[*srcptr]` or `buffer[*srcptr+1]`. -/
def Read16 (srcptr length : Int) (buffer : List Nat) : Option (Nat × Int × Int) :=
  if 0 ≤ srcptr ∧ srcptr + 1 < (buffer.length : Int) then
    some (buffer.getD srcptr.toNat 0 + 256 * buffer.getD (srcptr.toNat + 1) 0,
      srcptr + 2, length - 2)
  else none

/-- `Read8`: the byte at `buffer[srcptr]`, the new `srcptr` and the new `length`; `none` is
the index panic. -/
def Read8 (srcptr length : Int) (buffer : List Nat) : Option (Nat × Int × Int) :=
  if 0 ≤ srcptr ∧ srcptr < (buffer.length : Int) then
    some (buffer.getD srcptr.toNat 0, srcptr + 1, length - 1)
  else none

/-- The body of the loop `for t != 0 && length > 0` of `ApplesoftDetoks` up to the comment
`Advance`: the output and the flags `inQuote`, `inRem` after byte `t`. -/
def detokStep (t : Nat) (inQuote inRem : Bool) (out : List Nat) : List Nat × Bool × Bool :=
  if t &&& 0x80 ≠ 0 then
    let out1 := match applesoftToken t with
      | some tokstr => out ++ stringBytes (" ".toList ++ tokstr ++ " ".toList)
      | none => out ++ stringBytes " ERROR ".toList
    (out1, inQuote, inRem || t == 0xb2)
  else if t = 34 ∧ !inRem then (out ++ [t], !inQuote, inRem)
  else if t = 58 ∧ !inRem ∧ !inQuote then (out ++ [t], inQuote, inRem)
  else if inRem ∧ (t = 13 ∨ t = 10) then (out ++ stringBytes "*".toList, inQuote, inRem)
  else (out ++ [t], inQuote, inRem)

/-- The loop `for t != 0 && length > 0` of `ApplesoftDetoks` with `srcptr` and `length` as
the Go code keeps them; the result is `srcptr`, `length` and the output at the exit.  `none`
is an index panic or the end of `fuel`. -/
def detoksBodyLoop (fuel : Nat) (data : List Nat) (t : Nat) (srcptr length : Int)
    (inQuote inRem : Bool) (out : List Nat) : Option (Int × Int × List Nat) :=
  match fuel with
  | 0 => none
  | fuel + 1 =>
    if t ≠ 0 ∧ length > 0 then
      let r := detokStep t inQuote inRem out
      match Read8 srcptr length data with
      | none => none
      | some (t1, s1, l1) => detoksBodyLoop fuel data t1 s1 l1 r.2.1 r.2.2 r.1
    else some (srcptr, length, out)

/-- The loop `for length > 0` of `ApplesoftDetoks`; `none` is an index panic or the end of
`fuel`. -/
def detoksLineLoop (fuel : Nat) (data : List Nat) (srcptr length : Int) (out : List Nat) :
    Option (List Nat) :=
  match fuel with
  | 0 => none
  | fuel + 1 =>
    if ¬ length > 0 then some out
    else if length < 2 then some out
    else
      match Read16 srcptr length data with
      | none => none
      | some (nextAddr, s1, l1) =>
        if nextAddr = 0 then some out
        else if l1 < 2 then some out
        else
          match Read16 s1 l1 data with
          | none => none
          | some (lineNum, s2, l2) =>
            let out1 := out ++ stringBytes (" ".toList ++ Nat.toDigits 10 lineNum ++ " ".toList)
            if l2 = 0 then some out1
            else
              match Read8 s2 l2 data with
              | none => none
              | some (t, s3, l3) =>
                match detoksBodyLoop (l3.toNat + 1) data t s3 l3 false false out1 with
                | none => none
                | some (s4, l4, out2) =>
                  if l4 = 0 then some (out2 ++ [13, 10])
                  else detoksLineLoop fuel data s4 l4 (out2 ++ [13, 10])

/-- `ApplesoftDetoks` with every index operation checked: `none` is an index panic, or a
loop that is still running after `len(data) + 1` iterations. -/
def ApplesoftDetoksChecked (data : List Nat) : Option (List Nat) :=
  if data.length < 2 then some [13, 10]
  else detoksLineLoop (data.length + 1) data 0 data.length []

/-- Spec side, "empty or ends with CR LF", and the third ending the code has: the line
number ` n ` of a program that stops right after it. -/
def detokEnding (out : List Nat) : Prop :=
  out = [] ∨ [13, 10] <:+ out ∨
    ∃ n : Nat, stringBytes (" ".toList ++ Nat.toDigits 10 n ++ " ".toList) <:+ out
/-- The table `IntegerTokens`, as the list of its `code: keyword` entries; the two entries
whose keyword is a double quote are written with the code point 34. -/
def IntegerTokens : List (Nat × List Char) :=
  [(0x00, "HIMEM:".toList), (0x02, "_".toList), (0x03, ":".toList), (0x04, "LOAD".toList),
   (0x05, "SAVE".toList), (0x06, "CON".toList), (0x07, "RUN".toList), (0x08, "RUN".toList),
   (0x09, "DEL".toList), (0x0A, ",".toList), (0x0B, "NEW".toList), (0x0C, "CLR".toList),
   (0x0D, "AUTO".toList), (0x0E, ",".toList), (0x0F, "MAN".toList), (0x10, "HIMEM:".toList),
   (0x11, "LOMEM:".toList), (0x12, "+".toList), (0x13, "-".toList), (0x14, "*".toList),
   (0x15, "/".toList), (0x16, "=".toList), (0x17, "#".toList), (0x18, ">=".toList),
   (0x19, ">".toList), (0x1A, "<=".toList), (0x1B, "<>".toList), (0x1C, "<".toList),
   (0x1D, "AND".toList), (0x1E, "OR".toList), (0x1F, "MOD".toList), (0x20, "^".toList),
   (0x21, "+".toList), (0x22, "(".toList), (0x23, ",".toList), (0x24, "THEN".toList),
   (0x25, "THEN".toList), (0x26, ",".toList), (0x27, ",".toList), (0x28, [Char.ofNat 34]),
   (0x29, [Char.ofNat 34]), (0x2A, "(".toList), (0x2B, "!".toList), (0x2C, "!".toList),
   (0x2D, "(".toList), (0x2E, "PEEK".toList), (0x2F, "RND".toList), (0x30, "SGN".toList),
   (0x31, "ABS".toList), (0x32, "PDL".toList), (0x33, "RNDX".toList), (0x34, "(".toList),
   (0x35, "+".toList), (0x36, "-".toList), (0x37, "NOT".toList), (0x38, "(".toList),
   (0x39, "=".toList), (0x3A, "#".toList), (0x3B, "LEN(".toList), (0x3C, "ASC(".toList),
   (0x3D, "SCRN(".toList), (0x3E, ",".toList), (0x3F, "(".toList), (0x40, "$".toList),
   (0x41, "$".toList), (0x42, "(".toList), (0x43, ",".toList), (0x44, ",".toList),
   (0x45, ";".toList), (0x46, ";".toList), (0x47, ";".toList), (0x48, ",".toList),
   (0x49, ",".toList), (0x4A, ",".toList), (0x4B, "TEXT".toList), (0x4C, "GR".toList),
   (0x4D, "CALL".toList), (0x4E, "DIM".toList), (0x4F, "DIM".toList), (0x50, "TAB".toList),
   (0x51, "END".toList), (0x52, "INPUT".toList), (0x53, "INPUT".toList), (0x54, "INPUT".toList),
   (0x55, "FOR".toList), (0x56, "=".toList), (0x57, "TO".toList), (0x58, "STEP".toList),
   (0x59, "NEXT".toList), (0x5A, ",".toList), (0x5B, "RETURN".toList), (0x5C, "GOSUB".toList),
   (0x5D, "REM".toList), (0x5E, "LET".toList), (0x5F, "GOTO".toList), (0x60, "IF".toList),
   (0x61, "PRINT".toList), (0x62, "PRINT".toList), (0x63, "PRINT".toList), (0x64, "POKE".toList),
   (0x65, ",".toList), (0x66, "COLOR=".toList), (0x67, "PLOT".toList), (0x68, ",".toList),
   (0x69, "HLIN".toList), (0x6A, ",".toList), (0x6B, "AT".toList), (0x6C, "VLIN".toList),
   (0x6D, ",".toList), (0x6E, "AT".toList), (0x6F, "VTAB".toList), (0x70, "=".toList),
   (0x71, "=".toList), (0x72, ")".toList), (0x73, ")".toList), (0x74, "LIST".toList),
   (0x75, ",".toList), (0x76, "LIST".toList), (0x77, "POP".toList), (0x78, "NODSP".toList),
   (0x79, "DSP".toList), (0x7A, "NOTRACE".toList), (0x7B, "DSP".toList), (0x7C, "DSP".toList),
   (0x7D, "TRACE".toList), (0x7E, "PR#".toList), (0x7F, "IN#".toList)]

/-- Lookup `IntegerTokens[code]` with the `ok` flag dropped: a missing key gives the empty
string. -/
def integerToken (code : Nat) : List Char :=
  ((IntegerTokens.find? (fun e => e.1 == code)).map (·.2)).getD []

/-- The loop `for t != stop && length > 0` that copies `t & 0x7f` to the output: the quoted
text of `IntegerDetoks` (`stop = 0x29`) and its REM text (`stop = 0x01`).  The result is
`t`, `srcptr`, `length` and the output at the exit. -/
def intCopyLoop (fuel : Nat) (stop : Nat) (data : List Nat) (t : Nat) (srcptr length : Int)
    (out : List Nat) : Option (Nat × Int × Int × List Nat) :=
  match fuel with
  | 0 => none
  | fuel + 1 =>
    if t ≠ stop ∧ length > 0 then
      match Read8 srcptr length data with
      | none => none
      | some (t1, s1, l1) => intCopyLoop fuel stop data t1 s1 l1 (out ++ [t &&& 0x7f])
    else some (t, srcptr, length, out)

/-- The loop over the bytes of a variable name in `IntegerDetoks`; its condition does not
look at `length`. -/
def intNameLoop (fuel : Nat) (data : List Nat) (t : Nat) (srcptr length : Int)
    (out : List Nat) : Option (Nat × Int × Int × List Nat) :=
  match fuel with
  | 0 => none
  | fuel + 1 =>
    if (t ≥ 0xc1 ∧ t ≤ 0xda) ∨ (t ≥ 0xb0 ∧ t ≤ 0xb9) then
      match Read8 srcptr length data with
      | none => none
      | some (t1, s1, l1) => intNameLoop fuel data t1 s1 l1 (out ++ [t &&& 0x7f])
    else some (t, srcptr, length, out)

/-- The output of the token branch of `IntegerDetoks` and the new value of
`newTrailingSpace`; `none` is the index panic of `token[0]` on an empty keyword. -/
def intTokenOut (t : Nat) (trailingSpace : Bool) (out : List Nat) : Option (List Nat × Bool) :=
  let token := stringBytes (integerToken t)
  match token with
  | [] => none
  | c :: _ =>
    let out1 :=
      if (c ≥ 0x21 ∧ c ≤ 0x3f) ∨ t < 0x12 then out ++ token
      else if trailingSpace then out ++ token ++ [32]
      else out ++ stringBytes " ".toList ++ token ++ [32]
    some (out1, token.getLast? == some 32)

/-- The loop `for t != 0x01 && length > 0` of `IntegerDetoks` over one line; a `break` leaves
it with the state at that point.  The result is `t`, `srcptr`, `length` and the output. -/
def intLineLoop (fuel : Nat) (data : List Nat) (t : Nat) (srcptr length : Int)
    (trailingSpace : Bool) (out : List Nat) : Option (Nat × Int × Int × List Nat) :=
  match fuel with
  | 0 => none
  | fuel + 1 =>
    if ¬ (t ≠ 0x01 ∧ length > 0) then some (t, srcptr, length, out)
    else if t = 0x03 then
      match Read8 srcptr length data with
      | none => none
      | some (t1, s1, l1) => intLineLoop fuel data t1 s1 l1 false (out ++ stringBytes " :".toList)
    else if t = 0x28 then
      match Read8 srcptr length data with
      | none => none
      | some (t1, s1, l1) =>
        match intCopyLoop (data.length + 1) 0x29 data t1 s1 l1 (out ++ [34]) with
        | none => none
        | some (t2, s2, l2, out2) =>
          if t2 ≠ 0x29 then some (t2, s2, l2, out2)
          else
            match Read8 s2 l2 data with
            | none => none
            | some (t3, s3, l3) => intLineLoop fuel data t3 s3 l3 false (out2 ++ [34])
    else if t = 0x5d then
      let out1 := (if trailingSpace then out ++ [32] else out) ++ stringBytes "REM ".toList
      match Read8 srcptr length data with
      | none => none
      | some (t1, s1, l1) =>
        match intCopyLoop (data.length + 1) 0x01 data t1 s1 l1 out1 with
        | none => none
        | some (t2, s2, l2, out2) =>
          if t2 ≠ 0x01 then some (t2, s2, l2, out2)
          else intLineLoop fuel data t2 s2 l2 false out2
    else if t ≥ 0xb0 ∧ t ≤ 0xb9 then
      if length < 2 then some (t, srcptr, length, out)
      else
        match Read16 srcptr length data with
        | none => none
        | some (val, s1, l1) =>
          match Read8 s1 l1 data with
          | none => none
          | some (t2, s2, l2) =>
            intLineLoop fuel data t2 s2 l2 false (out ++ stringBytes (Nat.toDigits 10 val))
    else if t ≥ 0xc1 ∧ t ≤ 0xda then
      match intNameLoop (data.length + 2) data t srcptr length out with
      | none => none
      | some (t1, s1, l1, out1) => intLineLoop fuel data t1 s1 l1 false out1
    else if t < 0x80 then
      match intTokenOut t trailingSpace out with
      | none => none
      | some (out1, newTrailingSpace) =>
        match Read8 srcptr length data with
        | none => none
        | some (t1, s1, l1) => intLineLoop fuel data t1 s1 l1 newTrailingSpace out1
    else
      match Read8 srcptr length data with
      | none => none
      | some (t1, s1, l1) => intLineLoop fuel data t1 s1 l1 false out

/-- The loop `for length > 0` of `IntegerDetoks` over the lines. -/
def intLinesLoop (fuel : Nat) (data : List Nat) (srcptr length : Int) (out : List Nat) :
    Option (List Nat) :=
  match fuel with
  | 0 => none
  | fuel + 1 =>
    if ¬ length > 0 then some out
    else
      match Read8 srcptr length data with
      | none => none
      | some (lineLen, s1, l1) =>
        if lineLen = 0 then some out
        else
          match Read16 s1 l1 data with
          | none => none
          | some (lineNum, s2, l2) =>
            let out1 := out ++ stringBytes (Nat.toDigits 10 lineNum ++ " ".toList)
            match Read8 s2 l2 data with
            | none => none
            | some (t, s3, l3) =>
              match intLineLoop (data.length + 1) data t s3 l3 false out1 with
              | none => none
              | some (t4, s4, l4, out2) =>
                if t4 ≠ 0x01 ∧ l4 > 0 then some out2
                else intLinesLoop fuel data s4 l4 (out2 ++ [13, 10])

/-- `IntegerDetoks`: `none` is an index panic (or a loop still running after
`len(data) + 1` rounds, which does not happen: every round reads a byte). -/
def IntegerDetoks (data : List Nat) : Option (List Nat) :=
  if data.length < 2 then some [13, 10]
  else intLinesLoop (data.length + 1) data 0 data.length []

/-! ## data.go: positional comparison of two descriptors -/

/-- `DiskFormat.BPD`, the blocks per disk. -/
def DiskFormat.BPD (df : DiskFormat) : Int :=
  match df.ID with
  | .DF_RDOS_3 => 222
  | .DF_RDOS_32 => 222
  | .DF_RDOS_33 => 280
  | .DF_DOS_SECTORS_13 => 222
  | .DF_DOS_SECTORS_16 => 280
  | .DF_PRODOS => 280
  | .DF_PASCAL => 280
  | .DF_PRODOS_800KB => 1600
  | .DF_PRODOS_400KB => 800
  | .DF_PRODOS_CUSTOM => df.bpd
  | _ => 16

/-- A quotient of two `float64` counters that hold whole numbers: `0/0` is NaN, `a/0` with
`a > 0` is +Inf, everything else is the exact ratio. -/
inductive GoQuot where
  | nan
  | inf
  | val (q : ℚ)
  deriving DecidableEq

def goDiv (a b : Nat) : GoQuot :=
  if b = 0 then (if a = 0 then .nan else .inf) else .val ((a : ℚ) / (b : ℚ))

/-- The test `x >= t` on `float64`: false when `x` is NaN. -/
def GoQuot.ge (x : GoQuot) (t : ℚ) : Bool :=
  match x with
  | .nan => false
  | .inf => true
  | .val q => decide (q ≥ t)

/-- `GetUtilizationMap`: the checksum of every active sector under the key `T<track>S<sector>`;
keys are lists of characters. -/
def Disk.GetUtilizationMap (d : Disk) : List (List Char × String) :=
  d.ActiveSectors.foldl
    (fun out block =>
      mapSet out ('T' :: Nat.toDigits 10 block.Track ++ 'S' :: Nat.toDigits 10 block.Sector)
        block.SHA256)
    []

/-- The counters of the two positional comparisons. -/
structure PositionCounts where
  sameSectors : Nat
  diffSectors : Nat
  dNotb : Nat
  bNotd : Nat
  emptySectors : Nat
  dTotal : Nat
  bTotal : Nat
  deriving DecidableEq, Repr

/-- The `switch` on the two lookups of one position, common to both comparisons. -/
def positionStep (dmap bmap : List (List Char × String)) (c : PositionCounts)
    (key : List Char) : PositionCounts :=
  match mapGet dmap key, mapGet bmap key with
  | some dCk, some bCk =>
    if dCk = bCk then
      { c with sameSectors := c.sameSectors + 1, dTotal := c.dTotal + 1, bTotal := c.bTotal + 1 }
    else
      { c with diffSectors := c.diffSectors + 1, dTotal := c.dTotal + 1, bTotal := c.bTotal + 1 }
  | some _, none => { c with dNotb := c.dNotb + 1, dTotal := c.dTotal + 1 }
  | none, some _ => { c with bNotd := c.bNotd + 1, bTotal := c.bTotal + 1 }
  | none, none => { c with emptySectors := c.emptySectors + 1 }

/-- The four quotients both comparisons return. -/
def PositionCounts.result (c : PositionCounts) : GoQuot × GoQuot × GoQuot × GoQuot :=
  (goDiv c.sameSectors c.dTotal, goDiv c.sameSectors c.bTotal, goDiv c.diffSectors c.dTotal,
    goDiv c.diffSectors c.bTotal)

/-- The counters of `compareBlocksPositional` after its loop over the keys `B<t>`; `f` is
`d.FormatID`. -/
def blockCounts (f : DiskFormat) (d b : Disk) : PositionCounts :=
  (List.range f.BPD.toNat).foldl
    (fun c t => positionStep d.GetUtilizationMap b.GetUtilizationMap c ('B' :: Nat.toDigits 10 t))
    (PositionCounts.mk 0 0 0 0 0 0 0)

/-- `compareBlocksPositional`. -/
def compareBlocksPositional (f : DiskFormat) (d b : Disk) : GoQuot × GoQuot × GoQuot × GoQuot :=
  (blockCounts f d b).result

/-- `compareSectorsPositional`, with the keys `T<t>S<s>`. -/
def compareSectorsPositional (f : DiskFormat) (d b : Disk) :
    GoQuot × GoQuot × GoQuot × GoQuot :=
  ((List.range f.TPD.toNat).foldl
    (fun c t => (List.range f.SPT.toNat).foldl
      (fun c1 s => positionStep d.GetUtilizationMap b.GetUtilizationMap c1
        ('T' :: Nat.toDigits 10 t ++ 'S' :: Nat.toDigits 10 s))
      c)
    (PositionCounts.mk 0 0 0 0 0 0 0)).result

/-- `CompareChunks`; `fd` and `fb` are the `FormatID` fields of the two descriptors. -/
def CompareChunks (fd fb : DiskFormat) (d b : Disk) : GoQuot × GoQuot × GoQuot × GoQuot :=
  if fd ≠ fb then (.val 0, .val 0, .val 0, .val 0)
  else
    match fd.ID with
    | .DF_RDOS_3 => compareSectorsPositional fd d b
    | .DF_RDOS_32 => compareSectorsPositional fd d b
    | .DF_RDOS_33 => compareSectorsPositional fd d b
    | .DF_PASCAL => compareBlocksPositional fd d b
    | .DF_DOS_SECTORS_13 => compareSectorsPositional fd d b
    | .DF_DOS_SECTORS_16 => compareSectorsPositional fd d b
    | .DF_PRODOS => compareBlocksPositional fd d b
    | .DF_PRODOS_800KB => compareBlocksPositional fd d b
    | _ => (.val 0, .val 0, .val 0, .val 0)

/-- The test of `GetPartialMatchesWithThreshold` on one other descriptor: `dSame >= t`. -/
def thresholdMatch (t : ℚ) (fd fb : DiskFormat) (d b : Disk) : Bool :=
  (CompareChunks fd fb d b).1.ge t

/-- A descriptor with the two sectors of one block active, as the ProDOS analyser records
them: track 0, sectors 0 and 2. -/
def oneBlockDisk : Disk :=
  Disk.mk "a.po" [] "a.fgp" 35 16 [] [DiskSector.mk 0 0 "s0", DiskSector.mk 0 2 "s2"] []

/-! ## fuzzyfiles.go: the two directions of a comparison -/

/-- A catalog with a file named `hello` and a file `a`. -/
def catalogHelloA : DiskCatalog :=
  [DiskFile.mk "hello" "h1" 1, DiskFile.mk "a" "h2" 1]

/-- A catalog with the file `a` alone. -/
def catalogA : DiskCatalog := [DiskFile.mk "a" "h2" 1]

/-! ## disk/diskimagepd.go: the directory walks, one iteration at a time -/

/-- The outcome of one iteration of a loop: the function returns, an index or slice
operation panics, or the loop goes on in a new state. -/
inductive WalkStep (σ ρ : Type) where
  | done (r : ρ)
  | panic
  | next (s : σ)

/-- The variables of the loop `for activeentries < filecount` of `PRODOSGetCatalog`. -/
structure CatalogWalk where
  d : DSKWrapper
  activeentries : Nat
  blockentries : Nat
  refnum : Int
  nextblock : Int
  data : List Nat
  entrypointer : Nat
  files : List ProDOSFileDescriptor

/-- One iteration of the loop `for activeentries < filecount` of `PRODOSGetCatalog`, the
body of `catalogLoop`. -/
def catalogStep (re : RegexMatch) (pattern : List Char) (filecount entriesperblock : Nat)
    (s : CatalogWalk) : WalkStep CatalogWalk (DSKWrapper × List ProDOSFileDescriptor) :=
  if s.activeentries < filecount then
    match s.data[s.entrypointer]? with
    | none => .panic
    | some b0 =>
      if b0 ≠ 0x00 ∧ s.entrypointer + PRODOS_ENTRY_SIZE > s.data.length then .panic
      else
        let fd : ProDOSFileDescriptor :=
          { Data := (s.data.drop s.entrypointer).take PRODOS_ENTRY_SIZE, blockid := s.refnum,
            blockoffset := s.entrypointer, entryNum := 0 }
        let skipname : Bool := pattern ≠ [] && !re (catalogPattern pattern) fd.Name
        let files1 :=
          if b0 ≠ 0x00 ∧ ProDOSTypeValid fd.Type ∧ fd.GetStorageType ≠ StorageType_Inactive ∧
              !skipname then s.files ++ [fd]
          else s.files
        let active1 := if b0 ≠ 0x00 then s.activeentries + 1 else s.activeentries
        if active1 < filecount then
          if s.blockentries = entriesperblock then
            match s.d.getBlockByFormat s.nextblock with
            | none => .panic
            | some (d1, _, some _) => .done (d1, files1)
            | some (d1, data1, none) =>
              match nextBlockOf data1 with
              | none => .panic
              | some nb =>
                .next (CatalogWalk.mk d1 active1 0x01 s.nextblock nb data1 0x04 files1)
          else
            .next (CatalogWalk.mk s.d active1 (s.blockentries + 1) s.refnum s.nextblock s.data
              (s.entrypointer + PRODOS_ENTRY_SIZE) files1)
        else .done (s.d, files1)
  else .done (s.d, s.files)

/-- The loop `catalogLoop` started in the state `s`. -/
def catalogLoopFrom (fuel : Nat) (re : RegexMatch) (pattern : List Char)
    (filecount entriesperblock : Nat) (s : CatalogWalk) :
    Option (DSKWrapper × List ProDOSFileDescriptor) :=
  catalogLoop fuel re pattern s.d filecount entriesperblock s.activeentries s.blockentries
    s.refnum s.nextblock s.data s.entrypointer s.files

/-- The variables of the loop `for nextBlock != 0` of `PRODOSGetDirBlocks`. -/
structure DirBlocksWalk where
  d : DSKWrapper
  nextBlock : Int
  blocks : List Int
  chunks : List (List Nat)

/-- One iteration of the loop `for nextBlock != 0` of `PRODOSGetDirBlocks`, the body of
`dirBlocksLoop`. -/
def dirBlocksStep (s : DirBlocksWalk) :
    WalkStep DirBlocksWalk (DSKWrapper × List Int × List (List Nat)) :=
  if s.nextBlock ≠ 0 then
    match s.d.PRODOSGetBlock s.nextBlock with
    | none => .panic
    | some (d1, data, _) =>
      match nextBlockOf data with
      | none => .panic
      | some nb => .next (DirBlocksWalk.mk d1 nb (s.blocks ++ [s.nextBlock]) (s.chunks ++ [data]))
  else .done (s.d, s.blocks, s.chunks)

/-- The wrapper after `PRODOSGetBlock b`. -/
@[irreducible]
def atBlock (d : DSKWrapper) (b : Int) : DSKWrapper :=
  match d.PRODOSGetBlock b with
  | some (d1, _, _) => d1
  | none => d

/-- The 512 bytes `PRODOSGetBlock b` returns. -/
@[irreducible]
def blockData (d : DSKWrapper) (b : Int) : List Nat :=
  match d.PRODOSGetBlock b with
  | some (_, data, _) => data
  | none => []

/-- A ProDOS volume whose volume directory (block 2) has a header with file count 1 and 13
entries per block, no entry, and the next-block pointer 0; every other block is zero. -/
def emptyDirVolume : DSKWrapper :=
  buildProDOS [(2, [0, 0, 0, 0] ++ testVolumeHeader 1)]

/-- A ProDOS volume whose volume directory block names itself as the next block (bytes 2 and
3 are `02 00`); the header has file count 0. -/
def selfLinkedVolume : DSKWrapper :=
  buildProDOS [(2, [0, 0, 2, 0] ++ testVolumeHeader 0)]

/-- The states of `PRODOSGetCatalog` on `emptyDirVolume` while it scans block 2: slot
`2 + k` at offset `43 + 39 k`. -/
def firstBlockWalk (k : Nat) : CatalogWalk :=
  CatalogWalk.mk (atBlock emptyDirVolume 2) 0 (2 + k) 2 0 (blockData emptyDirVolume 2)
    (43 + 39 * k) []

/-- The states of `PRODOSGetCatalog` on `emptyDirVolume` while it scans block 0: slot
`1 + k` at offset `4 + 39 k`. -/
def blockZeroWalk (k : Nat) : CatalogWalk :=
  CatalogWalk.mk (atBlock emptyDirVolume 0) 0 (1 + k) 0 0 (blockData emptyDirVolume 0)
    (4 + 39 * k) []

/-- The states of `PRODOSGetDirBlocks` on `selfLinkedVolume` after `n` rounds. -/
def selfLinkedWalk (n : Nat) : DirBlocksWalk :=
  DirBlocksWalk.mk (atBlock selfLinkedVolume 2) 2 (2 :: List.replicate n 2)
    (List.replicate (n + 1) (blockData selfLinkedVolume 2))

/-! ## disk/diskimagepd.go: the blocks a delete gives back -/

/-- Spec side: the number of blocks below `total` that the volume bitmap marks free. -/
def freeBlockCount (d : DSKWrapper) (total : Nat) : Option Nat :=
  match d.PRODOSGetVolumeBitmap with
  | some (_, .ok vbm) =>
    some ((List.range total).countP fun b => vbm.IsBlockFree b == some true)
  | _ => none

/-- Spec side: the blocks in `blocks` that the volume bitmap marks free. -/
def freeAmong (d : DSKWrapper) (blocks : List Nat) : Option (List Nat) :=
  match d.PRODOSGetVolumeBitmap with
  | some (_, .ok vbm) => some (blocks.filter fun b => vbm.IsBlockFree b == some true)
  | _ => none

/-- `volumeWithA` after `PRODOSWriteFile("", "B", BIN, 512 bytes, 0x2000)`. -/
def volumeWithAB : Option DSKWrapper :=
  (volumeWithA.PRODOSWriteFile plainRegex testNow testNow [] "B".toList 6
    (List.replicate 512 9) 0x2000).map (·.1)

/-! ## disk/diskimageappledos.go: catalog sectors outside the image -/

/-- A 116480-byte image as `IsAppleDOS` probes it: format DOS 13-sector, layout
`SectorOrderDOS33Alt`, the second layout it tries.  The VTOC at track 17 sector 0 gives 35
tracks of 13 sectors, which `IsAppleDOS` checks before it reads the catalog, and names track
34 sector 2 as the first catalog sector. -/
def dos13CatalogAtEnd : DSKWrapper :=
  mkWrapper
    (((DSKContainer.zeros 116480).store (17 * 13 * 256) [0x04, 34, 2]).store
      (17 * 13 * 256 + 0x34) [35, 13])
    .DF_DOS_SECTORS_13 .SectorOrderDOS33Alt

/-- An 819200-byte image with the 800 KB format in ProDOS sector order whose sector at track
17 sector 0 names track 0 sector 16 as the first catalog sector. -/
def wideCatalogStart : DSKWrapper :=
  mkWrapper ((DSKContainer.zeros 819200).store (17 * 40 * 256) [0x04, 0, 16])
    .DF_PRODOS_800KB .SectorOrderProDOS

/-! ## disk/atokens.go: a program that ends above address 65535 -/

/-- A program of one line: line number 1, a space, an opening quote and `n` letters `X`. -/
def quotedLine (n : Nat) : List Char :=
  '1' :: ' ' :: '"' :: List.replicate n 'X'

/-- Spec side: the address stored in the first two bytes of a record. -/
def recordAddress (r : List Nat) : Nat := r.getD 0 0 + 256 * r.getD 1 0

/-! ## disk/diskimagerdos.go: the catalog slots (spec side) -/

/-- Spec side: slot `i` of the RDOS catalog, the 32 bytes at offset `32 * (i % 8)` of sector
`i / 8` of track 1 as `Seek` and `Read` deliver that sector. -/
def rdosSlot (d : DSKWrapper) (i : Nat) : Option (List Nat) :=
  ((d.Seek 1 ((i / 8 : Nat) : Int)).1.Read).map fun sector =>
    (sector.drop (32 * (i % 8))).take 32

/-- Spec side: the catalog of an RDOS image: of the 88 slots of the 11 catalog sectors, in
order, those before the first unused one that are not deleted and whose name matches. -/
def rdosCatalogSlots (d : DSKWrapper) (rx : List Char → Bool) : List (List Nat) :=
  (((List.range 88).filterMap (rdosSlot d)).takeWhile fun e => !rdosIsUnused e).filter
    fun e => !rdosIsDeleted e && rx (rdosNameUnadorned e)

/-! ## The local time zone of `time.Date` -/

/-- What `Location.lookup` of the Go library answers for an instant: the offset in seconds
east of UTC that is in force at it, and the instants `start ≤ .. < stop` over which that
offset is in force. -/
structure ZoneSpan where
  offset : Int
  start : Int
  stop : Int
  deriving DecidableEq, Repr

/-- The zone `time.Local` as the lookup function on instants (seconds since 1970-01-01
00:00 UTC). -/
def Zone : Type := Int → ZoneSpan

/-- Seconds from 1970-01-01 00:00 to the given wall-clock time, read as if it were UTC;
values outside their usual ranges overflow into the next unit, as `time.Date` normalizes
them. -/
def wallSeconds (year month day hour min : Int) : Int :=
  let y1 := year + (month - 1) / 12
  let mo := (month - 1) % 12 + 1
  (daysFromCivil y1 mo 1 + (day - 1)) * 86400 + hour * 3600 + min * 60

/-- The instant `time.Date(year, month, day, hour, min, 0, 0, loc)` returns.  The offset is
looked up at the wall-clock seconds; when the instant this gives lies outside the span of
that offset, the offset in force at that instant is taken instead. -/
def goDateIn (zone : Zone) (year month day hour min : Int) : Int :=
  let unix := wallSeconds year month day hour min
  let z := zone unix
  if z.offset ≠ 0 then
    let utc := unix - z.offset
    let offset := if utc < z.start ∨ utc ≥ z.stop then (zone utc).offset else z.offset
    unix - offset
  else unix

/-- The methods `Year`, `Month`, `Day`, `Hour` and `Minute` of a `time.Time` in the zone:
the calendar fields of the instant plus the offset in force at it. -/
def goClock (zone : Zone) (unix : Int) : GoTime :=
  let abs := unix + (zone unix).offset
  let c := civilFromDays (abs / 86400)
  { year := c.1.toNat, month := c.2.1.toNat, day := c.2.2.toNat,
    hour := (abs % 86400 / 3600).toNat, minute := (abs % 3600 / 60).toNat }

/-- `prodosStampBytesToTime` with `time.Local` given as `zone`: the fields of the time it
returns. -/
def prodosStampBytesToTimeIn (zone : Zone) (b : List Nat) : GoTime :=
  let dbits := (b.getD 1 0 <<< 8) ||| b.getD 0 0
  let day := dbits &&& 31
  let month := (dbits >>> 5) &&& 15
  let year := (dbits >>> 9) &&& 127
  let tbits := (b.getD 3 0 <<< 8) ||| b.getD 2 0
  let mins := tbits &&& 63
  let hours := tbits >>> 8
  let year1 := if year < 70 then year + 100 else year
  goClock zone
    (goDateIn zone ((year1 + 1900 : Nat) : Int) (month : Nat) (day : Nat) (hours : Nat)
      (mins : Nat))

/-- A zone with one clock change, as on the west coast of North America in the spring of
2024: eight hours behind UTC before 2024-03-10 10:00 UTC (the instant 1710064800), seven
hours behind from then on. -/
def springForward : Zone := fun u =>
  if u < 1710064800 then
    { offset := -28800, start := -9223372036854775808, stop := 1710064800 }
  else { offset := -25200, start := 1710064800, stop := 9223372036854775807 }

/-- The fields `prodosStampBytesToTime` reads from the four stamp bytes: year, month, day,
hours and minutes as handed to `time.Date`. -/
def stampFields (b : List Nat) : Nat × Nat × Nat × Nat × Nat :=
  let dbits := (b.getD 1 0 <<< 8) ||| b.getD 0 0
  let day := dbits &&& 31
  let month := (dbits >>> 5) &&& 15
  let year := (dbits >>> 9) &&& 127
  let tbits := (b.getD 3 0 <<< 8) ||| b.getD 2 0
  let mins := tbits &&& 63
  let hours := tbits >>> 8
  let year1 := if year < 70 then year + 100 else year
  (year1 + 1900, month, day, hours, mins)

/-! ## Theorems -/

/-- C7, the claim as stated fails: on an RDOS 3 disk (16 sectors per track, 13 usable)
`Seek 0 14` is refused although track 0 and sector 14 lie inside `[0, TPD)` and `[0, SPT)`. -/
theorem Seek_SPT_counterexample :
    ¬ (∀ (d : DSKWrapper) (t s : Int),
        (d.Seek t s).2.isSome = true ↔
          ¬ (0 ≤ t ∧ t < d.Format.TPD) ∨ ¬ (0 ≤ s ∧ s < d.Format.SPT)) := by
  intro h
  have h1 := h
    { Data := DSKContainer.zeros 143360, Layout := .SectorOrderDOS33Alt, CurrentTrack := 0,
      CurrentSector := 0,
      SectorPointer := 0, Format := GetDiskFormat .DF_RDOS_3 } 0 14
  revert h1
  decide

/-- C7 (amended): `Seek t s` returns an error exactly when `t` is outside `[0, TPD)` or `s` is
outside `[0, USPT)`, the usable sectors per track; `SetTrack` and `SetSector` fail exactly on
their own argument being out of those ranges. -/
theorem Seek_error_iff (d : DSKWrapper) (t s : Int) :
    ((d.Seek t s).2.isSome = true ↔
        ¬ (0 ≤ t ∧ t < d.Format.TPD) ∨ ¬ (0 ≤ s ∧ s < d.Format.USPT)) ∧
    ((d.SetTrack t).2.isSome = true ↔ ¬ (0 ≤ t ∧ t < d.Format.TPD)) ∧
    ((d.SetSector s).2.isSome = true ↔ ¬ (0 ≤ s ∧ s < d.Format.USPT)) := by
  refine ⟨?_, ?_, ?_⟩
  · unfold DSKWrapper.Seek DSKWrapper.SetTrack
    by_cases ht : t ≥ 0 ∧ t < d.Format.TPD
    · simp only [ht, and_self, if_true]
      unfold DSKWrapper.SetSector
      by_cases hs : s ≥ 0 ∧ s < (({ d with CurrentTrack := t } : DSKWrapper).SetSectorPointer).Format.USPT
      · have hs' : 0 ≤ s ∧ s < d.Format.USPT := hs
        simp [hs, hs', ht.1, ht.2]
      · have hs' : ¬ (0 ≤ s ∧ s < d.Format.USPT) := hs
        rw [if_neg hs]
        simp only [Option.isSome_some, true_iff]
        exact Or.inr hs'
    · have ht' : ¬ (0 ≤ t ∧ t < d.Format.TPD) := ht
      rw [if_neg ht]
      simp only [Option.isSome_some, true_iff]
      exact Or.inl ht'
  · unfold DSKWrapper.SetTrack
    by_cases ht : t ≥ 0 ∧ t < d.Format.TPD
    · have ht' : 0 ≤ t ∧ t < d.Format.TPD := ht
      simp [ht, ht'.1, ht'.2]
    · have ht' : ¬ (0 ≤ t ∧ t < d.Format.TPD) := ht
      rw [if_neg ht]
      simp only [Option.isSome_some, true_iff]
      exact ht'
  · unfold DSKWrapper.SetSector
    by_cases hs : s ≥ 0 ∧ s < d.Format.USPT
    · have hs' : 0 ≤ s ∧ s < d.Format.USPT := hs
      simp [hs, hs'.1, hs'.2]
    · have hs' : ¬ (0 ≤ s ∧ s < d.Format.USPT) := hs
      rw [if_neg hs]
      simp only [Option.isSome_some, true_iff]
      exact hs'

/-- C8: for every block `b ≥ 0`, `PRODOSGetBlockSectors b` returns track `b / 8`; under the
ProDOS-linear layout the sectors are `2*(b mod 8)` and `2*(b mod 8)+1`, under every other layout
they are entry `b mod 8` of the fixed table; and the sixteen sectors named for the eight blocks
of a track are pairwise distinct. -/
theorem PRODOSGetBlockSectors_spec (d : DSKWrapper) (b : Nat) :
    (d.PRODOSGetBlockSectors (b : Int)).1 = ((b / 8 : Nat) : Int) ∧
    (d.Layout = .SectorOrderProDOSLinear →
      (d.PRODOSGetBlockSectors (b : Int)).2 =
        (((2 * (b % 8) : Nat) : Int), ((2 * (b % 8) + 1 : Nat) : Int))) ∧
    (d.Layout ≠ .SectorOrderProDOSLinear →
      some (d.PRODOSGetBlockSectors (b : Int)).2 = blockSectorTable[b % 8]?) ∧
    (d.trackBlockSectors ((b / 8 : Nat) : Int)).Nodup := by
  have hmodk : ∀ n : Nat, Int.tmod (n : Int) 8 = ((n % 8 : Nat) : Int) := by
    intro n
    rw [Int.tmod_eq_emod (Int.ofNat_nonneg n) (by decide)]; omega
  have hdiv : Int.tdiv (b : Int) 8 = ((b / 8 : Nat) : Int) := by
    rw [Int.tdiv_eq_ediv (Int.ofNat_nonneg b) (by decide)]; omega
  have hmod := hmodk b
  have hlt : b % 8 < 8 := Nat.mod_lt _ (by omega)
  refine ⟨?_, ?_, ?_, ?_⟩
  · unfold DSKWrapper.PRODOSGetBlockSectors
    simp only [PRODOS_BLOCKS_PER_TRACK, hdiv]
    split_ifs <;> rfl
  · intro hl
    unfold DSKWrapper.PRODOSGetBlockSectors
    simp only [PRODOS_BLOCKS_PER_TRACK, hmod, hl, if_true]
    simp only [Prod.mk.injEq]
    constructor <;> push_cast <;> ring
  · intro hl
    unfold DSKWrapper.PRODOSGetBlockSectors
    simp only [PRODOS_BLOCKS_PER_TRACK, hmod, hl, if_false]
    generalize b % 8 = k at hlt
    interval_cases k <;> simp [blockSectorTable]
  · generalize b / 8 = tr
    have key : ∀ k : Nat, k < 8 → Int.tmod ((tr : Int) * 8 + (k : Int)) 8 = (k : Int) := by
      intro k hk
      have h := hmodk (tr * 8 + k)
      push_cast at h
      rw [h]
      omega
    have aux : ∀ k : Nat, k < 8 →
        (d.PRODOSGetBlockSectors ((tr : Int) * 8 + (k : Int))).2 =
          if d.Layout = .SectorOrderProDOSLinear then ((k : Int) * 2, (k : Int) * 2 + 1)
          else blockSectorTable.getD k (0, 0) := by
      intro k hk
      unfold DSKWrapper.PRODOSGetBlockSectors
      simp only [PRODOS_BLOCKS_PER_TRACK, key k hk]
      by_cases hl : d.Layout = .SectorOrderProDOSLinear
      · simp only [hl, if_true]
      · simp only [hl, if_false]
        interval_cases k <;> simp [blockSectorTable]
    unfold DSKWrapper.trackBlockSectors
    have hr : List.range 8 = [0, 1, 2, 3, 4, 5, 6, 7] := by decide
    simp only [hr, List.flatMap_cons, List.flatMap_nil]
    rw [aux 0 (by omega), aux 1 (by omega), aux 2 (by omega), aux 3 (by omega),
      aux 4 (by omega), aux 5 (by omega), aux 6 (by omega), aux 7 (by omega)]
    by_cases hl : d.Layout = .SectorOrderProDOSLinear
    · simp only [hl, if_true]
      decide
    · simp only [hl, if_false]
      decide

/-! ### fuzzyfiles.go -/

theorem mapGet_mapSet {κ ν : Type} [DecidableEq κ] (m : List (κ × ν)) (k k' : κ) (v : ν) :
    mapGet (mapSet m k v) k' = if k = k' then some v else mapGet m k' := by
  induction m with
  | nil =>
    simp only [mapSet, mapGet]
  | cons e rest ih =>
    obtain ⟨k1, v1⟩ := e
    simp only [mapSet]
    by_cases h1 : k1 = k
    · simp only [h1, if_true, mapGet]
      split_ifs <;> rfl
    · simp only [h1, if_false, mapGet, ih]
      by_cases h2 : k = k'
      · subst h2
        simp [h1]
      · simp [h2]

theorem mapGet_isSome_iff {κ ν : Type} [DecidableEq κ] (m : List (κ × ν)) (k : κ) :
    (mapGet m k).isSome = true ↔ k ∈ m.map Prod.fst := by
  induction m with
  | nil => simp [mapGet]
  | cons e rest ih =>
    obtain ⟨k1, v1⟩ := e
    simp only [mapGet, List.map_cons, List.mem_cons]
    by_cases h1 : k1 = k
    · simp [h1]
    · simp only [h1, if_false, ih]
      constructor
      · intro h; exact Or.inr h
      · rintro (h | h)
        · exact absurd h.symm h1
        · exact h

theorem map_fst_mapSet {κ ν : Type} [DecidableEq κ] (m : List (κ × ν)) (k : κ) (v : ν) :
    (mapSet m k v).map Prod.fst =
      if k ∈ m.map Prod.fst then m.map Prod.fst else m.map Prod.fst ++ [k] := by
  induction m with
  | nil => simp [mapSet]
  | cons e rest ih =>
    obtain ⟨k1, v1⟩ := e
    simp only [mapSet]
    by_cases h1 : k1 = k
    · simp [h1]
    · have h1' : ¬ k = k1 := fun h => h1 h.symm
      simp only [h1, if_false, List.map_cons, ih, List.mem_cons, h1', false_or]
      split_ifs <;> simp

theorem mem_mapSet {κ ν : Type} [DecidableEq κ] (m : List (κ × ν)) (k : κ) (v : ν)
    (e : κ × ν) (he : e ∈ mapSet m k v) : e = (k, v) ∨ e ∈ m := by
  induction m with
  | nil =>
    simp only [mapSet, List.mem_singleton] at he
    exact Or.inl he
  | cons e1 rest ih =>
    obtain ⟨k1, v1⟩ := e1
    simp only [mapSet] at he
    by_cases h1 : k1 = k
    · simp only [h1, if_true, List.mem_cons] at he
      rcases he with he | he
      · exact Or.inl he
      · exact Or.inr (List.mem_cons_of_mem _ he)
    · simp only [h1, if_false, List.mem_cons] at he
      rcases he with he | he
      · exact Or.inr (by rw [he]; exact List.mem_cons_self _ _)
      · rcases ih he with h | h
        · exact Or.inl h
        · exact Or.inr (List.mem_cons_of_mem _ h)

/-- Invariant of the loop of `GetCatalogMap`. -/
theorem GetCatalogMap_fold (d : DiskCatalog) (out : List (String × DiskFile)) (seen : DiskCatalog)
    (hk : (out.map Prod.fst).Nodup)
    (hs : ∀ s, s ∈ out.map Prod.fst ↔ s ∈ seen.map (·.SHA256))
    (hv : ∀ e ∈ out, e.2 ∈ seen) :
    let m := d.foldl (fun out v => mapSet out v.SHA256 v) out
    (m.map Prod.fst).Nodup ∧ (∀ s, s ∈ m.map Prod.fst ↔ s ∈ (seen ++ d).map (·.SHA256)) ∧
      (∀ e ∈ m, e.2 ∈ seen ++ d) := by
  induction d generalizing out seen with
  | nil =>
    simp only [List.foldl_nil, List.append_nil]
    exact ⟨hk, hs, hv⟩
  | cons v rest ih =>
    simp only [List.foldl_cons]
    have h := ih (mapSet out v.SHA256 v) (seen ++ [v]) ?_ ?_ ?_
    · simpa only [List.append_assoc, List.singleton_append] using h
    · rw [map_fst_mapSet]
      split_ifs with hmem
      · exact hk
      · rw [List.nodup_append]
        refine ⟨hk, List.nodup_singleton _, ?_⟩
        intro a ha hb
        simp only [List.mem_singleton] at hb
        exact hmem (hb ▸ ha)
    · intro s
      rw [map_fst_mapSet]
      split_ifs with hmem
      · simp only [List.map_append, List.map_cons, List.map_nil, List.mem_append,
          List.mem_singleton]
        constructor
        · intro h1; exact Or.inl ((hs s).1 h1)
        · rintro (h1 | h1)
          · exact (hs s).2 h1
          · rw [h1]; exact hmem
      · simp only [List.map_append, List.map_cons, List.map_nil, List.mem_append,
          List.mem_singleton]
        rw [hs s]
    · intro e he
      rcases mem_mapSet _ _ _ _ he with h1 | h1
      · rw [h1]; simp
      · exact List.mem_append_left _ (hv e h1)

theorem GetCatalogMap_spec (d : DiskCatalog) :
    ((GetCatalogMap d).map Prod.fst).Nodup ∧
    (∀ s, s ∈ (GetCatalogMap d).map Prod.fst ↔ s ∈ d.map (·.SHA256)) ∧
    (∀ e ∈ GetCatalogMap d, e.2 ∈ d) := by
  have h := GetCatalogMap_fold d [] [] (by simp) (by simp) (by simp)
  simpa [GetCatalogMap] using h

theorem GetCatalogMap_keys_toFinset (d : DiskCatalog) :
    ((GetCatalogMap d).map Prod.fst).toFinset = shaSet d := by
  ext s
  simp only [List.mem_toFinset, shaSet]
  exact (GetCatalogMap_spec d).2.1 s

/-- Entries of `dmap` that the first loop counts as present on the other disk. -/
def countsSame (bmap : List (String × DiskFile)) (e : String × DiskFile) : Bool :=
  decide (e.2.Size ≠ 0) && decide (e.2.Filename ≠ "hello") && (mapGet bmap e.1).isSome

/-- Entries of `dmap` that the first loop counts as missing from the other disk. -/
def countsMissing (bmap : List (String × DiskFile)) (e : String × DiskFile) : Bool :=
  decide (e.2.Size ≠ 0) && decide (e.2.Filename ≠ "hello") && (mapGet bmap e.1).isNone

/-- Entries of `bmap` that the second loop counts as extra. -/
def countsExtra (dmap : List (String × DiskFile)) (e : String × DiskFile) : Bool :=
  decide (e.2.Size ≠ 0) && (mapGet dmap e.1).isNone

theorem lenAt_mapSet {ν : Type} (m : List (String × List ν)) (k : String) (l : List ν) :
    lenAt (mapSet m k l) k = l.length := by
  simp [lenAt, mapGet_mapSet]

theorem compareStepD_step (bmap : List (String × DiskFile)) (key : String)
    (st : CompareState) (e : String × DiskFile) :
    let st1 := compareStepD bmap key st e
    st1.sameFiles = st.sameFiles + (if countsSame bmap e = true then 1 else 0) ∧
    st1.missingFiles = st.missingFiles + (if countsMissing bmap e = true then 1 else 0) ∧
    st1.extraFiles = st.extraFiles ∧
    st1.r.extras = st.r.extras ∧
    lenAt st1.r.missing key =
      lenAt st.r.missing key + (if countsMissing bmap e = true then 1 else 0) ∧
    ((mapGet st1.r.files key).isSome = true ↔
      (mapGet st.r.files key).isSome = true ∨ countsSame bmap e = true) := by
  by_cases hz : e.2.Size = 0
  · have hstep : compareStepD bmap key st e = st := by simp [compareStepD, hz]
    have hs : countsSame bmap e = false := by simp [countsSame, hz]
    have hm : countsMissing bmap e = false := by simp [countsMissing, hz]
    simp [hstep, hs, hm]
  · by_cases hh : e.2.Filename = "hello"
    · have hstep : compareStepD bmap key st e = st := by simp [compareStepD, hz, hh]
      have hs : countsSame bmap e = false := by simp [countsSame, hh]
      have hm : countsMissing bmap e = false := by simp [countsMissing, hh]
      simp [hstep, hs, hm]
    · cases hb : mapGet bmap e.1 with
      | some binfo =>
        have hs : countsSame bmap e = true := by simp [countsSame, hz, hh, hb]
        have hm : countsMissing bmap e = false := by simp [countsMissing, hb]
        simp [compareStepD, hz, hh, hb, hs, hm, mapGet_mapSet]
      | none =>
        have hs : countsSame bmap e = false := by simp [countsSame, hb]
        have hm : countsMissing bmap e = true := by simp [countsMissing, hz, hh, hb]
        simp only [compareStepD, hz, hh, hb, hs, hm, if_false, if_true, lenAt_mapSet]
        refine ⟨by simp, trivial, trivial, trivial, ?_, by simp⟩
        simp only [List.length_append, List.length_singleton, lenAt]
        cases mapGet st.r.missing key <;> simp

theorem compareStepD_fold (bmap : List (String × DiskFile)) (key : String)
    (l : List (String × DiskFile)) (st : CompareState) :
    let st1 := l.foldl (compareStepD bmap key) st
    st1.sameFiles = st.sameFiles + l.countP (countsSame bmap) ∧
    st1.missingFiles = st.missingFiles + l.countP (countsMissing bmap) ∧
    st1.extraFiles = st.extraFiles ∧
    st1.r.extras = st.r.extras ∧
    lenAt st1.r.missing key = lenAt st.r.missing key + l.countP (countsMissing bmap) ∧
    ((mapGet st1.r.files key).isSome = true ↔
      (mapGet st.r.files key).isSome = true ∨ 0 < l.countP (countsSame bmap)) := by
  induction l generalizing st with
  | nil => simp
  | cons e rest ih =>
    simp only [List.foldl_cons]
    obtain ⟨h1, h2, h3, h4, h5, h6⟩ := ih (compareStepD bmap key st e)
    obtain ⟨s1, s2, s3, s4, s5, s6⟩ := compareStepD_step bmap key st e
    simp only [List.countP_cons]
    refine ⟨by omega, by omega, by omega, by rw [h4, s4], by omega, ?_⟩
    rw [h6, s6]
    by_cases hs : countsSame bmap e = true
    · simp [hs]
    · simp [hs]

theorem compareStepB_step (dmap : List (String × DiskFile)) (key : String)
    (st : CompareState) (e : String × DiskFile) :
    let st1 := compareStepB dmap key st e
    st1.sameFiles = st.sameFiles ∧
    st1.missingFiles = st.missingFiles ∧
    st1.extraFiles = st.extraFiles + (if countsExtra dmap e = true then 1 else 0) ∧
    st1.r.files = st.r.files ∧
    st1.r.missing = st.r.missing ∧
    lenAt st1.r.extras key =
      lenAt st.r.extras key + (if countsExtra dmap e = true then 1 else 0) := by
  by_cases hz : e.2.Size = 0
  · have hstep : compareStepB dmap key st e = st := by simp [compareStepB, hz]
    have hx : countsExtra dmap e = false := by simp [countsExtra, hz]
    simp [hstep, hx]
  · cases hb : mapGet dmap e.1 with
    | some dinfo =>
      have hstep : compareStepB dmap key st e = st := by simp [compareStepB, hz, hb]
      have hx : countsExtra dmap e = false := by simp [countsExtra, hb]
      simp [hstep, hx]
    | none =>
      have hx : countsExtra dmap e = true := by simp [countsExtra, hz, hb]
      simp only [compareStepB, hz, hb, hx, if_false, if_true, lenAt_mapSet]
      refine ⟨trivial, trivial, trivial, trivial, trivial, ?_⟩
      simp only [List.length_append, List.length_singleton, lenAt]
      cases mapGet st.r.extras key <;> simp

theorem compareStepB_fold (dmap : List (String × DiskFile)) (key : String)
    (l : List (String × DiskFile)) (st : CompareState) :
    let st1 := l.foldl (compareStepB dmap key) st
    st1.sameFiles = st.sameFiles ∧
    st1.missingFiles = st.missingFiles ∧
    st1.extraFiles = st.extraFiles + l.countP (countsExtra dmap) ∧
    st1.r.files = st.r.files ∧
    st1.r.missing = st.r.missing ∧
    lenAt st1.r.extras key = lenAt st.r.extras key + l.countP (countsExtra dmap) := by
  induction l generalizing st with
  | nil => simp
  | cons e rest ih =>
    simp only [List.foldl_cons]
    obtain ⟨h1, h2, h3, h4, h5, h6⟩ := ih (compareStepB dmap key st e)
    obtain ⟨s1, s2, s3, s4, s5, s6⟩ := compareStepB_step dmap key st e
    simp only [List.countP_cons]
    exact ⟨by omega, by omega, by omega, by rw [h4, s4], by rw [h5, s5], by omega⟩

/-- What `compareLoops` leaves behind, in terms of the three counts. -/
theorem compareLoops_spec (d b : DiskCatalog) (r : FileOverlapRecord) (key : String) :
    let st := compareLoops d b r key
    st.sameFiles = (GetCatalogMap d).countP (countsSame (GetCatalogMap b)) ∧
    st.missingFiles = (GetCatalogMap d).countP (countsMissing (GetCatalogMap b)) ∧
    st.extraFiles = (GetCatalogMap b).countP (countsExtra (GetCatalogMap d)) ∧
    lenAt st.r.missing key = lenAt r.missing key + st.missingFiles ∧
    lenAt st.r.extras key = lenAt r.extras key + st.extraFiles ∧
    ((mapGet st.r.files key).isSome = true ↔
      (mapGet r.files key).isSome = true ∨ 0 < st.sameFiles) := by
  have hD := compareStepD_fold (GetCatalogMap b) key (GetCatalogMap d)
    { sameFiles := 0, missingFiles := 0, extraFiles := 0, r := r }
  have hB := compareStepB_fold (GetCatalogMap d) key (GetCatalogMap b)
    ((GetCatalogMap d).foldl (compareStepD (GetCatalogMap b) key)
      { sameFiles := 0, missingFiles := 0, extraFiles := 0, r := r })
  simp only at hD hB
  obtain ⟨d1, d2, d3, d4, d5, d6⟩ := hD
  obtain ⟨b1, b2, b3, b4, b5, b6⟩ := hB
  simp only [compareLoops]
  refine ⟨by omega, by omega, by omega, ?_, ?_, ?_⟩
  · rw [b5, d5, b2, d2]; simp
  · rw [b6, d4, b3, d3]; simp
  · rw [b4, d6, b1, d1]; simp

theorem CompareCatalogs_record (d b : DiskCatalog) (r : FileOverlapRecord) (key : String) :
    (CompareCatalogs d b r key).2 = (compareLoops d b r key).r := by
  unfold CompareCatalogs
  simp only
  split_ifs <;> rfl

/-- Counting the keys of a map that satisfy a predicate on the key. -/
theorem countP_keys_card (m : List (String × DiskFile)) (hk : (m.map Prod.fst).Nodup)
    (q : String → Bool) :
    m.countP (fun e => q e.1) = ((m.map Prod.fst).toFinset.filter (fun s => q s = true)).card := by
  have h1 : m.countP (fun e => q e.1) = (m.map Prod.fst).countP q := by
    rw [List.countP_map]; rfl
  rw [h1, List.countP_eq_length_filter, ← List.toFinset_filter,
    List.toFinset_card_of_nodup (hk.filter _)]

theorem countsSame_card (d b : DiskCatalog)
    (hd : ∀ f ∈ d, f.Size ≠ 0 ∧ f.Filename ≠ "hello") :
    (GetCatalogMap d).countP (countsSame (GetCatalogMap b)) = (shaSet d ∩ shaSet b).card := by
  have hcongr : (GetCatalogMap d).countP (countsSame (GetCatalogMap b)) =
      (GetCatalogMap d).countP (fun e => (fun s => decide (s ∈ shaSet b)) e.1) := by
    apply List.countP_congr
    intro e he
    have hv := hd e.2 ((GetCatalogMap_spec d).2.2 e he)
    simp only [countsSame, hv.1, hv.2, ne_eq, not_false_eq_true, decide_True, Bool.true_and,
      decide_eq_true_eq]
    rw [mapGet_isSome_iff, (GetCatalogMap_spec b).2.1]
    simp [shaSet]
  rw [hcongr, countP_keys_card _ (GetCatalogMap_spec d).1 (fun s => decide (s ∈ shaSet b)),
    GetCatalogMap_keys_toFinset]
  congr 1
  ext s
  simp

theorem countsMissing_card (d b : DiskCatalog)
    (hd : ∀ f ∈ d, f.Size ≠ 0 ∧ f.Filename ≠ "hello") :
    (GetCatalogMap d).countP (countsMissing (GetCatalogMap b)) = (shaSet d \ shaSet b).card := by
  have hcongr : (GetCatalogMap d).countP (countsMissing (GetCatalogMap b)) =
      (GetCatalogMap d).countP (fun e => (fun s => decide (s ∉ shaSet b)) e.1) := by
    apply List.countP_congr
    intro e he
    have hv := hd e.2 ((GetCatalogMap_spec d).2.2 e he)
    have hiff := mapGet_isSome_iff (GetCatalogMap b) e.1
    rw [(GetCatalogMap_spec b).2.1] at hiff
    simp only [countsMissing, hv.1, hv.2, ne_eq, not_false_eq_true, decide_True, Bool.true_and,
      decide_eq_true_eq]
    cases hg : mapGet (GetCatalogMap b) e.1 with
    | none =>
      rw [hg] at hiff
      simp only [Option.isSome_none, Bool.false_eq_true, false_iff] at hiff
      simp [shaSet, hiff]
    | some v =>
      rw [hg] at hiff
      simp only [Option.isSome_some, true_iff] at hiff
      simp [shaSet, hiff]
  rw [hcongr, countP_keys_card _ (GetCatalogMap_spec d).1 (fun s => decide (s ∉ shaSet b)),
    GetCatalogMap_keys_toFinset]
  congr 1
  ext s
  simp

theorem countsExtra_card (d b : DiskCatalog) (hb : ∀ f ∈ b, f.Size ≠ 0) :
    (GetCatalogMap b).countP (countsExtra (GetCatalogMap d)) = (shaSet b \ shaSet d).card := by
  have hcongr : (GetCatalogMap b).countP (countsExtra (GetCatalogMap d)) =
      (GetCatalogMap b).countP (fun e => (fun s => decide (s ∉ shaSet d)) e.1) := by
    apply List.countP_congr
    intro e he
    have hv := hb e.2 ((GetCatalogMap_spec b).2.2 e he)
    have hiff := mapGet_isSome_iff (GetCatalogMap d) e.1
    rw [(GetCatalogMap_spec d).2.1] at hiff
    simp only [countsExtra, hv, ne_eq, not_false_eq_true, decide_True, Bool.true_and,
      decide_eq_true_eq]
    cases hg : mapGet (GetCatalogMap d) e.1 with
    | none =>
      rw [hg] at hiff
      simp only [Option.isSome_none, Bool.false_eq_true, false_iff] at hiff
      simp [shaSet, hiff]
    | some v =>
      rw [hg] at hiff
      simp only [Option.isSome_some, true_iff] at hiff
      simp [shaSet, hiff]
  rw [hcongr, countP_keys_card _ (GetCatalogMap_spec b).1 (fun s => decide (s ∉ shaSet d)),
    GetCatalogMap_keys_toFinset]
  congr 1
  ext s
  simp

theorem card_parts (A B : Finset String) :
    (A ∩ B).card + (B \ A).card + (A \ B).card = (A ∪ B).card := by
  have h1 := Finset.card_sdiff_add_card A B
  have h2 := Finset.card_sdiff_add_card_inter B A
  have h3 : (B ∩ A).card = (A ∩ B).card := by rw [Finset.inter_comm]
  omega

theorem compareLoops_catalogXY :
    (compareLoops catalogX catalogY FileOverlapRecord.fresh "Y").sameFiles = 2 ∧
    (compareLoops catalogX catalogY FileOverlapRecord.fresh "Y").missingFiles = 0 ∧
    (compareLoops catalogX catalogY FileOverlapRecord.fresh "Y").extraFiles = 1 ∧
    (compareLoops catalogY catalogX FileOverlapRecord.fresh "X").sameFiles = 2 ∧
    (compareLoops catalogY catalogX FileOverlapRecord.fresh "X").missingFiles = 1 ∧
    (compareLoops catalogY catalogX FileOverlapRecord.fresh "X").extraFiles = 0 := by
  decide

/-- C5: for catalogs `d`, `b` without zero-byte files and without a file named `hello`, not
both empty, `CompareCatalogs d b r k` returns `|H(d) ∩ H(b)| / |H(d) ∪ H(b)|` (with a non-zero
denominator), `H` being the set of SHA-256 values; for `X = {a:h1, b:h2}` and
`Y = {a:h1, b:h2, c:h3}` the result is `2/3` both ways, `X` is reported a subset of `Y` and `Y`
a superset of `X`. -/
theorem CompareCatalogs_overlap (d b : DiskCatalog) (r : FileOverlapRecord) (k : String)
    (hd : ∀ f ∈ d, f.Size ≠ 0 ∧ f.Filename ≠ "hello")
    (hb : ∀ f ∈ b, f.Size ≠ 0 ∧ f.Filename ≠ "hello")
    (hne : d ≠ [] ∨ b ≠ []) :
    (CompareCatalogs d b r k).1 =
        ((shaSet d ∩ shaSet b).card : ℚ) / ((shaSet d ∪ shaSet b).card : ℚ) ∧
    0 < (shaSet d ∪ shaSet b).card ∧
    (CompareCatalogs catalogX catalogY FileOverlapRecord.fresh "Y").1 = 2 / 3 ∧
    (CompareCatalogs catalogY catalogX FileOverlapRecord.fresh "X").1 = 2 / 3 ∧
    (CompareCatalogs catalogX catalogY FileOverlapRecord.fresh "Y").2.IsSubsetOf "Y" = true ∧
    (CompareCatalogs catalogY catalogX FileOverlapRecord.fresh "X").2.IsSupersetOf "X" = true := by
  obtain ⟨x1, x2, x3, y1, y2, y3⟩ := compareLoops_catalogXY
  refine ⟨?_, ?_, ?_, ?_, ?_, ?_⟩
  · obtain ⟨h1, h2, h3, -, -, -⟩ := compareLoops_spec d b r k
    rw [countsSame_card d b hd] at h1
    rw [countsMissing_card d b hd] at h2
    rw [countsExtra_card d b (fun f hf => (hb f hf).1)] at h3
    have hsum := card_parts (shaSet d) (shaSet b)
    unfold CompareCatalogs
    simp only [h1, h2, h3, hsum]
    split_ifs with h0
    · rw [h0]; simp
    · rfl
  · rw [Finset.card_pos]
    rcases hne with h | h
    · obtain ⟨f, l, rfl⟩ := List.exists_cons_of_ne_nil h
      exact ⟨f.SHA256, by simp [shaSet]⟩
    · obtain ⟨f, l, rfl⟩ := List.exists_cons_of_ne_nil h
      exact ⟨f.SHA256, by simp [shaSet]⟩
  · unfold CompareCatalogs
    simp only [x1, x2, x3]
    norm_num
  · unfold CompareCatalogs
    simp only [y1, y2, y3]
    norm_num
  · rw [CompareCatalogs_record]; decide
  · rw [CompareCatalogs_record]; decide

/-- C5 witness: the general statement applied to the two catalogs of scenario S4. -/
theorem CompareCatalogs_overlap_witness :
    (CompareCatalogs catalogX catalogY FileOverlapRecord.fresh "Y").1 =
        ((shaSet catalogX ∩ shaSet catalogY).card : ℚ) /
          ((shaSet catalogX ∪ shaSet catalogY).card : ℚ) ∧
    0 < (shaSet catalogX ∪ shaSet catalogY).card :=
  have h := CompareCatalogs_overlap catalogX catalogY FileOverlapRecord.fresh "Y"
    (by decide) (by decide) (by decide)
  ⟨h.1, h.2.1⟩

/-- C6, the claim as stated fails: with an empty left catalog and one file on the right there
is no missing file and one extra file, yet `IsSubsetOf` is false, because no file matched. -/
theorem IsSubsetOf_counterexample :
    (compareLoops [] [{ Filename := "c", SHA256 := "h3", Size := 1 }]
        FileOverlapRecord.fresh "k").missingFiles = 0 ∧
    (compareLoops [] [{ Filename := "c", SHA256 := "h3", Size := 1 }]
        FileOverlapRecord.fresh "k").extraFiles > 0 ∧
    (CompareCatalogs [] [{ Filename := "c", SHA256 := "h3", Size := 1 }]
        FileOverlapRecord.fresh "k").2.IsSubsetOf "k" = false := by
  refine ⟨by decide, by decide, ?_⟩
  rw [CompareCatalogs_record]
  decide

/-- C6 (amended): after `CompareCatalogs d b r k` on a fresh record, `IsSubsetOf k` holds exactly
when at least one file matched, no file is missing and at least one is extra; `IsSupersetOf k`
holds exactly when at least one file matched, at least one is missing and none is extra. -/
theorem IsSubsetOf_iff (d b : DiskCatalog) (k : String) :
    ((CompareCatalogs d b FileOverlapRecord.fresh k).2.IsSubsetOf k = true ↔
      0 < (compareLoops d b FileOverlapRecord.fresh k).sameFiles ∧
      (compareLoops d b FileOverlapRecord.fresh k).missingFiles = 0 ∧
      0 < (compareLoops d b FileOverlapRecord.fresh k).extraFiles) ∧
    ((CompareCatalogs d b FileOverlapRecord.fresh k).2.IsSupersetOf k = true ↔
      0 < (compareLoops d b FileOverlapRecord.fresh k).sameFiles ∧
      0 < (compareLoops d b FileOverlapRecord.fresh k).missingFiles ∧
      (compareLoops d b FileOverlapRecord.fresh k).extraFiles = 0) := by
  obtain ⟨-, -, -, h4, h5, h6⟩ := compareLoops_spec d b FileOverlapRecord.fresh k
  have e1 : lenAt FileOverlapRecord.fresh.missing k = 0 := rfl
  have e2 : lenAt FileOverlapRecord.fresh.extras k = 0 := rfl
  have e3 : (mapGet FileOverlapRecord.fresh.files k).isSome = false := rfl
  rw [e1, Nat.zero_add] at h4
  rw [e2, Nat.zero_add] at h5
  rw [e3] at h6
  simp only [Bool.false_eq_true, false_or] at h6
  rw [CompareCatalogs_record]
  unfold FileOverlapRecord.IsSubsetOf FileOverlapRecord.IsSupersetOf
  rw [h4, h5]
  cases hf : mapGet (compareLoops d b FileOverlapRecord.fresh k).r.files k with
  | none =>
    rw [hf] at h6
    simp only [Option.isSome_none, Bool.false_eq_true, false_iff, not_lt,
      Nat.le_zero] at h6
    simp [h6]
  | some v =>
    rw [hf] at h6
    simp only [Option.isSome_some, true_iff] at h6
    simp only [Bool.and_eq_true, decide_eq_true_eq, gt_iff_lt]
    constructor
    · constructor
      · rintro ⟨a, c⟩; exact ⟨h6, c, a⟩
      · rintro ⟨-, a, c⟩; exact ⟨c, a⟩
    · constructor
      · rintro ⟨a, c⟩; exact ⟨h6, c, a⟩
      · rintro ⟨-, a, c⟩; exact ⟨c, a⟩

/-! ### disk/atokens.go -/

/-- C3, evaluated at the failing input: the one-line program `10 A$="HELLO"` comes back as
`10 "HELLO"A$=`: the pending text `A$=` is not flushed when the quote opens and is emitted
after the string, so the texts differ even with all spaces and line terminators removed. -/
theorem Applesoft_roundtrip_quote_reorder :
    roundTripText ["10 A$=\"HELLO\"".toList] = stringBytes " 10 \"HELLO\"A$=\r\n".toList ∧
    stripLayout (roundTripText ["10 A$=\"HELLO\"".toList]) = stringBytes "10\"HELLO\"A$=".toList ∧
    stripLayout (stringBytes "10 A$=\"HELLO\"".toList) = stringBytes "10A$=\"HELLO\"".toList ∧
    stripLayout (roundTripText ["10 A$=\"HELLO\"".toList]) ≠
      stripLayout (stringBytes "10 A$=\"HELLO\"".toList) := by
  decide

/-- The same happens to the other keywords that start with a shorter keyword. -/
theorem keyword_prefix_lost :
    containsBytes (roundTripText (testProgram "NOTRACE".toList))
      (stringBytes "NOTRACE ".toList) = false ∧
    containsBytes (roundTripText (testProgram "ONERR".toList))
      (stringBytes "ONERR ".toList) = false ∧
    containsBytes (roundTripText (testProgram "ATN".toList))
      (stringBytes "ATN ".toList) = false := by
  decide

/-- C4, evaluated at the failing input of `TestHGR2Tokenise`: the tokenizer emits the token
of `HGR` as soon as the pending text reads `HGR`, so `HGR2` comes back as `HGR 2` and the
output does not contain `HGR2 ` (it does contain `REM`, and `HGR` alone survives). -/
theorem HGR2_not_preserved :
    roundTripText (testProgram "HGR2".toList) =
      stringBytes " 10  HGR 2 :  REM  SOMETHING\r\n 20  REM  SOMETHING ELSE\r\n".toList ∧
    containsBytes (roundTripText (testProgram "HGR2".toList)) (stringBytes "HGR2 ".toList)
      = false ∧
    containsBytes (roundTripText (testProgram "HGR2".toList)) (stringBytes "REM".toList)
      = true ∧
    containsBytes (roundTripText (testProgram "HGR".toList)) (stringBytes "HGR ".toList)
      = true := by
  decide

/-! ### disk/diskimageappledos.go: reading -/

/-- C2, evaluated at the failing input: on `cyclicImage` the T/S list sector at track 18
sector 15 points at itself.  The walk ends, but the first T/S list sector is never entered
in the visited set before it is read, so it is read a second time: its single data sector is
listed twice and the file comes back as 512 bytes instead of the 256 read before the cycle
closed. -/
theorem cyclic_ts_list_read_twice :
    (cyclicImage.AppleDOSGetFileSectors cyclicEntry).map (fun r => (r.2.1, r.2.2)) =
      some ([(18, 14), (18, 14)], none) ∧
    (cyclicImage.AppleDOSReadFileSectors cyclicEntry (-1)).map
      (fun r => (r.2.1.length, r.2.2)) = some (512, none) := by
  decide!

/-! ### disk/diskimage2mg.go -/

/-- C13, evaluated at the failing input: the third byte of every 32-bit header field is
weighted by 65336 instead of 65536, so the declared data length `00 30 02 00` (143360) is
read as 142960. -/
theorem GetDiskDataLength_wrong_weight :
    (image2MG 1 0x18 0x01).header2MG.GetDiskDataLength = 142960 ∧
    (image2MG 1 0x18 0x01).header2MG.GetDiskDataLength ≠ 0 + 256 * 0x30 + 65536 * 0x02 + 16777216 * 0 := by
  decide

/-- C14, evaluated at the failing input: a 140 KB ProDOS-ordered 2MG image (image format 1,
280 blocks) is accepted, but with the custom format of 80 tracks and 3 sectors per track,
not the 140 KB ProDOS format of 35 tracks and 16 sectors. -/
theorem Is2MG_280_blocks_custom :
    (image2MG 1 0x18 0x01).header2MG.GetProDOSBlocks = 280 ∧
    (image2MG 1 0x18 0x01).Is2MG.map (fun r => (r.1, r.2.1, r.2.2.1)) =
      some (true, GetPDDiskFormat .DF_PRODOS_CUSTOM 280, .SectorOrderProDOSLinear) ∧
    (GetPDDiskFormat .DF_PRODOS_CUSTOM 280).ID ≠ DiskFormatID.DF_PRODOS ∧
    (GetPDDiskFormat .DF_PRODOS_CUSTOM 280).TPD = 80 ∧
    (GetPDDiskFormat .DF_PRODOS_CUSTOM 280).SPT = 3 := by
  decide

/-- C16, the claim as stated fails: with the bytes `52 C4 CF D3 A0 B2` at the 13-sector
stride offset of a 116480-byte image `IsRDOS` answers false; the signature starts with
`D2`, the letter `R` with its high bit set. -/
theorem IsRDOS_low_bit_signature :
    lowBitSignatureImage.Data.size = 116480 ∧
    lowBitSignatureImage.Data.slice (13 * 256) 6 = [0x52, 0xC4, 0xCF, 0xD3, 0xA0, 0xB2] ∧
    lowBitSignatureImage.IsRDOS = (false, .RDOS_Unknown) := by
  decide

/-- C15: when the image starts with `2IMG` and the declared data length is smaller than the
file tail `len(Data) - data_start`, the length `Is2MG` validates is the tail length: a tail
that is not one of the three accepted sizes is rejected, and otherwise the slice handed to
`NewDSKWrapperBin` has the tail length and holds the bytes `Data[data_start + i]`, that is
`Data[data_start : len(Data)]`, and the answer of `Is2MG` is built from what that call
returns. -/
theorem Is2MGWith_short_declared_length (d : DSKWrapper)
    (newWrapper : DSKContainer → Option (Option DSKContainer))
    (hlen : 0x40 ≤ d.Data.size)
    (hmagic : d.header2MG.GetID = MAGIC_2MG)
    (hshort : d.header2MG.GetDiskDataLength <
      (d.Data.size : Int) - d.header2MG.GetDiskDataStart) :
    d.payloadSize2MG = (d.Data.size : Int) - d.header2MG.GetDiskDataStart ∧
    d.Is2MGWith newWrapper =
      if (d.Data.size : Int) - d.header2MG.GetDiskDataStart ≠ STD_DISK_BYTES ∧
          (d.Data.size : Int) - d.header2MG.GetDiskDataStart ≠ PRODOS_800KB_DISK_BYTES ∧
          (d.Data.size : Int) - d.header2MG.GetDiskDataStart ≠ PRODOS_400KB_DISK_BYTES then
        some (false, GetDiskFormat .DF_NONE, .SectorOrderDOS33, none)
      else if d.header2MG.GetImageFormat = 0 then
        (newWrapper
          (DSKContainer.mk (d.Data.size - d.header2MG.GetDiskDataStart.toNat)
            (fun i => d.Data.byte (d.header2MG.GetDiskDataStart.toNat + i)))).map
          fun zdsk => (true, GetDiskFormat .DF_DOS_SECTORS_16, .SectorOrderDOS33, zdsk)
      else if d.header2MG.GetImageFormat = 1 then
        (newWrapper
          (DSKContainer.mk (d.Data.size - d.header2MG.GetDiskDataStart.toNat)
            (fun i => d.Data.byte (d.header2MG.GetDiskDataStart.toNat + i)))).map
          fun zdsk =>
            (true,
              (if d.header2MG.GetProDOSBlocks = 1600 then GetDiskFormat .DF_PRODOS_800KB
               else if d.header2MG.GetProDOSBlocks = 800 then GetDiskFormat .DF_PRODOS_400KB
               else GetPDDiskFormat .DF_PRODOS_CUSTOM d.header2MG.GetProDOSBlocks),
              SectorOrder.SectorOrderProDOSLinear, zdsk)
      else some (false, GetDiskFormat .DF_NONE, .SectorOrderDOS33, none) := by
  have hsize : d.payloadSize2MG = (d.Data.size : Int) - d.header2MG.GetDiskDataStart := by
    unfold DSKWrapper.payloadSize2MG
    simp only [hshort, if_true]
  have hstart : 0 ≤ d.header2MG.GetDiskDataStart := by
    unfold Header2MG.GetDiskDataStart Header2MG.b
    positivity
  have hnot : ¬ d.Data.size < 0x40 := by omega
  refine ⟨hsize, ?_⟩
  unfold DSKWrapper.Is2MGWith
  simp only [hnot, if_false, hmagic, ne_eq, not_true_eq_false, hsize]
  by_cases hv : ¬ ((d.Data.size : Int) - d.header2MG.GetDiskDataStart = STD_DISK_BYTES) ∧
      ¬ ((d.Data.size : Int) - d.header2MG.GetDiskDataStart = PRODOS_800KB_DISK_BYTES) ∧
      ¬ ((d.Data.size : Int) - d.header2MG.GetDiskDataStart = PRODOS_400KB_DISK_BYTES)
  · rw [if_pos hv, if_pos hv]
  · rw [if_neg hv, if_neg hv]
    have hpos : 0 ≤ (d.Data.size : Int) - d.header2MG.GetDiskDataStart := by
      by_contra hneg
      apply hv
      refine ⟨?_, ?_, ?_⟩ <;> intro h <;> rw [h] at hneg <;> exact hneg (by decide)
    have hin : 0 ≤ d.header2MG.GetDiskDataStart ∧
        d.header2MG.GetDiskDataStart +
          ((d.Data.size : Int) - d.header2MG.GetDiskDataStart) ≤ (d.Data.size : Int) :=
      ⟨hstart, by omega⟩
    have htoNat : ((d.Data.size : Int) - d.header2MG.GetDiskDataStart).toNat =
        d.Data.size - d.header2MG.GetDiskDataStart.toNat := by omega
    rw [if_neg (not_not.mpr hin), htoNat]
    by_cases h0 : d.header2MG.GetImageFormat = 0
    · rw [if_pos h0, if_pos h0]
      rfl
    · rw [if_neg h0, if_neg h0]
      by_cases h1 : d.header2MG.GetImageFormat = 1
      · rw [if_pos h1, if_pos h1]
        unfold DSKContainer.window
        congr 1
        funext zdsk
        split_ifs <;> rfl
      · rw [if_neg h1, if_neg h1]

/-- C15 witness: the container `image2MG 1 0x18 0x01` declares 142960 bytes, fewer than its
tail of 143360 bytes; the payload handed on is the 143360 bytes after the header. -/
theorem Is2MGWith_short_declared_length_witness :
    (0x40 ≤ (image2MG 1 0x18 0x01).Data.size ∧
      (image2MG 1 0x18 0x01).header2MG.GetID = MAGIC_2MG ∧
      (image2MG 1 0x18 0x01).header2MG.GetDiskDataLength <
        ((image2MG 1 0x18 0x01).Data.size : Int) -
          (image2MG 1 0x18 0x01).header2MG.GetDiskDataStart ∧
      (image2MG 1 0x18 0x01).header2MG.GetDiskDataLength = 142960) ∧
    (image2MG 1 0x18 0x01).payloadSize2MG = 143360 ∧
    (image2MG 1 0x18 0x01).Is2MGWith (fun data => some (some data)) =
      some (true, GetPDDiskFormat .DF_PRODOS_CUSTOM 280, .SectorOrderProDOSLinear,
        some (DSKContainer.mk 143360 (fun i => (image2MG 1 0x18 0x01).Data.byte (64 + i)))) := by
  have h := Is2MGWith_short_declared_length (image2MG 1 0x18 0x01)
    (fun data => some (some data)) (by decide) (by decide) (by decide)
  have e1 : ((image2MG 1 0x18 0x01).Data.size : Int) -
      (image2MG 1 0x18 0x01).header2MG.GetDiskDataStart = 143360 := by decide
  have e2 : (image2MG 1 0x18 0x01).header2MG.GetImageFormat = 1 := by decide
  have e3 : (image2MG 1 0x18 0x01).header2MG.GetProDOSBlocks = 280 := by decide
  have e4 : (image2MG 1 0x18 0x01).Data.size -
      (image2MG 1 0x18 0x01).header2MG.GetDiskDataStart.toNat = 143360 := by decide
  have e5 : (image2MG 1 0x18 0x01).header2MG.GetDiskDataStart.toNat = 64 := by decide
  rw [e1, e2, e3, e4, e5] at h
  refine ⟨⟨by decide, by decide, by decide, by decide⟩, h.1, ?_⟩
  rw [h.2]
  rfl

/-! ### disk/diskimagerdos.go -/

/-- C16 (amended): `IsRDOS` answers RDOS 3.2 exactly for a 116480-byte image with the bytes
`D2 C4 CF D3 A0 B2` at offset 13*256, RDOS 3 for a 143360-byte image with these bytes at
offset 16*256, RDOS 3.3 for a 143360-byte image with `D2 C4 CF D3 A0 B3` there, and false
for every other image. -/
theorem IsRDOS_spec (d : DSKWrapper) :
    d.IsRDOS =
      if d.Data.size = 116480 ∧ d.Data.slice (13 * 256) 6 = [0xD2, 0xC4, 0xCF, 0xD3, 0xA0, 0xB2]
      then (true, .RDOS_32)
      else if d.Data.size = 143360 ∧
          d.Data.slice (16 * 256) 6 = [0xD2, 0xC4, 0xCF, 0xD3, 0xA0, 0xB2]
      then (true, .RDOS_3)
      else if d.Data.size = 143360 ∧
          d.Data.slice (16 * 256) 6 = [0xD2, 0xC4, 0xCF, 0xD3, 0xA0, 0xB3]
      then (true, .RDOS_33)
      else (false, .RDOS_Unknown) := by
  have s32 : RDOS_SIGNATURE_32 = [0xD2, 0xC4, 0xCF, 0xD3, 0xA0, 0xB2] := by decide
  have s33 : RDOS_SIGNATURE_33 = [0xD2, 0xC4, 0xCF, 0xD3, 0xA0, 0xB3] := by decide
  unfold DSKWrapper.IsRDOS
  simp only [STD_DISK_BYTES, STD_DISK_BYTES_OLD, s32, s33]
  by_cases h1 : d.Data.size = 116480
  · have e1 : (116480 / 35) / 256 = 13 := by decide
    simp [h1, e1]
  · by_cases h2 : d.Data.size = 143360
    · have e2 : (143360 / 35) / 256 = 16 := by decide
      simp [h2, e2]
    · have h3 : (d.Data.size : Int) ≠ 35 * 16 * 256 ∧ (d.Data.size : Int) ≠ 35 * 13 * 256 := by
        constructor <;> omega
      rw [if_pos h3]
      simp [h1, h2]

/-! ### disk/diskimagepd.go -/

/-- C9, evaluated at the failing input: `PRODOSWriteSaplingBlocks 10 [7, 8]` returns nil, but
the index block holds the pointers as consecutive low/high byte pairs `07 00 08 00`, not as
a low-byte array followed at offset 256 by a high-byte array: byte 1 is the high byte of
block 7 instead of the low byte of block 8.  `PRODOSReadFileSectors`, which reads entry `i`
from bytes `i` and `256+i`, therefore takes block 0 for the second data block and does not
return the data written. -/
theorem sapling_index_layout_mismatch :
    (blankProDOS.PRODOSWriteSaplingBlocks 10 [7, 8] twoBlockData).map (·.2) = some none ∧
    ((blankProDOS.PRODOSWriteSaplingBlocks 10 [7, 8] twoBlockData).bind
      (fun r => (r.1.PRODOSGetBlock 10).map
        (fun b => (b.2.1.take 4, b.2.1.getD 256 0, b.2.1.getD 257 0)))) =
      some ([7, 0, 8, 0], 0, 0) ∧
    ((blankProDOS.PRODOSWriteSaplingBlocks 10 [7, 8] twoBlockData).bind
      (fun r => (r.1.PRODOSReadFileSectors saplingEntry).map (fun x => (x.2.1, x.2.2)))) =
      some (List.replicate 512 0x11 ++ List.replicate 512 0, none) ∧
    List.replicate 512 0x11 ++ List.replicate 512 0 ≠ twoBlockData := by
  decide!

/-- C12, evaluated at the failing input: the root directory of `volumeWithA` holds no entry
named `NOPE`.  `PRODOSFindDirBlocks` answers `Path not found`, but
`PRODOSGetCatalogPathed` returns the empty listing with a nil error: on a catalog of other
than one match it returns the error of the catalog read, which is nil. -/
theorem GetCatalogPathed_missing_segment_no_error :
    (volumeWithA.PRODOSGetCatalogPathed (pathFuel "NOPE".toList) plainRegex 2 "NOPE".toList
        []).map (fun r => (r.2.2.1.length, r.2.2.2)) = some (0, none) ∧
    (DSKWrapper.PRODOSFindDirBlocks (pathFuel "NOPE".toList) volumeWithA plainRegex 2
        "NOPE".toList).map (fun r => r.2.toOption.isSome) = some false := by
  decide!

/-- C10, evaluated at the failing input: the entry `A` of `volumeWithA` is unlocked and has
the create stamp `00 00 00 00` (no date).  Overwriting it returns nil and keeps the access
byte `0xC3`, but the stamp is decoded into a Go time, which normalizes month 0, day 0 of 2000
to 1999-11-30, and written back as `7E C7 00 00`. -/
theorem overwrite_changes_empty_create_stamp :
    (volumeWithA.PRODOSGetNamedEntry plainRegex [] "A".toList).map
      (fun r => r.2.toOption.map (fun fd => (fd.b 0x1E, (fd.Data.drop 0x18).take 4))) =
      some (some (0xC3, [0, 0, 0, 0])) ∧
    (volumeWithA.PRODOSWriteFile plainRegex testNow testNow [] "A".toList 6 [9, 9, 9]
      0x2000).map (·.2) = some none ∧
    ((volumeWithA.PRODOSWriteFile plainRegex testNow testNow [] "A".toList 6 [9, 9, 9]
      0x2000).bind (fun w => (w.1.PRODOSGetNamedEntry plainRegex [] "A".toList).map
        (fun r => r.2.toOption.map (fun fd => (fd.b 0x1E, (fd.Data.drop 0x18).take 4))))) =
      some (some (0xC3, [0x7E, 0xC7, 0, 0])) := by
  decide!

/-- C11, evaluated at the failing input: `fullVolumeWithA` has no free block and holds the
one-block file `A`.  Writing 600 bytes under the same name needs three blocks and fails with
`Not enough blocks`, but only after the existing file was deleted: the entry is gone and the
image bytes have changed (offset 2859 is byte 0 of the entry). -/
theorem ProDOS_write_error_after_delete :
    (fullVolumeWithA.PRODOSWriteFile plainRegex testNow testNow [] "A".toList 6
      (List.replicate 600 9) 0x2000).map (·.2) = some (some "Not enough blocks") ∧
    (fullVolumeWithA.PRODOSGetNamedEntry plainRegex [] "A".toList).map
      (fun r => r.2.toOption.isSome) = some true ∧
    ((fullVolumeWithA.PRODOSWriteFile plainRegex testNow testNow [] "A".toList 6
      (List.replicate 600 9) 0x2000).bind (fun w =>
        (w.1.PRODOSGetNamedEntry plainRegex [] "A".toList).map
          (fun r => r.2.toOption.isSome))) = some false ∧
    (fullVolumeWithA.PRODOSWriteFile plainRegex testNow testNow [] "A".toList 6
      (List.replicate 600 9) 0x2000).map (fun w => w.1.Data.byte 2859) = some 0x01 ∧
    fullVolumeWithA.Data.byte 2859 = 0x11 := by
  decide!

/-! ### disk/diskimageappledos.go: VTOC bitmap -/

theorem and_shift_ne_zero (x k : Nat) : (x &&& (1 <<< k) != 0) = x.testBit k := by
  rw [Nat.one_shiftLeft, Nat.and_two_pow]
  cases h : x.testBit k <;> simp

theorem testBit_set_bit (x k j : Nat) :
    (x ||| (1 <<< k)).testBit j = (x.testBit j || decide (k = j)) := by
  rw [Nat.testBit_or, Nat.one_shiftLeft, Nat.testBit_two_pow]

theorem testBit_clear_bit (x k j : Nat) (hj : j < 8) :
    (x &&& (0xff ^^^ (1 <<< k))).testBit j = (x.testBit j && !decide (k = j)) := by
  rw [Nat.testBit_and, Nat.testBit_xor, Nat.one_shiftLeft, Nat.testBit_two_pow]
  have : (0xff : Nat).testBit j = true := by
    have := Nat.testBit_two_pow_sub_one 8 j
    simpa [hj] using this
  rw [this]
  cases decide (k = j) <;> simp

theorem VTOC_b_set (v : VTOC) (i j x : Nat) (hi : i < v.Data.length) :
    VTOC.b { v with Data := v.Data.set i x } j = if j = i then x else v.b j := by
  unfold VTOC.b
  simp only [List.getD_eq_getElem?_getD, List.getElem?_set]
  by_cases h : i = j
  · subst h; simp [hi]
  · have h2 : ¬ j = i := fun e => h e.symm
    simp [h, h2]

theorem tsMask_eq (s : Int) : tsMask s = 1 <<< (s % 8).toNat := rfl

theorem tsBit_lt (s : Int) : (s % 8).toNat < 8 := by
  have h1 : 0 ≤ s % 8 := Int.emod_nonneg _ (by decide)
  have h2 : s % 8 < 8 := Int.emod_lt_of_pos _ (by decide)
  omega

/-- C26: on a 256-byte VTOC, for every track `t` in 0..49, sector `s` in 0..15 and boolean
`b`, `SetTSFree t s b` succeeds; afterwards `IsTSFree t s` is `b`, `IsTSFree` is unchanged at
every other pair whose sector is in 0..15, the bit is bit `s mod 8` of the byte at
`0x38 + 4*t` for sectors 8..15 and of the byte after it for sectors 0..7, and every other byte
of the VTOC is unchanged. -/
theorem SetTSFree_spec (v : VTOC) (hlen : v.Data.length = 256) (t s : Int)
    (ht : 0 ≤ t ∧ t ≤ 49) (hs : 0 ≤ s ∧ s ≤ 15) (b : Bool) :
    ∃ v1, v.SetTSFree t s b = some v1 ∧
      v1.IsTSFree t s = some b ∧
      (∀ t1 s1 : Int, 0 ≤ s1 → s1 ≤ 15 → (t1, s1) ≠ (t, s) →
        v1.IsTSFree t1 s1 = v.IsTSFree t1 s1) ∧
      (v1.b (0x38 + 4 * t + (if 8 ≤ s then 0 else 1)).toNat).testBit (s % 8).toNat = b ∧
      (∀ i : Nat, i ≠ (0x38 + 4 * t + (if 8 ≤ s then 0 else 1)).toNat → v1.b i = v.b i) ∧
      v1.Data.length = 256 := by
  have hoff : tsOffset t s = 0x38 + 4 * t + (if 8 ≤ s then 0 else 1) := by
    unfold tsOffset; split_ifs <;> omega
  have hrange : 0 ≤ tsOffset t s ∧ tsOffset t s < 256 := by
    unfold tsOffset; split_ifs <;> omega
  have hi : (tsOffset t s).toNat < v.Data.length := by omega
  have hnew : ∀ j, j < 8 →
      (if b then v.b (tsOffset t s).toNat ||| 1 <<< (s % 8).toNat
        else v.b (tsOffset t s).toNat &&& (0xff ^^^ 1 <<< (s % 8).toNat)).testBit j =
      if j = (s % 8).toNat then b else (v.b (tsOffset t s).toNat).testBit j := by
    intro j hj
    cases b
    · simp only [Bool.false_eq_true, if_false, testBit_clear_bit _ _ _ hj]
      by_cases h : (s % 8).toNat = j
      · simp [h]
      · have h2 : ¬ j = (s % 8).toNat := fun e => h e.symm
        simp [h, h2]
    · simp only [if_true, testBit_set_bit]
      by_cases h : (s % 8).toNat = j
      · simp [h]
      · have h2 : ¬ j = (s % 8).toNat := fun e => h e.symm
        simp [h, h2]
  refine ⟨_, by unfold VTOC.SetTSFree; rw [if_pos hrange], ?_, ?_, ?_, ?_, ?_⟩
  · unfold VTOC.IsTSFree
    rw [if_pos hrange, VTOC_b_set _ _ _ _ hi, if_pos rfl]
    simp only [tsMask_eq]
    rw [and_shift_ne_zero, hnew _ (tsBit_lt s), if_pos rfl]
  · intro t1 s1 h0 h15 hne
    unfold VTOC.IsTSFree
    by_cases hr : 0 ≤ tsOffset t1 s1 ∧ tsOffset t1 s1 < 256
    · rw [if_pos hr, if_pos hr, VTOC_b_set _ _ _ _ hi]
      by_cases ho : (tsOffset t1 s1).toNat = (tsOffset t s).toNat
      · rw [if_pos ho]
        simp only [tsMask_eq]
        rw [and_shift_ne_zero, and_shift_ne_zero, hnew _ (tsBit_lt s1), ho]
        have hbit : ¬ (s1 % 8).toNat = (s % 8).toNat := by
          intro hb
          apply hne
          have e1 : tsOffset t1 s1 = tsOffset t s := by omega
          unfold tsOffset at e1
          have hs1 : s1 = s := by
            split_ifs at e1 <;> omega
          have ht1 : t1 = t := by
            split_ifs at e1 <;> omega
          rw [hs1, ht1]
        rw [if_neg hbit]
      · rw [if_neg ho]
    · rw [if_neg hr, if_neg hr]
  · rw [← hoff, VTOC_b_set _ _ _ _ hi, if_pos rfl]
    simp only [tsMask_eq]
    rw [hnew _ (tsBit_lt s), if_pos rfl]
  · intro i hne
    rw [← hoff] at hne
    rw [VTOC_b_set _ _ _ _ hi, if_neg hne]
  · simp [hlen]

theorem SetTSFree_spec_witness :
    ∃ v1, (VTOC.mk (List.replicate 256 0) 17 0).SetTSFree 3 9 true = some v1 ∧
      v1.IsTSFree 3 9 = some true ∧
      (∀ t1 s1 : Int, 0 ≤ s1 → s1 ≤ 15 → (t1, s1) ≠ (3, 9) →
        v1.IsTSFree t1 s1 = (VTOC.mk (List.replicate 256 0) 17 0).IsTSFree t1 s1) ∧
      (v1.b ((0x38 : Int) + 4 * 3 + (if (8 : Int) ≤ 9 then 0 else 1)).toNat).testBit ((9 : Int) % 8).toNat
        = true ∧
      (∀ i : Nat, i ≠ ((0x38 : Int) + 4 * 3 + (if (8 : Int) ≤ 9 then 0 else 1)).toNat →
        v1.b i = (VTOC.mk (List.replicate 256 0) 17 0).b i) ∧
      v1.Data.length = 256 :=
  SetTSFree_spec (VTOC.mk (List.replicate 256 0) 17 0) (List.length_replicate 256 0) 3 9 (by decide) (by decide) true

/-! ### disk/diskimagepd.go: volume bitmap -/

theorem and_shift_eq_mask (x k : Nat) : (x &&& (1 <<< k) == (1 <<< k)) = x.testBit k := by
  rw [Nat.one_shiftLeft, Nat.and_two_pow]
  have hp : 0 < 2 ^ k := Nat.two_pow_pos k
  cases h : x.testBit k
  · simp only [Bool.toNat_false, Nat.zero_mul, beq_eq_false_iff_ne, ne_eq]
    omega
  · simp

theorem blockMask_eq (k : Nat) (hk : k < 8) : (1 <<< k) % 256 = 1 <<< k := by
  interval_cases k <;> rfl

theorem blockBit_lt (b : Nat) : 7 - b % 8 < 8 := by omega

/-- C27: on a 512-byte bitmap block, for every block `b` in 0..4095 and boolean `free`,
`SetBlockFree b free` succeeds; afterwards `IsBlockFree b` is `free`, `IsBlockFree` is
unchanged at every other block in 0..4095, and the bit of block `b` is bit `7 - b mod 8` of
byte `b div 8`. -/
theorem SetBlockFree_spec (vb : ProDOSVolumeBitmap) (hlen : vb.Data.length = 512) (b : Nat)
    (hb : b ≤ 4095) (free : Bool) :
    ∃ vb1, vb.SetBlockFree b free = some vb1 ∧
      vb1.IsBlockFree b = some free ∧
      (∀ b1 : Nat, b1 ≤ 4095 → b1 ≠ b → vb1.IsBlockFree b1 = vb.IsBlockFree b1) ∧
      (vb1.Data.getD (b / 8) 0).testBit (7 - b % 8) = free ∧
      vb1.Data.length = 512 := by
  have hi : b / 8 < vb.Data.length := by omega
  have hget : vb.Data[b / 8]? = some (vb.Data.getD (b / 8) 0) := by
    rw [List.getD_eq_getElem?_getD, List.getElem?_eq_getElem hi]; rfl
  have hnew : ∀ j, j < 8 →
      (if free then vb.Data.getD (b / 8) 0 ||| 1 <<< (7 - b % 8)
        else vb.Data.getD (b / 8) 0 &&& (0xff ^^^ 1 <<< (7 - b % 8))).testBit j =
      if j = 7 - b % 8 then free else (vb.Data.getD (b / 8) 0).testBit j := by
    intro j hj
    cases free
    · simp only [Bool.false_eq_true, if_false, testBit_clear_bit _ _ _ hj]
      by_cases h : 7 - b % 8 = j
      · simp [h]
      · have h2 : ¬ j = 7 - b % 8 := fun e => h e.symm
        simp [h, h2]
    · simp only [if_true, testBit_set_bit]
      by_cases h : 7 - b % 8 = j
      · simp [h]
      · have h2 : ¬ j = 7 - b % 8 := fun e => h e.symm
        simp [h, h2]
  have hset : vb.SetBlockFree b free = some (ProDOSVolumeBitmap.mk (vb.Data.set (b / 8)
      (if free then vb.Data.getD (b / 8) 0 ||| 1 <<< (7 - b % 8)
        else vb.Data.getD (b / 8) 0 &&& (0xff ^^^ 1 <<< (7 - b % 8)))) vb.blockid) := by
    unfold ProDOSVolumeBitmap.SetBlockFree
    simp only [hget, blockMask_eq _ (blockBit_lt b)]
  have hfree : ∀ (w : ProDOSVolumeBitmap) (c : Nat), c / 8 < w.Data.length →
      w.IsBlockFree c = some ((w.Data.getD (c / 8) 0).testBit (7 - c % 8)) := by
    intro w c hc
    unfold ProDOSVolumeBitmap.IsBlockFree
    have : w.Data[c / 8]? = some (w.Data.getD (c / 8) 0) := by
      rw [List.getD_eq_getElem?_getD, List.getElem?_eq_getElem hc]; rfl
    simp only [this, blockMask_eq _ (blockBit_lt c), and_shift_eq_mask]
  refine ⟨_, hset, ?_, ?_, ?_, ?_⟩
  · rw [hfree _ _ (by simpa using hi)]
    simp only [List.getD_eq_getElem?_getD, List.getElem?_set, hi, if_true]
    simp only [Option.getD_some]
    rw [← List.getD_eq_getElem?_getD, hnew _ (blockBit_lt b), if_pos rfl]
  · intro b1 hb1 hne
    rw [hfree _ _ (by simp; omega), hfree _ _ (by omega)]
    by_cases hidx : b / 8 = b1 / 8
    · simp only [List.getD_eq_getElem?_getD, List.getElem?_set, hidx, if_true]
      have hi1 : b1 / 8 < vb.Data.length := by omega
      simp only [hi1, if_true, Option.getD_some]
      rw [← hidx, ← List.getD_eq_getElem?_getD, hnew _ (blockBit_lt b1)]
      have : ¬ 7 - b1 % 8 = 7 - b % 8 := by omega
      rw [if_neg this]
    · simp only [List.getD_eq_getElem?_getD, List.getElem?_set, hidx, if_false]
  · simp only [List.getD_eq_getElem?_getD, List.getElem?_set, hi, if_true]
    simp only [Option.getD_some]
    rw [← List.getD_eq_getElem?_getD, hnew _ (blockBit_lt b), if_pos rfl]
  · simp [hlen]

theorem SetBlockFree_spec_witness :
    ∃ vb1, (ProDOSVolumeBitmap.mk (List.replicate 512 0) 6).SetBlockFree 10 true = some vb1 ∧
      vb1.IsBlockFree 10 = some true ∧
      (∀ b1 : Nat, b1 ≤ 4095 → b1 ≠ 10 →
        vb1.IsBlockFree b1 = (ProDOSVolumeBitmap.mk (List.replicate 512 0) 6).IsBlockFree b1) ∧
      (vb1.Data.getD (10 / 8) 0).testBit (7 - 10 % 8) = true ∧
      vb1.Data.length = 512 :=
  SetBlockFree_spec (ProDOSVolumeBitmap.mk (List.replicate 512 0) 6)
    (List.length_replicate 512 0) 10 (by decide) true

/-! ### disk/diskimagepd.go: lock bits and parent fields -/

/-- C24, the claim as stated fails: unlocking an entry whose access byte is 0x00 gives 0xC2,
which lacks the readable bit of the default value 0xC3. -/
theorem SetLocked_unlock_keeps_readable_clear :
    ((ProDOSFileDescriptor.mk (List.replicate 39 0) 2 43 1).SetLocked false).AccessMode = 0xC2 ∧
    ((ProDOSFileDescriptor.mk (List.replicate 39 0) 2 43 1).SetLocked false).AccessMode
      &&& AccessType_Default ≠ AccessType_Default := by
  decide

theorem accessMode_put (fd : ProDOSFileDescriptor) (hlen : fd.Data.length = 39) (x : Nat) :
    (fd.SetAccessMode x).AccessMode = x % 256 := by
  unfold ProDOSFileDescriptor.SetAccessMode ProDOSFileDescriptor.AccessMode
    ProDOSFileDescriptor.put ProDOSFileDescriptor.b
  simp [List.getD_eq_getElem?_getD, List.getElem?_set, hlen]

/-- C24, amended: for every 39-byte entry, `SetLocked(true)` masks the access byte with
changed|readable (0x21), so the destroy, rename and writable bits are clear and `IsLocked()` is
true; `SetLocked(false)` sets the destroy, rename and writable bits (0xC2) and leaves the
other bits, the readable bit among them, as they were, and `IsLocked()` is false. -/
theorem SetLocked_spec (fd : ProDOSFileDescriptor) (hlen : fd.Data.length = 39)
    (hb : fd.AccessMode < 256) :
    (fd.SetLocked true).AccessMode = fd.AccessMode &&& 0x21 ∧
    (fd.SetLocked true).AccessMode &&& 0xC2 = 0 ∧
    (fd.SetLocked true).IsLocked = true ∧
    (fd.SetLocked false).AccessMode = fd.AccessMode ||| 0xC2 ∧
    (fd.SetLocked false).IsLocked = false := by
  have h1 : (fd.SetLocked true).AccessMode = fd.AccessMode &&& 0x21 := by
    unfold ProDOSFileDescriptor.SetLocked
    simp only [if_true]
    rw [accessMode_put fd hlen]
    have : fd.AccessMode &&& (AccessType_Changed ||| AccessType_Readable) ≤ 0x21 :=
      Nat.and_le_right
    have e : (AccessType_Changed ||| AccessType_Readable) = 0x21 := by decide
    rw [e] at this ⊢
    omega
  have h2 : (fd.SetLocked false).AccessMode = fd.AccessMode ||| 0xC2 := by
    unfold ProDOSFileDescriptor.SetLocked
    simp only [Bool.false_eq_true, if_false]
    rw [accessMode_put fd hlen]
    have e : fd.AccessMode ||| AccessType_Destroy ||| AccessType_Writable ||| AccessType_Rename
        = fd.AccessMode ||| 0xC2 := by
      rw [Nat.lor_assoc, Nat.lor_assoc]; rfl
    rw [e]
    have : fd.AccessMode ||| 0xC2 < 2 ^ 8 := Nat.or_lt_two_pow hb (by decide)
    omega
  have e3 : (AccessType_Destroy ||| AccessType_Rename ||| AccessType_Writable) = 0xC2 := by
    decide
  have key : ∀ x < 256, (x &&& 0x21) &&& 0xC2 = 0 ∧ (x ||| 0xC2) &&& 0xC2 = 0xC2 := by
    decide!
  have h3 : fd.AccessMode &&& 0x21 &&& 0xC2 = 0 := (key _ hb).1
  refine ⟨h1, by rw [h1]; exact h3, ?_, h2, ?_⟩
  · unfold ProDOSFileDescriptor.IsLocked
    rw [h1, e3, h3]; rfl
  · unfold ProDOSFileDescriptor.IsLocked
    rw [h2, e3]
    have : (fd.AccessMode ||| 0xC2) &&& 0xC2 = 0xC2 := (key _ hb).2
    rw [this]; rfl

theorem SetLocked_spec_witness :
    ((ProDOSFileDescriptor.mk (List.replicate 39 0) 2 43 1).SetLocked true).AccessMode
      = (ProDOSFileDescriptor.mk (List.replicate 39 0) 2 43 1).AccessMode &&& 0x21 ∧
    ((ProDOSFileDescriptor.mk (List.replicate 39 0) 2 43 1).SetLocked true).AccessMode
      &&& 0xC2 = 0 ∧
    ((ProDOSFileDescriptor.mk (List.replicate 39 0) 2 43 1).SetLocked true).IsLocked = true ∧
    ((ProDOSFileDescriptor.mk (List.replicate 39 0) 2 43 1).SetLocked false).AccessMode
      = (ProDOSFileDescriptor.mk (List.replicate 39 0) 2 43 1).AccessMode ||| 0xC2 ∧
    ((ProDOSFileDescriptor.mk (List.replicate 39 0) 2 43 1).SetLocked false).IsLocked = false :=
  SetLocked_spec (ProDOSFileDescriptor.mk (List.replicate 39 0) 2 43 1)
    (List.length_replicate 39 0) (by decide)

/-- C25, evaluated: on a header of 39 zero bytes `SetDirParentPointer(0x0102)` stores 0x02 in
byte 35 and 0x01 in byte 36, and `GetDirParentPointer()` then returns 0x0202 = 514, not 258:
it reads byte 35 for both halves.  The two one-byte fields at bytes 37 and 38 read back what
was set. -/
theorem GetDirParentPointer_reads_low_byte_twice :
    ((VDH.mk (List.replicate 39 0) 2 4).SetDirParentPointer 0x0102).GetDirParentPointer = 514 ∧
    ((VDH.mk (List.replicate 39 0) 2 4).SetDirParentPointer 0x0102).b 35 = 0x02 ∧
    ((VDH.mk (List.replicate 39 0) 2 4).SetDirParentPointer 0x0102).b 36 = 0x01 ∧
    ((VDH.mk (List.replicate 39 0) 2 4).SetDirParentEntry 7).GetDirParentEntry = 7 ∧
    ((VDH.mk (List.replicate 39 0) 2 4).SetDirParentEntryLength 0x27).GetDirParentEntryLength
      = 0x27 := by
  decide

/-! ### disk/diskimagepd.go: date stamps -/

theorem shiftLeft_or_eq_add (a b i : Nat) (hb : b < 2 ^ i) : (a <<< i) ||| b = a * 2 ^ i + b := by
  rw [Nat.shiftLeft_eq, Nat.mul_comm, Nat.mul_add_lt_is_or hb]

theorem dbits_eq (y m d : Nat) (hm : m < 16) (hd : d < 32) :
    (y <<< 9) ||| (m <<< 5) ||| d = y * 512 + m * 32 + d := by
  have h1 : m <<< 5 = m * 32 := by rw [Nat.shiftLeft_eq]
  have h2 : (y <<< 9) ||| (m <<< 5) = y * 512 + m * 32 := by
    rw [h1, shiftLeft_or_eq_add _ _ _ (by norm_num; omega)]; norm_num
  have h3 : y * 512 + m * 32 = (y * 16 + m) <<< 5 := by rw [Nat.shiftLeft_eq]; ring
  have h4 := shiftLeft_or_eq_add (y * 16 + m) d 5 (by norm_num; omega)
  rw [← h3] at h4
  rw [h2, h4]; ring

theorem and_mask_mod (x i : Nat) (m : Nat) (hm : m = 2 ^ i - 1) : x &&& m = x % 2 ^ i := by
  subst hm; exact Nat.and_pow_two_sub_one_eq_mod x i

theorem yoe_of_doe (yoe doy : Int) (hy : (0 ≤ yoe ∧ yoe ≤ 69) ∨ (369 ≤ yoe ∧ yoe ≤ 399))
    (h0 : 0 ≤ doy)
    (h1 : doy ≤ 364 ∨ (doy = 365 ∧ (yoe + 1) % 4 = 0 ∧ ((yoe + 1) % 100 ≠ 0 ∨ (yoe + 1) % 400 = 0))) :
    0 ≤ yoe * 365 + yoe / 4 - yoe / 100 + doy ∧
    yoe * 365 + yoe / 4 - yoe / 100 + doy < 146097 ∧
    ((yoe * 365 + yoe / 4 - yoe / 100 + doy) - (yoe * 365 + yoe / 4 - yoe / 100 + doy) / 1460
      + (yoe * 365 + yoe / 4 - yoe / 100 + doy) / 36524
      - (yoe * 365 + yoe / 4 - yoe / 100 + doy) / 146096) / 365 = yoe := by
  rcases hy with ⟨ha, hb⟩ | ⟨ha, hb⟩
  · interval_cases yoe <;> omega
  · interval_cases yoe <;> omega

theorem month_of_doy (m d : Int) (hm : 1 ≤ m ∧ m ≤ 12) (hd : 1 ≤ d)
    (hd2 : d ≤ (if m = 2 then 29 else if m = 4 ∨ m = 6 ∨ m = 9 ∨ m = 11 then 30 else 31)) :
    (5 * ((153 * (m + (if m > 2 then -3 else 9)) + 2) / 5 + d - 1) + 2) / 153
      = m + (if m > 2 then -3 else 9) ∧
    0 ≤ (153 * (m + (if m > 2 then -3 else 9)) + 2) / 5 + d - 1 ∧
    (153 * (m + (if m > 2 then -3 else 9)) + 2) / 5 + d - 1 ≤ 365 ∧
    ((153 * (m + (if m > 2 then -3 else 9)) + 2) / 5 + d - 1 = 365 → m = 2 ∧ d = 29) := by
  obtain ⟨h1, h2⟩ := hm
  interval_cases m <;> simp at hd2 ⊢ <;> omega

theorem civilFromDays_of (z0 era doe yoe doy mp : Int)
    (h1 : era = (z0 + 719468) / 146097)
    (h2 : doe = z0 + 719468 - era * 146097)
    (h3 : yoe = (doe - doe / 1460 + doe / 36524 - doe / 146096) / 365)
    (h4 : doy = doe - (365 * yoe + yoe / 4 - yoe / 100))
    (h5 : mp = (5 * doy + 2) / 153) :
    civilFromDays z0 =
      (if (if mp < 10 then mp + 3 else mp - 9) ≤ 2 then yoe + era * 400 + 1 else yoe + era * 400,
       if mp < 10 then mp + 3 else mp - 9,
       doy - (153 * mp + 2) / 5 + 1) := by
  subst h1; subst h2; subst h3; subst h4; subst h5
  rfl

theorem daysFromCivil_of (y0 m d y era yoe doy : Int)
    (h1 : y = if m ≤ 2 then y0 - 1 else y0)
    (h2 : era = y / 400)
    (h3 : yoe = y - era * 400)
    (h4 : doy = (153 * (m + (if m > 2 then -3 else 9)) + 2) / 5 + d - 1) :
    daysFromCivil y0 m d = era * 146097 + (yoe * 365 + yoe / 4 - yoe / 100 + doy) - 719468 := by
  subst h1; subst h2; subst h3; subst h4
  rfl

theorem civil_roundtrip (y m d : Nat) (hy : 1970 ≤ y ∧ y ≤ 2069) (hm : 1 ≤ m ∧ m ≤ 12)
    (hd : 1 ≤ d ∧ d ≤ daysInMonth y m) :
    civilFromDays (daysFromCivil (y : Int) (m : Int) 1 + ((d : Int) - 1))
      = ((y : Int), (m : Int), (d : Int)) := by
  have hdim : (d : Int) ≤ (if (m : Int) = 2 then 29
      else if (m : Int) = 4 ∨ (m : Int) = 6 ∨ (m : Int) = 9 ∨ (m : Int) = 11 then 30 else 31) := by
    have := hd.2
    unfold daysInMonth at this
    split_ifs at this ⊢ <;> omega
  have hleap : m = 2 → d = 29 → y % 4 = 0 ∧ (y % 100 ≠ 0 ∨ y % 400 = 0) := by
    intro h2 h29
    have := hd.2
    unfold daysInMonth at this
    rw [if_pos h2] at this
    split_ifs at this with h
    · exact h
    · omega
  obtain ⟨hmp, hdoy0, hdoy1, hdoy365⟩ :=
    month_of_doy (m : Int) (d : Int) (by omega) (by omega) hdim
  obtain ⟨mp, hmpdef⟩ : ∃ mp : Int, mp = (m : Int) + (if (m : Int) > 2 then -3 else 9) := ⟨_, rfl⟩
  obtain ⟨doy, hdoy⟩ : ∃ doy : Int, doy = (153 * mp + 2) / 5 + (d : Int) - 1 := ⟨_, rfl⟩
  rw [← hmpdef] at hmp hdoy0 hdoy1 hdoy365
  rw [← hdoy] at hmp hdoy0 hdoy1 hdoy365
  obtain ⟨y1, hy1⟩ : ∃ y1 : Int, y1 = if (m : Int) ≤ 2 then (y : Int) - 1 else (y : Int) := ⟨_, rfl⟩
  obtain ⟨era, hera⟩ : ∃ era : Int, era = y1 / 400 := ⟨_, rfl⟩
  obtain ⟨yoe, hyoe⟩ : ∃ yoe : Int, yoe = y1 - era * 400 := ⟨_, rfl⟩
  have hy1r : 1969 ≤ y1 ∧ y1 ≤ 2069 := by
    rw [hy1]; split_ifs <;> omega
  have hyoer : (0 ≤ yoe ∧ yoe ≤ 69) ∨ (369 ≤ yoe ∧ yoe ≤ 399) := by omega
  have hyl : doy ≤ 364 ∨ (doy = 365 ∧ (yoe + 1) % 4 = 0 ∧
      ((yoe + 1) % 100 ≠ 0 ∨ (yoe + 1) % 400 = 0)) := by
    by_cases h : doy = 365
    · right
      obtain ⟨hm2, hd29⟩ := hdoy365 h
      have hl := hleap (by omega) (by omega)
      have e1 : y1 = (y : Int) - 1 := by rw [hy1, if_pos (by omega)]
      refine ⟨h, ?_, ?_⟩
      · omega
      · omega
    · left; omega
  obtain ⟨hdoe0, hdoe1, hdoe2⟩ := yoe_of_doe yoe doy hyoer hdoy0 hyl
  obtain ⟨doe, hdoe⟩ : ∃ doe : Int, doe = yoe * 365 + yoe / 4 - yoe / 100 + doy := ⟨_, rfl⟩
  rw [← hdoe] at hdoe0 hdoe1 hdoe2
  have hz : daysFromCivil (y : Int) (m : Int) 1 + ((d : Int) - 1)
      = era * 146097 + doe - 719468 := by
    rw [daysFromCivil_of (y : Int) (m : Int) 1 y1 era yoe
      ((153 * mp + 2) / 5 + 1 - 1) hy1 hera hyoe (by rw [hmpdef])]
    omega
  rw [hz, civilFromDays_of (era * 146097 + doe - 719468) era doe yoe doy mp (by omega) (by omega)
    hdoe2.symm (by omega) hmp.symm]
  have hres1 : (if mp < 10 then mp + 3 else mp - 9) = (m : Int) := by
    rw [hmpdef]; split_ifs <;> omega
  have hres2 : doy - (153 * mp + 2) / 5 + 1 = (d : Int) := by omega
  have hres3 : (if (m : Int) ≤ 2 then yoe + era * 400 + 1 else yoe + era * 400) = (y : Int) := by
    rw [hy1] at hyoe
    split_ifs at hyoe ⊢ <;> omega
  rw [hres1, hres2, hres3]

theorem goDate_of (year month day hour min : Int) (h mi y mo d : Int) (c : Int × Int × Int)
    (h1 : h = (hour + min / 60) % 24) (h2 : mi = min % 60)
    (h3 : d = day + (hour + min / 60) / 24)
    (h4 : y = year + (month - 1) / 12) (h5 : mo = (month - 1) % 12 + 1)
    (h6 : c = civilFromDays (daysFromCivil y mo 1 + (d - 1))) :
    goDate year month day hour min =
      { year := c.1.toNat, month := c.2.1.toNat, day := c.2.2.toNat, hour := h.toNat,
        minute := mi.toNat } := by
  subst h1; subst h2; subst h3; subst h4; subst h5; subst h6
  rfl

theorem goDate_valid (y m d h mi : Nat) (hy : 1970 ≤ y ∧ y ≤ 2069) (hm : 1 ≤ m ∧ m ≤ 12)
    (hd : 1 ≤ d ∧ d ≤ daysInMonth y m) (hh : h ≤ 23) (hmi : mi ≤ 59) :
    goDate (y : Int) (m : Int) (d : Int) (h : Int) (mi : Int) =
      { year := y, month := m, day := d, hour := h, minute := mi } := by
  rw [goDate_of (y : Int) (m : Int) (d : Int) (h : Int) (mi : Int) (h : Int) (mi : Int) (y : Int)
    (m : Int) (d : Int) ((y : Int), (m : Int), (d : Int)) (by omega) (by omega) (by omega)
    (by omega) (by omega) (civil_roundtrip y m d hy hm hd).symm]
  simp

/-- The stamp bytes and the round trip in a zone without clock changes: for every year in
1970..2069, month in 1..12, day valid for that month, hour in 0..23 and minute in 0..59,
`timeToProdosStampBytes` gives the four bytes of the little-endian words
`dbits = ((year mod 100) << 9) | (month << 5) | day` and `tbits = (hour << 8) | minute`, and
the zone-free `prodosStampBytesToTime` of these bytes gives back the same year, month, day,
hour and minute (the stored years 0..69 are read as 2000..2069). -/
theorem prodos_stamp_roundtrip (t : GoTime) (hy : 1970 ≤ t.year ∧ t.year ≤ 2069)
    (hm : 1 ≤ t.month ∧ t.month ≤ 12) (hd : 1 ≤ t.day ∧ t.day ≤ daysInMonth t.year t.month)
    (hh : t.hour ≤ 23) (hmi : t.minute ≤ 59) :
    timeToProdosStampBytes t =
      [ (((t.year % 100) <<< 9) ||| (t.month <<< 5) ||| t.day) % 256,
        (((t.year % 100) <<< 9) ||| (t.month <<< 5) ||| t.day) / 256,
        ((t.hour <<< 8) ||| t.minute) % 256,
        ((t.hour <<< 8) ||| t.minute) / 256 ] ∧
    (((t.year % 100) <<< 9) ||| (t.month <<< 5) ||| t.day) < 65536 ∧
    ((t.hour <<< 8) ||| t.minute) < 65536 ∧
    prodosStampBytesToTime (timeToProdosStampBytes t) = t := by
  obtain ⟨y, m, d, h, mi⟩ := t
  simp only at hy hm hd hh hmi ⊢
  have hd31 : d ≤ 31 := by
    have := hd.2
    unfold daysInMonth at this
    split_ifs at this <;> omega
  have hyear : (if y - 1900 > 99 then y - 1900 - 100 else y - 1900) = y % 100 := by
    split_ifs <;> omega
  have hdb : ((y % 100) <<< 9) ||| (m <<< 5) ||| d = (y % 100) * 512 + m * 32 + d :=
    dbits_eq _ _ _ (by omega) (by omega)
  have htb : (h <<< 8) ||| mi = h * 256 + mi := by
    rw [shiftLeft_or_eq_add _ _ _ (by norm_num; omega)]; norm_num
  have hbytes : timeToProdosStampBytes ⟨y, m, d, h, mi⟩ =
      [ ((y % 100) * 512 + m * 32 + d) % 256, ((y % 100) * 512 + m * 32 + d) / 256,
        (h * 256 + mi) % 256, (h * 256 + mi) / 256 ] := by
    unfold timeToProdosStampBytes
    simp only [hyear, hdb, htb, Nat.shiftRight_eq_div_pow,
      and_mask_mod _ 8 0xff (by norm_num)]
    norm_num
    constructor
    · omega
    · omega
  refine ⟨by rw [hbytes, hdb, htb], by rw [hdb]; omega, by rw [htb]; omega, ?_⟩
  rw [hbytes]
  unfold prodosStampBytesToTime
  simp only [List.getD_cons_zero, List.getD_cons_succ]
  have hb1 : (((y % 100) * 512 + m * 32 + d) / 256) <<< 8 ||| ((y % 100) * 512 + m * 32 + d) % 256
      = (y % 100) * 512 + m * 32 + d := by
    rw [shiftLeft_or_eq_add _ _ _ (by norm_num; omega)]; norm_num; omega
  have hb2 : ((h * 256 + mi) / 256) <<< 8 ||| (h * 256 + mi) % 256 = h * 256 + mi := by
    rw [shiftLeft_or_eq_add _ _ _ (by norm_num; omega)]; norm_num; omega
  rw [hb1, hb2]
  simp only [Nat.shiftRight_eq_div_pow, and_mask_mod _ 5 31 (by norm_num),
    and_mask_mod _ 4 15 (by norm_num), and_mask_mod _ 7 127 (by norm_num),
    and_mask_mod _ 6 63 (by norm_num)]
  have e1 : ((y % 100) * 512 + m * 32 + d) % 2 ^ 5 = d := by norm_num; omega
  have e2 : ((y % 100) * 512 + m * 32 + d) / 2 ^ 5 % 2 ^ 4 = m := by norm_num; omega
  have e3 : ((y % 100) * 512 + m * 32 + d) / 2 ^ 9 % 2 ^ 7 = y % 100 := by norm_num; omega
  have e4 : (h * 256 + mi) % 2 ^ 6 = mi := by norm_num; omega
  have e5 : (h * 256 + mi) / 2 ^ 8 = h := by norm_num; omega
  rw [e1, e2, e3, e4, e5]
  have e6 : (((if y % 100 < 70 then y % 100 + 100 else y % 100) + 1900 : Nat) : Int) = (y : Int) := by
    split_ifs <;> omega
  rw [e6]
  exact goDate_valid y m d h mi hy hm hd hh hmi

theorem prodos_stamp_roundtrip_witness :
    timeToProdosStampBytes (GoTime.mk 2024 2 29 23 59) =
      [ (((2024 % 100) <<< 9) ||| (2 <<< 5) ||| 29) % 256,
        (((2024 % 100) <<< 9) ||| (2 <<< 5) ||| 29) / 256,
        ((23 <<< 8) ||| 59) % 256,
        ((23 <<< 8) ||| 59) / 256 ] ∧
    (((2024 % 100) <<< 9) ||| (2 <<< 5) ||| 29) < 65536 ∧
    ((23 <<< 8) ||| 59) < 65536 ∧
    prodosStampBytesToTime (timeToProdosStampBytes (GoTime.mk 2024 2 29 23 59))
      = GoTime.mk 2024 2 29 23 59 :=
  prodos_stamp_roundtrip (GoTime.mk 2024 2 29 23 59) (by decide) (by decide) (by decide)
    (by decide) (by decide)

/-! ### disk/diskimagepd.go: storage class and file count on write -/

/-- C21, evaluated at the failing input: writing a new file `B` of exactly 512 bytes into the
root of `volumeWithA` returns nil and stores a sapling (storage type 2, three blocks: an
index block and two data blocks), where 511 bytes give a seedling of one block.  The code
takes `len(data)/512 + 1` blocks. -/
theorem write_512_bytes_is_sapling :
    (volumeWithA.PRODOSWriteFile plainRegex testNow testNow [] "B".toList 6
      (List.replicate 512 9) 0x2000).map (·.2) = some none ∧
    ((volumeWithA.PRODOSWriteFile plainRegex testNow testNow [] "B".toList 6
      (List.replicate 512 9) 0x2000).bind (fun w =>
        (w.1.PRODOSGetNamedEntry plainRegex [] "B".toList).map (fun r =>
          r.2.toOption.map (fun fd => (fd.GetStorageType, fd.b 19 + 256 * fd.b 20, fd.Size)))))
      = some (some (StorageType_Sapling, 3, 512)) ∧
    ((volumeWithA.PRODOSWriteFile plainRegex testNow testNow [] "B".toList 6
      (List.replicate 511 9) 0x2000).bind (fun w =>
        (w.1.PRODOSGetNamedEntry plainRegex [] "B".toList).map (fun r =>
          r.2.toOption.map (fun fd => (fd.GetStorageType, fd.b 19 + 256 * fd.b 20, fd.Size)))))
      = some (some (StorageType_Seedling, 1, 511)) := by
  decide!

/-- C22, evaluated at the failing input: `volumeWithSubdir` counts 2 files in the volume
header and 0 in the header of the subdirectory `D` (block 8).  Writing the new file `B` into
`D` returns nil, the entry lands in block 8, and the header of `D` then counts 3 files, the
count of the volume header plus one, not 0 + 1. -/
theorem subdirectory_file_count_from_root :
    (volumeWithSubdir.PRODOSGetVDH 2).map (fun r => r.2.toOption.map (·.GetFileCount))
      = some (some 2) ∧
    (volumeWithSubdir.PRODOSGetVDH 8).map (fun r => r.2.toOption.map (·.GetFileCount))
      = some (some 0) ∧
    (volumeWithSubdir.PRODOSWriteFile plainRegex testNow testNow "D".toList "B".toList 6
      [9, 9, 9] 0x2000).map (·.2) = some none ∧
    ((volumeWithSubdir.PRODOSWriteFile plainRegex testNow testNow "D".toList "B".toList 6
      [9, 9, 9] 0x2000).bind (fun w =>
        (w.1.PRODOSGetNamedEntry plainRegex "D".toList "B".toList).map (fun r =>
          r.2.toOption.map (fun fd => (fd.blockid, fd.blockoffset))))) = some (some (8, 43)) ∧
    ((volumeWithSubdir.PRODOSWriteFile plainRegex testNow testNow "D".toList "B".toList 6
      [9, 9, 9] 0x2000).bind (fun w =>
        (w.1.PRODOSGetVDH 8).map (fun r => r.2.toOption.map (·.GetFileCount))))
      = some (some 3) := by
  decide!

/-! ### disk/atokens.go: structure of a tokenized program -/

theorem tokStep_linebuffer (st : TokState) (ch : Char) :
    ∃ ext, (tokStep st ch).linebuffer = st.linebuffer ++ ext := by
  unfold tokStep
  split_ifs
  · exact ⟨_, rfl⟩
  · exact ⟨_, rfl⟩
  · exact ⟨_, by simp only [List.append_assoc]; rfl⟩
  · simp only
    split
    · exact ⟨_, rfl⟩
    · exact ⟨[], by simp⟩

theorem foldl_tokStep_linebuffer (rest : List Char) :
    ∀ st : TokState, ∃ ext, (rest.foldl tokStep st).linebuffer = st.linebuffer ++ ext := by
  induction rest with
  | nil => intro st; exact ⟨[], by simp⟩
  | cons c rest ih =>
    intro st
    obtain ⟨e1, h1⟩ := tokStep_linebuffer st c
    obtain ⟨e2, h2⟩ := ih (tokStep st c)
    exact ⟨e1 ++ e2, by rw [List.foldl_cons, h2, h1, List.append_assoc]⟩

theorem intByte_lt (x : Int) : intByte x < 256 := by
  unfold intByte
  have h1 : 0 ≤ x % 256 := Int.emod_nonneg _ (by decide)
  have h2 : x % 256 < 256 := Int.emod_lt_of_pos _ (by decide)
  omega

theorem addr_bytes (n : Nat) :
    intByte (((n : Int)) % 256) + 256 * intByte (Int.tdiv (n : Int) 0x100) = n % 65536 := by
  unfold intByte
  rw [Int.tdiv_eq_ediv (Int.ofNat_nonneg n) (by decide)]
  omega

theorem intByte_emod (x : Int) : intByte (x % 256) = intByte x := by
  unfold intByte
  rw [Int.emod_emod_of_dvd x (by decide : (256 : Int) ∣ 256)]

theorem tokenizeLine_eq (a : Nat) (l first second : List Char)
    (h : splitFirstSpace l = (first, some second)) :
    ∃ ext : List Nat, tokenizeLine (a : Int) l =
      some ([intByte (((a + (5 + ext.length) : Nat) : Int) % 256),
             intByte (Int.tdiv ((a + (5 + ext.length) : Nat) : Int) 0x100),
             intByte (Atoi first % 256), intByte (Int.tdiv (Atoi first) 0x100)] ++ ext ++ [0]) := by
  obtain ⟨ext, hext⟩ := foldl_tokStep_linebuffer (trimChar ' ' second)
    { linebuffer := [0, 0, intByte (Atoi first % 256), intByte (Int.tdiv (Atoi first) 0x100)],
      chunk := [], inqq := false }
  by_cases hc : (List.foldl tokStep
      { linebuffer := [0, 0, intByte (Atoi first % 256), intByte (Int.tdiv (Atoi first) 0x100)],
        chunk := [], inqq := false } (trimChar ' ' second)).chunk ≠ []
  · refine ⟨ext ++ stringBytes (List.foldl tokStep
      { linebuffer := [0, 0, intByte (Atoi first % 256), intByte (Int.tdiv (Atoi first) 0x100)],
        chunk := [], inqq := false } (trimChar ' ' second)).chunk, ?_⟩
    unfold tokenizeLine
    rw [h]
    simp only [if_pos hc, hext]
    simp only [List.length_append, List.length_cons, List.length_nil, List.cons_append,
      List.drop_succ_cons, List.drop_zero, List.nil_append, List.append_assoc]
    congr 3
    · congr 2; push_cast; omega
    · congr 2; push_cast; omega
  · refine ⟨ext, ?_⟩
    unfold tokenizeLine
    rw [h]
    simp only [if_neg hc, hext]
    simp only [List.length_append, List.length_cons, List.length_nil, List.cons_append,
      List.drop_succ_cons, List.drop_zero, List.nil_append, List.append_assoc]
    congr 3
    · congr 2; push_cast; omega
    · congr 2; push_cast; omega

theorem tokenizeLine_record (a : Nat) (l first second : List Char)
    (h : splitFirstSpace l = (first, some second)) :
    ∃ r, tokenizeLine (a : Int) l = some r ∧ lineRecord a (Atoi first) r = true := by
  obtain ⟨ext, hext⟩ := tokenizeLine_eq a l first second h
  refine ⟨_, hext, ?_⟩
  unfold lineRecord
  simp only [List.cons_append, List.nil_append, List.getD_cons_zero, List.getD_cons_succ,
    List.length_cons, List.length_append, List.length_nil, Bool.and_eq_true, decide_eq_true_eq,
    beq_iff_eq, intByte_emod]
  refine ⟨⟨⟨⟨⟨by omega, intByte_lt _, intByte_lt _⟩, ?_⟩, trivial⟩, trivial⟩, ?_⟩
  · have := addr_bytes (a + (5 + ext.length))
    rw [intByte_emod] at this
    rw [this]
    congr 1; omega
  · simp only [List.getLast?_cons_cons]
    rw [← List.cons_append]
    exact List.getLast?_concat _

theorem tokenizeLines_records (lines : List (List Char))
    (h : ∀ l ∈ lines, trimChar '\r' l = [] ∨ (splitFirstSpace (trimChar '\r' l)).2.isSome) :
    ∀ (a : Nat) (buffer : List Nat), ∃ recs : List (List Nat),
      tokenizeLines (a : Int) buffer lines = some (buffer ++ recs.flatten ++ [0x00, 0x00]) ∧
      linkedRecords a (lineNumbers lines) recs = true := by
  induction lines with
  | nil =>
    intro a buffer
    exact ⟨[], by simp [tokenizeLines], rfl⟩
  | cons l0 more ih =>
    intro a buffer
    have hmore : ∀ l ∈ more, trimChar '\r' l = [] ∨
        (splitFirstSpace (trimChar '\r' l)).2.isSome := fun l hl => h l (List.mem_cons_of_mem _ hl)
    by_cases he : trimChar '\r' l0 = []
    · obtain ⟨recs, h1, h2⟩ := ih hmore a buffer
      refine ⟨recs, ?_, ?_⟩
      · unfold tokenizeLines
        simp only [he, if_true]
        exact h1
      · unfold lineNumbers at h2 ⊢
        simp only [List.map_cons, List.filter_cons, he, ne_eq, not_true_eq_false,
          decide_False, Bool.false_eq_true, if_false]
        exact h2
    · have hs := (h l0 (List.mem_cons_self _ _)).resolve_left he
      obtain ⟨first, second, hsplit⟩ : ∃ first second,
          splitFirstSpace (trimChar '\r' l0) = (first, some second) := by
        rcases hsp : splitFirstSpace (trimChar '\r' l0) with ⟨f, s⟩
        rw [hsp] at hs
        cases s with
        | none => simp at hs
        | some s => exact ⟨f, s, rfl⟩
      obtain ⟨r, hr1, hr2⟩ := tokenizeLine_record a _ first second hsplit
      obtain ⟨recs, h1, h2⟩ := ih hmore (a + r.length) (buffer ++ r)
      refine ⟨r :: recs, ?_, ?_⟩
      · unfold tokenizeLines
        simp only [he, if_false, hr1]
        have : ((a : Int) + (r.length : Int)) = ((a + r.length : Nat) : Int) := by push_cast; rfl
        rw [this, h1]
        simp [List.append_assoc]
      · unfold lineNumbers at h2 ⊢
        simp only [List.map_cons, List.filter_cons, he, ne_eq, not_false_eq_true,
          decide_True, if_true, hsplit]
        unfold linkedRecords
        rw [hr2, h2]
        rfl

theorem linkedRecords_address (recs : List (List Nat)) :
    ∀ (addr : Nat) (lns : List Int) (k : Nat), linkedRecords addr lns recs = true →
      k < recs.length →
      recordAddress (recs.getD k []) = (addr + ((recs.take (k + 1)).flatten).length) % 65536 := by
  induction recs with
  | nil =>
    intro addr lns k _ hk
    exact absurd hk (Nat.not_lt_zero _)
  | cons r rest ih =>
    intro addr lns k h hk
    cases lns with
    | nil => simp [linkedRecords] at h
    | cons ln lns =>
      unfold linkedRecords at h
      rw [Bool.and_eq_true] at h
      cases k with
      | zero =>
        have hr := h.1
        unfold lineRecord at hr
        simp only [Bool.and_eq_true, decide_eq_true_eq, beq_iff_eq] at hr
        have := hr.1.1.1.2
        simp only [List.getD_cons_zero, recordAddress, List.take_succ_cons, List.take_zero,
          List.flatten_cons, List.flatten_nil, List.append_nil]
        exact this
      | succ j =>
        have := ih (addr + r.length) lns j h.2 (Nat.lt_of_succ_lt_succ hk)
        simp only [List.getD_cons_succ, List.take_succ_cons, List.flatten_cons,
          List.length_append]
        rw [this, Nat.add_assoc]

/-- C28, amended: for every list of lines each of which is empty (and skipped) or has a
space after its first word, `ApplesoftTokenize` returns the line records, one for each
non-empty line and in order, followed by exactly two zero bytes.  Each record has at least
five bytes: two bytes that hold, little-endian and modulo 65536, the address `0x801` plus
the length of all records up to and including itself (that is where the next record
starts), then the bytes `byte(ln & 0xff)`, `byte(ln / 0x100)` of its line number, and a zero
byte at the end.  For every record that ends below address 65536 the stored address is that
sum itself. -/
theorem ApplesoftTokenize_structure (lines : List (List Char))
    (h : ∀ l ∈ lines, trimChar '\r' l = [] ∨ (splitFirstSpace (trimChar '\r' l)).2.isSome) :
    ∃ recs : List (List Nat),
      ApplesoftTokenize lines = some (recs.flatten ++ [0x00, 0x00]) ∧
      linkedRecords 0x801 (lineNumbers lines) recs = true ∧
      ∀ k, k < recs.length → 0x801 + ((recs.take (k + 1)).flatten).length < 65536 →
        recordAddress (recs.getD k []) = 0x801 + ((recs.take (k + 1)).flatten).length := by
  obtain ⟨recs, h1, h2⟩ := tokenizeLines_records lines h 0x801 []
  refine ⟨recs, by unfold ApplesoftTokenize; simpa using h1, h2, ?_⟩
  intro k hk hlt
  rw [linkedRecords_address recs 0x801 _ k h2 hk]
  exact Nat.mod_eq_of_lt hlt

/-- C28 witness: the two-line program `10 PRINT "HI"`, `20 GOTO 10`; both lines have a
space after the line number. -/
theorem ApplesoftTokenize_structure_witness :
    (∀ l ∈ ["10 PRINT \"HI\"".toList, "20 GOTO 10".toList],
      trimChar '\r' l = [] ∨ (splitFirstSpace (trimChar '\r' l)).2.isSome) ∧
    (∃ recs : List (List Nat),
      ApplesoftTokenize ["10 PRINT \"HI\"".toList, "20 GOTO 10".toList]
        = some (recs.flatten ++ [0x00, 0x00]) ∧
      linkedRecords 0x801 (lineNumbers ["10 PRINT \"HI\"".toList, "20 GOTO 10".toList]) recs
        = true ∧
      ∀ k, k < recs.length → 0x801 + ((recs.take (k + 1)).flatten).length < 65536 →
        recordAddress (recs.getD k []) = 0x801 + ((recs.take (k + 1)).flatten).length) ∧
    ApplesoftTokenize ["10 PRINT \"HI\"".toList, "20 GOTO 10".toList] =
      some ([0x0C, 0x08, 10, 0, 0xBA, 0x20, 0x22, 0x48, 0x49, 0x22, 0] ++
        [0x15, 0x08, 20, 0, 0xAB, 0x20, 0x31, 0x30, 0] ++ [0, 0]) :=
  ⟨by decide,
    ApplesoftTokenize_structure ["10 PRINT \"HI\"".toList, "20 GOTO 10".toList] (by decide),
    by decide⟩

/-! ### report.go: file duplicates -/

/-- C29, the claim as stated fails: two descriptors that each hold a zero-byte file named
`hello` give one reported cluster, whose two members are these files. -/
theorem file_dupes_reports_zero_byte_hello :
    (Aggregate AggregateDuplicateFiles { data := [] } helloDisks).reported =
      [("e3b0c442", [DuplicateSource.mk "a.dsk" "hello" "" "a.fgp",
        DuplicateSource.mk "b.dsk" "hello" "" "b.fgp"])] ∧
    fileDupeReport helloDisks =
      ["\nChecksum e3b0c442 duplicated 2 times:\n", " 0) a.dsk >> hello\n",
        " 1) b.dsk >> hello\n"] := by
  decide!

theorem AggregateDuplicateFiles_fold (d : Disk) (c : DuplicateFileCollection) :
    (AggregateDuplicateFiles d c).data =
      (d.Files.map fun f => (f.SHA256, DuplicateSource.mk d.FullPath f.Filename "" d.source)).foldl
        addSource c.data := by
  unfold AggregateDuplicateFiles
  generalize d.Files = fs
  induction fs generalizing c with
  | nil => rfl
  | cons f rest ih =>
    simp only [List.foldl_cons, List.map_cons]
    rw [ih]
    rfl

theorem Aggregate_fold (disks : List Disk) (c : DuplicateFileCollection) :
    (Aggregate AggregateDuplicateFiles c disks).data = (allSources disks).foldl addSource c.data := by
  unfold Aggregate allSources
  induction disks generalizing c with
  | nil => rfl
  | cons d rest ih =>
    simp only [List.foldl_cons, List.flatMap_cons, List.foldl_append]
    rw [ih, AggregateDuplicateFiles_fold]

theorem addSource_fold (es : List (String × DuplicateSource)) :
    ∀ (m : List (String × List DuplicateSource)) (seen : List (String × DuplicateSource)),
      (m.map Prod.fst).Nodup →
      (∀ sha, mapGet m sha =
        if ((seen.filter fun e => e.1 == sha).map (·.2)) = [] then none
        else some ((seen.filter fun e => e.1 == sha).map (·.2))) →
      ((es.foldl addSource m).map Prod.fst).Nodup ∧
      (∀ sha, mapGet (es.foldl addSource m) sha =
        if (((seen ++ es).filter fun e => e.1 == sha).map (·.2)) = [] then none
        else some (((seen ++ es).filter fun e => e.1 == sha).map (·.2))) := by
  induction es with
  | nil =>
    intro m seen hk hg
    simp only [List.foldl_nil, List.append_nil]
    exact ⟨hk, hg⟩
  | cons e rest ih =>
    intro m seen hk hg
    simp only [List.foldl_cons]
    have h := ih (addSource m e) (seen ++ [e]) ?_ ?_
    · simpa only [List.append_assoc, List.singleton_append] using h
    · unfold addSource
      rw [map_fst_mapSet]
      split_ifs with hmem
      · exact hk
      · rw [List.nodup_append]
        refine ⟨hk, List.nodup_singleton _, ?_⟩
        intro a ha hb
        simp only [List.mem_singleton] at hb
        exact hmem (hb ▸ ha)
    · intro sha
      unfold addSource
      rw [mapGet_mapSet]
      by_cases hs : e.1 = sha
      · subst hs
        rw [if_pos rfl, hg e.1]
        simp only [List.filter_append, List.filter_cons, beq_self_eq_true, if_true,
          List.filter_nil, List.map_append, List.map_cons, List.map_nil]
        split_ifs with h1 h2 h2
        · simp [h1] at h2
        · simp [h1]
        · simp at h2
        · simp
      · rw [if_neg hs, hg sha]
        have : (e.1 == sha) = false := by simpa using hs
        simp only [List.filter_append, List.filter_cons, this, Bool.false_eq_true, if_false,
          List.filter_nil, List.append_nil]

theorem mem_iff_mapGet {κ ν : Type} [DecidableEq κ] (m : List (κ × ν))
    (hk : (m.map Prod.fst).Nodup) (k : κ) (v : ν) : (k, v) ∈ m ↔ mapGet m k = some v := by
  induction m with
  | nil => simp [mapGet]
  | cons e rest ih =>
    obtain ⟨k1, v1⟩ := e
    simp only [List.map_cons, List.nodup_cons] at hk
    simp only [mapGet, List.mem_cons, Prod.mk.injEq]
    by_cases h1 : k1 = k
    · subst h1
      simp only [if_true, true_and, Option.some.injEq]
      constructor
      · rintro (h | h)
        · exact h.symm
        · exact absurd (List.mem_map_of_mem Prod.fst h) hk.1
      · intro h; exact Or.inl h.symm
    · have h1' : ¬ k = k1 := fun h => h1 h.symm
      simp only [h1, if_false, h1', false_and, false_or]
      exact ih hk.2

/-- C29, amended: the file duplicates aggregation groups the files of all descriptors by
SHA-256: every checksum is one key of the map, its list holds exactly the files with that
checksum across the descriptors, in order, zero-byte files and files named `hello` among
them; `Report` writes exactly the groups with more than one member. -/
theorem file_dupes_groups (disks : List Disk) :
    ((Aggregate AggregateDuplicateFiles { data := [] } disks).data.map Prod.fst).Nodup ∧
    (∀ sha l, (sha, l) ∈ (Aggregate AggregateDuplicateFiles { data := [] } disks).data ↔
      l = groupOf disks sha ∧ l ≠ []) ∧
    (∀ sha l, (sha, l) ∈ (Aggregate AggregateDuplicateFiles { data := [] } disks).reported ↔
      l = groupOf disks sha ∧ l.length > 1) := by
  have h := addSource_fold (allSources disks) [] [] (by simp) (by intro sha; simp [mapGet])
  rw [← Aggregate_fold disks { data := [] }] at h
  simp only [List.nil_append] at h
  obtain ⟨hk, hg⟩ := h
  have hmem : ∀ sha l, (sha, l) ∈ (Aggregate AggregateDuplicateFiles { data := [] } disks).data ↔
      l = groupOf disks sha ∧ l ≠ [] := by
    intro sha l
    rw [mem_iff_mapGet _ hk, hg sha]
    unfold groupOf
    split_ifs with h1
    · simp only [h1, false_iff, not_and, not_not]
      intro h2; exact h2
    · simp only [Option.some.injEq]
      constructor
      · intro h2; exact ⟨h2.symm, h2 ▸ h1⟩
      · intro h2; exact h2.1.symm
  refine ⟨hk, hmem, ?_⟩
  intro sha l
  unfold DuplicateFileCollection.reported
  rw [List.mem_filter, hmem]
  simp only [decide_eq_true_eq]
  constructor
  · rintro ⟨⟨h1, _⟩, h2⟩; exact ⟨h1, h2⟩
  · rintro ⟨h1, h2⟩
    refine ⟨⟨h1, ?_⟩, h2⟩
    intro h3; rw [h3] at h2; simp at h2

/-! ### disk/diskimageappledos.go: allocation -/

theorem SetSectorPointer_Format (d : DSKWrapper) :
    d.SetSectorPointer.Format = d.Format ∧ d.SetSectorPointer.Data = d.Data := by
  unfold DSKWrapper.SetSectorPointer
  exact ⟨rfl, rfl⟩

theorem SetTrack_Format (d : DSKWrapper) (t : Int) :
    (d.SetTrack t).1.Format = d.Format ∧ (d.SetTrack t).1.Data = d.Data := by
  unfold DSKWrapper.SetTrack
  split_ifs
  · exact ⟨rfl, rfl⟩
  · exact ⟨rfl, rfl⟩

theorem SetSector_Format (d : DSKWrapper) (s : Int) :
    (d.SetSector s).1.Format = d.Format ∧ (d.SetSector s).1.Data = d.Data := by
  unfold DSKWrapper.SetSector
  split_ifs
  · exact ⟨rfl, rfl⟩
  · exact ⟨rfl, rfl⟩

theorem Seek_Format (d : DSKWrapper) (t s : Int) :
    (d.Seek t s).1.Format = d.Format ∧ (d.Seek t s).1.Data = d.Data := by
  unfold DSKWrapper.Seek
  have h1 := SetTrack_Format d t
  rcases hst : d.SetTrack t with ⟨d1, e⟩
  rw [hst] at h1
  cases e with
  | some e => exact h1
  | none =>
    simp only
    have h2 := SetSector_Format d1 s
    exact ⟨h2.1.trans h1.1, h2.2.trans h1.2⟩

/-- C19, the claim as stated fails: on the blank DOS 3.3 image a payload of 256 bytes gets
two data sectors, not `ceil(256 / 256) = 1`, and a payload of 0 bytes gets one data sector
and one T/S list sector, not none. -/
theorem GetFreeSectors_256_takes_two :
    (blankDOS.AppleDOSGetFreeSectors 256).bind (fun r => r.2.toOption)
      = some ([(34, 15)], [(34, 14), (34, 13)]) ∧
    (blankDOS.AppleDOSGetFreeSectors 0).bind (fun r => r.2.toOption)
      = some ([(34, 15)], [(34, 14)]) := by
  decide!

theorem freeScanSectors_spec (v : VTOC) (t : Int) (total : Nat) :
    ∀ (k : Nat) (needed r : List (Int × Int)), freeScanSectors v t k total needed = some r →
      ∃ added, r = needed ++ added ∧
        (∀ p ∈ added, p.1 = t ∧ 0 ≤ p.2 ∧ p.2 < (k : Int) ∧ v.IsTSFree p.1 p.2 = some true) ∧
        added.Pairwise tsDesc ∧ (needed.length ≤ total → r.length ≤ total) := by
  intro k
  induction k with
  | zero =>
    intro needed r h
    simp only [freeScanSectors, Option.some.injEq] at h
    exact ⟨[], by simp [h], by simp, List.Pairwise.nil, fun hl => h ▸ hl⟩
  | succ k ih =>
    intro needed r h
    unfold freeScanSectors at h
    split_ifs at h with hfull
    · simp only [Option.some.injEq] at h
      exact ⟨[], by simp [h], by simp, List.Pairwise.nil, fun hl => h ▸ hl⟩
    · split at h
      · exact absurd h (by simp)
      · rename_i hfree
        obtain ⟨added, h1, h2, h3, h4⟩ := ih _ _ h
        refine ⟨(t, (k : Int)) :: added, by rw [h1]; simp, ?_, ?_, ?_⟩
        · intro p hp
          rcases List.mem_cons.1 hp with hp | hp
          · subst hp
            exact ⟨rfl, by simp, by simp, hfree⟩
          · obtain ⟨a, b, c, e⟩ := h2 p hp
            exact ⟨a, b, by push_cast; omega, e⟩
        · rw [List.pairwise_cons]
          refine ⟨?_, h3⟩
          intro q hq
          obtain ⟨a, b, c, e⟩ := h2 q hq
          right
          exact ⟨a.symm, c⟩
        · intro hl
          apply h4
          simp only [List.length_append, List.length_cons, List.length_nil]
          omega
      · obtain ⟨added, h1, h2, h3, h4⟩ := ih _ _ h
        refine ⟨added, h1, ?_, h3, h4⟩
        intro p hp
        obtain ⟨a, b, c, e⟩ := h2 p hp
        exact ⟨a, b, by push_cast; omega, e⟩

theorem freeScanTracks_spec (v : VTOC) (catTrack : Int) (spt total : Nat) :
    ∀ (k : Nat) (needed r : List (Int × Int)),
      freeScanTracks v catTrack spt k total needed = some r →
      ∃ added, r = needed ++ added ∧
        (∀ p ∈ added, p.1 ≠ catTrack ∧ 0 ≤ p.1 ∧ p.1 < (k : Int) ∧ 0 ≤ p.2 ∧ p.2 < (spt : Int) ∧
          v.IsTSFree p.1 p.2 = some true) ∧
        added.Pairwise tsDesc ∧ (needed.length ≤ total → r.length ≤ total) := by
  intro k
  induction k with
  | zero =>
    intro needed r h
    simp only [freeScanTracks, Option.some.injEq] at h
    exact ⟨[], by simp [h], by simp, List.Pairwise.nil, fun hl => h ▸ hl⟩
  | succ k ih =>
    intro needed r h
    unfold freeScanTracks at h
    split_ifs at h with hcat
    · obtain ⟨added, h1, h2, h3, h4⟩ := ih _ _ h
      refine ⟨added, h1, ?_, h3, h4⟩
      intro p hp
      obtain ⟨a, b, c, e⟩ := h2 p hp
      exact ⟨a, b, by push_cast; omega, e⟩
    · split at h
      · exact absurd h (by simp)
      · rename_i needed1 hsec
        obtain ⟨add1, s1, s2, s3, s4⟩ := freeScanSectors_spec v (k : Int) total spt _ _ hsec
        obtain ⟨add2, h1, h2, h3, h4⟩ := ih _ _ h
        refine ⟨add1 ++ add2, by rw [h1, s1, List.append_assoc], ?_, ?_, ?_⟩
        · intro p hp
          rcases List.mem_append.1 hp with hp | hp
          · obtain ⟨a, b, c, e⟩ := s2 p hp
            exact ⟨by rw [a]; exact hcat, by rw [a]; simp, by rw [a]; push_cast; omega, b, c, e⟩
          · obtain ⟨a, b, c, e⟩ := h2 p hp
            exact ⟨a, b, by push_cast; omega, e⟩
        · rw [List.pairwise_append]
          refine ⟨s3, h3, ?_⟩
          intro p hp q hq
          obtain ⟨a, _⟩ := s2 p hp
          obtain ⟨_, _, c, _⟩ := h2 q hq
          left
          rw [a]; exact c
        · intro hl
          exact h4 (s4 hl)

theorem tsDesc_ne (p q : Int × Int) (h : tsDesc p q) : p ≠ q := by
  intro e
  subst e
  rcases h with h | ⟨_, h⟩ <;> omega

/-- C19, amended: a successful `AppleDOSGetFreeSectors(n)` returns exactly `n/256 + 1` data
sectors (one more than `ceil(n / 256)` when `n` is a multiple of 256) and exactly
`data_sectors/m + 1` T/S list sectors, `m > 0` being the maximum number of pairs in a T/S
list sector.  All of them are free in the VTOC, off the catalog track and inside the disk
format, and the T/S list sectors followed by the data sectors are listed from the highest
track downwards and within a track from the highest sector downwards, so they are pairwise
distinct. -/
theorem AppleDOSGetFreeSectors_spec (d : DSKWrapper) (n : Nat) (vtoc : VTOC)
    (ts data : List (Int × Int))
    (hv : d.AppleDOSGetVTOC.bind (fun r => r.2.toOption) = some vtoc)
    (h : (d.AppleDOSGetFreeSectors n).bind (fun r => r.2.toOption) = some (ts, data)) :
    0 < vtoc.GetMaxTSPairsPerSector ∧
    data.length = n / 256 + 1 ∧
    ts.length = data.length / vtoc.GetMaxTSPairsPerSector + 1 ∧
    (∀ p ∈ ts ++ data, vtoc.IsTSFree p.1 p.2 = some true ∧ p.1 ≠ vtoc.GetCatalogStart.1 ∧
      0 ≤ p.1 ∧ p.1 < d.Format.TPD ∧ 0 ≤ p.2 ∧ p.2 < d.Format.SPT) ∧
    (ts ++ data).Pairwise tsDesc ∧ (ts ++ data).Nodup := by
  unfold DSKWrapper.AppleDOSGetFreeSectors at h
  rcases hgv : d.AppleDOSGetVTOC with _ | ⟨d1, _ | v⟩
  · rw [hgv] at hv; simp at hv
  · rw [hgv] at hv; simp [Except.toOption] at hv
  rw [hgv] at hv h
  have hv1 : v = vtoc := by simpa [Except.toOption] using hv
  subst hv1
  have hfmt : d1.Format = d.Format := by
    unfold DSKWrapper.AppleDOSGetVTOC at hgv
    have hf := (Seek_Format d 17 0).1
    rcases hsk : d.Seek 17 0 with ⟨d2, e⟩
    rw [hsk] at hgv hf
    cases e with
    | some e => simp at hgv
    | none =>
      simp only at hgv
      split at hgv
      · simp at hgv
      · simp only [Option.some.injEq, Prod.mk.injEq] at hgv
        rw [← hgv.1]; exact hf
  simp only at h
  split_ifs at h with hm
  · simp at h
  split at h
  · simp at h
  rename_i needed hscan
  split_ifs at h with hlen
  swap
  · simp [Except.toOption] at h
  simp only [Option.bind_some, Except.toOption, Option.some.injEq, Prod.mk.injEq] at h
  obtain ⟨rfl, rfl⟩ := h
  obtain ⟨added, h1, h2, h3, h4⟩ := freeScanTracks_spec _ _ _ _ _ _ _ hscan
  simp only [List.nil_append] at h1
  subst h1
  have hle := h4 (by simp)
  rw [List.take_append_drop]
  refine ⟨Nat.pos_of_ne_zero hm, ?_, ?_, ?_, h3, ?_⟩
  · rw [List.length_drop]; omega
  · rw [List.length_take, List.length_drop]
    have : needed.length - (((n / 256 + 1) / v.GetMaxTSPairsPerSector) + 1) = n / 256 + 1 := by
      omega
    rw [this]; omega
  · intro p hp
    obtain ⟨a, b, c, e, f, g⟩ := h2 p hp
    refine ⟨g, a, b, ?_, e, ?_⟩
    · rw [← hfmt]; omega
    · rw [← hfmt]; omega
  · exact h3.imp (fun {a b} hab => tsDesc_ne a b hab)

theorem AppleDOSGetFreeSectors_spec_witness :
    0 < (VTOC.mk blankVTOC 17 0).GetMaxTSPairsPerSector ∧
    [((34 : Int), (14 : Int)), (34, 13)].length = 256 / 256 + 1 ∧
    [((34 : Int), (15 : Int))].length =
      [((34 : Int), (14 : Int)), (34, 13)].length / (VTOC.mk blankVTOC 17 0).GetMaxTSPairsPerSector
        + 1 ∧
    (∀ p ∈ [((34 : Int), (15 : Int))] ++ [(34, 14), (34, 13)],
      (VTOC.mk blankVTOC 17 0).IsTSFree p.1 p.2 = some true ∧
      p.1 ≠ (VTOC.mk blankVTOC 17 0).GetCatalogStart.1 ∧
      0 ≤ p.1 ∧ p.1 < blankDOS.Format.TPD ∧ 0 ≤ p.2 ∧ p.2 < blankDOS.Format.SPT) ∧
    ([((34 : Int), (15 : Int))] ++ [(34, 14), (34, 13)]).Pairwise tsDesc ∧
    ([((34 : Int), (15 : Int))] ++ [(34, 14), (34, 13)]).Nodup :=
  AppleDOSGetFreeSectors_spec blankDOS 256 (VTOC.mk blankVTOC 17 0) [(34, 15)]
    [(34, 14), (34, 13)] (by decide!) (by decide!)

/-! ### disk/diskimageappledos.go: write then read -/

/-- C1, evaluated at the failing input: on the blank DOS 3.3 image
`AppleDOSWriteFile("hello", BIN, [1, 2, 3], 0x2000)` returns nil and the catalog then lists
the one entry `hello.s`, but `AppleDOSReadFileRaw` on that entry returns length 252, address
0x2000 and the bytes `03 00 00 ..`, not `(3, 0x2000, [1, 2, 3])`: the writer stores only the
two address bytes in front of the data, the reader takes four bytes of header. -/
theorem AppleDOS_write_read_header_mismatch :
    (blankDOS.AppleDOSWriteFile "hello".toList FileTypeBIN [1, 2, 3] 0x2000).map (·.2)
      = some none ∧
    ((blankDOS.AppleDOSWriteFile "hello".toList FileTypeBIN [1, 2, 3] 0x2000).bind fun w =>
      (w.1.AppleDOSGetCatalog plainRegex "*".toList).map fun r =>
        (r.2.1.map (fun fd => fd.Name r.1), r.2.2)) = some (["hello.s".toList], none) ∧
    ((blankDOS.AppleDOSWriteFile "hello".toList FileTypeBIN [1, 2, 3] 0x2000).bind fun w =>
      (w.1.AppleDOSNamedCatalogEntry "HELLO".toList).bind fun r => r.2.1.bind fun fd =>
        (r.1.AppleDOSReadFileRaw fd).map fun x => (x.2.1, x.2.2))
      = some ((252, 0x2000, 3 :: List.replicate 251 0), none) := by
  decide!

/-! ### drvappledos16.go, drvappledos13.go: the sector bitmap -/

/-- C30, the claim as stated fails: when the VTOC marks its own sector (track 17 sector 0)
free, `analyzeDOS16` takes the bitmap from `AppleDOSUsedBitmap`, the sectors of the
catalogued files.  On `vtocFreeDOS`, which has no file and declares 2 tracks of 3 sectors, the
bitmap has the 560 bits of the disk format, all false, also the bit of track 0 sector 0,
which the VTOC marks used; no sector is active. -/
theorem analyzeDOS16_uses_catalog_bitmap :
    (vtocFreeDOS.AppleDOSGetVTOC.bind (fun r => r.2.toOption)).map
      (fun v => (v.BytesPerSector, v.IsTSFree 17 0, v.IsTSFree 0 0))
      = some (256, some true, some false) ∧
    (analyzeDOS16 sumSha plainRegex vtocFreeDOS emptyDisk).map (fun r => r.map (fun i =>
      (i.Tracks, i.Sectors, i.Bitmap.length))) = some (some (2, 3, 560)) ∧
    (analyzeDOS16 sumSha plainRegex vtocFreeDOS emptyDisk).map (fun r => r.map (fun i =>
      (i.Bitmap[0 * 3 + 0]?, i.ActiveSectors.length))) = some (some (some false, 0)) := by
  decide!

theorem scanSector_spec (sha : List Nat → String) (vtoc : VTOC) (sectors : Nat)
    (st st1 : SectorScan) (t s : Nat) (h : scanSector sha false vtoc sectors st t s = some st1) :
    ∃ free, vtoc.IsTSFree (t : Int) (s : Int) = some free ∧
      t * sectors + s < st.Bitmap.length ∧
      st1.Bitmap = st.Bitmap.set (t * sectors + s) (!free) ∧
      st1.ActiveSectors.map (fun x => (x.Track, x.Sector)) =
        st.ActiveSectors.map (fun x => (x.Track, x.Sector)) ++ (if free then [] else [(t, s)]) ∧
      st1.InactiveSectors.map (fun x => (x.Track, x.Sector)) =
        st.InactiveSectors.map (fun x => (x.Track, x.Sector)) ++ (if free then [(t, s)] else []) := by
  unfold scanSector at h
  simp only [Bool.false_eq_true, if_false] at h
  rcases hfree : vtoc.IsTSFree (t : Int) (s : Int) with _ | free
  · rw [hfree] at h; simp at h
  rw [hfree] at h
  simp only at h
  by_cases hidx : t * sectors + s < st.Bitmap.length
  swap
  · rw [if_neg hidx] at h; simp at h
  rw [if_pos hidx] at h
  simp only at h
  have hget : (st.Bitmap.set (t * sectors + s) (!free))[t * sectors + s]? = some (!free) := by
    rw [List.getElem?_set_self hidx]
  rw [hget] at h
  simp only at h
  split at h
  · simp at h
  split at h
  · simp at h
  refine ⟨free, rfl, hidx, ?_⟩
  cases free
  · simp only [Bool.not_false, if_true, Option.some.injEq] at h
    subst h
    simp
  · simp only [Bool.not_true, Bool.false_eq_true, if_false, Option.some.injEq] at h
    subst h
    simp

theorem usedAt_of_free (vtoc : VTOC) (t s : Nat) (free : Bool)
    (h : vtoc.IsTSFree (t : Int) (s : Int) = some free) : vtoc.usedAt (t, s) = !free := by
  unfold VTOC.usedAt
  simp only [h]
  cases free <;> rfl

theorem scanSectors_spec (sha : List Nat → String) (vtoc : VTOC) (sectors t : Nat) :
    ∀ (n s : Nat) (st st1 : SectorScan),
      scanSectors sha false vtoc sectors t n s st = some st1 →
      st1.Bitmap.length = st.Bitmap.length ∧
      (∀ s1, s ≤ s1 → s1 < s + n →
        ∃ free, vtoc.IsTSFree (t : Int) (s1 : Int) = some free ∧
          st1.Bitmap[t * sectors + s1]? = some (!free)) ∧
      (∀ idx, idx < t * sectors + s ∨ t * sectors + s + n ≤ idx →
        st1.Bitmap[idx]? = st.Bitmap[idx]?) ∧
      st1.ActiveSectors.map (fun x => (x.Track, x.Sector)) =
        st.ActiveSectors.map (fun x => (x.Track, x.Sector)) ++
          ((List.range' s n).map (fun s1 => (t, s1))).filter vtoc.usedAt ∧
      st1.InactiveSectors.map (fun x => (x.Track, x.Sector)) =
        st.InactiveSectors.map (fun x => (x.Track, x.Sector)) ++
          ((List.range' s n).map (fun s1 => (t, s1))).filter (fun p => !vtoc.usedAt p) := by
  intro n
  induction n with
  | zero =>
    intro s st st1 h
    simp only [scanSectors, Option.some.injEq] at h
    subst h
    refine ⟨rfl, ?_, fun _ _ => rfl, by simp, by simp⟩
    intro s1 h1 h2; omega
  | succ n ih =>
    intro s st st1 h
    unfold scanSectors at h
    split at h
    · simp at h
    rename_i st2 hsec
    obtain ⟨free, hfree, hidx, hbm, hact, hin⟩ := scanSector_spec sha vtoc sectors st st2 t s hsec
    obtain ⟨i1, i2, i3, i4, i5⟩ := ih (s + 1) st2 st1 h
    have hu := usedAt_of_free vtoc t s free hfree
    refine ⟨?_, ?_, ?_, ?_, ?_⟩
    · rw [i1, hbm, List.length_set]
    · intro s1 h1 h2
      by_cases hs : s1 = s
      · subst hs
        refine ⟨free, hfree, ?_⟩
        rw [i3 _ (Or.inl (by omega)), hbm, List.getElem?_set_self hidx]
      · exact i2 s1 (by omega) (by omega)
    · intro idx hi
      rw [i3 idx (by omega), hbm, List.getElem?_set_ne (by omega)]
    · rw [i4, hact, List.range'_succ, List.map_cons, List.filter_cons, hu, List.append_assoc]
      cases free <;> simp
    · rw [i5, hin, List.range'_succ, List.map_cons, List.filter_cons, hu, List.append_assoc]
      cases free <;> simp

theorem scanTracks_spec (sha : List Nat → String) (vtoc : VTOC) (sectors : Nat) :
    ∀ (n t : Nat) (st st1 : SectorScan),
      scanTracks sha false vtoc sectors n t st = some st1 →
      st1.Bitmap.length = st.Bitmap.length ∧
      (∀ t1 s1, t ≤ t1 → t1 < t + n → s1 < sectors →
        ∃ free, vtoc.IsTSFree (t1 : Int) (s1 : Int) = some free ∧
          st1.Bitmap[t1 * sectors + s1]? = some (!free)) ∧
      (∀ idx, idx < t * sectors → st1.Bitmap[idx]? = st.Bitmap[idx]?) ∧
      st1.ActiveSectors.map (fun x => (x.Track, x.Sector)) =
        st.ActiveSectors.map (fun x => (x.Track, x.Sector)) ++
          ((List.range' t n).flatMap fun t1 =>
            (List.range' 0 sectors).map (fun s1 => (t1, s1))).filter vtoc.usedAt ∧
      st1.InactiveSectors.map (fun x => (x.Track, x.Sector)) =
        st.InactiveSectors.map (fun x => (x.Track, x.Sector)) ++
          ((List.range' t n).flatMap fun t1 =>
            (List.range' 0 sectors).map (fun s1 => (t1, s1))).filter
              (fun p => !vtoc.usedAt p) := by
  intro n
  induction n with
  | zero =>
    intro t st st1 h
    simp only [scanTracks, Option.some.injEq] at h
    subst h
    refine ⟨rfl, ?_, fun _ _ => rfl, by simp, by simp⟩
    intro t1 s1 h1 h2; omega
  | succ n ih =>
    intro t st st1 h
    unfold scanTracks at h
    split at h
    · simp at h
    rename_i st2 hsec
    obtain ⟨j1, j2, j3, j4, j5⟩ := scanSectors_spec sha vtoc sectors t sectors 0 st st2 hsec
    obtain ⟨i1, i2, i3, i4, i5⟩ := ih (t + 1) st2 st1 h
    have hmul : (t + 1) * sectors = t * sectors + sectors := Nat.succ_mul t sectors
    refine ⟨?_, ?_, ?_, ?_, ?_⟩
    · rw [i1, j1]
    · intro t1 s1 h1 h2 h3
      by_cases ht : t1 = t
      · subst ht
        obtain ⟨free, hf, hb⟩ := j2 s1 (by omega) (by omega)
        refine ⟨free, hf, ?_⟩
        rw [i3 _ (by omega), hb]
      · exact i2 t1 s1 (by omega) (by omega) h3
    · intro idx hi
      rw [i3 idx (by omega), j3 idx (Or.inl (by omega))]
    · rw [i4, j4, List.range'_succ, List.flatMap_cons, List.filter_append, List.append_assoc]
    · rw [i5, j5, List.range'_succ, List.flatMap_cons, List.filter_append, List.append_assoc]

theorem mem_trackMajor (tracks sectors : Nat) (p : Nat × Nat) :
    p ∈ trackMajor tracks sectors ↔ p.1 < tracks ∧ p.2 < sectors := by
  unfold trackMajor
  simp only [List.mem_flatMap, List.mem_range, List.mem_map]
  constructor
  · rintro ⟨t, ht, s, hs, rfl⟩; exact ⟨ht, hs⟩
  · rintro ⟨h1, h2⟩; exact ⟨p.1, h1, p.2, h2, rfl⟩

/-- The sector loop without the catalog bitmap, from an all-false bitmap. -/
theorem scan_from_blank (sha : List Nat → String) (vtoc : VTOC) (d1 : DSKWrapper)
    (st : SectorScan)
    (h : scanTracks sha false vtoc vtoc.GetSectors vtoc.GetTracks 0
      (SectorScan.mk d1 (List.replicate (vtoc.GetTracks * vtoc.GetSectors) false) [] [])
        = some st) :
    st.Bitmap.length = vtoc.GetTracks * vtoc.GetSectors ∧
    (∀ T S, T < vtoc.GetTracks → S < vtoc.GetSectors →
      ∃ free, vtoc.IsTSFree (T : Int) (S : Int) = some free ∧
        st.Bitmap[T * vtoc.GetSectors + S]? = some (!free)) ∧
    st.ActiveSectors.map (fun x => (x.Track, x.Sector)) =
      (trackMajor vtoc.GetTracks vtoc.GetSectors).filter
        (fun p => st.Bitmap.getD (p.1 * vtoc.GetSectors + p.2) false) ∧
    st.InactiveSectors.map (fun x => (x.Track, x.Sector)) =
      (trackMajor vtoc.GetTracks vtoc.GetSectors).filter
        (fun p => !st.Bitmap.getD (p.1 * vtoc.GetSectors + p.2) false) := by
  obtain ⟨i1, i2, _, i4, i5⟩ := scanTracks_spec sha vtoc _ _ _ _ _ h
  have hbit : ∀ T S, T < vtoc.GetTracks → S < vtoc.GetSectors →
      ∃ free, vtoc.IsTSFree (T : Int) (S : Int) = some free ∧
        st.Bitmap[T * vtoc.GetSectors + S]? = some (!free) :=
    fun T S hT hS => i2 T S (by omega) (by omega) hS
  have hused : ∀ p ∈ trackMajor vtoc.GetTracks vtoc.GetSectors,
      vtoc.usedAt p = st.Bitmap.getD (p.1 * vtoc.GetSectors + p.2) false := by
    intro p hp
    rw [mem_trackMajor] at hp
    obtain ⟨free, hf, hb⟩ := hbit p.1 p.2 hp.1 hp.2
    rw [List.getD_eq_getElem?_getD, hb, show p = (p.1, p.2) from rfl, usedAt_of_free vtoc _ _ free hf]
    rfl
  have htm : ((List.range' 0 vtoc.GetTracks).flatMap fun t1 =>
      (List.range' 0 vtoc.GetSectors).map (fun s1 => (t1, s1)))
      = trackMajor vtoc.GetTracks vtoc.GetSectors := by
    unfold trackMajor
    rw [List.range_eq_range', List.range_eq_range']
  refine ⟨by rw [i1]; simp, hbit, ?_, ?_⟩
  · rw [i4, htm]
    simp only [List.map_nil, List.nil_append]
    exact List.filter_congr hused
  · rw [i5, htm]
    simp only [List.map_nil, List.nil_append]
    exact List.filter_congr (fun p hp => by rw [hused p hp])

/-- C30, amended: for the descriptor that `analyzeDOS13` builds, and for the one that
`analyzeDOS16` builds from a VTOC with 256 bytes per sector that does not mark its own
sector (track 17, sector 0) free, the tracks and sectors are those of the VTOC, the bitmap
has `tracks * sectors` bits, `Bitmap[T * sectors + S]` is `!vtoc.IsTSFree(T, S)` for all
`T < tracks` and `S < sectors`, `ActiveSectors` lists exactly the slots with the bit set, in
track-major order, and `InactiveSectors` the others. -/
theorem analyze_bitmap_spec (sha : List Nat → String) (re : RegexMatch) (dsk : DSKWrapper)
    (info0 info : Disk) (vtoc : VTOC)
    (hv : dsk.AppleDOSGetVTOC.bind (fun r => r.2.toOption) = some vtoc)
    (h : analyzeDOS13 sha dsk info0 = some (some info) ∨
      (vtoc.IsTSFree 17 0 = some false ∧ analyzeDOS16 sha re dsk info0 = some (some info))) :
    info.Tracks = vtoc.GetTracks ∧ info.Sectors = vtoc.GetSectors ∧
    info.Bitmap.length = info.Tracks * info.Sectors ∧
    (∀ T S, T < info.Tracks → S < info.Sectors →
      ∃ free, vtoc.IsTSFree (T : Int) (S : Int) = some free ∧
        info.Bitmap[T * info.Sectors + S]? = some (!free)) ∧
    info.ActiveSectors.map (fun x => (x.Track, x.Sector)) =
      (trackMajor info.Tracks info.Sectors).filter
        (fun p => info.Bitmap.getD (p.1 * info.Sectors + p.2) false) ∧
    info.InactiveSectors.map (fun x => (x.Track, x.Sector)) =
      (trackMajor info.Tracks info.Sectors).filter
        (fun p => !info.Bitmap.getD (p.1 * info.Sectors + p.2) false) := by
  rcases hgv : dsk.AppleDOSGetVTOC with _ | ⟨d1, _ | v⟩
  · rw [hgv] at hv; simp at hv
  · rw [hgv] at hv; simp [Except.toOption] at hv
  rw [hgv] at hv
  have hv1 : v = vtoc := by simpa [Except.toOption] using hv
  subst hv1
  have key : ∃ st d2, scanTracks sha false v v.GetSectors v.GetTracks 0
      (SectorScan.mk d2 (List.replicate (v.GetTracks * v.GetSectors) false) [] []) = some st ∧
      info = st.toDisk info0 v.GetTracks v.GetSectors := by
    rcases h with h | ⟨halt, h⟩
    · unfold analyzeDOS13 at h
      rw [hgv] at h
      simp only at h
      split at h
      · simp at h
      rename_i st hst
      simp only [Option.some.injEq] at h
      exact ⟨st, d1, hst, h.symm⟩
    · unfold analyzeDOS16 at h
      rw [hgv] at h
      simp only at h
      split_ifs at h
      · simp at h
      rw [halt] at h
      simp only [Bool.false_eq_true, if_false] at h
      split at h
      · simp at h
      rename_i st hst
      simp only [Option.some.injEq] at h
      exact ⟨st, d1, hst, h.symm⟩
  obtain ⟨st, d2, hst, hinfo⟩ := key
  obtain ⟨k1, k2, k3, k4⟩ := scan_from_blank sha v d2 st hst
  subst hinfo
  exact ⟨rfl, rfl, k1, k2, k3, k4⟩

theorem analyze_bitmap_spec_witness :
    smallVTOCDisk.Tracks = smallVTOC.GetTracks ∧ smallVTOCDisk.Sectors = smallVTOC.GetSectors ∧
    smallVTOCDisk.Bitmap.length = smallVTOCDisk.Tracks * smallVTOCDisk.Sectors ∧
    (∀ T S, T < smallVTOCDisk.Tracks → S < smallVTOCDisk.Sectors →
      ∃ free, smallVTOC.IsTSFree (T : Int) (S : Int) = some free ∧
        smallVTOCDisk.Bitmap[T * smallVTOCDisk.Sectors + S]? = some (!free)) ∧
    smallVTOCDisk.ActiveSectors.map (fun x => (x.Track, x.Sector)) =
      (trackMajor smallVTOCDisk.Tracks smallVTOCDisk.Sectors).filter
        (fun p => smallVTOCDisk.Bitmap.getD (p.1 * smallVTOCDisk.Sectors + p.2) false) ∧
    smallVTOCDisk.InactiveSectors.map (fun x => (x.Track, x.Sector)) =
      (trackMajor smallVTOCDisk.Tracks smallVTOCDisk.Sectors).filter
        (fun p => !smallVTOCDisk.Bitmap.getD (p.1 * smallVTOCDisk.Sectors + p.2) false) :=
  analyze_bitmap_spec sumSha plainRegex smallVTOCDOS emptyDisk smallVTOCDisk smallVTOC
    (by decide!) (Or.inr ⟨by decide!, by decide!⟩)

/-! ### disk/diskimageappledos.go: the catalog walk -/

theorem Seek_ok (d D : DSKWrapper) (t s : Int) (d1 : DSKWrapper)
    (hf : d.Format = D.Format) (hl : d.Layout = D.Layout) (h : d.Seek t s = (d1, none)) :
    d1.SectorPointer.toNat = sectorBase D t s ∧ d1.Format = D.Format ∧ d1.Layout = D.Layout ∧
      d1.Data = d.Data := by
  unfold DSKWrapper.Seek DSKWrapper.SetTrack at h
  split_ifs at h with ht
  · simp only at h
    unfold DSKWrapper.SetSector at h
    split_ifs at h with hs
    · simp only [Prod.mk.injEq, and_true] at h
      subst h
      simp [DSKWrapper.SetSectorPointer, sectorBase, hf, hl]
    · simp at h
  · simp at h

theorem or_ne_ten (x h : Nat) (hx : 32 ≤ x) : x ||| h ≠ 10 := by
  intro e
  obtain ⟨i, hi, hb⟩ := Nat.ge_two_pow_implies_high_bit_true (n := 5) (x := x) (by simpa using hx)
  have h1 : (x ||| h).testBit i = true := by rw [Nat.testBit_or, hb]; rfl
  rw [e] at h1
  have h2 : (10 : Nat).testBit i = false := by
    apply Nat.testBit_lt_two_pow
    calc 10 < 2 ^ 5 := by decide
      _ ≤ 2 ^ i := Nat.pow_le_pow_right (by decide) hi
  rw [h2] at h1
  exact Bool.noConfusion h1

theorem PokeToAscii_ne_ten (v : Nat) : PokeToAscii v false ≠ 10 := by
  unfold PokeToAscii
  simp only [Bool.false_eq_true, if_false]
  split_ifs <;> exact or_ne_ten _ _ (by omega)

theorem ofNat_ne_newline (n : Nat) (h : n ≠ 10) : Char.ofNat n ≠ '\n' := by
  intro e
  have h1 : (Char.ofNat n).toNat = 10 := by rw [e]; rfl
  unfold Char.ofNat at h1
  split_ifs at h1 with hv
  · exact h h1
  · exact absurd h1 (by decide)

theorem toLowerASCII_no_newline (s : List Char) (h : '\n' ∉ s) : '\n' ∉ toLowerASCII s := by
  unfold toLowerASCII
  intro hm
  rw [List.mem_map] at hm
  obtain ⟨c, hc, e⟩ := hm
  split_ifs at e with hu
  · have hlo : 65 ≤ c.toNat := hu.1
    exact ofNat_ne_newline _ (by omega) e
  · exact h (e ▸ hc)

theorem trimChar_subset (c : Char) (s : List Char) : ∀ x ∈ trimChar c s, x ∈ s := by
  intro x hx
  unfold trimChar at hx
  rw [List.mem_reverse] at hx
  have h1 := List.dropWhile_subset (l := (s.dropWhile (· == c)).reverse) (· == c) hx
  rw [List.mem_reverse] at h1
  exact List.dropWhile_subset _ h1

theorem Name_no_newline (fd : FileDescriptor) (d : DSKWrapper) : '\n' ∉ fd.Name d := by
  unfold FileDescriptor.Name
  rw [List.mem_append, not_or]
  constructor
  · unfold FileDescriptor.NameUnadorned
    apply toLowerASCII_no_newline
    intro h
    have h1 := trimChar_subset _ _ _ h
    unfold FileDescriptor.rawName at h1
    rw [List.mem_map] at h1
    obtain ⟨i, _, e⟩ := h1
    exact ofNat_ne_newline _ (PokeToAscii_ne_ten _) e
  · split_ifs <;> decide

theorem listed_eq_activeEntry (fd : FileDescriptor) (d D : DSKWrapper) (h : d.Data = D.Data) :
    fd.listed d = activeEntry D fd := by
  unfold FileDescriptor.listed activeEntry FileDescriptor.DataAt FileDescriptor.Type
    FileDescriptor.DataAt FileTypeKnown
  rw [h]
  simp only [Nat.add_zero]
  congr 1
  generalize D.Data.byte (fd.ptr + 2) &&& 127 = x
  rw [Bool.eq_iff_iff]
  simp [Bool.or_eq_true, beq_iff_eq, or_assoc]

theorem catalogEntry_mod (base : Nat) (ct cs : Int) (count : Nat) :
    catalogEntry base ct cs count = catalogEntry base ct cs (count % 7) := by
  unfold catalogEntry
  rw [Nat.mod_mod]

theorem catalogWalk_succ (n : Nat) (re : RegexMatch) (pattern : List Char) (d : DSKWrapper)
    (base : Nat) (ct cs : Int) (count : Nat) (files : List FileDescriptor) :
    catalogWalk (n + 1) re pattern d base ct cs count files =
      if (count + 1) % 7 = 0 then
        catalogNext n re pattern d base (count + 1)
          (if catalogKeep re pattern d (catalogEntry base ct cs count) then
            files ++ [catalogEntry base ct cs count] else files)
      else
        catalogWalk n re pattern d base ct cs (count + 1)
          (if catalogKeep re pattern d (catalogEntry base ct cs count) then
            files ++ [catalogEntry base ct cs count] else files) := by
  rw [catalogWalk]
  unfold catalogNext catalogKeep
  rfl

theorem catalogWalk_sector (re : RegexMatch) (pattern : List Char) (d : DSKWrapper)
    (base : Nat) (ct cs : Int) :
    ∀ (r n count : Nat) (files : List FileDescriptor), 1 ≤ r → r ≤ 7 → count % 7 = 7 - r →
      catalogWalk (n + r) re pattern d base ct cs count files =
        catalogNext n re pattern d base (count + r)
          (files ++ ((List.range' (7 - r) r).map (fun i => catalogEntry base ct cs i)).filter
            (catalogKeep re pattern d)) := by
  intro r
  induction r with
  | zero => intro n count files h; omega
  | succ r ih =>
    intro n count files h1 h7 hc
    rw [← Nat.add_assoc, catalogWalk_succ]
    have he : catalogEntry base ct cs count = catalogEntry base ct cs (7 - (r + 1)) := by
      rw [catalogEntry_mod, hc]
    by_cases hr : r = 0
    · subst hr
      have he6 : catalogEntry base ct cs count = catalogEntry base ct cs 6 := he
      rw [if_pos (by omega), he6]
      show _ = catalogNext n re pattern d base (count + 1)
        (files ++ List.filter (catalogKeep re pattern d) [catalogEntry base ct cs 6])
      rw [List.filter_cons, List.filter_nil]
      split_ifs
      · rfl
      · rw [List.append_nil]; rfl
    · rw [if_neg (by omega), ih n (count + 1) _ (by omega) (by omega) (by omega)]
      have e1 : count + 1 + r = count + (r + 1) := by omega
      have e2 : 7 - (r + 1) + 1 = 7 - r := by omega
      rw [e1, List.range'_succ, e2, List.map_cons, List.filter_cons, he]
      split_ifs <;> simp

theorem catalogKeep_star (re : RegexMatch) (d D : DSKWrapper) (fd : FileDescriptor)
    (hre : ∀ name : List Char, '\n' ∉ name → re "(?i)^.*$".toList name = true)
    (h : d.Data = D.Data) : catalogKeep re "*".toList d fd = activeEntry D fd := by
  unfold catalogKeep
  have hp : catalogPattern "*".toList = "(?i)^.*$".toList := by decide
  rw [hp, hre _ (Name_no_newline fd d), listed_eq_activeEntry fd d D h]
  simp

theorem catalogWalk_chain (re : RegexMatch) (D : DSKWrapper)
    (hre : ∀ name : List Char, '\n' ∉ name → re "(?i)^.*$".toList name = true) :
    ∀ (m : Nat) (d : DSKWrapper) (ct cs : Int) (count : Nat) (files out : List FileDescriptor)
      (d1 : DSKWrapper),
      d.Data = D.Data → d.Format = D.Format → d.Layout = D.Layout → count % 7 = 0 →
      catalogWalk (7 * m) re "*".toList d (sectorBase D ct cs) ct cs count files
        = some (d1, out, none) →
      out = files ++ ((catalogSectors D m ct cs).flatMap (sectorEntries D)).filter (activeEntry D) := by
  intro m
  induction m with
  | zero =>
    intro d ct cs count files out d1 _ _ _ _ h
    simp only [Nat.mul_zero, catalogWalk, Option.some.injEq, Prod.mk.injEq] at h
    simp [catalogSectors, h.2.1.symm]
  | succ m ih =>
    intro d ct cs count files out d1 hD hF hL hc h
    have e7 : 7 * (m + 1) = 7 * m + 7 := by omega
    rw [e7, catalogWalk_sector re _ d _ ct cs 7 (7 * m) count files (by omega) (by omega)
      (by omega)] at h
    have hent : (List.map (fun i => catalogEntry (sectorBase D ct cs) ct cs i) (List.range' (7 - 7) 7))
        = sectorEntries D (ct, cs) := by
      unfold sectorEntries
      rw [List.range_eq_range']
      apply List.map_congr_left
      intro i hi
      have : i < 7 := by
        rw [List.mem_range'_1] at hi; omega
      unfold catalogEntry
      rw [Nat.mod_eq_of_lt this]
    have hfil : List.filter (catalogKeep re "*".toList d) (sectorEntries D (ct, cs))
        = List.filter (activeEntry D) (sectorEntries D (ct, cs)) :=
      List.filter_congr (fun fd _ => catalogKeep_star re d D fd hre hD)
    rw [hent, hfil] at h
    unfold catalogNext at h
    rw [hD] at h
    rw [catalogSectors]
    split_ifs at h with hz
    · simp only [Option.some.injEq, Prod.mk.injEq] at h
      have hz1 : D.Data.byte (sectorBase D ct cs + 1) = 0 := by exact_mod_cast hz
      rw [if_pos hz1, ← h.2.1]
      simp
    · have hz1 : ¬ D.Data.byte (sectorBase D ct cs + 1) = 0 := by
        intro e; apply hz; rw [e]; rfl
      rw [if_neg hz1]
      rcases hsk : d.Seek (D.Data.byte (sectorBase D ct cs + 1) : Nat)
        (D.Data.byte (sectorBase D ct cs + 2) : Nat) with ⟨d2, e⟩
      rw [hsk] at h
      cases e with
      | some e => simp at h
      | none =>
        simp only at h
        obtain ⟨hp, hf2, hl2, hd2⟩ := Seek_ok d D _ _ d2 hF hL hsk
        split at h
        · simp at h
        · rw [hp] at h
          have := ih d2 _ _ (count + 7) _ out d1 (hd2.trans hD) hf2 hl2 (by omega) h
          rw [this]
          simp [List.flatMap_cons, List.filter_append, List.append_assoc]

theorem catalogSectors_length (d : DSKWrapper) :
    ∀ (n : Nat) (ct cs : Int), ((catalogSectors d n ct cs).flatMap (sectorEntries d)).length ≤ 7 * n := by
  intro n
  induction n with
  | zero => intro ct cs; simp [catalogSectors]
  | succ n ih =>
    intro ct cs
    rw [catalogSectors, List.flatMap_cons, List.length_append]
    have h7 : (sectorEntries d (ct, cs)).length = 7 := by simp [sectorEntries]
    split_ifs
    · simp [h7]
    · have := ih (d.Data.byte (sectorBase d ct cs + 1) : Nat) (d.Data.byte (sectorBase d ct cs + 2) : Nat)
      omega

theorem AppleDOSGetVTOC_ok (d d1 : DSKWrapper) (v : VTOC)
    (h : d.AppleDOSGetVTOC = some (d1, .ok v)) :
    d1.Data = d.Data ∧ d1.Format = d.Format ∧ d1.Layout = d.Layout ∧
      v = VTOC.mk (d.Data.slice (sectorBase d 17 0) 256) 17 0 := by
  unfold DSKWrapper.AppleDOSGetVTOC at h
  rcases hsk : d.Seek 17 0 with ⟨d2, e⟩
  rw [hsk] at h
  cases e with
  | some e => simp at h
  | none =>
    simp only at h
    obtain ⟨hp, hf, hl, hd⟩ := Seek_ok d d 17 0 d2 rfl rfl hsk
    unfold DSKWrapper.Read at h
    split_ifs at h
    · simp only [Option.some.injEq, Prod.mk.injEq, Except.ok.injEq] at h
      obtain ⟨h1, h2⟩ := h
      subst h1
      exact ⟨hd, hf, hl, by rw [← h2, hp, hd]⟩

/-- The catalog walk when it returns: whenever `AppleDOSGetCatalog("*")` returns without
error (the seeks succeed and every sector read lies inside the image), the walk has
inspected the entries of at most 15 catalog sectors, seven entries of 35 bytes at offsets `0x0B + 35*i` in each, 105 entries at most, following
bytes 1 and 2 of each sector until the track is 0; it returns, in walk order, exactly those
of them whose first byte is neither `0xFF` nor `0x00` and whose byte 2 masked with `0x7F` is
a known type.  The regular expression compiled from `*` matches every name without a line
feed, and no entry name has one. -/
theorem AppleDOSGetCatalog_spec (d : DSKWrapper) (re : RegexMatch) (vtoc : VTOC)
    (files : List FileDescriptor)
    (hre : ∀ name : List Char, '\n' ∉ name → re "(?i)^.*$".toList name = true)
    (hv : d.AppleDOSGetVTOC.bind (fun r => r.2.toOption) = some vtoc)
    (h : (d.AppleDOSGetCatalog re "*".toList).map (fun r => r.2) = some (files, none)) :
    (inspectedEntries d vtoc).length ≤ 105 ∧
    files = (inspectedEntries d vtoc).filter (activeEntry d) := by
  refine ⟨catalogSectors_length d 15 _ _, ?_⟩
  rcases hgv : d.AppleDOSGetVTOC with _ | ⟨d1, _ | v⟩
  · rw [hgv] at hv; simp at hv
  · rw [hgv] at hv; simp [Except.toOption] at hv
  rw [hgv] at hv
  have hv1 : v = vtoc := by simpa [Except.toOption] using hv
  subst hv1
  obtain ⟨hd1, hf1, hl1, _⟩ := AppleDOSGetVTOC_ok d d1 v hgv
  unfold DSKWrapper.AppleDOSGetCatalog at h
  rw [hgv] at h
  simp only at h
  rcases hsk : d1.Seek v.GetCatalogStart.1 v.GetCatalogStart.2 with ⟨d2, e⟩
  rw [hsk] at h
  cases e with
  | some e => simp at h
  | none =>
    simp only at h
    obtain ⟨hp, hf2, hl2, hd2⟩ := Seek_ok d1 d _ _ d2 hf1 hl1 hsk
    split at h
    · simp at h
    · rw [hp] at h
      rcases hw : catalogWalk 105 re "*".toList d2 (sectorBase d v.GetCatalogStart.1
        v.GetCatalogStart.2) v.GetCatalogStart.1 v.GetCatalogStart.2 0 [] with _ | ⟨d3, out, err⟩
      · rw [hw] at h; simp at h
      · rw [hw] at h
        simp only [Option.map_some', Option.some.injEq, Prod.mk.injEq] at h
        obtain ⟨rfl, rfl⟩ := h
        have := catalogWalk_chain re d hre 15 d2 _ _ 0 [] out d3 (hd2.trans hd1) hf2 hl2 rfl hw
        rw [this]
        simp [inspectedEntries]

theorem AppleDOSGetCatalog_spec_witness :
    (inspectedEntries helloDOS helloVTOC).length ≤ 105 ∧
    [helloEntry] = (inspectedEntries helloDOS helloVTOC).filter (activeEntry helloDOS) :=
  AppleDOSGetCatalog_spec helloDOS plainRegex helloVTOC [helloEntry]
    (fun name hn => by
      unfold plainRegex
      rw [if_pos rfl]
      simpa using hn)
    (by decide!) (by decide!)

/-! ### disk/diskimageappledos.go: deleting a file -/

theorem agree_refl (d : DSKWrapper) : agree d d := ⟨rfl, rfl, rfl⟩

theorem agree_symm {a b : DSKWrapper} (h : agree a b) : agree b a :=
  ⟨h.1.symm, h.2.1.symm, h.2.2.symm⟩

theorem agree_trans {a b c : DSKWrapper} (h1 : agree a b) (h2 : agree b c) : agree a c :=
  ⟨h1.1.trans h2.1, h1.2.1.trans h2.2.1, h1.2.2.trans h2.2.2⟩

theorem seekAt_agree (d D : DSKWrapper) (t s : Int) (h : agree d D) :
    seekAt d t s = seekAt D t s := by
  obtain ⟨h1, h2, h3⟩ := h
  unfold seekAt DSKWrapper.SetSectorPointer
  simp only [h1, h2, h3]

theorem seekAt_props (d : DSKWrapper) (t s : Int) :
    agree d (seekAt d t s) ∧ (seekAt d t s).SectorPointer.toNat = sectorBase d t s :=
  ⟨⟨rfl, rfl, rfl⟩, rfl⟩

theorem Seek_of_ok (d : DSKWrapper) (t s : Int) (h : seekOK d t s) :
    d.Seek t s = (seekAt d t s, none) := by
  obtain ⟨ht, hs⟩ := h
  unfold DSKWrapper.Seek DSKWrapper.SetTrack
  rw [if_pos ht]
  simp only
  unfold DSKWrapper.SetSector
  have hs1 : s ≥ 0 ∧ s < (({ d with CurrentTrack := t } : DSKWrapper).SetSectorPointer).Format.USPT := hs
  rw [if_pos hs1]
  simp [seekAt, DSKWrapper.SetSectorPointer]

theorem Seek_of_not_ok (d : DSKWrapper) (t s : Int) (h : ¬ seekOK d t s) :
    ∃ d1 e, d.Seek t s = (d1, some e) ∧ agree d d1 ∧
      e = (if t ≥ 0 ∧ t < d.Format.TPD then "Invalid sector" else "Invalid track") := by
  unfold DSKWrapper.Seek DSKWrapper.SetTrack
  by_cases ht : t ≥ 0 ∧ t < d.Format.TPD
  · rw [if_pos ht]
    simp only
    unfold DSKWrapper.SetSector
    have hs : ¬ (s ≥ 0 ∧ s < (({ d with CurrentTrack := t } : DSKWrapper).SetSectorPointer).Format.USPT) :=
      fun hs => h ⟨ht, hs⟩
    rw [if_neg hs, if_pos ht]
    exact ⟨_, _, rfl, ⟨rfl, rfl, rfl⟩, rfl⟩
  · rw [if_neg ht, if_neg ht]
    exact ⟨_, _, rfl, ⟨rfl, rfl, rfl⟩, rfl⟩

theorem seekOK_agree (d D : DSKWrapper) (t s : Int) (h : agree d D) :
    seekOK d t s ↔ seekOK D t s := by
  unfold seekOK
  rw [h.2.1]

/-- The outcome of `Seek` on two wrappers with the same image: the same error, and on
success the same wrapper. -/
theorem Seek_same (d D : DSKWrapper) (t s : Int) (h : agree d D) :
    (d.Seek t s).2 = (D.Seek t s).2 ∧ agree (d.Seek t s).1 (D.Seek t s).1 ∧
      ((d.Seek t s).2 = none → (d.Seek t s).1 = (D.Seek t s).1 ∧
        (D.Seek t s).1 = seekAt D t s) := by
  by_cases hok : seekOK d t s
  · rw [Seek_of_ok d t s hok, Seek_of_ok D t s ((seekOK_agree d D t s h).1 hok)]
    refine ⟨rfl, ?_, fun _ => ⟨seekAt_agree d D t s h, rfl⟩⟩
    rw [seekAt_agree d D t s h]
    exact agree_refl _
  · obtain ⟨d1, e1, h1, a1, he1⟩ := Seek_of_not_ok d t s hok
    obtain ⟨d2, e2, h2, a2, he2⟩ := Seek_of_not_ok D t s
      (fun hh => hok ((seekOK_agree d D t s h).2 hh))
    rw [h1, h2]
    refine ⟨?_, agree_trans (agree_symm a1) (agree_trans h a2), ?_⟩
    · simp only [he1, he2, h.2.1]
    · intro hn; simp at hn

theorem Seek_keeps (d : DSKWrapper) (t s : Int) : agree d (d.Seek t s).1 := by
  by_cases hok : seekOK d t s
  · rw [Seek_of_ok d t s hok]
    exact (seekAt_props d t s).1
  · obtain ⟨d1, e1, h1, a1, _⟩ := Seek_of_not_ok d t s hok
    rw [h1]
    exact a1
theorem DataAt_agree (fd : FileDescriptor) (d D : DSKWrapper) (h : agree d D) (i : Nat) :
    fd.DataAt d i = fd.DataAt D i := by
  unfold FileDescriptor.DataAt
  rw [h.1]

theorem IsUnused_agree (fd : FileDescriptor) (d D : DSKWrapper) (h : agree d D) :
    fd.IsUnused d = fd.IsUnused D := by
  unfold FileDescriptor.IsUnused FileDescriptor.Type FileDescriptor.TotalSectors
  simp only [DataAt_agree fd d D h]

theorem NameUnadorned_agree (fd : FileDescriptor) (d D : DSKWrapper) (h : agree d D) :
    fd.NameUnadorned d = fd.NameUnadorned D := by
  unfold FileDescriptor.NameUnadorned FileDescriptor.rawName
  simp only [DataAt_agree fd d D h]

theorem GetTrackSectorListStart_agree (fd : FileDescriptor) (d D : DSKWrapper) (h : agree d D) :
    fd.GetTrackSectorListStart d = fd.GetTrackSectorListStart D := by
  unfold FileDescriptor.GetTrackSectorListStart
  simp only [DataAt_agree fd d D h]

theorem catalogEntry_props (base : Nat) (ct cs : Int) (count : Nat) :
    (catalogEntry base ct cs count).ptr = base + (catalogEntry base ct cs count).sectoroffset.toNat ∧
    (catalogEntry base ct cs count).trackid = ct ∧ (catalogEntry base ct cs count).sectorid = cs ∧
    0 ≤ (catalogEntry base ct cs count).sectoroffset ∧
    (catalogEntry base ct cs count).sectoroffset + 35 ≤ 256 := by
  unfold catalogEntry
  simp only [Int.toNat_ofNat, true_and]
  have : count % 7 < 7 := Nat.mod_lt _ (by decide)
  omega

/-- The catalog lookups on two wrappers with the same image give the same entry and error;
the wrapper afterwards still has that image, and an entry found lies where its track, sector
and offset say. -/
theorem entryWalk_rel (orUnused : Bool) (name : List Char) (D : DSKWrapper) :
    ∀ (n : Nat) (d : DSKWrapper) (ct cs : Int) (count : Nat), agree d D →
      (entryWalk n orUnused name d (sectorBase D ct cs) ct cs count).map (·.2) =
        (entryWalk n orUnused name D (sectorBase D ct cs) ct cs count).map (·.2) ∧
      (∀ r, entryWalk n orUnused name d (sectorBase D ct cs) ct cs count = some r →
        agree D r.1 ∧ (∀ fd, r.2.1 = some fd →
          fd.ptr = sectorBase D fd.trackid fd.sectorid + fd.sectoroffset.toNat ∧
          0 ≤ fd.sectoroffset ∧ fd.sectoroffset + 35 ≤ 256)) := by
  intro n
  induction n with
  | zero =>
    intro d ct cs count h
    simp only [entryWalk, Option.map_some', true_and]
    intro r hr
    simp only [Option.some.injEq] at hr
    subst hr
    exact ⟨agree_symm h, fun fd hfd => by simp at hfd⟩
  | succ n ih =>
    intro d ct cs count h
    have hp := catalogEntry_props (sectorBase D ct cs) ct cs count
    have hfound : ∀ (x : DSKWrapper) (e : Option String), agree x D →
        ∀ r, some (x, some (catalogEntry (sectorBase D ct cs) ct cs count), e) = some r →
        agree D r.1 ∧ (∀ fd, r.2.1 = some fd →
          fd.ptr = sectorBase D fd.trackid fd.sectorid + fd.sectoroffset.toNat ∧
          0 ≤ fd.sectoroffset ∧ fd.sectoroffset + 35 ≤ 256) := by
      intro x e hx r hr
      simp only [Option.some.injEq] at hr
      subst hr
      refine ⟨agree_symm hx, ?_⟩
      intro fd hfd
      simp only [Option.some.injEq] at hfd
      subst hfd
      rw [hp.2.1, hp.2.2.1]
      exact ⟨hp.1, hp.2.2.2⟩
    have hnone : ∀ (x : DSKWrapper) (e : Option String), agree x D →
        ∀ r, some (x, (none : Option FileDescriptor), e) = some r →
        agree D r.1 ∧ (∀ fd, r.2.1 = some fd →
          fd.ptr = sectorBase D fd.trackid fd.sectorid + fd.sectoroffset.toNat ∧
          0 ≤ fd.sectoroffset ∧ fd.sectoroffset + 35 ≤ 256) := by
      intro x e hx r hr
      simp only [Option.some.injEq] at hr
      subst hr
      exact ⟨agree_symm hx, fun fd hfd => by simp at hfd⟩
    rw [entryWalk, entryWalk]
    simp only [IsUnused_agree _ d D h, NameUnadorned_agree _ d D h, h.1]
    by_cases h1 : orUnused = true ∧
        (catalogEntry (sectorBase D ct cs) ct cs count).IsUnused D = true
    · rw [if_pos h1, if_pos h1]
      exact ⟨rfl, hfound d none h⟩
    rw [if_neg h1, if_neg h1]
    by_cases h2 : name ≠ [] ∧ toLowerASCII
        ((catalogEntry (sectorBase D ct cs) ct cs count).NameUnadorned D) = toLowerASCII name
    · rw [if_pos h2, if_pos h2]
      exact ⟨rfl, hfound d none h⟩
    rw [if_neg h2, if_neg h2]
    by_cases h3 : (count + 1) % 7 = 0
    swap
    · rw [if_neg h3, if_neg h3]
      exact ih d ct cs (count + 1) h
    rw [if_pos h3, if_pos h3]
    by_cases h4 : ((D.Data.byte (sectorBase D ct cs + 1) : Nat) : Int) = 0
    · rw [if_pos h4, if_pos h4]
      exact ⟨rfl, hnone d _ h⟩
    rw [if_neg h4, if_neg h4]
    obtain ⟨s1, s2, s3⟩ := Seek_same d D (D.Data.byte (sectorBase D ct cs + 1) : Nat)
      (D.Data.byte (sectorBase D ct cs + 2) : Nat) h
    have k1 := Seek_keeps d (D.Data.byte (sectorBase D ct cs + 1) : Nat)
      (D.Data.byte (sectorBase D ct cs + 2) : Nat)
    rcases hsd : d.Seek (D.Data.byte (sectorBase D ct cs + 1) : Nat)
      (D.Data.byte (sectorBase D ct cs + 2) : Nat) with ⟨d1, e1⟩
    rcases hsD : D.Seek (D.Data.byte (sectorBase D ct cs + 1) : Nat)
      (D.Data.byte (sectorBase D ct cs + 2) : Nat) with ⟨D1, e2⟩
    rw [hsd, hsD] at s1 s2 s3
    rw [hsd] at k1
    simp only at s1 s2 s3 k1
    subst s1
    cases e1 with
    | some e =>
      simp only [Option.map_some', true_and]
      exact hnone d1 _ (agree_trans (agree_symm k1) h)
    | none =>
      obtain ⟨s4, s5⟩ := s3 rfl
      subst s4
      simp only
      have hd1 : agree d1 D := by
        rw [s5]; exact agree_symm (seekAt_props D _ _).1
      have hbase : d1.SectorPointer.toNat = sectorBase D (D.Data.byte (sectorBase D ct cs + 1) : Nat)
          (D.Data.byte (sectorBase D ct cs + 2) : Nat) := by
        rw [s5]; rfl
      cases hrd : d1.Read with
      | none =>
        simp only [Option.map_none', true_and]
        intro r hr
        simp at hr
      | some blk =>
        simp only
        rw [hbase]
        refine ⟨by trivial, ?_⟩
        intro r hr
        exact (ih d1 _ _ (count + 1) hd1).2 r hr
theorem slice_length (c : DSKContainer) (p n : Nat) : (c.slice p n).length = n := by
  simp [DSKContainer.slice]

theorem slice_getD (c : DSKContainer) (p n i : Nat) (h : i < n) :
    (c.slice p n).getD i 0 = c.byte (p + i) := by
  unfold DSKContainer.slice
  rw [List.getD_eq_getElem?_getD, List.getElem?_map, List.getElem?_range h]
  rfl

theorem store_slice_self (c : DSKContainer) (p n : Nat) : c.store p (c.slice p n) = c := by
  unfold DSKContainer.store
  rw [slice_length]
  cases c with
  | mk size byte =>
    simp only [DSKContainer.mk.injEq, true_and]
    funext j
    split_ifs with h
    · rw [slice_getD _ _ _ _ (by omega)]
      show byte (p + (j - p)) = byte j
      congr 1
      omega
    · rfl

theorem Read_eq (d : DSKWrapper) (blk : List Nat) (h : d.Read = some blk) :
    blk = d.Data.slice d.SectorPointer.toNat 256 ∧
      0 ≤ d.SectorPointer ∧ d.SectorPointer + 256 ≤ (d.Data.size : Int) := by
  unfold DSKWrapper.Read at h
  split_ifs at h with hr
  simp only [Option.some.injEq] at h
  exact ⟨h.symm, hr⟩

theorem Write_256 (d : DSKWrapper) (data : List Nat) (hlen : data.length = 256)
    (hr : 0 ≤ d.SectorPointer ∧ d.SectorPointer + 256 ≤ (d.Data.size : Int)) :
    d.Write data = some { d with Data := d.Data.store d.SectorPointer.toNat data } := by
  unfold DSKWrapper.Write
  have ht : data.take 256 = data := by
    rw [← hlen]; exact List.take_length _
  simp only [ht]
  have hne : data ≠ [] := by
    intro e; rw [e] at hlen; simp at hlen
  rw [if_neg hne, hlen]
  rw [if_pos (by simpa using hr)]

theorem Write_keeps (d d1 : DSKWrapper) (data : List Nat) (h : d.Write data = some d1) :
    d1.Format = d.Format ∧ d1.Layout = d.Layout ∧ d1.SectorPointer = d.SectorPointer ∧
      d1.Data.size = d.Data.size := by
  unfold DSKWrapper.Write at h
  simp only at h
  split_ifs at h
  · simp only [Option.some.injEq] at h
    subst h
    exact ⟨rfl, rfl, rfl, rfl⟩
  · simp only [Option.some.injEq] at h
    subst h
    exact ⟨rfl, rfl, rfl, rfl⟩

/-- `FileDescriptor.Publish` of an entry that lies where its track, sector and offset say
copies the image onto itself: the bytes do not change. -/
theorem Publish_entry (fd : FileDescriptor) (d r : DSKWrapper) (e : Option String)
    (h : fd.Publish d = some (r, e))
    (hptr : fd.ptr = sectorBase d fd.trackid fd.sectorid + fd.sectoroffset.toNat) :
    agree d r := by
  unfold FileDescriptor.Publish at h
  have k := Seek_keeps d fd.trackid fd.sectorid
  have s3 := (Seek_same d d fd.trackid fd.sectorid (agree_refl d)).2.2
  rcases hsk : d.Seek fd.trackid fd.sectorid with ⟨d1, e1⟩
  rw [hsk] at h k s3
  simp only at k s3
  cases e1 with
  | some e1 =>
    simp only [Option.some.injEq, Prod.mk.injEq] at h
    rw [← h.1]; exact k
  | none =>
    simp only at h
    obtain ⟨_, hd1⟩ := s3 rfl
    have hp1 : d1.SectorPointer.toNat = sectorBase d fd.trackid fd.sectorid := by rw [hd1]; rfl
    split_ifs at h with hr ho
    have hself : d1.Data.store (d1.SectorPointer.toNat + fd.sectoroffset.toNat)
        (d1.Data.slice fd.ptr 35) = d1.Data := by
      rw [hp1, ← hptr]; exact store_slice_self _ _ _
    rw [hself] at h
    have hd1' : ({ d1 with Data := d1.Data } : DSKWrapper) = d1 := rfl
    rw [hd1'] at h
    cases hrd : d1.Read with
    | none => rw [hrd] at h; simp at h
    | some blk =>
      rw [hrd] at h
      simp only at h
      obtain ⟨hb, hrng⟩ := Read_eq d1 blk hrd
      rw [Write_256 d1 blk (by rw [hb]; exact slice_length _ _ _) hrng, hb,
        store_slice_self] at h
      simp only [Option.some.injEq, Prod.mk.injEq] at h
      rw [← h.1]
      exact k
theorem tsWalk_rel (fuel : Nat) (d D : DSKWrapper) (tl sl : Int) (tsmap : List Int)
    (pairs : List (Int × Int)) (h : agree d D) :
    (tsWalk fuel d tl sl tsmap pairs).map (·.2) = (tsWalk fuel D tl sl tsmap pairs).map (·.2) := by
  cases fuel with
  | zero => rfl
  | succ fuel =>
    rw [tsWalk, tsWalk]
    split_ifs with hc
    · obtain ⟨s1, _, s3⟩ := Seek_same d D tl sl h
      rcases hsd : d.Seek tl sl with ⟨d1, e1⟩
      rcases hsD : D.Seek tl sl with ⟨D1, e2⟩
      rw [hsd, hsD] at s1 s3
      simp only at s1 s3
      subst s1
      cases e1 with
      | some e => rfl
      | none =>
        obtain ⟨s4, _⟩ := s3 rfl
        subst s4
        rfl
    · rfl

theorem tsWalk_keeps :
    ∀ (fuel : Nat) (d : DSKWrapper) (tl sl : Int) (tsmap : List Int) (pairs : List (Int × Int))
      (r : DSKWrapper × List (Int × Int) × Option String),
      tsWalk fuel d tl sl tsmap pairs = some r → agree d r.1 := by
  intro fuel
  induction fuel with
  | zero => intro d tl sl tsmap pairs r h; simp [tsWalk] at h
  | succ fuel ih =>
    intro d tl sl tsmap pairs r h
    rw [tsWalk] at h
    split_ifs at h with hc
    · have k := Seek_keeps d tl sl
      rcases hsd : d.Seek tl sl with ⟨d1, e1⟩
      rw [hsd] at h k
      simp only at k
      cases e1 with
      | some e =>
        simp only [Option.some.injEq] at h
        subst h; exact k
      | none =>
        simp only at h
        split at h
        · simp at h
        · split at h
          · simp at h
          · split_ifs at h
            · simp only [Option.some.injEq] at h
              subst h; exact k
            · exact agree_trans k (ih _ _ _ _ _ _ h)
    · simp only [Option.some.injEq] at h
      subst h; exact agree_refl d

theorem tsListWalk_rel (fuel : Nat) (d D : DSKWrapper) (tl sl : Int) (tsmap : List Int)
    (tslist : List (Int × Int)) (h : agree d D) :
    (tsListWalk fuel d tl sl tsmap tslist).map (·.2) =
      (tsListWalk fuel D tl sl tsmap tslist).map (·.2) := by
  cases fuel with
  | zero => rfl
  | succ fuel =>
    rw [tsListWalk, tsListWalk]
    split_ifs with hc
    · obtain ⟨s1, _, s3⟩ := Seek_same d D tl sl h
      rcases hsd : d.Seek tl sl with ⟨d1, e1⟩
      rcases hsD : D.Seek tl sl with ⟨D1, e2⟩
      rw [hsd, hsD] at s1 s3
      simp only at s1 s3
      subst s1
      cases e1 with
      | some e => rfl
      | none =>
        obtain ⟨s4, _⟩ := s3 rfl
        subst s4
        rfl
    · rfl

theorem tsListWalk_keeps :
    ∀ (fuel : Nat) (d : DSKWrapper) (tl sl : Int) (tsmap : List Int) (tslist : List (Int × Int))
      (r : DSKWrapper × List (Int × Int) × Option String),
      tsListWalk fuel d tl sl tsmap tslist = some r → agree d r.1 := by
  intro fuel
  induction fuel with
  | zero => intro d tl sl tsmap tslist r h; simp [tsListWalk] at h
  | succ fuel ih =>
    intro d tl sl tsmap tslist r h
    rw [tsListWalk] at h
    split_ifs at h with hc
    · have k := Seek_keeps d tl sl
      rcases hsd : d.Seek tl sl with ⟨d1, e1⟩
      rw [hsd] at h k
      simp only at k
      cases e1 with
      | some e =>
        simp only [Option.some.injEq] at h
        subst h; exact k
      | none =>
        simp only at h
        split at h
        · simp at h
        · split_ifs at h
          · simp only [Option.some.injEq] at h
            subst h; exact k
          · exact agree_trans k (ih _ _ _ _ _ _ h)
    · simp only [Option.some.injEq] at h
      subst h; exact agree_refl d

theorem GetVTOC_rel (d D : DSKWrapper) (h : agree d D) :
    d.AppleDOSGetVTOC.map (·.2) = D.AppleDOSGetVTOC.map (·.2) ∧
    (∀ r, d.AppleDOSGetVTOC = some r → agree D r.1) := by
  unfold DSKWrapper.AppleDOSGetVTOC
  obtain ⟨s1, _, s3⟩ := Seek_same d D 17 0 h
  have k := Seek_keeps d 17 0
  rcases hsd : d.Seek 17 0 with ⟨d1, e1⟩
  rcases hsD : D.Seek 17 0 with ⟨D1, e2⟩
  rw [hsd, hsD] at s1 s3
  rw [hsd] at k
  simp only at s1 s3 k
  subst s1
  cases e1 with
  | some e =>
    refine ⟨rfl, ?_⟩
    intro r hr
    simp only [Option.some.injEq] at hr
    subst hr
    exact agree_trans (agree_symm h) k
  | none =>
    obtain ⟨s4, _⟩ := s3 rfl
    subst s4
    refine ⟨rfl, ?_⟩
    intro r hr
    simp only at hr
    split at hr
    · simp at hr
    · simp only [Option.some.injEq] at hr
      subst hr
      exact agree_trans (agree_symm h) k

theorem catalogLookup_rel (orUnused : Bool) (name : List Char) (d D : DSKWrapper)
    (h : agree d D) :
    (d.catalogLookup orUnused name).map (·.2) = (D.catalogLookup orUnused name).map (·.2) ∧
    (∀ r, d.catalogLookup orUnused name = some r → agree D r.1 ∧ (∀ fd, r.2.1 = some fd →
      fd.ptr = sectorBase D fd.trackid fd.sectorid + fd.sectoroffset.toNat ∧
      0 ≤ fd.sectoroffset ∧ fd.sectoroffset + 35 ≤ 256)) := by
  unfold DSKWrapper.catalogLookup
  obtain ⟨g1, g2⟩ := GetVTOC_rel d D h
  obtain ⟨_, g3⟩ := GetVTOC_rel D D (agree_refl D)
  rcases hgd : d.AppleDOSGetVTOC with _ | ⟨d1, v1⟩
  · rw [hgd] at g1
    rcases hgD : D.AppleDOSGetVTOC with _ | ⟨D1, v2⟩
    · exact ⟨rfl, fun r hr => by simp at hr⟩
    · rw [hgD] at g1; simp at g1
  · rw [hgd] at g1
    rcases hgD : D.AppleDOSGetVTOC with _ | ⟨D1, v2⟩
    · rw [hgD] at g1; simp at g1
    · rw [hgD] at g1
      simp only [Option.map_some', Option.some.injEq] at g1
      subst g1
      have a1 : agree d1 D := agree_symm (g2 _ hgd)
      have a2 : agree D1 D := agree_symm (g3 _ hgD)
      cases v1 with
      | error e =>
        refine ⟨rfl, ?_⟩
        intro r hr
        simp only [Option.some.injEq] at hr
        subst hr
        exact ⟨agree_symm a1, fun fd hfd => by simp at hfd⟩
      | ok vtoc =>
        simp only
        obtain ⟨s1, _, s3⟩ := Seek_same d1 D1 vtoc.GetCatalogStart.1 vtoc.GetCatalogStart.2
          (agree_trans a1 (agree_symm a2))
        obtain ⟨_, _, s3D⟩ := Seek_same d1 D vtoc.GetCatalogStart.1 vtoc.GetCatalogStart.2 a1
        have k := Seek_keeps d1 vtoc.GetCatalogStart.1 vtoc.GetCatalogStart.2
        rcases hsd : d1.Seek vtoc.GetCatalogStart.1 vtoc.GetCatalogStart.2 with ⟨d2, e1⟩
        rcases hsD : D1.Seek vtoc.GetCatalogStart.1 vtoc.GetCatalogStart.2 with ⟨D2, e2⟩
        rw [hsd, hsD] at s1 s3
        rw [hsd] at k s3D
        simp only at s1 s3 k s3D
        subst s1
        cases e1 with
        | some e =>
          refine ⟨rfl, ?_⟩
          intro r hr
          simp only [Option.some.injEq] at hr
          subst hr
          exact ⟨agree_trans (agree_symm a1) k, fun fd hfd => by simp at hfd⟩
        | none =>
          obtain ⟨s4, _⟩ := s3 rfl
          subst s4
          have hd2 : d2 = seekAt D vtoc.GetCatalogStart.1 vtoc.GetCatalogStart.2 := by
            rw [(s3D rfl).1, (s3D rfl).2]
          have hbase : d2.SectorPointer.toNat =
              sectorBase D vtoc.GetCatalogStart.1 vtoc.GetCatalogStart.2 := by
            rw [hd2]; rfl
          have a3 : agree d2 D := by
            rw [hd2]; exact agree_symm (seekAt_props D _ _).1
          simp only
          cases hrd : d2.Read with
          | none =>
            refine ⟨by trivial, ?_⟩
            intro r hr
            simp at hr
          | some blk =>
            simp only
            refine ⟨by trivial, ?_⟩
            intro r hr
            rw [hbase] at hr
            exact (entryWalk_rel orUnused name D 105 d2 _ _ 0 a3).2 r hr
/-- What `SetTSFree` does to every bit of the bitmap: the bit of the same byte and the same
position takes the new value, every other bit stays. -/
theorem SetTSFree_general (v v1 : VTOC) (hlen : v.Data.length = 256) (t s : Int) (b : Bool)
    (h : v.SetTSFree t s b = some v1) :
    v1.Data.length = 256 ∧ v1.t = v.t ∧ v1.s = v.s ∧
    (∀ t1 s1 : Int, v1.IsTSFree t1 s1 =
      if tsOffset t1 s1 = tsOffset t s ∧ (s1 % 8).toNat = (s % 8).toNat then some b
      else v.IsTSFree t1 s1) := by
  have hrange : 0 ≤ tsOffset t s ∧ tsOffset t s < 256 := by
    by_contra hc
    unfold VTOC.SetTSFree at h
    rw [if_neg hc] at h
    exact Option.noConfusion h
  have hv1 : v1 = VTOC.mk (v.Data.set (tsOffset t s).toNat
      (if b then v.b (tsOffset t s).toNat ||| tsMask s
        else v.b (tsOffset t s).toNat &&& (0xff ^^^ tsMask s))) v.t v.s := by
    unfold VTOC.SetTSFree at h
    rw [if_pos hrange] at h
    exact (Option.some.inj h).symm
  subst hv1
  have hi : (tsOffset t s).toNat < v.Data.length := by omega
  have hnew : ∀ j, j < 8 →
      (if b then v.b (tsOffset t s).toNat ||| 1 <<< (s % 8).toNat
        else v.b (tsOffset t s).toNat &&& (0xff ^^^ 1 <<< (s % 8).toNat)).testBit j =
      if j = (s % 8).toNat then b else (v.b (tsOffset t s).toNat).testBit j := by
    intro j hj
    cases b
    · simp only [Bool.false_eq_true, if_false, testBit_clear_bit _ _ _ hj]
      by_cases h : (s % 8).toNat = j
      · simp [h]
      · have h2 : ¬ j = (s % 8).toNat := fun e => h e.symm
        simp [h, h2]
    · simp only [if_true, testBit_set_bit]
      by_cases h : (s % 8).toNat = j
      · simp [h]
      · have h2 : ¬ j = (s % 8).toNat := fun e => h e.symm
        simp [h, h2]
  refine ⟨by simp [hlen], rfl, rfl, ?_⟩
  intro t1 s1
  unfold VTOC.IsTSFree
  by_cases hr : 0 ≤ tsOffset t1 s1 ∧ tsOffset t1 s1 < 256
  · rw [if_pos hr, if_pos hr, VTOC_b_set _ _ _ _ hi]
    by_cases ho : (tsOffset t1 s1).toNat = (tsOffset t s).toNat
    · have ho1 : tsOffset t1 s1 = tsOffset t s := by omega
      rw [if_pos ho]
      simp only [tsMask_eq]
      rw [and_shift_ne_zero, and_shift_ne_zero, hnew _ (tsBit_lt s1), ho]
      by_cases hb : (s1 % 8).toNat = (s % 8).toNat
      · rw [if_pos hb, if_pos ⟨ho1, hb⟩]
      · rw [if_neg hb, if_neg (fun hh => hb hh.2)]
    · rw [if_neg ho, if_neg (fun hh => ho (by rw [hh.1]))]
  · rw [if_neg hr, if_neg hr, if_neg (fun hh => hr (by rw [hh.1]; exact hrange))]

theorem tsBit_inj (t s t1 s1 : Int) (hs : 0 ≤ s ∧ s ≤ 15) (hs1 : 0 ≤ s1 ∧ s1 ≤ 15)
    (ho : tsOffset t1 s1 = tsOffset t s) (hb : (s1 % 8).toNat = (s % 8).toNat) :
    (t1, s1) = (t, s) := by
  unfold tsOffset at ho
  have e1 : s1 = s := by
    split_ifs at ho <;> omega
  have e2 : t1 = t := by
    split_ifs at ho <;> omega
  rw [e1, e2]

theorem freeAll_spec :
    ∀ (pairs : List (Int × Int)) (v v1 : VTOC), v.Data.length = 256 →
      freeAll v pairs = some v1 → (∀ p ∈ pairs, 0 ≤ p.2 ∧ p.2 ≤ 15) →
      v1.Data.length = 256 ∧ v1.t = v.t ∧ v1.s = v.s ∧
      (∀ p ∈ pairs, v1.IsTSFree p.1 p.2 = some true) ∧
      (∀ t s : Int, 0 ≤ s → s ≤ 15 → (t, s) ∉ pairs → v1.IsTSFree t s = v.IsTSFree t s) ∧
      (∀ t s : Int, v.IsTSFree t s = some true → v1.IsTSFree t s = some true) := by
  intro pairs
  induction pairs with
  | nil =>
    intro v v1 hlen h _
    simp only [freeAll, Option.some.injEq] at h
    subst h
    exact ⟨hlen, rfl, rfl, by simp, fun _ _ _ _ _ => rfl, fun _ _ hh => hh⟩
  | cons p rest ih =>
    intro v v1 hlen h hr
    rw [freeAll] at h
    split at h
    · simp at h
    rename_i v2 hset
    obtain ⟨g1, g2, g3, g4⟩ := SetTSFree_general v v2 hlen p.1 p.2 true hset
    obtain ⟨i1, i2, i3, i4, i5, i6⟩ := ih v2 v1 g1 h (fun q hq => hr q (List.mem_cons_of_mem _ hq))
    refine ⟨i1, i2.trans g2, i3.trans g3, ?_, ?_, ?_⟩
    · intro q hq
      rcases List.mem_cons.1 hq with hq | hq
      · subst hq
        apply i6
        rw [g4, if_pos ⟨rfl, rfl⟩]
      · exact i4 q hq
    · intro t s h0 h15 hn
      rw [List.mem_cons, not_or] at hn
      rw [i5 t s h0 h15 hn.2, g4]
      rw [if_neg]
      rintro ⟨ho, hb⟩
      exact hn.1 (tsBit_inj p.1 p.2 t s (hr p (List.mem_cons_self _ _)) ⟨h0, h15⟩ ho hb)
    · intro t s hf
      apply i6
      rw [g4]
      split_ifs
      · rfl
      · exact hf
theorem sectorBase_agree (d D : DSKWrapper) (h : agree d D) (t s : Int) :
    sectorBase d t s = sectorBase D t s := by
  unfold sectorBase DSKWrapper.SetSectorPointer
  simp only [h.2.1, h.2.2]

theorem GetVTOC_facts (d d1 : DSKWrapper) (v : VTOC)
    (h : d.AppleDOSGetVTOC = some (d1, .ok v)) :
    d1 = seekAt d 17 0 ∧ seekOK d 17 0 ∧
      v = VTOC.mk (d.Data.slice (sectorBase d 17 0) 256) 17 0 ∧
      0 ≤ (seekAt d 17 0).SectorPointer ∧
      (seekAt d 17 0).SectorPointer + 256 ≤ (d.Data.size : Int) := by
  unfold DSKWrapper.AppleDOSGetVTOC at h
  by_cases hok : seekOK d 17 0
  · rw [Seek_of_ok d 17 0 hok] at h
    simp only at h
    cases hrd : (seekAt d 17 0).Read with
    | none => rw [hrd] at h; simp at h
    | some blk =>
      rw [hrd] at h
      simp only [Option.some.injEq, Prod.mk.injEq, Except.ok.injEq] at h
      obtain ⟨hb, hr⟩ := Read_eq _ _ hrd
      refine ⟨h.1.symm, hok, ?_, hr⟩
      rw [← h.2, hb]
      rfl
  · obtain ⟨x, e, hx, _, _⟩ := Seek_of_not_ok d 17 0 hok
    rw [hx] at h
    simp at h

theorem GetVTOC_of_ok (d : DSKWrapper) (hok : seekOK d 17 0)
    (hr : 0 ≤ (seekAt d 17 0).SectorPointer ∧
      (seekAt d 17 0).SectorPointer + 256 ≤ (d.Data.size : Int)) :
    d.AppleDOSGetVTOC =
      some (seekAt d 17 0, .ok (VTOC.mk (d.Data.slice (sectorBase d 17 0) 256) 17 0)) := by
  unfold DSKWrapper.AppleDOSGetVTOC
  rw [Seek_of_ok d 17 0 hok]
  simp only
  have : (seekAt d 17 0).Read = some (d.Data.slice (sectorBase d 17 0) 256) := by
    unfold DSKWrapper.Read
    have hD : (seekAt d 17 0).Data = d.Data := rfl
    rw [hD, if_pos hr]
    rfl
  rw [this]

theorem sectorBase_fmt (d D : DSKWrapper) (hf : d.Format = D.Format) (hl : d.Layout = D.Layout)
    (t s : Int) : sectorBase d t s = sectorBase D t s ∧
      (seekAt d t s).SectorPointer = (seekAt D t s).SectorPointer := by
  unfold sectorBase seekAt DSKWrapper.SetSectorPointer
  simp only [hf, hl, and_self]

theorem slice_eq_of (c : DSKContainer) (p n : Nat) (l : List Nat) (hl : l.length = n)
    (h : ∀ i, i < n → c.byte (p + i) = l.getD i 0) : c.slice p n = l := by
  apply List.ext_getElem
  · rw [slice_length, hl]
  · intro i h1 h2
    rw [slice_length] at h1
    have := slice_getD c p n i h1
    rw [List.getD_eq_getElem _ _ (by rw [slice_length]; exact h1)] at this
    rw [this, h i h1, List.getD_eq_getElem _ _ h2]

theorem nameBytes_nil : nameBytes [] = List.replicate 30 0xa0 := by decide

theorem mem_of_map_eq {α : Type} (f : Option (DSKWrapper × α)) (g : Option (DSKWrapper × α))
    (v : α) (hfg : f.map (·.2) = g.map (·.2)) (hg : g.map (·.2) = some v) :
    ∃ x, f = some (x, v) := by
  rw [hg] at hfg
  cases f with
  | none => simp at hfg
  | some r =>
    simp only [Option.map_some', Option.some.injEq] at hfg
    exact ⟨r.1, by rw [← hfg]⟩

/-- C20, the claim as stated fails: in `vtocCatalogDOS` the catalog sector is the VTOC sector
itself and the name bytes of the active entry `ABCDEFGH` lie on the bitmap of track 0.  The
T/S list (track 18 sector 15) and the data sector (track 18 sector 14) are in range and
acyclic, and `AppleDOSDeleteFile` returns nil; clearing the name changes the bit of track 0
sector 11, which is not a sector of the file, from free to used. -/
theorem AppleDOSDeleteFile_changes_other_bit :
    (vtocCatalogDOS.AppleDOSNamedCatalogEntry "ABCDEFGH".toList).map (·.2) =
        some (some vtocCatalogEntry, none) ∧
      vtocCatalogEntry.IsUnused vtocCatalogDOS = false ∧
      (vtocCatalogDOS.AppleDOSGetTSListSectors vtocCatalogEntry).map (·.2) =
        some ([(18, 15)], none) ∧
      (vtocCatalogDOS.AppleDOSGetFileSectors vtocCatalogEntry).map (·.2) =
        some ([(18, 14)], none) ∧
      (vtocCatalogDOS.AppleDOSDeleteFile "ABCDEFGH".toList).map (·.2) = some none ∧
      (vtocCatalogDOS.AppleDOSGetVTOC.bind (fun r => r.2.toOption)).bind
        (fun v => v.IsTSFree 0 11) = some true ∧
      ((vtocCatalogDOS.AppleDOSDeleteFile "ABCDEFGH".toList).bind
        (fun r => r.1.AppleDOSGetVTOC.bind (fun r => r.2.toOption))).bind
        (fun v => v.IsTSFree 0 11) = some false := by
  refine ⟨?_, ?_, ?_, ?_, ?_, ?_, ?_⟩ <;> decide!

/-- C20 (amended): let the image hold an entry `fd` found under `name`, with T/S list sectors
`tsBlocks` and data sectors `dataBlocks` (both walks end without error, sector numbers in
`[0, 15]`), and let the 35 bytes of the entry lie outside the VTOC sector, track 17 sector 0.
When `AppleDOSDeleteFile name` returns nil, the VTOC then stored at track 17 sector 0 marks
every T/S list sector and every data sector of the file free, the bit of every other sector
is as before, the first byte of the entry is 0xFF and its 30 name bytes are 0xA0. -/
theorem AppleDOSDeleteFile_spec (d : DSKWrapper) (name : List Char) (vtoc : VTOC)
    (fd : FileDescriptor) (tsBlocks dataBlocks : List (Int × Int))
    (hv : d.AppleDOSGetVTOC.bind (fun r => r.2.toOption) = some vtoc)
    (hfd : (d.AppleDOSNamedCatalogEntry name).map (·.2) = some (some fd, none))
    (hts : (d.AppleDOSGetTSListSectors fd).map (·.2) = some (tsBlocks, none))
    (hdata : (d.AppleDOSGetFileSectors fd).map (·.2) = some (dataBlocks, none))
    (hrange : ∀ p ∈ tsBlocks ++ dataBlocks, 0 ≤ p.2 ∧ p.2 ≤ 15)
    (hdisj : fd.ptr + 35 ≤ sectorBase d 17 0 ∨ sectorBase d 17 0 + 256 ≤ fd.ptr)
    (h : (d.AppleDOSDeleteFile name).map (·.2) = some none) :
    ∃ d1 vtoc1, d.AppleDOSDeleteFile name = some (d1, none) ∧
      d1.AppleDOSGetVTOC.bind (fun r => r.2.toOption) = some vtoc1 ∧
      (∀ p ∈ tsBlocks ++ dataBlocks, vtoc1.IsTSFree p.1 p.2 = some true) ∧
      (∀ t s : Int, 0 ≤ s → s ≤ 15 → (t, s) ∉ tsBlocks ++ dataBlocks →
        vtoc1.IsTSFree t s = vtoc.IsTSFree t s) ∧
      d1.Data.byte fd.ptr = 0xFF ∧ (∀ i, i < 30 → d1.Data.byte (fd.ptr + 3 + i) = 0xA0) := by
  rcases hgv : d.AppleDOSGetVTOC with _ | ⟨d1, _ | v⟩
  · rw [hgv] at hv; simp at hv
  · rw [hgv] at hv; simp [Except.toOption] at hv
  rw [hgv] at hv
  have hv1 : v = vtoc := by simpa [Except.toOption] using hv
  subst hv1
  obtain ⟨hd1, hok, hvd, hr0, hr1⟩ := GetVTOC_facts d d1 v hgv
  have a1 : agree d1 d := by rw [hd1]; exact agree_symm (seekAt_props d 17 0).1
  -- the catalog entry
  obtain ⟨c1, c2⟩ := catalogLookup_rel false name d1 d a1
  obtain ⟨d2, hlook⟩ := mem_of_map_eq _ _ _ c1 hfd
  obtain ⟨a2, hpos⟩ := c2 _ hlook
  obtain ⟨hptr, hoff0, hoff1⟩ := hpos fd rfl
  -- the T/S list sectors and the data sectors
  have a2' : agree d2 d := agree_symm a2
  have hstart := GetTrackSectorListStart_agree fd d2 d a2'
  have t1 := tsListWalk_rel tsWalkFuel d2 d (fd.GetTrackSectorListStart d).1
    (fd.GetTrackSectorListStart d).2 [] [] a2'
  obtain ⟨d3, hd3⟩ := mem_of_map_eq _ _ _ t1 hts
  have a3 : agree d3 d := agree_trans (agree_symm (tsListWalk_keeps _ _ _ _ _ _ _ hd3)) a2'
  have t2 := tsWalk_rel tsWalkFuel d3 d (fd.GetTrackSectorListStart d).1
    (fd.GetTrackSectorListStart d).2 [] [] a3
  obtain ⟨d4, hd4⟩ := mem_of_map_eq _ _ _ t2 hdata
  have a4 : agree d4 d := agree_trans (agree_symm (tsWalk_keeps _ _ _ _ _ _ _ hd4)) a3
  have hun : fd.IsUnused d2 = false := by
    cases hu : fd.IsUnused d2 with
    | false => rfl
    | true =>
      exfalso
      unfold DSKWrapper.AppleDOSDeleteFile at h
      rw [hgv] at h
      simp only at h
      unfold DSKWrapper.AppleDOSNamedCatalogEntry at h
      rw [hlook] at h
      simp only at h
      rw [hu] at h
      simp at h
  have hts2 : d2.AppleDOSGetTSListSectors fd = some (d3, tsBlocks, none) := by
    unfold DSKWrapper.AppleDOSGetTSListSectors
    rw [hstart]; exact hd3
  have hdata3 : d3.AppleDOSGetFileSectors fd = some (d4, dataBlocks, none) := by
    unfold DSKWrapper.AppleDOSGetFileSectors
    rw [GetTrackSectorListStart_agree fd d3 d a3]; exact hd4
  unfold DSKWrapper.AppleDOSDeleteFile at h ⊢
  rw [hgv] at h ⊢
  simp only at h ⊢
  unfold DSKWrapper.AppleDOSNamedCatalogEntry at h ⊢
  rw [hlook] at h ⊢
  simp only at h ⊢
  rw [hun, hts2] at h ⊢
  simp only [Bool.false_eq_true, if_false] at h ⊢
  rw [hdata3] at h ⊢
  simp only at h ⊢
  cases hfree : freeAll v (dataBlocks ++ tsBlocks) with
  | none => rw [hfree] at h; simp at h
  | some v1 =>
    rw [hfree] at h
    simp only at h ⊢
    have hvlen : v.Data.length = 256 := by rw [hvd]; exact slice_length _ _ _
    have hvt : v.t = 17 ∧ v.s = 0 := by rw [hvd]; exact ⟨rfl, rfl⟩
    obtain ⟨f1, f2, f3, f4, f5, _⟩ := freeAll_spec (dataBlocks ++ tsBlocks) v v1 hvlen hfree
      (fun p hp => hrange p (by
        rcases List.mem_append.1 hp with hp | hp
        · exact List.mem_append.2 (Or.inr hp)
        · exact List.mem_append.2 (Or.inl hp)))
    -- the VTOC goes back to track 17, sector 0
    have hok4 : seekOK d4 17 0 := (seekOK_agree d4 d 17 0 a4).2 hok
    have hs4 : seekAt d4 17 0 = seekAt d 17 0 := seekAt_agree d4 d 17 0 a4
    have hpub : v1.Publish d4 = some (({ seekAt d 17 0 with
        Data := d.Data.store (sectorBase d 17 0) v1.Data } : DSKWrapper), none) := by
      unfold VTOC.Publish
      rw [f2, f3, hvt.1, hvt.2, Seek_of_ok d4 17 0 hok4, hs4]
      simp only
      rw [Write_256 (seekAt d 17 0) v1.Data f1 ⟨hr0, hr1⟩]
      rfl
    rw [hpub] at h ⊢
    simp only at h ⊢
    -- the entry is marked deleted and its name cleared
    generalize hd6 : fd.SetName (fd.put ({ seekAt d 17 0 with
        Data := d.Data.store (sectorBase d 17 0) v1.Data } : DSKWrapper) 0 255) [] = d6 at h ⊢
    have e6 : d6.Data = ((d.Data.store (sectorBase d 17 0) v1.Data).store (fd.ptr + 0)
        [255]).store (fd.ptr + 3) (nameBytes []) := by rw [← hd6]; rfl
    have fmt6 : d6.Format = d.Format ∧ d6.Layout = d.Layout := by rw [← hd6]; exact ⟨rfl, rfl⟩
    rcases hp : fd.Publish d6 with _ | ⟨d7, e⟩
    · rw [hp] at h; simp at h
    rw [hp] at h
    simp only [Option.map_some', Option.some.injEq] at h
    subst h
    have a7 : agree d6 d7 := Publish_entry fd d6 d7 none hp
      (by rw [(sectorBase_fmt d6 d fmt6.1 fmt6.2 _ _).1]; exact hptr)
    have fmt7 : d7.Format = d.Format ∧ d7.Layout = d.Layout :=
      ⟨a7.2.1.symm.trans fmt6.1, a7.2.2.symm.trans fmt6.2⟩
    have e7 : d7.Data = ((d.Data.store (sectorBase d 17 0) v1.Data).store (fd.ptr + 0)
        [255]).store (fd.ptr + 3) (nameBytes []) := a7.1.symm.trans e6
    have hb7 := sectorBase_fmt d7 d fmt7.1 fmt7.2 17 0
    have hok7 : seekOK d7 17 0 := by
      unfold seekOK at hok ⊢
      rw [fmt7.1]; exact hok
    have hsz7 : d7.Data.size = d.Data.size := by rw [e7]; rfl
    have hbase : (seekAt d 17 0).SectorPointer.toNat = sectorBase d 17 0 := rfl
    have hgv7 := GetVTOC_of_ok d7 hok7 (by rw [hb7.2, hsz7]; exact ⟨hr0, hr1⟩)
    have hsl : d7.Data.slice (sectorBase d7 17 0) 256 = v1.Data := by
      apply slice_eq_of _ _ _ _ f1
      intro i hi
      rw [hb7.1, e7, nameBytes_nil]
      unfold DSKContainer.store
      simp only [List.length_replicate, List.length_singleton]
      rw [if_neg (by omega), if_neg (by omega), if_pos (by omega)]
      congr 1
      omega
    refine ⟨d7, v1, rfl, ?_, ?_, ?_, ?_, ?_⟩
    · rw [hgv7, hsl]
      have : v1 = VTOC.mk v1.Data 17 0 := by
        cases v1 with
        | mk D t s =>
          simp only at f2 f3
          rw [f2, f3, hvt.1, hvt.2]
      rw [← this]
      rfl
    · intro p hp
      apply f4
      rcases List.mem_append.1 hp with hp | hp
      · exact List.mem_append.2 (Or.inr hp)
      · exact List.mem_append.2 (Or.inl hp)
    · intro t s h0 h15 hn
      apply f5 t s h0 h15
      intro hm
      apply hn
      rcases List.mem_append.1 hm with hp | hp
      · exact List.mem_append.2 (Or.inr hp)
      · exact List.mem_append.2 (Or.inl hp)
    · rw [e7, nameBytes_nil]
      unfold DSKContainer.store
      simp only [List.length_replicate, List.length_singleton]
      rw [if_neg (by omega), if_pos (by omega)]
      simp
    · intro i hi
      rw [e7, nameBytes_nil]
      unfold DSKContainer.store
      simp only [List.length_replicate, List.length_singleton]
      rw [if_pos (by omega)]
      rw [List.getD_eq_getElem _ _ (by rw [List.length_replicate]; omega)]
      exact List.getElem_replicate _ _

theorem AppleDOSDeleteFile_spec_witness :
    ∃ d1 vtoc1, helloDOS.AppleDOSDeleteFile "HELLO".toList = some (d1, none) ∧
      d1.AppleDOSGetVTOC.bind (fun r => r.2.toOption) = some vtoc1 ∧
      (∀ p ∈ [((18 : Int), (15 : Int))] ++ [(18, 14)], vtoc1.IsTSFree p.1 p.2 = some true) ∧
      (∀ t s : Int, 0 ≤ s → s ≤ 15 → (t, s) ∉ [((18 : Int), (15 : Int))] ++ [(18, 14)] →
        vtoc1.IsTSFree t s = helloVTOC.IsTSFree t s) ∧
      d1.Data.byte helloEntry.ptr = 0xFF ∧
      (∀ i, i < 30 → d1.Data.byte (helloEntry.ptr + 3 + i) = 0xA0) :=
  AppleDOSDeleteFile_spec helloDOS "HELLO".toList helloVTOC helloEntry [(18, 15)] [(18, 14)]
    (by decide!) (by decide!) (by decide!) (by decide!) (by decide) (by decide!) (by decide!)

/-! ### disk/diskimage.go: the sector pointer after a seek -/

/-- C31, the failing inputs.  On the RDOS 3.2 image `fullRDOSImage` (116480 bytes, 35 tracks
of 13 sectors, layout `SectorOrderDOS33Alt` as `Identify` sets it) `Seek 34 2` succeeds, the
mapper sends sector 2 to physical sector 14 and the pointer is 116736, so the 256-byte window
ends past the image and `Read` panics.  On an 800 KB ProDOS image in ProDOS sector order
`Seek 0 16` succeeds, the 16-entry mapper answers -1 and the pointer is -256. -/
theorem Seek_pointer_outside_image :
    (fullRDOSImage.Seek 34 2).2 = none ∧
      (fullRDOSImage.Seek 34 2).1.SectorPointer = 116736 ∧
      fullRDOSImage.Format.TPD * fullRDOSImage.Format.SPT * 256 = 116480 ∧
      fullRDOSImage.Data.size = 116480 ∧
      (fullRDOSImage.Seek 34 2).1.Read = none ∧
      (blank800.Seek 0 16).2 = none ∧
      (blank800.Seek 0 16).1.SectorPointer = -256 ∧
      (blank800.Seek 0 16).1.Read = none := by
  refine ⟨?_, ?_, ?_, ?_, ?_, ?_, ?_, ?_⟩ <;> decide

/-! ### disk/diskimage2mg.go: the payload slice -/

/-- C32, evaluated at the failing input: `overrun2MG` has an accepted length (143424 bytes)
and starts with `2IMG`; its data start is 128 and its length field reads as 143360, which is
not smaller than the tail of 143296 bytes, so the size 143360 passes the size test and the
slice `Data[128 : 143488]` ends 64 bytes past the image: `Is2MG` panics. -/
theorem Is2MG_slice_past_image :
    overrun2MG.Data.size = STD_DISK_BYTES + 64 ∧
      overrun2MG.header2MG.GetID = MAGIC_2MG ∧
      overrun2MG.header2MG.GetDiskDataStart = 128 ∧
      overrun2MG.header2MG.GetDiskDataLength = 143360 ∧
      overrun2MG.payloadSize2MG = STD_DISK_BYTES ∧
      ¬ (overrun2MG.header2MG.GetDiskDataStart + overrun2MG.payloadSize2MG ≤
        (overrun2MG.Data.size : Int)) ∧
      overrun2MG.Is2MG.isNone = true := by
  refine ⟨?_, ?_, ?_, ?_, ?_, ?_, ?_⟩ <;> decide

/-! ### disk/atokens.go: the detokenizers with their index checks -/

theorem Read8_ok (data : List Nat) (s l : Int) (hs : 0 ≤ s) (hsl : s + l = (data.length : Int))
    (hl : 0 < l) : ∃ t, Read8 s l data = some (t, s + 1, l - 1) := by
  unfold Read8
  rw [if_pos ⟨hs, by omega⟩]
  exact ⟨_, rfl⟩

theorem Read16_ok (data : List Nat) (s l : Int) (hs : 0 ≤ s)
    (hsl : s + l = (data.length : Int)) (hl : 2 ≤ l) :
    ∃ v, Read16 s l data = some (v, s + 2, l - 2) := by
  unfold Read16
  rw [if_pos ⟨hs, by omega⟩]
  exact ⟨_, rfl⟩

theorem detoksBodyLoop_total (data : List Nat) :
    ∀ (fuel : Nat) (t : Nat) (s l : Int) (q r : Bool) (out : List Nat),
      0 ≤ s → s + l = (data.length : Int) → 0 ≤ l → l.toNat < fuel →
      ∃ s1 l1 out1, detoksBodyLoop fuel data t s l q r out = some (s1, l1, out1) ∧
        0 ≤ s1 ∧ s1 + l1 = (data.length : Int) ∧ 0 ≤ l1 ∧ l1 ≤ l := by
  intro fuel
  induction fuel with
  | zero => intro t s l q r out _ _ _ hf; omega
  | succ fuel ih =>
    intro t s l q r out hs hsl hl hf
    rw [detoksBodyLoop]
    by_cases hc : t ≠ 0 ∧ l > 0
    · rw [if_pos hc]
      obtain ⟨t1, ht1⟩ := Read8_ok data s l hs hsl hc.2
      simp only [ht1]
      obtain ⟨s1, l1, out1, h1, h2, h3, h4, h5⟩ :=
        ih t1 (s + 1) (l - 1) (detokStep t q r out).2.1 (detokStep t q r out).2.2
          (detokStep t q r out).1 (by omega) (by omega) (by omega) (by omega)
      exact ⟨s1, l1, out1, h1, h2, h3, h4, by omega⟩
    · rw [if_neg hc]
      exact ⟨s, l, out, rfl, hs, hsl, hl, le_refl _⟩

theorem detokEnding_crlf (out : List Nat) : detokEnding (out ++ [13, 10]) :=
  Or.inr (Or.inl (List.suffix_append _ _))

theorem detoksLineLoop_total (data : List Nat) :
    ∀ (fuel : Nat) (s l : Int) (out : List Nat),
      0 ≤ s → s + l = (data.length : Int) → 0 ≤ l → l.toNat < fuel → detokEnding out →
      ∃ out1, detoksLineLoop fuel data s l out = some out1 ∧ detokEnding out1 := by
  intro fuel
  induction fuel with
  | zero => intro s l out _ _ _ hf; omega
  | succ fuel ih =>
    intro s l out hs hsl hl hf he
    rw [detoksLineLoop]
    by_cases h0 : ¬ l > 0
    · rw [if_pos h0]; exact ⟨out, rfl, he⟩
    rw [if_neg h0]
    by_cases h1 : l < 2
    · rw [if_pos h1]; exact ⟨out, rfl, he⟩
    rw [if_neg h1]
    obtain ⟨nextAddr, hn⟩ := Read16_ok data s l hs hsl (by omega)
    simp only [hn]
    by_cases h2 : nextAddr = 0
    · rw [if_pos h2]; exact ⟨out, rfl, he⟩
    rw [if_neg h2]
    by_cases h3 : l - 2 < 2
    · rw [if_pos h3]; exact ⟨out, rfl, he⟩
    rw [if_neg h3]
    obtain ⟨lineNum, hln⟩ := Read16_ok data (s + 2) (l - 2) (by omega) (by omega) (by omega)
    simp only [hln]
    by_cases h4 : l - 2 - 2 = 0
    · rw [if_pos h4]
      exact ⟨_, rfl, Or.inr (Or.inr ⟨lineNum, List.suffix_append _ _⟩)⟩
    rw [if_neg h4]
    obtain ⟨t, ht⟩ := Read8_ok data (s + 2 + 2) (l - 2 - 2) (by omega) (by omega) (by omega)
    simp only [ht]
    obtain ⟨s4, l4, out2, hb, b1, b2, b3, b4⟩ :=
      detoksBodyLoop_total data ((l - 2 - 2 - 1).toNat + 1) t (s + 2 + 2 + 1) (l - 2 - 2 - 1)
        false false
        (out ++ stringBytes (" ".toList ++ Nat.toDigits 10 lineNum ++ " ".toList))
        (by omega) (by omega) (by omega) (by omega)
    simp only [hb]
    by_cases h5 : l4 = 0
    · rw [if_pos h5]; exact ⟨_, rfl, detokEnding_crlf _⟩
    rw [if_neg h5]
    exact ih s4 l4 (out2 ++ [13, 10]) b1 b2 b3 (by omega) (detokEnding_crlf _)

theorem detokBody_cons (t t1 : Nat) (rest1 : List Nat) (q r : Bool) (out : List Nat)
    (ht : t ≠ 0) :
    detokBody t (t1 :: rest1) q r out =
      detokBody t1 rest1 (detokStep t q r out).2.1 (detokStep t q r out).2.2
        (detokStep t q r out).1 := by
  rw [detokBody]
  unfold detokStep
  rw [if_neg ht]
  split_ifs <;> rfl

theorem drop_cons_getD (data : List Nat) (s : Int) (hs : 0 ≤ s)
    (hlt : s < (data.length : Int)) :
    data.drop s.toNat = data.getD s.toNat 0 :: data.drop (s + 1).toNat := by
  have h1 : s.toNat < data.length := by omega
  have h2 : (s + 1).toNat = s.toNat + 1 := by omega
  rw [h2, List.getD_eq_getElem _ _ h1]
  exact List.drop_eq_getElem_cons h1

theorem Read8_eq (data : List Nat) (s l : Int) (hs : 0 ≤ s)
    (hlt : s < (data.length : Int)) :
    Read8 s l data = some (data.getD s.toNat 0, s + 1, l - 1) := by
  unfold Read8
  rw [if_pos ⟨hs, hlt⟩]

theorem Read16_eq (data : List Nat) (s l : Int) (hs : 0 ≤ s)
    (hlt : s + 1 < (data.length : Int)) :
    Read16 s l data =
      some (data.getD s.toNat 0 + 256 * data.getD (s.toNat + 1) 0, s + 2, l - 2) := by
  unfold Read16
  rw [if_pos ⟨hs, hlt⟩]

theorem detoksBodyLoop_eq (data : List Nat) :
    ∀ (fuel : Nat) (t : Nat) (s l : Int) (q r : Bool) (out : List Nat),
      0 ≤ s → s + l = (data.length : Int) → 0 ≤ l → l.toNat < fuel →
      ∃ s1 l1, detoksBodyLoop fuel data t s l q r out =
          some (s1, l1, (detokBody t (data.drop s.toNat) q r out).1) ∧
        (detokBody t (data.drop s.toNat) q r out).2 = data.drop s1.toNat ∧
        0 ≤ s1 ∧ s1 + l1 = (data.length : Int) ∧ 0 ≤ l1 ∧ l1 ≤ l := by
  intro fuel
  induction fuel with
  | zero => intro t s l q r out _ _ _ hf; omega
  | succ fuel ih =>
    intro t s l q r out hs hsl hl hf
    rw [detoksBodyLoop]
    by_cases hl0 : l = 0
    · have hd : data.drop s.toNat = [] := by
        apply List.drop_eq_nil_of_le; omega
      rw [if_neg (by omega), hd]
      have e : detokBody t [] q r out = (out, []) := by rw [detokBody]
      rw [e]
      exact ⟨s, l, rfl, hd.symm, hs, hsl, hl, le_refl _⟩
    · have hd := drop_cons_getD data s hs (by omega)
      by_cases ht : t = 0
      · rw [if_neg (by simp [ht]), hd]
        have e : detokBody t (data.getD s.toNat 0 :: data.drop (s + 1).toNat) q r out =
            (out, data.getD s.toNat 0 :: data.drop (s + 1).toNat) := by
          rw [detokBody, if_pos ht]
        rw [e]
        exact ⟨s, l, rfl, hd.symm, hs, hsl, hl, le_refl _⟩
      · rw [if_pos ⟨ht, by omega⟩, Read8_eq data s l hs (by omega), hd,
          detokBody_cons _ _ _ _ _ _ ht]
        simp only
        obtain ⟨s1, l1, h1, h2, h3, h4, h5, h6⟩ :=
          ih (data.getD s.toNat 0) (s + 1) (l - 1) (detokStep t q r out).2.1
            (detokStep t q r out).2.2 (detokStep t q r out).1 (by omega) (by omega) (by omega)
            (by omega)
        exact ⟨s1, l1, h1, h2, h3, h4, h5, by omega⟩

theorem detokLines_short (f : Nat) (rest out : List Nat) (h : rest.length < 2) :
    detokLines f rest out = out := by
  cases f with
  | zero => rfl
  | succ f =>
    match rest, h with
    | [], _ => rfl
    | [_], _ => rfl

theorem detokLines_head (f : Nat) (a0 a1 : Nat) (rest2 out : List Nat)
    (h : rest2.length < 2) : detokLines (f + 1) (a0 :: a1 :: rest2) out = out := by
  match rest2, h with
  | [], _ => simp [detokLines]
  | [_], _ => simp [detokLines]

theorem detokLines_line (f : Nat) (a0 a1 n0 n1 : Nat) (rest4 out : List Nat) :
    detokLines (f + 1) (a0 :: a1 :: n0 :: n1 :: rest4) out =
      if a0 + 256 * a1 = 0 then out
      else
        match rest4 with
        | [] => out ++ stringBytes (" ".toList ++ Nat.toDigits 10 (n0 + 256 * n1) ++ " ".toList)
        | t :: rest5 =>
          if (detokBody t rest5 false false (out ++ stringBytes (" ".toList ++
              Nat.toDigits 10 (n0 + 256 * n1) ++ " ".toList))).2 = [] then
            (detokBody t rest5 false false (out ++ stringBytes (" ".toList ++
              Nat.toDigits 10 (n0 + 256 * n1) ++ " ".toList))).1 ++ [13, 10]
          else
            detokLines f (detokBody t rest5 false false (out ++ stringBytes (" ".toList ++
              Nat.toDigits 10 (n0 + 256 * n1) ++ " ".toList))).2
              ((detokBody t rest5 false false (out ++ stringBytes (" ".toList ++
                Nat.toDigits 10 (n0 + 256 * n1) ++ " ".toList))).1 ++ [13, 10]) := by
  cases rest4 with
  | nil => rfl
  | cons t rest5 => rfl

theorem detoksLineLoop_eq (data : List Nat) :
    ∀ (fuel : Nat) (s l : Int) (out : List Nat) (fuel0 : Nat),
      0 ≤ s → s + l = (data.length : Int) → 0 ≤ l → l.toNat < fuel → l.toNat ≤ fuel0 →
      detoksLineLoop fuel data s l out = some (detokLines fuel0 (data.drop s.toNat) out) := by
  intro fuel
  induction fuel with
  | zero => intro s l out fuel0 _ _ _ hf; omega
  | succ fuel ih =>
    intro s l out fuel0 hs hsl hl hf hf0
    have hlen : (data.drop s.toNat).length = l.toNat := by
      rw [List.length_drop]; omega
    rw [detoksLineLoop]
    by_cases h0 : ¬ l > 0
    · rw [if_pos h0, detokLines_short _ _ _ (by omega)]
    rw [if_neg h0]
    by_cases h1 : l < 2
    · rw [if_pos h1, detokLines_short _ _ _ (by omega)]
    rw [if_neg h1]
    obtain ⟨f0, rfl⟩ : ∃ f0, fuel0 = f0 + 1 := ⟨fuel0 - 1, by omega⟩
    have k0 := drop_cons_getD data s hs (by omega)
    have k1 := drop_cons_getD data (s + 1) (by omega) (by omega)
    have e1 : (s + 1).toNat = s.toNat + 1 := by omega
    have e11 : s + 1 + 1 = s + 2 := by ring
    rw [e11] at k1
    rw [Read16_eq data s l hs (by omega), ← e1, k0, k1]
    simp only
    by_cases h3 : l - 2 < 2
    · have hl2 : (data.drop (s + 2).toNat).length < 2 := by
        rw [List.length_drop]; omega
      rw [detokLines_head _ _ _ _ _ hl2]
      split_ifs <;> rfl
    have k2 := drop_cons_getD data (s + 2) (by omega) (by omega)
    have k3 := drop_cons_getD data (s + 2 + 1) (by omega) (by omega)
    have e3 : (s + 2 + 1).toNat = (s + 2).toNat + 1 := by omega
    have e31 : s + 2 + 1 + 1 = s + 2 + 2 := by ring
    rw [e31] at k3
    rw [k2, k3, detokLines_line]
    by_cases h2 : data.getD s.toNat 0 + 256 * data.getD (s + 1).toNat 0 = 0
    · rw [if_pos h2, if_pos h2]
    rw [if_neg h2, if_neg h2, if_neg h3, Read16_eq data (s + 2) (l - 2) (by omega) (by omega),
      ← e3]
    simp only
    by_cases h4 : l - 2 - 2 = 0
    · have hd4 : data.drop (s + 2 + 2).toNat = [] := by
        apply List.drop_eq_nil_of_le; omega
      rw [if_pos h4, hd4]
    have k4 := drop_cons_getD data (s + 2 + 2) (by omega) (by omega)
    rw [if_neg h4, k4, Read8_eq data (s + 2 + 2) (l - 2 - 2) (by omega) (by omega)]
    simp only
    obtain ⟨s4, l4, hb, hrest, b1, b2, b3, b4⟩ :=
      detoksBodyLoop_eq data ((l - 2 - 2 - 1).toNat + 1) (data.getD (s + 2 + 2).toNat 0)
        (s + 2 + 2 + 1) (l - 2 - 2 - 1) false false
        (out ++ stringBytes (" ".toList ++
          Nat.toDigits 10 (data.getD (s + 2).toNat 0 + 256 * data.getD (s + 2 + 1).toNat 0) ++
          " ".toList))
        (by omega) (by omega) (by omega) (by omega)
    rw [hb, hrest]
    simp only
    by_cases h5 : l4 = 0
    · have hd5 : data.drop s4.toNat = [] := by
        apply List.drop_eq_nil_of_le; omega
      rw [if_pos h5, hd5, if_pos rfl]
    · have hd5 := drop_cons_getD data s4 b1 (by omega)
      rw [if_neg h5, if_neg (by rw [hd5]; exact List.cons_ne_nil _ _)]
      exact ih s4 l4 _ f0 b1 b2 b3 (by omega) (by omega)

/-- The model of `ApplesoftDetoks` with checked indices returns, for every byte string, the
text of the model on lists. -/
theorem ApplesoftDetoksChecked_eq (data : List Nat) :
    ApplesoftDetoksChecked data = some (ApplesoftDetoks data) := by
  unfold ApplesoftDetoksChecked ApplesoftDetoks
  by_cases h : data.length < 2
  · rw [if_pos h, if_pos h]
  · rw [if_neg h, if_neg h]
    have := detoksLineLoop_eq data (data.length + 1) 0 data.length [] data.length (le_refl _)
      (by omega) (by omega) (by omega) (by omega)
    rw [this]
    rfl

/-- C33, the claim as stated fails.  A program that stops right after a line number,
`01 01 0A 00`, gives the text ` 10 `, which is not empty and does not end with CR LF; and the
last byte of the data is never looked at, so the `FF` that ends `01 01 0A 00 FF` gives no
` ERROR `. -/
theorem ApplesoftDetoks_no_line_end :
    ApplesoftDetoksChecked [1, 1, 10, 0] = some (stringBytes " 10 ".toList) ∧
      ApplesoftDetoks [1, 1, 10, 0] = stringBytes " 10 ".toList ∧
      ApplesoftDetoksChecked [1, 1, 10, 0, 0xFF] = some (stringBytes " 10 ".toList ++ [13, 10]) ∧
      ApplesoftDetoks [1, 1, 10, 0, 0xFF] = stringBytes " 10 ".toList ++ [13, 10] := by
  refine ⟨?_, ?_, ?_, ?_⟩ <;> decide

/-- C33 (amended): for every byte string `ApplesoftDetoks` returns: no read goes past the end
of the data and the loops end within `len(data) + 1` rounds, with the text that the model on
lists computes.  The output is empty, or ends with CR LF, or ends with the line number ` n `
after which the data stops.  Every byte from `0xEB` to `0xFF` that the body loop handles
appends ` ERROR ` and leaves the quote and REM flags as they are. -/
theorem ApplesoftDetoksChecked_total (data : List Nat) :
    ApplesoftDetoksChecked data = some (ApplesoftDetoks data) ∧
    detokEnding (ApplesoftDetoks data) ∧
    (∀ (t : Nat) (q r : Bool) (o : List Nat), 0xEB ≤ t → t < 256 →
      detokStep t q r o = (o ++ stringBytes " ERROR ".toList, q, r)) := by
  refine ⟨ApplesoftDetoksChecked_eq data, ?_, ?_⟩
  · have hex : ∃ out, ApplesoftDetoksChecked data = some out ∧ detokEnding out := by
      unfold ApplesoftDetoksChecked
      by_cases h : data.length < 2
      · rw [if_pos h]
        exact ⟨_, rfl, Or.inr (Or.inl (List.suffix_refl _))⟩
      · rw [if_neg h]
        exact detoksLineLoop_total data (data.length + 1) 0 data.length [] (le_refl _)
          (by omega) (by omega) (by omega) (Or.inl rfl)
    obtain ⟨out, h1, h2⟩ := hex
    rw [ApplesoftDetoksChecked_eq data] at h1
    rw [Option.some.inj h1]
    exact h2
  · intro t q r o h1 h2
    have k1 : t &&& 0x80 ≠ 0 := by interval_cases t <;> decide
    have k2 : applesoftToken t = none := by interval_cases t <;> decide
    have k3 : (t == 0xb2) = false := by interval_cases t <;> decide
    unfold detokStep
    rw [if_pos k1, k2, k3, Bool.or_false]

/-- C33 witness: the statement at a six-byte program whose body holds the byte `FF`. -/
theorem ApplesoftDetoksChecked_total_witness :
    ApplesoftDetoksChecked [1, 1, 10, 0, 0xFF, 0x41] =
        some (ApplesoftDetoks [1, 1, 10, 0, 0xFF, 0x41]) ∧
      detokEnding (ApplesoftDetoks [1, 1, 10, 0, 0xFF, 0x41]) :=
  ⟨(ApplesoftDetoksChecked_total [1, 1, 10, 0, 0xFF, 0x41]).1,
    (ApplesoftDetoksChecked_total [1, 1, 10, 0, 0xFF, 0x41]).2.1⟩

/-- C34, evaluated at the failing inputs: `IntegerDetoks` reads past the end of the data when
it stops right after a line-length byte and one more byte (`05 01`: `Read16` of the line
number), inside an integer constant (`05 0A 00 B1 01 02`: the `Read8` after the constant) and
inside a variable name (`05 0A 00 C1 C2`: the name loop does not test `length`).  With the
closing `01` the last program is listed. -/
theorem IntegerDetoks_reads_past_end :
    IntegerDetoks [5, 1] = none ∧
      IntegerDetoks [5, 10, 0, 0xB1, 1, 2] = none ∧
      IntegerDetoks [5, 10, 0, 0xC1, 0xC2] = none ∧
      IntegerDetoks [5, 10, 0, 0xC1, 0xC2, 0x01] = some (stringBytes "10 AB".toList ++ [13, 10]) := by
  refine ⟨?_, ?_, ?_, ?_⟩ <;> decide

/-! ### disk/atokens.go: lines without a space -/

/-- C35, evaluated at the failing input: the line `10` has no space, `strings.SplitN` gives
one field and `tmp[1]` is an index out of range, so `ApplesoftTokenize` panics on the text
file with that single line; with a space after the number (`10 `) it returns the record of
an empty line 10. -/
theorem ApplesoftTokenize_line_without_space :
    splitFirstSpace "10".toList = ("10".toList, none) ∧
      ApplesoftTokenize ["10".toList] = none ∧
      ApplesoftTokenize ["10 ".toList] = some [0x06, 0x08, 10, 0, 0, 0, 0] := by
  refine ⟨?_, ?_, ?_⟩ <;> decide

/-! ### data.go: positional comparison of two descriptors -/

theorem utilization_fold_no_block_key (l : List DiskSector) :
    ∀ (m : List (List Char × String)), (∀ x, mapGet m ('B' :: x) = none) →
      ∀ x, mapGet (l.foldl
        (fun out block =>
          mapSet out ('T' :: Nat.toDigits 10 block.Track ++ 'S' :: Nat.toDigits 10 block.Sector)
            block.SHA256) m) ('B' :: x) = none := by
  induction l with
  | nil => intro m hm x; exact hm x
  | cons s rest ih =>
    intro m hm x
    rw [List.foldl_cons]
    apply ih
    intro y
    rw [mapGet_mapSet, if_neg]
    · exact hm y
    · intro h
      have := (List.cons.inj h).1
      revert this
      decide

theorem GetUtilizationMap_no_block_key (d : Disk) (x : List Char) :
    mapGet d.GetUtilizationMap ('B' :: x) = none :=
  utilization_fold_no_block_key d.ActiveSectors [] (fun _ => rfl) x

theorem blockCounts_fold (d b : Disk) (l : List Nat) :
    ∀ c : PositionCounts,
      c.sameSectors = 0 ∧ c.diffSectors = 0 ∧ c.dTotal = 0 ∧ c.bTotal = 0 →
      (l.foldl (fun c t => positionStep d.GetUtilizationMap b.GetUtilizationMap c
          ('B' :: Nat.toDigits 10 t)) c).sameSectors = 0 ∧
        (l.foldl (fun c t => positionStep d.GetUtilizationMap b.GetUtilizationMap c
          ('B' :: Nat.toDigits 10 t)) c).diffSectors = 0 ∧
        (l.foldl (fun c t => positionStep d.GetUtilizationMap b.GetUtilizationMap c
          ('B' :: Nat.toDigits 10 t)) c).dTotal = 0 ∧
        (l.foldl (fun c t => positionStep d.GetUtilizationMap b.GetUtilizationMap c
          ('B' :: Nat.toDigits 10 t)) c).bTotal = 0 := by
  induction l with
  | nil => intro c hc; exact hc
  | cons t rest ih =>
    intro c hc
    rw [List.foldl_cons]
    apply ih
    unfold positionStep
    rw [GetUtilizationMap_no_block_key, GetUtilizationMap_no_block_key]
    exact hc

/-- C37, the failing input is every pair of descriptors.  `GetUtilizationMap` files the
active sectors under keys `T<track>S<sector>` and `compareBlocksPositional` looks up keys
`B<block>`, so no position is ever found: the same count and both totals stay 0 and all four
results are `0/0`, NaN.  For a ProDOS descriptor compared with a copy of itself
`CompareChunks` therefore reports NaN, not 1, and the test `dSame >= t` of
`GetPartialMatchesWithThreshold` fails for every threshold. -/
theorem compareBlocksPositional_finds_nothing (f : DiskFormat) (d b : Disk) (t : ℚ) :
    (blockCounts f d b).sameSectors = 0 ∧ (blockCounts f d b).dTotal = 0 ∧
      compareBlocksPositional f d b = (.nan, .nan, .nan, .nan) ∧
      oneBlockDisk.ActiveSectors.length = 2 ∧
      CompareChunks (GetDiskFormat .DF_PRODOS) (GetDiskFormat .DF_PRODOS) oneBlockDisk
        oneBlockDisk = (.nan, .nan, .nan, .nan) ∧
      thresholdMatch t (GetDiskFormat .DF_PRODOS) (GetDiskFormat .DF_PRODOS) oneBlockDisk
        oneBlockDisk = false := by
  have key : ∀ (f : DiskFormat) (d b : Disk),
      compareBlocksPositional f d b = (.nan, .nan, .nan, .nan) := by
    intro f d b
    obtain ⟨h1, h2, h3, h4⟩ := blockCounts_fold d b (List.range f.BPD.toNat)
      (PositionCounts.mk 0 0 0 0 0 0 0) ⟨rfl, rfl, rfl, rfl⟩
    unfold compareBlocksPositional PositionCounts.result blockCounts
    rw [h1, h2, h3, h4]
    rfl
  obtain ⟨h1, _, h3, _⟩ := blockCounts_fold d b (List.range f.BPD.toNat)
    (PositionCounts.mk 0 0 0 0 0 0 0) ⟨rfl, rfl, rfl, rfl⟩
  have hc : CompareChunks (GetDiskFormat .DF_PRODOS) (GetDiskFormat .DF_PRODOS) oneBlockDisk
      oneBlockDisk = (.nan, .nan, .nan, .nan) := by
    unfold CompareChunks
    rw [if_neg (by simp)]
    exact key _ _ _
  refine ⟨h1, h3, key f d b, rfl, hc, ?_⟩
  unfold thresholdMatch
  rw [hc]
  rfl

/-! ### fuzzyfiles.go: the two directions of a comparison -/

theorem compareLoops_hello :
    (compareLoops catalogHelloA catalogA FileOverlapRecord.fresh "k").sameFiles = 1 ∧
    (compareLoops catalogHelloA catalogA FileOverlapRecord.fresh "k").missingFiles = 0 ∧
    (compareLoops catalogHelloA catalogA FileOverlapRecord.fresh "k").extraFiles = 0 ∧
    (compareLoops catalogA catalogHelloA FileOverlapRecord.fresh "k").sameFiles = 1 ∧
    (compareLoops catalogA catalogHelloA FileOverlapRecord.fresh "k").missingFiles = 0 ∧
    (compareLoops catalogA catalogHelloA FileOverlapRecord.fresh "k").extraFiles = 1 := by
  decide

/-- C36, evaluated at the failing input: `X` holds `hello` and `a`, `Y` holds `a`.  The first
loop skips `hello` in `X`, so `CompareCatalogs X Y` counts one same file and nothing else and
returns 1 with no missing file; the second loop has no such test, so `CompareCatalogs Y X`
counts `hello` as extra and returns 1/2. -/
theorem CompareCatalogs_hello_asymmetric :
    (CompareCatalogs catalogHelloA catalogA FileOverlapRecord.fresh "k").1 = 1 ∧
      (CompareCatalogs catalogA catalogHelloA FileOverlapRecord.fresh "k").1 = 1 / 2 ∧
      mapGet (CompareCatalogs catalogHelloA catalogA FileOverlapRecord.fresh "k").2.missing "k" =
        none ∧
      mapGet (CompareCatalogs catalogA catalogHelloA FileOverlapRecord.fresh "k").2.extras "k" =
        some [DiskFile.mk "hello" "h1" 1] := by
  obtain ⟨x1, x2, x3, y1, y2, y3⟩ := compareLoops_hello
  refine ⟨?_, ?_, ?_, ?_⟩
  · unfold CompareCatalogs
    simp only [x1, x2, x3]
    norm_num
  · unfold CompareCatalogs
    simp only [y1, y2, y3]
    norm_num
  · rw [CompareCatalogs_record]; decide
  · rw [CompareCatalogs_record]; decide

/-! ### disk/diskimagepd.go: the directory walks, one iteration at a time -/

theorem catalogLoopFrom_succ (fuel : Nat) (re : RegexMatch) (pattern : List Char)
    (fc epb : Nat) (s : CatalogWalk) :
    catalogLoopFrom (fuel + 1) re pattern fc epb s =
      match catalogStep re pattern fc epb s with
      | .done r => some r
      | .panic => none
      | .next s1 => catalogLoopFrom fuel re pattern fc epb s1 := by
  unfold catalogLoopFrom catalogStep
  rw [catalogLoop]
  by_cases h1 : s.activeentries < fc
  · rw [if_pos h1, if_pos h1]
    cases hb : s.data[s.entrypointer]? with
    | none => rfl
    | some b0 =>
      simp only
      by_cases h2 : b0 ≠ 0 ∧ s.entrypointer + PRODOS_ENTRY_SIZE > s.data.length
      · rw [if_pos h2, if_pos h2]
      · rw [if_neg h2, if_neg h2]
        by_cases h3 : (if b0 ≠ 0 then s.activeentries + 1 else s.activeentries) < fc
        · rw [if_pos h3, if_pos h3]
          by_cases h4 : s.blockentries = epb
          · rw [if_pos h4, if_pos h4]
            rcases hg : s.d.getBlockByFormat s.nextblock with _ | ⟨d1, data1, _ | e⟩
            · rfl
            · simp only
              cases hn : nextBlockOf data1 <;> rfl
            · rfl
          · rw [if_neg h4, if_neg h4]
        · rw [if_neg h3, if_neg h3]
  · rw [if_neg h1, if_neg h1]

theorem dirBlocksLoop_succ (fuel : Nat) (s : DirBlocksWalk) :
    dirBlocksLoop (fuel + 1) s.d s.nextBlock s.blocks s.chunks =
      match dirBlocksStep s with
      | .done r => some r
      | .panic => none
      | .next s1 => dirBlocksLoop fuel s1.d s1.nextBlock s1.blocks s1.chunks := by
  unfold dirBlocksStep
  rw [dirBlocksLoop]
  by_cases h1 : s.nextBlock ≠ 0
  · rw [if_pos h1, if_pos h1]
    rcases hg : s.d.PRODOSGetBlock s.nextBlock with _ | ⟨d1, data1, e⟩
    · rfl
    · simp only
      cases hn : nextBlockOf data1 <;> rfl
  · rw [if_neg h1, if_neg h1]

/-- A slot whose first byte is zero, not the last slot of its block: the walk moves to the
next slot. -/
theorem catalogStep_empty_slot (re : RegexMatch) (pattern : List Char) (fc epb : Nat)
    (s : CatalogWalk) (h1 : s.activeentries < fc) (h2 : s.data[s.entrypointer]? = some 0)
    (h3 : s.blockentries ≠ epb) :
    catalogStep re pattern fc epb s =
      .next (CatalogWalk.mk s.d s.activeentries (s.blockentries + 1) s.refnum s.nextblock s.data
        (s.entrypointer + PRODOS_ENTRY_SIZE) s.files) := by
  unfold catalogStep
  rw [if_pos h1, h2]
  simp only [ne_eq, not_true_eq_false, false_and, if_false, h1, if_true, h3]

/-- A slot whose first byte is zero, the last slot of its block: the walk reads the block
the next-block pointer names, whatever its number. -/
theorem catalogStep_empty_last_slot (re : RegexMatch) (pattern : List Char) (fc epb : Nat)
    (s : CatalogWalk) (d1 : DSKWrapper) (data1 : List Nat) (nb : Int)
    (h1 : s.activeentries < fc) (h2 : s.data[s.entrypointer]? = some 0)
    (h3 : s.blockentries = epb) (h4 : s.d.getBlockByFormat s.nextblock = some (d1, data1, none))
    (h5 : nextBlockOf data1 = some nb) :
    catalogStep re pattern fc epb s =
      .next (CatalogWalk.mk d1 s.activeentries 1 s.nextblock nb data1 4 s.files) := by
  unfold catalogStep
  rw [if_pos h1, h2]
  simp only [ne_eq, not_true_eq_false, false_and, if_false, h1, if_true, h3, h4, h5]

theorem emptyDirVolume_facts :
    (∀ k, k < 12 → (blockData emptyDirVolume 2)[43 + 39 * k]? = some 0) ∧
    (∀ k, k < 13 → (blockData emptyDirVolume 0)[4 + 39 * k]? = some 0) ∧
    nextBlockOf (blockData emptyDirVolume 0) = some 0 ∧
    nextBlockOf (blockData emptyDirVolume 2) = some 0 := by
  refine ⟨?_, ?_, ?_, ?_⟩ <;> decide!

theorem readBlockAt_keeps (d : DSKWrapper) (r : Int × Int × Int) (d1 : DSKWrapper)
    (data : List Nat) (e : Option String) (h : d.readBlockAt r = some (d1, data, e)) :
    agree d d1 := by
  unfold DSKWrapper.readBlockAt at h
  have k1 := Seek_keeps d r.1 r.2.1
  rcases hs : d.Seek r.1 r.2.1 with ⟨x, _ | e1⟩
  · rw [hs] at h k1
    simp only at h k1
    cases hr : x.Read with
    | none => rw [hr] at h; simp at h
    | some c1 =>
      rw [hr] at h
      simp only at h
      have k2 := Seek_keeps x r.1 r.2.2
      rcases hs2 : x.Seek r.1 r.2.2 with ⟨y, _ | e2⟩
      · rw [hs2] at h k2
        simp only at h k2
        cases hr2 : y.Read with
        | none => rw [hr2] at h; simp at h
        | some c2 =>
          rw [hr2] at h
          simp only [Option.some.injEq, Prod.mk.injEq] at h
          rw [← h.1]
          exact agree_trans k1 k2
      · rw [hs2] at h k2
        simp only [Option.some.injEq, Prod.mk.injEq] at h k2
        rw [← h.1]
        exact agree_trans k1 k2
  · rw [hs] at h k1
    simp only [Option.some.injEq, Prod.mk.injEq] at h k1
    rw [← h.1]
    exact k1

theorem readBlockAt_agree (d D : DSKWrapper) (h : agree d D) (r : Int × Int × Int)
    (d1 : DSKWrapper) (data : List Nat) (hD : D.readBlockAt r = some (d1, data, none)) :
    d.readBlockAt r = some (d1, data, none) := by
  unfold DSKWrapper.readBlockAt at hD ⊢
  obtain ⟨s1, _, s3⟩ := Seek_same d D r.1 r.2.1 h
  rcases hsD : D.Seek r.1 r.2.1 with ⟨D1, _ | eD⟩
  · rw [hsD] at hD s1 s3
    simp only at s1 s3
    have hd : d.Seek r.1 r.2.1 = (D1, none) := Prod.ext (s3 s1).1 s1
    rw [hd]
    exact hD
  · rw [hsD] at hD
    simp at hD

theorem PRODOSGetBlockSectors_agree (d D : DSKWrapper) (h : agree d D) (b : Int) :
    d.PRODOSGetBlockSectors b = D.PRODOSGetBlockSectors b := by
  unfold DSKWrapper.PRODOSGetBlockSectors
  rw [h.2.2]

theorem getBlockByFormat_agree (d D : DSKWrapper) (h : agree d D) (b : Int)
    (d1 : DSKWrapper) (data : List Nat) (hD : D.getBlockByFormat b = some (d1, data, none)) :
    d.getBlockByFormat b = some (d1, data, none) := by
  unfold DSKWrapper.getBlockByFormat DSKWrapper.PRODOSGetBlock DSKWrapper.PRODOS800GetBlock
    at hD ⊢
  rw [h.2.1, PRODOSGetBlockSectors_agree d D h]
  by_cases hc : D.Format.ID = .DF_PRODOS_800KB
  · rw [if_pos hc] at hD ⊢
    exact readBlockAt_agree d D h _ d1 data hD
  · rw [if_neg hc] at hD ⊢
    exact readBlockAt_agree d D h _ d1 data hD

theorem PRODOSGetBlock_atBlock (d : DSKWrapper) (b : Int)
    (h : (d.PRODOSGetBlock b).map (·.2.2) = some none) :
    d.PRODOSGetBlock b = some (atBlock d b, blockData d b, none) ∧ agree d (atBlock d b) := by
  unfold atBlock blockData
  rcases hg : d.PRODOSGetBlock b with _ | ⟨d1, data, e⟩
  · rw [hg] at h; simp at h
  · rw [hg] at h
    simp only [Option.map_some', Option.some.injEq] at h
    subst h
    exact ⟨rfl, readBlockAt_keeps d _ d1 data none hg⟩

theorem emptyDirVolume_block_zero :
    (atBlock emptyDirVolume 2).getBlockByFormat 0 =
        some (atBlock emptyDirVolume 0, blockData emptyDirVolume 0, none) ∧
    (atBlock emptyDirVolume 0).getBlockByFormat 0 =
        some (atBlock emptyDirVolume 0, blockData emptyDirVolume 0, none) := by
  obtain ⟨g0, a0⟩ := PRODOSGetBlock_atBlock emptyDirVolume 0 (by decide!)
  obtain ⟨_, a2⟩ := PRODOSGetBlock_atBlock emptyDirVolume 2 (by decide!)
  have hf : emptyDirVolume.getBlockByFormat 0 =
      some (atBlock emptyDirVolume 0, blockData emptyDirVolume 0, none) := by
    unfold DSKWrapper.getBlockByFormat
    rw [if_neg (by decide!)]
    exact g0
  exact ⟨getBlockByFormat_agree _ _ (agree_symm a2) 0 _ _ hf,
    getBlockByFormat_agree _ _ (agree_symm a0) 0 _ _ hf⟩

theorem blockZeroWalk_step (k : Nat) (hk : k < 12) :
    catalogStep plainRegex [] 1 13 (blockZeroWalk k) = .next (blockZeroWalk (k + 1)) := by
  rw [catalogStep_empty_slot plainRegex [] 1 13 (blockZeroWalk k) (by show 0 < 1; omega)
    (emptyDirVolume_facts.2.1 k (by omega)) (by show 1 + k ≠ 13; omega)]
  show WalkStep.next (CatalogWalk.mk _ 0 (1 + k + 1) 0 0 _ (4 + 39 * k + 39) []) =
    .next (CatalogWalk.mk _ 0 (1 + (k + 1)) 0 0 _ (4 + 39 * (k + 1)) [])
  congr 2

theorem blockZeroWalk_last :
    catalogStep plainRegex [] 1 13 (blockZeroWalk 12) = .next (blockZeroWalk 0) :=
  catalogStep_empty_last_slot plainRegex [] 1 13 (blockZeroWalk 12) _ _ 0 (by show 0 < 1; omega)
    (emptyDirVolume_facts.2.1 12 (by omega)) rfl emptyDirVolume_block_zero.2
    emptyDirVolume_facts.2.2.1

theorem firstBlockWalk_step (k : Nat) (hk : k < 11) :
    catalogStep plainRegex [] 1 13 (firstBlockWalk k) = .next (firstBlockWalk (k + 1)) := by
  rw [catalogStep_empty_slot plainRegex [] 1 13 (firstBlockWalk k) (by show 0 < 1; omega)
    (emptyDirVolume_facts.1 k (by omega)) (by show 2 + k ≠ 13; omega)]
  show WalkStep.next (CatalogWalk.mk _ 0 (2 + k + 1) 2 0 _ (43 + 39 * k + 39) []) =
    .next (CatalogWalk.mk _ 0 (2 + (k + 1)) 2 0 _ (43 + 39 * (k + 1)) [])
  congr 2

theorem firstBlockWalk_last :
    catalogStep plainRegex [] 1 13 (firstBlockWalk 11) = .next (blockZeroWalk 0) :=
  catalogStep_empty_last_slot plainRegex [] 1 13 (firstBlockWalk 11) _ _ 0 (by show 0 < 1; omega)
    (emptyDirVolume_facts.1 11 (by omega)) rfl emptyDirVolume_block_zero.1
    emptyDirVolume_facts.2.2.1

theorem catalogLoopFrom_zero (re : RegexMatch) (pattern : List Char) (fc epb : Nat)
    (s : CatalogWalk) : catalogLoopFrom 0 re pattern fc epb s = none := by
  unfold catalogLoopFrom
  rw [catalogLoop]

theorem blockZeroWalk_runs_on :
    ∀ (fuel k : Nat), k ≤ 12 → catalogLoopFrom fuel plainRegex [] 1 13 (blockZeroWalk k) = none := by
  intro fuel
  induction fuel with
  | zero => intro k _; exact catalogLoopFrom_zero _ _ _ _ _
  | succ fuel ih =>
    intro k hk
    rw [catalogLoopFrom_succ]
    by_cases h : k < 12
    · rw [blockZeroWalk_step k h]
      exact ih (k + 1) (by omega)
    · have : k = 12 := by omega
      subst this
      rw [blockZeroWalk_last]
      exact ih 0 (by omega)

theorem firstBlockWalk_runs_on :
    ∀ (fuel k : Nat), k ≤ 11 → catalogLoopFrom fuel plainRegex [] 1 13 (firstBlockWalk k) = none := by
  intro fuel
  induction fuel with
  | zero => intro k _; exact catalogLoopFrom_zero _ _ _ _ _
  | succ fuel ih =>
    intro k hk
    rw [catalogLoopFrom_succ]
    by_cases h : k < 11
    · rw [firstBlockWalk_step k h]
      exact ih (k + 1) (by omega)
    · have : k = 11 := by omega
      subst this
      rw [firstBlockWalk_last]
      exact blockZeroWalk_runs_on fuel 0 (by omega)

/-- The state in which `PRODOSGetCatalog` enters its loop. -/
theorem PRODOSGetCatalog_enters (d : DSKWrapper) (re : RegexMatch) (b : Int)
    (pattern : List Char) (v : VDH) (nb : Int) (hfmt : d.Format.ID ≠ .DF_PRODOS_800KB)
    (hblk : (d.PRODOSGetBlock b).map (·.2.2) = some none)
    (hv : vdhOfBlock (blockData d b) b = some v) (hn : nextBlockOf (blockData d b) = some nb) :
    d.PRODOSGetCatalog re b pattern =
      match catalogLoop dirWalkFuel re pattern (atBlock d b) v.GetFileCount v.GetEntriesPerBlock
          0 2 b nb (blockData d b) (4 + PRODOS_ENTRY_SIZE) [] with
      | none => none
      | some (d3, files) => some (d3, some v, files, none) := by
  obtain ⟨g, a⟩ := PRODOSGetBlock_atBlock d b hblk
  have hf : d.getBlockByFormat b = some (atBlock d b, blockData d b, none) := by
    unfold DSKWrapper.getBlockByFormat
    rw [if_neg hfmt]
    exact g
  have hf2 := getBlockByFormat_agree _ _ (agree_symm a) b _ _ hf
  unfold DSKWrapper.PRODOSGetCatalog
  generalize dirWalkFuel = fuel
  rw [if_neg hfmt]
  unfold DSKWrapper.PRODOSGetVDH
  rw [g]
  simp only [hv, hf2, hn]

theorem emptyDirVolume_header :
    ∃ v, vdhOfBlock (blockData emptyDirVolume 2) 2 = some v ∧
      v.GetFileCount = 1 ∧ v.GetEntriesPerBlock = 13 := by
  unfold vdhOfBlock
  rw [if_pos (by decide!)]
  exact ⟨_, rfl, by decide!, by decide!⟩

theorem emptyDirVolume_catalog_runs_on :
    emptyDirVolume.PRODOSGetCatalog plainRegex 2 [] = none := by
  obtain ⟨v, hv, h1, h13⟩ := emptyDirVolume_header
  rw [PRODOSGetCatalog_enters emptyDirVolume plainRegex 2 [] v 0 (by decide!) (by decide!) hv
    emptyDirVolume_facts.2.2.2, h1, h13]
  generalize dirWalkFuel = fuel
  have := firstBlockWalk_runs_on fuel 0 (by omega)
  unfold catalogLoopFrom firstBlockWalk at this
  simp only [Nat.mul_zero, Nat.add_zero] at this
  have e : 4 + PRODOS_ENTRY_SIZE = 43 := rfl
  rw [e, this]

theorem PRODOSGetBlock_agree (d D : DSKWrapper) (h : agree d D) (b : Int)
    (d1 : DSKWrapper) (data : List Nat) (hD : D.PRODOSGetBlock b = some (d1, data, none)) :
    d.PRODOSGetBlock b = some (d1, data, none) := by
  unfold DSKWrapper.PRODOSGetBlock at hD ⊢
  rw [PRODOSGetBlockSectors_agree d D h]
  exact readBlockAt_agree d D h _ d1 data hD

theorem selfLinkedVolume_facts :
    (selfLinkedVolume.PRODOSGetBlock 2).map (·.2.2) = some none ∧
    nextBlockOf (blockData selfLinkedVolume 2) = some 2 ∧
    43 ≤ (blockData selfLinkedVolume 2).length := by
  refine ⟨?_, ?_, ?_⟩ <;> decide!

/-- A directory block that names itself: one round of `PRODOSGetDirBlocks` appends it and
is back at the same block. -/
theorem dirBlocksStep_self (d : DSKWrapper) (b : Int) (blocks : List Int)
    (chunks : List (List Nat)) (data : List Nat) (hb : b ≠ 0)
    (hg : d.PRODOSGetBlock b = some (d, data, none)) (hn : nextBlockOf data = some b) :
    dirBlocksStep (DirBlocksWalk.mk d b blocks chunks) =
      .next (DirBlocksWalk.mk d b (blocks ++ [b]) (chunks ++ [data])) := by
  unfold dirBlocksStep
  simp only [hb, ne_eq, not_false_eq_true, if_true, hg, hn]

theorem selfLinkedWalk_step (n : Nat) :
    dirBlocksStep (selfLinkedWalk n) = .next (selfLinkedWalk (n + 1)) := by
  obtain ⟨g, a⟩ := PRODOSGetBlock_atBlock selfLinkedVolume 2 selfLinkedVolume_facts.1
  have g2 := PRODOSGetBlock_agree _ _ (agree_symm a) 2 _ _ g
  unfold selfLinkedWalk
  rw [dirBlocksStep_self _ 2 _ _ _ (by decide) g2 selfLinkedVolume_facts.2.1]
  have e1 : (2 :: List.replicate n (2 : Int)) ++ [2] = 2 :: List.replicate (n + 1) 2 := by
    rw [List.replicate_succ', List.cons_append]
  have e2 : ∀ x : List Nat, List.replicate (n + 1) x ++ [x] = List.replicate (n + 1 + 1) x :=
    fun x => (List.replicate_succ' (n + 1) x).symm
  rw [e1, e2]

theorem selfLinkedWalk_runs_on :
    ∀ (fuel n : Nat), dirBlocksLoop fuel (selfLinkedWalk n).d (selfLinkedWalk n).nextBlock
      (selfLinkedWalk n).blocks (selfLinkedWalk n).chunks = none := by
  intro fuel
  induction fuel with
  | zero => intro n; rw [dirBlocksLoop]
  | succ fuel ih =>
    intro n
    rw [dirBlocksLoop_succ, selfLinkedWalk_step]
    exact ih (n + 1)

/-- The state in which `PRODOSGetDirBlocks` enters its loop. -/
theorem PRODOSGetDirBlocks_enters (d : DSKWrapper) (b : Int) (v : VDH) (nb : Int)
    (hblk : (d.PRODOSGetBlock b).map (·.2.2) = some none)
    (hv : vdhOfBlock (blockData d b) b = some v) (hn : nextBlockOf (blockData d b) = some nb) :
    d.PRODOSGetDirBlocks b =
      match dirBlocksLoop dirWalkFuel (atBlock d b) nb [b] [blockData d b] with
      | none => none
      | some (d3, blocks, chunks) => some (d3, .ok (v, blocks, chunks)) := by
  obtain ⟨g, a⟩ := PRODOSGetBlock_atBlock d b hblk
  have g2 := PRODOSGetBlock_agree _ _ (agree_symm a) b _ _ g
  unfold DSKWrapper.PRODOSGetDirBlocks
  generalize dirWalkFuel = fuel
  unfold DSKWrapper.PRODOSGetVDH
  rw [g]
  simp only [hv, g2, hn]

theorem selfLinkedVolume_dir_blocks_run_on :
    (selfLinkedVolume.PRODOSGetDirBlocks 2).isNone = true := by
  obtain ⟨v, hv⟩ : ∃ v, vdhOfBlock (blockData selfLinkedVolume 2) 2 = some v := by
    unfold vdhOfBlock
    rw [if_pos selfLinkedVolume_facts.2.2]
    exact ⟨_, rfl⟩
  rw [PRODOSGetDirBlocks_enters selfLinkedVolume 2 v 2 selfLinkedVolume_facts.1 hv
    selfLinkedVolume_facts.2.1]
  generalize dirWalkFuel = fuel
  have := selfLinkedWalk_runs_on fuel 0
  unfold selfLinkedWalk at this
  simp only [List.replicate] at this
  rw [this]
  rfl

/-- C38, evaluated at the failing inputs.  `emptyDirVolume` has a volume header with file
count 1 and no entry, and the next-block pointer of block 2 is 0.  `PRODOSGetCatalog` scans
the slots 2 to 13 of block 2, follows the pointer 0 into block 0, scans its 13 empty slots
and follows the pointer 0 of block 0 into block 0 again: after 13 iterations the loop is in
the state it was in, so it runs for ever (whatever the fuel, the model has no result).
`selfLinkedVolume` has a directory block that names itself as the next block:
`PRODOSGetDirBlocks` appends block 2 once more in every iteration and never ends. -/
theorem ProDOS_directory_walks_run_on :
    (∀ k, k < 11 →
      catalogStep plainRegex [] 1 13 (firstBlockWalk k) = .next (firstBlockWalk (k + 1))) ∧
    catalogStep plainRegex [] 1 13 (firstBlockWalk 11) = .next (blockZeroWalk 0) ∧
    (∀ k, k < 12 →
      catalogStep plainRegex [] 1 13 (blockZeroWalk k) = .next (blockZeroWalk (k + 1))) ∧
    catalogStep plainRegex [] 1 13 (blockZeroWalk 12) = .next (blockZeroWalk 0) ∧
    (∀ fuel, catalogLoopFrom fuel plainRegex [] 1 13 (firstBlockWalk 0) = none) ∧
    (emptyDirVolume.PRODOSGetCatalog plainRegex 2 []).isNone = true ∧
    (∀ n, dirBlocksStep (selfLinkedWalk n) = .next (selfLinkedWalk (n + 1))) ∧
    (∀ fuel, dirBlocksLoop fuel (selfLinkedWalk 0).d 2 [2] [blockData selfLinkedVolume 2] =
      none) ∧
    (selfLinkedVolume.PRODOSGetDirBlocks 2).isNone = true := by
  refine ⟨firstBlockWalk_step, firstBlockWalk_last, blockZeroWalk_step, blockZeroWalk_last,
    fun fuel => firstBlockWalk_runs_on fuel 0 (by omega), ?_, selfLinkedWalk_step,
    fun fuel => selfLinkedWalk_runs_on fuel 0, selfLinkedVolume_dir_blocks_run_on⟩
  rw [emptyDirVolume_catalog_runs_on]
  rfl

/-! ### disk/diskimagepd.go: the blocks a delete gives back -/

/-- C39, evaluated at the failing input: `volumeWithA` has 272 free blocks.  Writing the
512-byte file `B` stores a sapling with the index block 8 and the data blocks 9 and 10 (269
free, none of the three).  `PRODOSDeleteFile("", "B")` returns nil and frees block 8 only:
the data blocks 9 and 10 stay marked used and 270 blocks are free, not 272. -/
theorem PRODOSDeleteFile_keeps_data_blocks :
    freeBlockCount volumeWithA 280 = some 272 ∧
      volumeWithAB.bind (fun w =>
        (w.PRODOSGetNamedEntry plainRegex [] "B".toList).bind (fun r =>
          (freeAmong w [8, 9, 10]).bind (fun l => (freeBlockCount w 280).map (fun n =>
            (r.2.toOption.map (fun fd => (fd.GetStorageType, fd.IndexBlock)), l, n))))) =
        some (some (StorageType_Sapling, 8), [], 269) ∧
      volumeWithAB.bind (fun w =>
        (w.PRODOSDeleteFile plainRegex [] "B".toList).bind (fun r =>
          (freeAmong r.1 [8, 9, 10]).bind (fun l => (freeBlockCount r.1 280).map (fun n =>
            (r.2, l, n))))) = some (none, [8], 270) := by
  refine ⟨?_, ?_, ?_⟩ <;> decide!

/-! ### disk/diskimageappledos.go: writing over an existing file -/

/-- C40, evaluated at the failing input: `helloDOS` holds the binary file `HELLO` with the
T/S list sector track 18 sector 15 and the data sector track 18 sector 14.
`AppleDOSWriteFile("HELLO", BIN, [1, 2, 3], 0x2000)` returns nil; the new file has the T/S
list sector track 34 sector 15 and the data sector track 34 sector 14, and the VTOC stored
afterwards still marks the two sectors of the replaced file used. -/
theorem AppleDOS_overwrite_leaks_sectors :
    (helloDOS.AppleDOSGetVTOC.bind (fun r => r.2.toOption)).map
        (fun v => [v.IsTSFree 18 15, v.IsTSFree 18 14, v.IsTSFree 34 15, v.IsTSFree 34 14]) =
      some [some false, some false, some true, some true] ∧
    (helloDOS.AppleDOSWriteFile "HELLO".toList FileTypeBIN [1, 2, 3] 0x2000).map (·.2) =
      some none ∧
    ((helloDOS.AppleDOSWriteFile "HELLO".toList FileTypeBIN [1, 2, 3] 0x2000).bind fun w =>
      (w.1.AppleDOSNamedCatalogEntry "HELLO".toList).bind fun r => r.2.1.bind fun fd =>
        (r.1.AppleDOSGetTSListSectors fd).bind fun a =>
          (r.1.AppleDOSGetFileSectors fd).map fun b => (a.2, b.2)) =
      some (([(34, 15)], none), [(34, 14)], none) ∧
    ((helloDOS.AppleDOSWriteFile "HELLO".toList FileTypeBIN [1, 2, 3] 0x2000).bind fun w =>
      (w.1.AppleDOSGetVTOC.bind (fun r => r.2.toOption)).map
        (fun v => [v.IsTSFree 18 15, v.IsTSFree 18 14, v.IsTSFree 34 15, v.IsTSFree 34 14])) =
      some [some false, some false, some false, some false] := by
  refine ⟨?_, ?_, ?_, ?_⟩ <;> decide!

/-- C18, evaluated at the failing inputs; in both every seek of the walk succeeds.  On
`wideCatalogStart` the sector at track 17 sector 0 is read, the seek to the catalog start
track 0 sector 16 succeeds (16 is below the 40 sectors of a track), the mapper answers -1
for sector 16 and the sector window starts at -256.  On `dos13CatalogAtEnd` the VTOC gives
35 tracks of 13 sectors, the seek to the catalog start track 34 sector 2 succeeds, the
mapper sends sector 2 to physical sector 14 and the sector window starts at 116736, past the
116480 bytes of the image; in the layout `SectorOrderDOS33`, which `IsAppleDOS` tries first,
the same image gives an empty catalog.  In both cases `Read` has no sector to return and
`AppleDOSGetCatalog` has no result. -/
theorem AppleDOSGetCatalog_read_outside_image :
    (wideCatalogStart.AppleDOSGetVTOC.bind (fun r => r.2.toOption)).map
        (fun v => v.GetCatalogStart) = some (0, 16) ∧
      (wideCatalogStart.Seek 17 0).2 = none ∧
      (wideCatalogStart.Seek 0 16).2 = none ∧
      (wideCatalogStart.Seek 0 16).1.SectorPointer = -256 ∧
      (wideCatalogStart.AppleDOSGetCatalog plainRegex "*".toList).isNone = true ∧
      (dos13CatalogAtEnd.AppleDOSGetVTOC.bind (fun r => r.2.toOption)).map
        (fun v => (v.GetCatalogStart, v.GetTracks, v.GetSectors)) = some ((34, 2), 35, 13) ∧
      (dos13CatalogAtEnd.Seek 17 0).2 = none ∧
      (dos13CatalogAtEnd.Seek 34 2).2 = none ∧
      (dos13CatalogAtEnd.Seek 34 2).1.SectorPointer = 116736 ∧
      dos13CatalogAtEnd.Data.size = 116480 ∧
      (dos13CatalogAtEnd.AppleDOSGetCatalog plainRegex "*".toList).isNone = true ∧
      ((DSKWrapper.mk dos13CatalogAtEnd.Data .SectorOrderDOS33 0 0 0
          dos13CatalogAtEnd.Format).AppleDOSGetCatalog plainRegex "*".toList).map
        (fun r => (r.2.1.length, r.2.2)) = some (0, none) := by
  refine ⟨?_, ?_, ?_, ?_, ?_, ?_, ?_, ?_, ?_, ?_, ?_, ?_⟩ <;> decide!

/-! ### disk/atokens.go: the stored next-address wraps -/

theorem foldl_tokStep_quoted (n : Nat) (lb : List Nat) (chunk : List Char) :
    List.foldl tokStep { linebuffer := lb, chunk := chunk, inqq := true } (List.replicate n 'X') =
      { linebuffer := lb ++ List.replicate n 88, chunk := chunk, inqq := true } := by
  induction n generalizing lb with
  | zero => simp
  | succ k ih =>
    have hstep : tokStep { linebuffer := lb, chunk := chunk, inqq := true } 'X' =
        { linebuffer := lb ++ [88], chunk := chunk, inqq := true } := by
      unfold tokStep
      rw [if_pos ⟨rfl, by decide⟩]
      rfl
    rw [List.replicate_succ, List.foldl_cons, hstep, ih]
    simp [List.replicate_succ]

theorem dropWhile_space_replicate (n : Nat) :
    List.dropWhile (fun x => x == ' ') (List.replicate n 'X' ++ ['"']) =
      List.replicate n 'X' ++ ['"'] := by
  cases n with
  | zero => rfl
  | succ k => rfl

theorem trimChar_quoted (n : Nat) :
    trimChar ' ' ('"' :: List.replicate n 'X') = '"' :: List.replicate n 'X' := by
  unfold trimChar
  have h1 : List.dropWhile (fun x => x == ' ') ('"' :: List.replicate n 'X') =
      '"' :: List.replicate n 'X' := rfl
  rw [h1, List.reverse_cons, List.reverse_replicate, dropWhile_space_replicate,
    List.reverse_append, List.reverse_replicate]
  rfl

theorem trimChar_cr_quotedLine (n : Nat) : trimChar '\r' (quotedLine n) = quotedLine n := by
  unfold trimChar quotedLine
  have h1 : List.dropWhile (fun x => x == '\r') ('1' :: ' ' :: '"' :: List.replicate n 'X') =
      '1' :: ' ' :: '"' :: List.replicate n 'X' := rfl
  rw [h1]
  have h2 : ('1' :: ' ' :: '"' :: List.replicate n 'X').reverse =
      List.replicate n 'X' ++ ['"', ' ', '1'] := by
    simp [List.reverse_cons, List.reverse_replicate]
  rw [h2]
  have h3 : List.dropWhile (fun x => x == '\r') (List.replicate n 'X' ++ ['"', ' ', '1']) =
      List.replicate n 'X' ++ ['"', ' ', '1'] := by
    cases n with
    | zero => rfl
    | succ k => rfl
  rw [h3, ← h2, List.reverse_reverse]

theorem tokenizeLine_quotedLine (n : Nat) (a : Int) :
    tokenizeLine a (quotedLine n) =
      some ([intByte ((a + (n + 6 : Nat)) % 256), intByte (Int.tdiv (a + (n + 6 : Nat)) 0x100),
        1, 0, 34] ++ List.replicate n 88 ++ [0]) := by
  have hsplit : splitFirstSpace (quotedLine n) = (['1'], some ('"' :: List.replicate n 'X')) := rfl
  have hstep : tokStep { linebuffer := [0, 0, intByte (Atoi ['1'] % 256),
        intByte (Int.tdiv (Atoi ['1']) 0x100)], chunk := [], inqq := false } '"' =
      { linebuffer := [0, 0, 1, 0, 34], chunk := [], inqq := true } := rfl
  unfold tokenizeLine
  rw [hsplit]
  simp only [trimChar_quoted, List.foldl_cons, hstep, foldl_tokStep_quoted, ne_eq,
    not_true_eq_false, if_false]
  simp only [List.cons_append, List.nil_append, List.drop_succ_cons, List.drop_zero,
    List.length_cons, List.length_append, List.length_replicate, List.length_nil,
    List.append_assoc]

theorem ApplesoftTokenize_quotedLine (n : Nat) :
    ApplesoftTokenize [quotedLine n] =
      some (([intByte (((0x801 : Int) + (n + 6 : Nat)) % 256),
        intByte (Int.tdiv ((0x801 : Int) + (n + 6 : Nat)) 0x100), 1, 0, 34] ++
          List.replicate n 88 ++ [0]) ++ [0, 0]) := by
  have hne : quotedLine n ≠ [] := by
    unfold quotedLine
    exact List.cons_ne_nil _ _
  unfold ApplesoftTokenize
  rw [tokenizeLines, trimChar_cr_quotedLine, if_neg hne, tokenizeLine_quotedLine]
  simp only [tokenizeLines, List.nil_append]

/-- C28, the claim as stated fails: the one-line program `1 "XX..X` with 63482 letters after
the opening quote tokenizes to a single record of 63488 bytes followed by two zero bytes;
the record starts at `0x801`, so the next record would start at `0x801 + 63488 = 65537`,
but the two address bytes are `01 00`, the address 1. -/
theorem ApplesoftTokenize_address_wraps :
    ApplesoftTokenize [quotedLine 63482] =
      some (([1, 0, 1, 0, 34] ++ List.replicate 63482 88 ++ [0]) ++ [0, 0]) ∧
    ([1, 0, 1, 0, 34] ++ List.replicate 63482 88 ++ [0]).length = 63488 ∧
    recordAddress ([1, 0, 1, 0, 34] ++ List.replicate 63482 88 ++ [0]) = 1 ∧
    0x801 + 63488 = 65537 := by
  have h := ApplesoftTokenize_quotedLine 63482
  have e1 : intByte (((0x801 : Int) + ((63482 + 6 : Nat) : Int)) % 256) = 1 := by decide
  have e2 : intByte (Int.tdiv ((0x801 : Int) + ((63482 + 6 : Nat) : Int)) 0x100) = 0 := by
    decide
  rw [e1, e2] at h
  have h5 : ([1, 0, 1, 0, 34] : List Nat).length = 5 := rfl
  have h1 : ([0] : List Nat).length = 1 := rfl
  refine ⟨h, ?_, rfl, rfl⟩
  rw [List.length_append, List.length_append, List.length_replicate, h5, h1]

/-! ### disk/diskimagerdos.go: the catalog walk -/

theorem flatten_drop_take {α : Type} (L : Nat) :
    ∀ (l : List (List α)) (q r n : Nat), (∀ x ∈ l, x.length = L) → q < l.length →
      r + n ≤ L → (l.flatten.drop (L * q + r)).take n = ((l.getD q []).drop r).take n := by
  intro l
  induction l with
  | nil =>
    intro q r n _ hq _
    exact absurd hq (Nat.not_lt_zero _)
  | cons x xs ih =>
    intro q r n hl hq hr
    have hx : x.length = L := hl x (List.mem_cons_self _ _)
    cases q with
    | zero =>
      simp only [Nat.mul_zero, Nat.zero_add, List.flatten_cons, List.getD_cons_zero]
      rw [List.drop_append_of_le_length (by omega), List.take_append_of_le_length]
      rw [List.length_drop]
      omega
    | succ k =>
      have e : L * (k + 1) + r = x.length + (L * k + r) := by rw [hx, Nat.mul_succ]; omega
      simp only [List.flatten_cons, List.getD_cons_succ]
      rw [e, List.drop_append]
      exact ih k r n (fun y hy => hl y (List.mem_cons_of_mem _ hy))
        (Nat.lt_of_succ_lt_succ hq) hr

theorem flatten_length_uniform {α : Type} (L : Nat) :
    ∀ (l : List (List α)), (∀ x ∈ l, x.length = L) → l.flatten.length = L * l.length := by
  intro l
  induction l with
  | nil => intro _; rfl
  | cons x xs ih =>
    intro hl
    rw [List.flatten_cons, List.length_append, hl x (List.mem_cons_self _ _),
      ih (fun y hy => hl y (List.mem_cons_of_mem _ hy)), List.length_cons, Nat.mul_succ]
    omega

theorem IsRDOS_size (d : DSKWrapper) (h : d.IsRDOS.1 = true) :
    d.Data.size = 143360 ∨ d.Data.size = 116480 := by
  unfold DSKWrapper.IsRDOS at h
  by_cases hs : (d.Data.size : Int) ≠ STD_DISK_BYTES ∧ (d.Data.size : Int) ≠ STD_DISK_BYTES_OLD
  · rw [if_pos hs] at h
    exact absurd h (by decide)
  · have e1 : STD_DISK_BYTES = 143360 := by decide
    have e2 : STD_DISK_BYTES_OLD = 116480 := by decide
    rw [e1, e2] at hs
    omega

theorem rdos_mapper_bounds (l : SectorOrder) (s : Nat) (hs : s ≤ 10) :
    0 ≤ (match l with
      | .SectorOrderDOS33Alt => SectorMapperDOS33Alt (s : Int)
      | .SectorOrderDOS33 => SectorMapperDOS33 (s : Int)
      | .SectorOrderProDOS => SectorMapperProDOS (s : Int)
      | _ => (s : Int)) ∧
    (match l with
      | .SectorOrderDOS33Alt => SectorMapperDOS33Alt (s : Int)
      | .SectorOrderDOS33 => SectorMapperDOS33 (s : Int)
      | .SectorOrderProDOS => SectorMapperProDOS (s : Int)
      | _ => (s : Int)) ≤ 14 := by
  interval_cases s <;> cases l <;> decide

theorem rdos_format_geometry (d : DSKWrapper)
    (hfmt : d.Format.ID = .DF_RDOS_3 ∨ d.Format.ID = .DF_RDOS_32 ∨ d.Format.ID = .DF_RDOS_33) :
    d.Format.TPD = 35 ∧ 13 ≤ d.Format.USPT ∧ 13 ≤ d.Format.SPT ∧ d.Format.SPT ≤ 16 := by
  unfold DiskFormat.TPD DiskFormat.USPT DiskFormat.SPT
  rcases hfmt with h | h | h <;> rw [h] <;> simp

theorem rdos_pointer_bounds (d : DSKWrapper)
    (hfmt : d.Format.ID = .DF_RDOS_3 ∨ d.Format.ID = .DF_RDOS_32 ∨ d.Format.ID = .DF_RDOS_33)
    (s : Nat) (hs : s ≤ 10) :
    0 ≤ (seekAt d 1 s).SectorPointer ∧ (seekAt d 1 s).SectorPointer + 256 ≤ 7936 := by
  obtain ⟨_, _, h13, h16⟩ := rdos_format_geometry d hfmt
  obtain ⟨m0, m14⟩ := rdos_mapper_bounds d.Layout s hs
  have e : STD_BYTES_PER_SECTOR = 256 := rfl
  have key : ∀ isec : Int, 0 ≤ isec → isec ≤ 14 →
      0 ≤ 1 * d.Format.SPT * 256 + 256 * isec ∧
        1 * d.Format.SPT * 256 + 256 * isec + 256 ≤ 7936 := by
    intro isec i0 i14
    constructor <;> omega
  exact key _ m0 m14

/-- One pass of the first loop of `RDOSGetCatalog` on an RDOS image: the sector read is
sector `s` of track 1. -/
theorem rdos_read_sector (d w : DSKWrapper) (hw : agree w d)
    (hrdos : d.IsRDOS.1 = true)
    (hfmt : d.Format.ID = .DF_RDOS_3 ∨ d.Format.ID = .DF_RDOS_32 ∨ d.Format.ID = .DF_RDOS_33)
    (s : Nat) (hs : s ≤ 10) :
    ((w.SetTrack 1).1.SetSector s).1 = seekAt d 1 s ∧
    (seekAt d 1 s).Read = some (d.Data.slice (sectorBase d 1 s) 256) ∧
    d.Seek 1 s = (seekAt d 1 s, none) := by
  obtain ⟨htpd, huspt, _, _⟩ := rdos_format_geometry d hfmt
  have hok : seekOK d 1 s := by
    unfold seekOK
    rw [htpd]
    refine ⟨⟨by decide, by decide⟩, by omega, by omega⟩
  have hokw : seekOK w 1 s := (seekOK_agree w d 1 s hw).2 hok
  have hseek := Seek_of_ok w 1 s hokw
  have hset : (w.SetTrack 1).1.SetSector s = w.Seek 1 s := by
    unfold DSKWrapper.Seek DSKWrapper.SetTrack
    rw [if_pos hokw.1]
  obtain ⟨p0, p1⟩ := rdos_pointer_bounds d hfmt s hs
  have hsize := IsRDOS_size d hrdos
  refine ⟨?_, ?_, Seek_of_ok d 1 s hok⟩
  · rw [hset, hseek]
    exact seekAt_agree w d 1 s hw
  · unfold DSKWrapper.Read
    have hD : (seekAt d 1 s).Data = d.Data := rfl
    rw [hD, if_pos ⟨p0, by omega⟩]
    rfl

theorem rdosReadCatalog_sectors (d : DSKWrapper)
    (hrdos : d.IsRDOS.1 = true)
    (hfmt : d.Format.ID = .DF_RDOS_3 ∨ d.Format.ID = .DF_RDOS_32 ∨ d.Format.ID = .DF_RDOS_33) :
    ∀ (n s : Nat) (w : DSKWrapper) (acc : List Nat), agree w d → s + n ≤ 11 →
      ∃ w1, rdosReadCatalog n w (s : Int) acc =
        some (w1, acc ++ ((List.range n).map fun k =>
          d.Data.slice (sectorBase d 1 ((s + k : Nat) : Int)) 256).flatten) := by
  intro n
  induction n with
  | zero =>
    intro s w acc _ _
    exact ⟨w, by simp [rdosReadCatalog]⟩
  | succ m ih =>
    intro s w acc hw hs
    obtain ⟨h1, h2, _⟩ := rdos_read_sector d w hw hrdos hfmt s (by omega)
    obtain ⟨w1, hrec⟩ := ih (s + 1) (seekAt d 1 s)
      (acc ++ d.Data.slice (sectorBase d 1 (s : Int)) 256)
      (agree_symm (seekAt_props d 1 s).1) (by omega)
    refine ⟨w1, ?_⟩
    rw [rdosReadCatalog]
    simp only [h1, h2]
    have e : (((s + 1 : Nat) : Int)) = (s : Int) + 1 := by push_cast; rfl
    have hk : ∀ k : Nat, s + 1 + k = s + (k + 1) := fun k => by omega
    rw [← e, hrec, List.range_succ_eq_map, List.map_cons, List.flatten_cons, List.map_map,
      List.append_assoc]
    simp only [hk]
    rfl

/-- The second loop of `RDOSGetCatalog` from slot `i` on, when the catalog bytes `cat` are
2816 bytes and the capacity leaves room for one more slot: the loop stops at the first
unused slot, and at slot 88 at the latest, which lies in the cleared bytes beyond the
length. -/
theorem rdosEntries_slots (cap : Nat) (hcap : 2848 ≤ cap) (rx : List Char → Bool)
    (cat : List Nat) (hcat : cat.length = 2816) :
    ∀ (m i n : Nat) (files : List (List Nat)), i + m = 88 → m < n →
      rdosEntries cap n rx cat (32 * i) files =
        some (files ++ ((((List.range' i m).map fun j => (cat.drop (32 * j)).take 32).takeWhile
          fun e => !rdosIsUnused e).filter
            fun e => !rdosIsDeleted e && rx (rdosNameUnadorned e))) := by
  have hE : RDOS_ENTRY_LENGTH = 32 := rfl
  intro m
  induction m with
  | zero =>
    intro i n files hi hn
    obtain ⟨n1, rfl⟩ : ∃ n1, n = n1 + 1 := ⟨n - 1, by omega⟩
    have hi88 : i = 88 := by omega
    subst hi88
    rw [rdosEntries, hE, if_neg (by omega)]
    have hz : ((cat ++ List.replicate (cap - cat.length) 0).drop (32 * 88)).take 32 =
        List.replicate 32 0 := by
      have e : 32 * 88 = cat.length + 0 := by omega
      rw [e, List.drop_append, List.drop_zero, List.take_replicate]
      congr 1
      omega
    simp only [hz]
    have hu : rdosIsUnused (List.replicate 32 0) = true := by decide
    rw [if_pos hu]
    simp
  | succ k ih =>
    intro i n files hi hn
    obtain ⟨n1, rfl⟩ : ∃ n1, n = n1 + 1 := ⟨n - 1, by omega⟩
    rw [rdosEntries, hE, if_neg (by omega)]
    have hz : ((cat ++ List.replicate (cap - cat.length) 0).drop (32 * i)).take 32 =
        (cat.drop (32 * i)).take 32 := by
      rw [List.drop_append_of_le_length (by omega), List.take_append_of_le_length]
      rw [List.length_drop]
      omega
    simp only [hz]
    have hnext : 32 * i + 32 = 32 * (i + 1) := by omega
    rw [hnext, List.range'_succ, List.map_cons]
    by_cases hu : rdosIsUnused ((cat.drop (32 * i)).take 32) = true
    · rw [if_pos hu, List.takeWhile_cons]
      simp [hu]
    · rw [if_neg hu, List.takeWhile_cons]
      have hu1 : (!rdosIsUnused ((cat.drop (32 * i)).take 32)) = true := by simpa using hu
      rw [if_pos hu1, List.filter_cons]
      by_cases hp : (!rdosIsDeleted ((cat.drop (32 * i)).take 32) &&
          rx (rdosNameUnadorned ((cat.drop (32 * i)).take 32))) = true
      · rw [if_pos hp, if_pos hp, ih (i + 1) n1 _ (by omega) (by omega)]
        simp
      · rw [if_neg hp, if_neg hp, ih (i + 1) n1 _ (by omega) (by omega)]
theorem rdos_catalog_bytes (d : DSKWrapper)
    (hrdos : d.IsRDOS.1 = true)
    (hfmt : d.Format.ID = .DF_RDOS_3 ∨ d.Format.ID = .DF_RDOS_32 ∨ d.Format.ID = .DF_RDOS_33) :
    ∃ (w1 : DSKWrapper) (cat : List Nat),
      rdosReadCatalog RDOS_CATALOG_LENGTH d 0 [] = some (w1, cat) ∧ cat.length = 2816 ∧
      ∀ j, j < 88 → rdosSlot d j = some ((cat.drop (32 * j)).take 32) ∧
        ((cat.drop (32 * j)).take 32).length = 32 := by
  obtain ⟨w1, hread⟩ := rdosReadCatalog_sectors d hrdos hfmt 11 0 d [] (agree_refl d) (by omega)
  simp only [Nat.zero_add, List.nil_append, Nat.cast_zero] at hread
  have hl : ∀ x ∈ (List.range 11).map (fun k : Nat =>
      d.Data.slice (sectorBase d 1 ((k : Nat) : Int)) 256), x.length = 256 := by
    intro x hx
    obtain ⟨k, _, rfl⟩ := List.mem_map.1 hx
    exact slice_length _ _ _
  have hlen := flatten_length_uniform 256 _ hl
  rw [List.length_map, List.length_range] at hlen
  refine ⟨w1, _, hread, hlen, ?_⟩
  intro j hj
  have hq : j / 8 < ((List.range 11).map (fun k : Nat =>
      d.Data.slice (sectorBase d 1 ((k : Nat) : Int)) 256)).length := by
    rw [List.length_map, List.length_range]
    omega
  have hdt := flatten_drop_take 256 _ (j / 8) (32 * (j % 8)) 32 hl hq (by omega)
  have hidx : 256 * (j / 8) + 32 * (j % 8) = 32 * j := by omega
  rw [hidx, List.getD_eq_getElem _ _ hq, List.getElem_map, List.getElem_range] at hdt
  obtain ⟨_, hrd, hseek⟩ := rdos_read_sector d d (agree_refl d) hrdos hfmt (j / 8) (by omega)
  constructor
  · unfold rdosSlot
    rw [hseek]
    simp only [hrd, Option.map_some']
    rw [hdt]
  · rw [hdt, List.length_take, List.length_drop, slice_length]
    omega

/-- C17: on every RDOS image (an image that `IsRDOS` recognises, with one of the three RDOS
formats set) `RDOSGetCatalog` returns: each of the 88 slots of the 11 catalog sectors of
track 1 is read inside the image and has 32 bytes, and the result is, in order, the slots
before the first unused one that are not deleted and whose name matches.  It has at most 88
entries, fewer than 352, and each entry is one of the 88 slots with byte 24 neither `0x00`
nor `0xA0` and byte 0 not `0x80`.  When none of the 88 slots is unused the loop reads slot
88 from the cleared bytes between the length and the capacity of the catalog buffer and
stops there. -/
theorem RDOSGetCatalog_bounded (d : DSKWrapper) (rx : List Char → Bool)
    (hrdos : d.IsRDOS.1 = true)
    (hfmt : d.Format.ID = .DF_RDOS_3 ∨ d.Format.ID = .DF_RDOS_32 ∨ d.Format.ID = .DF_RDOS_33) :
    (∀ i, i < 88 → ∃ e, rdosSlot d i = some e ∧ e.length = 32) ∧
    (∃ d1, d.RDOSGetCatalog rx = some (d1, rdosCatalogSlots d rx)) ∧
    (rdosCatalogSlots d rx).length ≤ 88 ∧
    (rdosCatalogSlots d rx).length ≤ 352 ∧
    ∀ e ∈ rdosCatalogSlots d rx, (∃ i, i < 88 ∧ rdosSlot d i = some e) ∧
      e.getD 24 0 ≠ 0x00 ∧ e.getD 24 0 ≠ 0xa0 ∧ e.getD 0 0 ≠ 0x80 := by
  obtain ⟨w1, cat, hread, hcat, hslot⟩ := rdos_catalog_bytes d hrdos hfmt
  have hfm : (List.range 88).filterMap (rdosSlot d) =
      (List.range 88).map fun j => (cat.drop (32 * j)).take 32 := by
    rw [← List.filterMap_eq_map]
    apply List.filterMap_congr
    intro j hj
    exact (hslot j (List.mem_range.1 hj)).1
  have hlen : (rdosCatalogSlots d rx).length ≤ 88 := by
    unfold rdosCatalogSlots
    refine (List.length_filter_le _ _).trans ((List.takeWhile_prefix _).length_le.trans ?_)
    rw [hfm, List.length_map, List.length_range]
  refine ⟨fun i hi => ⟨_, hslot i hi⟩, ⟨w1, ?_⟩, hlen, hlen.trans (by decide), ?_⟩
  · have hloop := rdosEntries_slots 3072 (by decide) rx cat hcat 88 0 352 [] rfl (by decide)
    rw [Nat.mul_zero, List.nil_append, ← List.range_eq_range', ← hfm] at hloop
    have h352 : RDOS_CATALOG_LENGTH * RDOS_ENTRY_LENGTH = 352 := rfl
    have hcap : rdosCatalogCap = 3072 := rfl
    unfold DSKWrapper.RDOSGetCatalog
    rw [hread]
    simp only [h352, hcap, hloop]
    rfl
  · intro e he
    unfold rdosCatalogSlots at he
    obtain ⟨hmem, hp⟩ := List.mem_filter.1 he
    have hused := List.mem_takeWhile_imp hmem
    have hin := (List.takeWhile_prefix _).subset hmem
    rw [hfm] at hin
    obtain ⟨i, hi, rfl⟩ := List.mem_map.1 hin
    refine ⟨⟨i, List.mem_range.1 hi, (hslot i (List.mem_range.1 hi)).1⟩, ?_⟩
    unfold rdosIsUnused at hused
    unfold rdosIsDeleted at hp
    simp only [Bool.and_eq_true, Bool.not_eq_true', Bool.or_eq_false_iff, beq_eq_false_iff_ne,
      ne_eq, Bool.not_eq_true, beq_iff_eq] at hused hp
    exact ⟨hused, hp.1.1, hp.1.2⟩

/-- C17 witness: `fullRDOSImage` is an RDOS 3.2 image in which none of the 88 slots is
unused; the catalog has 88 entries. -/
theorem RDOSGetCatalog_bounded_witness :
    (fullRDOSImage.IsRDOS.1 = true ∧
      (fullRDOSImage.Format.ID = .DF_RDOS_3 ∨ fullRDOSImage.Format.ID = .DF_RDOS_32 ∨
        fullRDOSImage.Format.ID = .DF_RDOS_33)) ∧
    ((∀ i, i < 88 → ∃ e, rdosSlot fullRDOSImage i = some e ∧ e.length = 32) ∧
      (∃ d1, fullRDOSImage.RDOSGetCatalog (fun _ => true) =
        some (d1, rdosCatalogSlots fullRDOSImage (fun _ => true))) ∧
      (rdosCatalogSlots fullRDOSImage (fun _ => true)).length ≤ 88 ∧
      (rdosCatalogSlots fullRDOSImage (fun _ => true)).length ≤ 352 ∧
      ∀ e ∈ rdosCatalogSlots fullRDOSImage (fun _ => true),
        (∃ i, i < 88 ∧ rdosSlot fullRDOSImage i = some e) ∧
          e.getD 24 0 ≠ 0x00 ∧ e.getD 24 0 ≠ 0xa0 ∧ e.getD 0 0 ≠ 0x80) ∧
    (fullRDOSImage.RDOSGetCatalog (fun _ => true)).map (fun r => r.2.length) = some 88 ∧
    ((List.range 88).filterMap (rdosSlot fullRDOSImage)).all (fun e => !rdosIsUnused e) = true :=
  ⟨⟨by decide!, by decide⟩,
    RDOSGetCatalog_bounded fullRDOSImage (fun _ => true) (by decide!) (by decide),
    by decide!, by decide!⟩

/-! ### disk/diskimagepd.go: date stamps in a zone with clock changes -/

theorem prodosStampBytesToTime_fields (b : List Nat) :
    prodosStampBytesToTime b =
      goDate ((stampFields b).1 : Nat) ((stampFields b).2.1 : Nat) ((stampFields b).2.2.1 : Nat)
        ((stampFields b).2.2.2.1 : Nat) ((stampFields b).2.2.2.2 : Nat) := rfl

theorem prodosStampBytesToTimeIn_fields (zone : Zone) (b : List Nat) :
    prodosStampBytesToTimeIn zone b =
      goClock zone (goDateIn zone ((stampFields b).1 : Nat) ((stampFields b).2.1 : Nat)
        ((stampFields b).2.2.1 : Nat) ((stampFields b).2.2.2.1 : Nat)
        ((stampFields b).2.2.2.2 : Nat)) := rfl

/-- Where the offset of the zone is the same within a day of the wall-clock time,
`time.Date` and the field methods give what the zone-free `goDate` gives. -/
theorem goClock_goDateIn (zone : Zone) (off : Int) (year month day hour min : Int)
    (hoff : -86400 ≤ off ∧ off ≤ 86400)
    (hz : ∀ u : Int, wallSeconds year month day hour min - 86400 ≤ u →
      u ≤ wallSeconds year month day hour min + 86400 → (zone u).offset = off) :
    goClock zone (goDateIn zone year month day hour min) = goDate year month day hour min := by
  have h0 : (zone (wallSeconds year month day hour min)).offset = off :=
    hz _ (by omega) (by omega)
  have h1 : (zone (wallSeconds year month day hour min - off)).offset = off :=
    hz _ (by omega) (by omega)
  have hin : goDateIn zone year month day hour min =
      wallSeconds year month day hour min - off := by
    unfold goDateIn
    simp only [h0]
    by_cases hzero : off = 0
    · subst hzero
      simp
    · rw [if_pos hzero]
      simp only [h1]
      split_ifs <;> rfl
  unfold goClock
  rw [hin, h1]
  have habs : wallSeconds year month day hour min - off + off =
      wallSeconds year month day hour min := by omega
  rw [habs]
  unfold wallSeconds goDate
  simp only
  generalize daysFromCivil (year + (month - 1) / 12) ((month - 1) % 12 + 1) 1 = dc
  have e1 : ((dc + (day - 1)) * 86400 + hour * 3600 + min * 60) / 86400 =
      dc + (day + (hour + min / 60) / 24 - 1) := by omega
  have e2 : ((dc + (day - 1)) * 86400 + hour * 3600 + min * 60) % 86400 / 3600 =
      (hour + min / 60) % 24 := by omega
  have e3 : ((dc + (day - 1)) * 86400 + hour * 3600 + min * 60) % 3600 / 60 = min % 60 := by
    omega
  rw [e1, e2, e3]
theorem stampFields_of_stamp (t : GoTime) (hy : 1970 ≤ t.year ∧ t.year ≤ 2069)
    (hm : 1 ≤ t.month ∧ t.month ≤ 12) (hd : 1 ≤ t.day ∧ t.day ≤ daysInMonth t.year t.month)
    (hh : t.hour ≤ 23) (hmi : t.minute ≤ 59) :
    stampFields (timeToProdosStampBytes t) = (t.year, t.month, t.day, t.hour, t.minute) := by
  obtain ⟨y, m, d, h, mi⟩ := t
  simp only at hy hm hd hh hmi ⊢
  have hd31 : d ≤ 31 := by
    have := hd.2
    unfold daysInMonth at this
    split_ifs at this <;> omega
  have hyear : (if y - 1900 > 99 then y - 1900 - 100 else y - 1900) = y % 100 := by
    split_ifs <;> omega
  have hdb : ((y % 100) <<< 9) ||| (m <<< 5) ||| d = (y % 100) * 512 + m * 32 + d :=
    dbits_eq _ _ _ (by omega) (by omega)
  have htb : (h <<< 8) ||| mi = h * 256 + mi := by
    rw [shiftLeft_or_eq_add _ _ _ (by norm_num; omega)]; norm_num
  have hbytes : timeToProdosStampBytes ⟨y, m, d, h, mi⟩ =
      [ ((y % 100) * 512 + m * 32 + d) % 256, ((y % 100) * 512 + m * 32 + d) / 256,
        (h * 256 + mi) % 256, (h * 256 + mi) / 256 ] := by
    unfold timeToProdosStampBytes
    simp only [hyear, hdb, htb, Nat.shiftRight_eq_div_pow,
      and_mask_mod _ 8 0xff (by norm_num)]
    norm_num
    constructor
    · omega
    · omega
  rw [hbytes]
  unfold stampFields
  simp only [List.getD_cons_zero, List.getD_cons_succ]
  have hb1 : (((y % 100) * 512 + m * 32 + d) / 256) <<< 8 ||| ((y % 100) * 512 + m * 32 + d) % 256
      = (y % 100) * 512 + m * 32 + d := by
    rw [shiftLeft_or_eq_add _ _ _ (by norm_num; omega)]; norm_num; omega
  have hb2 : ((h * 256 + mi) / 256) <<< 8 ||| (h * 256 + mi) % 256 = h * 256 + mi := by
    rw [shiftLeft_or_eq_add _ _ _ (by norm_num; omega)]; norm_num; omega
  rw [hb1, hb2]
  simp only [Nat.shiftRight_eq_div_pow, and_mask_mod _ 5 31 (by norm_num),
    and_mask_mod _ 4 15 (by norm_num), and_mask_mod _ 7 127 (by norm_num),
    and_mask_mod _ 6 63 (by norm_num)]
  have e1 : ((y % 100) * 512 + m * 32 + d) % 2 ^ 5 = d := by norm_num; omega
  have e2 : ((y % 100) * 512 + m * 32 + d) / 2 ^ 5 % 2 ^ 4 = m := by norm_num; omega
  have e3 : ((y % 100) * 512 + m * 32 + d) / 2 ^ 9 % 2 ^ 7 = y % 100 := by norm_num; omega
  have e4 : (h * 256 + mi) % 2 ^ 6 = mi := by norm_num; omega
  have e5 : (h * 256 + mi) / 2 ^ 8 = h := by norm_num; omega
  rw [e1, e2, e3, e4, e5]
  have e6 : (if y % 100 < 70 then y % 100 + 100 else y % 100) + 1900 = y := by
    split_ifs <;> omega
  rw [e6]

/-- C23, the claim as stated fails: in the zone `springForward` the clocks go from 02:00
to 03:00 on 2024-03-10.  The stamp of 2024-03-10 02:30 (a valid day, hour and minute) is
read back by `prodosStampBytesToTime` as 2024-03-10 01:30: `time.Date` looks up the offset
of eight hours at the wall-clock seconds, finds the instant outside the span of that offset,
takes the offset of seven hours in force there, and the instant it returns lies before the
clock change. -/
theorem prodos_stamp_in_clock_change :
    timeToProdosStampBytes (GoTime.mk 2024 3 10 2 30) = [0x6A, 0x30, 30, 2] ∧
    (10 ≤ daysInMonth 2024 3) ∧
    wallSeconds 2024 3 10 2 30 = 1710037800 ∧
    goDateIn springForward 2024 3 10 2 30 = 1710063000 ∧
    prodosStampBytesToTimeIn springForward (timeToProdosStampBytes (GoTime.mk 2024 3 10 2 30)) =
      GoTime.mk 2024 3 10 1 30 := by
  refine ⟨?_, ?_, ?_, ?_, ?_⟩ <;> decide

/-- C23, amended: for every year in 1970..2069, month in 1..12, day valid for that month,
hour in 0..23 and minute in 0..59, `timeToProdosStampBytes` gives the four bytes of the
little-endian words `dbits = ((year mod 100) << 9) | (month << 5) | day` and
`tbits = (hour << 8) | minute`, and when the offset of the local zone is the same at every
instant within one day of that wall-clock time (in particular in a zone without clock
changes), `prodosStampBytesToTime` of these bytes gives back the same year, month, day, hour
and minute (the stored years 0..69 are read as 2000..2069). -/
theorem prodos_stamp_roundtrip_in_zone (zone : Zone) (off : Int) (t : GoTime)
    (hy : 1970 ≤ t.year ∧ t.year ≤ 2069)
    (hm : 1 ≤ t.month ∧ t.month ≤ 12) (hd : 1 ≤ t.day ∧ t.day ≤ daysInMonth t.year t.month)
    (hh : t.hour ≤ 23) (hmi : t.minute ≤ 59)
    (hoff : -86400 ≤ off ∧ off ≤ 86400)
    (hz : ∀ u : Int, wallSeconds t.year t.month t.day t.hour t.minute - 86400 ≤ u →
      u ≤ wallSeconds t.year t.month t.day t.hour t.minute + 86400 → (zone u).offset = off) :
    timeToProdosStampBytes t =
      [ (((t.year % 100) <<< 9) ||| (t.month <<< 5) ||| t.day) % 256,
        (((t.year % 100) <<< 9) ||| (t.month <<< 5) ||| t.day) / 256,
        ((t.hour <<< 8) ||| t.minute) % 256,
        ((t.hour <<< 8) ||| t.minute) / 256 ] ∧
    (((t.year % 100) <<< 9) ||| (t.month <<< 5) ||| t.day) < 65536 ∧
    ((t.hour <<< 8) ||| t.minute) < 65536 ∧
    prodosStampBytesToTimeIn zone (timeToProdosStampBytes t) = t := by
  obtain ⟨b1, b2, b3, _⟩ := prodos_stamp_roundtrip t hy hm hd hh hmi
  refine ⟨b1, b2, b3, ?_⟩
  rw [prodosStampBytesToTimeIn_fields, stampFields_of_stamp t hy hm hd hh hmi]
  simp only
  rw [goClock_goDateIn zone off _ _ _ _ _ hoff hz]
  exact goDate_valid t.year t.month t.day t.hour t.minute hy hm hd hh hmi

/-- C23 witness: 2024-02-29 23:59 in the zone `springForward`, whose offset is eight hours
behind UTC at every instant within a day of that time. -/
theorem prodos_stamp_roundtrip_in_zone_witness :
    ((1970 ≤ 2024 ∧ 2024 ≤ 2069) ∧ (1 ≤ 2 ∧ 2 ≤ 12) ∧ (1 ≤ 29 ∧ 29 ≤ daysInMonth 2024 2) ∧
      23 ≤ 23 ∧ 59 ≤ 59 ∧ wallSeconds 2024 2 29 23 59 = 1709251140 ∧
      ∀ u : Int, 1709251140 - 86400 ≤ u → u ≤ 1709251140 + 86400 →
        (springForward u).offset = -28800) ∧
    timeToProdosStampBytes (GoTime.mk 2024 2 29 23 59) = [0x5D, 0x30, 59, 23] ∧
    prodosStampBytesToTimeIn springForward (timeToProdosStampBytes (GoTime.mk 2024 2 29 23 59))
      = GoTime.mk 2024 2 29 23 59 := by
  have hw : wallSeconds 2024 2 29 23 59 = 1709251140 := by decide
  have hzone : ∀ u : Int, 1709251140 - 86400 ≤ u → u ≤ 1709251140 + 86400 →
      (springForward u).offset = -28800 := by
    intro u _ h2
    unfold springForward
    rw [if_pos (by omega)]
  have h := prodos_stamp_roundtrip_in_zone springForward (-28800) (GoTime.mk 2024 2 29 23 59)
    (by decide) (by decide) (by decide) (by decide) (by decide) (by decide)
    (by
      intro u h1 h2
      have hw1 : wallSeconds ((GoTime.mk 2024 2 29 23 59).year : Nat)
          ((GoTime.mk 2024 2 29 23 59).month : Nat) ((GoTime.mk 2024 2 29 23 59).day : Nat)
          ((GoTime.mk 2024 2 29 23 59).hour : Nat) ((GoTime.mk 2024 2 29 23 59).minute : Nat) =
          1709251140 := by decide
      rw [hw1] at h1 h2
      exact hzone u h1 h2)
  exact ⟨⟨by decide, by decide, by decide, by decide, by decide, hw, hzone⟩, by decide, h.2.2.2⟩
